import Mathlib

/-!
# Filesystem overlay task store (`pfstasks.c`) and download worker (`pdownload.c`)

A shallow embedding of the overlay store of the synchronisation engine: the
per-folder in-memory sets of pending mkdir / rmdir / creat / unlink entries,
the persistent `fstask` table with its dependency table `fstaskdepend`, the
mutating calls, the acknowledgement callbacks and the start-up replay; and of
the download worker: the download of one file (`task_download_file`) with its
admission counters, the task table with the per-file thread and the stop
functions, `task_delete_file`, `task_renamedir` and `task_del_folder_rec`.

Conventions of the embedding of the overlay store (those of the download
worker stand at the head of its section).

* An intrusive `psync_tree` is represented by the list of its elements in
  in-order (ascending) sequence.  A pointer to a folder is represented by the
  folder's key, a pointer to an entry by its position in the list.
* The SQL tables are lists of rows; `fstask` is kept in ascending `id`.
* `psync_filename_cmp` is a platform macro; every definition that compares
  names takes it as its first argument.
* `uint64_t` task ids are `Nat`, `int64_t` folder and file ids are `Int`; the
  conversion of a signed id to the `uint64_t` parameters of
  `psync_fstask_depend` is explicit (`U64`), and so is the wrap of an
  `int64_t` difference (`I64`).
* `psync_sql_commit_transaction` can fail; its outcome is the argument
  `commit` of every call that runs a transaction, and a failed commit leaves
  the tables as they were before the transaction.
* `psync_fsupload_wake` is counted in the state; `psync_fsupload_init`, the
  locks and the debug output have no effect on the state modelled.
-/

namespace Pclsync

/-! ## Machine integers -/

/-- Conversion of an integer value to `uint64_t`. -/
def U64 (x : Int) : Nat := (x % 18446744073709551616).toNat

/-- The values of `int64_t`. -/
def IsInt64 (x : Int) : Prop := -9223372036854775808 ≤ x ∧ x < 9223372036854775808

/-- The value an `int64_t` variable holds after the assignment of the integer
`x`: the two's-complement wrap of `x`. -/
def I64 (x : Int) : Int :=
  (x + 9223372036854775808) % 18446744073709551616 - 9223372036854775808

instance (x : Int) : Decidable (IsInt64 x) := by unfold IsInt64; infer_instance

/-- Error numbers of `errno.h`. -/
def ENOENT : Int := 2

/-- Error numbers of `errno.h`. -/
def EIO : Int := 5

/-- Error numbers of `errno.h`. -/
def EEXIST : Int := 17

/-- The comparator `strcmp`, one of the platform choices for
`psync_filename_cmp`; only its sign is used. -/
def strcmp (a b : String) : Int := if a = b then 0 else if a < b then -1 else 1

/-! ## In-memory entities -/

/-- Pending directory creation (`psync_fstask_mkdir_t`). -/
structure psync_fstask_mkdir_t where
  taskid : Nat
  ctime : Int
  mtime : Int
  folderid : Int
  subdircnt : Nat
  name : String
deriving DecidableEq, Repr

/-- Pending directory removal (`psync_fstask_rmdir_t`). -/
structure psync_fstask_rmdir_t where
  taskid : Nat
  folderid : Int
  name : String
deriving DecidableEq, Repr

/-- Pending file creation (`psync_fstask_creat_t`). -/
structure psync_fstask_creat_t where
  taskid : Nat
  fileid : Int
  newfile : Nat
  name : String
deriving DecidableEq, Repr

/-- Pending file removal (`psync_fstask_unlink_t`). -/
structure psync_fstask_unlink_t where
  taskid : Nat
  fileid : Int
  name : String
deriving DecidableEq, Repr

/-- Per-folder overlay (`psync_fstask_folder_t`).  The four trees are given by
their in-order element lists.  The two counters are unsigned words in C; the
model keeps their mathematical value, so a decrement at zero shows as `-1`,
which like the wrapped word is non-zero and returns to zero after one
increment. -/
structure psync_fstask_folder_t where
  folderid : Int
  mkdirs : List psync_fstask_mkdir_t
  rmdirs : List psync_fstask_rmdir_t
  creats : List psync_fstask_creat_t
  unlinks : List psync_fstask_unlink_t
  taskscnt : Int
  refcnt : Int
deriving DecidableEq, Repr

/-! ## Persistent tables -/

/-- Task types, in the order of the dispatch table `psync_init_task_func`. -/
def PSYNC_FS_TASK_MKDIR : Nat := 1

/-- Task type of a directory removal. -/
def PSYNC_FS_TASK_RMDIR : Nat := 2

/-- Task type of a file creation. -/
def PSYNC_FS_TASK_CREAT : Nat := 3

/-- Task type of a file removal. -/
def PSYNC_FS_TASK_UNLINK : Nat := 4

/-- Task type of the source leg of a file rename. -/
def PSYNC_FS_TASK_RENFILE_FROM : Nat := 5

/-- Task type of the destination leg of a file rename. -/
def PSYNC_FS_TASK_RENFILE_TO : Nat := 6

/-- A row of `fstask(id, type, status, folderid, fileid, text1, text2, int1, int2)`;
columns an `INSERT` does not name are `none` (SQL `NULL`). -/
structure fstask_row where
  id : Nat
  type : Nat
  status : Nat
  folderid : Int
  fileid : Option Int
  text1 : String
  text2 : Option String
  int1 : Option Int
  int2 : Option Int
deriving DecidableEq, Repr

/-- A row of the server tables `folder` and `file`, as far as the overlay reads
them: `(id, parentfolderid, name)`; ids assigned by the server are not negative. -/
structure server_row where
  id : Nat
  parentfolderid : Nat
  name : String
deriving DecidableEq, Repr

/-- The state the overlay store works on: the folder tree `folders`, the
tables `fstask` and `fstaskdepend`, the server's `folder` and `file` tables and
the number of `psync_fsupload_wake` calls made so far. -/
structure State where
  folders : List psync_fstask_folder_t
  fstask : List fstask_row
  fstaskdepend : List (Nat × Nat)
  folder : List server_row
  file : List server_row
  upload_wakes : Nat
deriving DecidableEq, Repr

/-- The store before any call: no folder, empty task tables. -/
def State.empty (folder file : List server_row) : State :=
  { folders := [], fstask := [], fstaskdepend := [], folder := folder, file := file,
    upload_wakes := 0 }

/-! ## SQL statements -/

/-- Result of `psync_sql_insertid` after an `INSERT INTO fstask`: the row id
SQLite assigns to an `INTEGER PRIMARY KEY`, one more than the largest id in the
table. -/
def sql_next_id (t : List fstask_row) : Nat :=
  (t.foldl (fun m r => max m r.id) 0) + 1

/-- The statement `INSERT OR IGNORE INTO fstaskdepend (fstaskid, dependfstaskid)`. -/
def psync_fstask_depend (d : List (Nat × Nat)) (taskid dependontaskid : Nat) : List (Nat × Nat) :=
  if (taskid, dependontaskid) ∈ d then d else d ++ [(taskid, dependontaskid)]

/-- The query `SELECT id FROM folder WHERE parentfolderid=? AND name=?` (also
used on `file`), first row. -/
def sql_select_id (t : List server_row) (parentfolderid : Int) (name : String) : Option Nat :=
  (t.find? (fun r => (r.parentfolderid : Int) = parentfolderid ∧ r.name = name)).map
    (fun r => r.id)

/-- The query `SELECT id FROM fstask WHERE folderid=?`. -/
def sql_fstask_ids_by_folder (t : List fstask_row) (folderid : Int) : List Nat :=
  (t.filter (fun r => r.folderid = folderid)).map (fun r => r.id)

/-- The query `SELECT id FROM fstask WHERE folderid=? AND text1=?`. -/
def sql_fstask_ids_by_folder_name (t : List fstask_row) (folderid : Int) (text1 : String) :
    List Nat :=
  (t.filter (fun r => r.folderid = folderid ∧ r.text1 = text1)).map (fun r => r.id)

/-- The query `SELECT id, folderid, text1 FROM fstask WHERE id=?`, first row. -/
def sql_fstask_by_id (t : List fstask_row) (id : Nat) : Option fstask_row :=
  t.find? (fun r => r.id = id)

/-- Modelled from the spec: the schema of `fstask` and `fstaskdepend` is not
part of the sources.  `DELETE FROM fstask WHERE id=?` removes the row and, by
invariant (I4), "when a row is deleted its incoming edges are
cascade-removed". -/
def sql_delete_fstask (s : State) (id : Nat) : State :=
  { s with fstask := s.fstask.filter (fun r => r.id ≠ id),
           fstaskdepend := s.fstaskdepend.filter (fun e => e.2 ≠ id) }

/-! ## Name-ordered trees -/

section Trees

variable {α : Type}

/-- Descent of `psync_fstask_search_tree`: a node whose name compares equal to
`name`.  Modelled from the spec: `psync_tree` is not part of the sources; on the
in-order list the descent is taken to stop at the first such element ("name
lookups that specify `taskid=0` return any match on name").  When several
entries share the name, the node the descent of lines 131-139 stops at depends
on the shape of the tree (`search_descend_tree`) and need not be the first one;
the two agree when at most one entry has the name
(`search_descend_tree_of_unique`). -/
def search_descend (cmp : String → String → Int) (nameof : α → String) (name : String)
    (tree : List α) : Option Nat :=
  tree.findIdx? (fun e => cmp name (nameof e) = 0)

/-- One direction of the neighbour scan of `psync_fstask_search_tree`: walk
while the name still compares equal, stop at the first element carrying
`taskid`.  The result counts the steps taken before the match. -/
def search_scan (cmp : String → String → Int) (nameof : α → String) (taskidof : α → Nat)
    (name : String) (taskid : Nat) : List α → Option Nat
  | [] => none
  | tn :: rest =>
    if cmp name (nameof tn) ≠ 0 then none
    else if taskidof tn = taskid then some 0
    else (search_scan cmp nameof taskidof name taskid rest).map (fun k => k + 1)

/-- The lookup `psync_fstask_search_tree(tree, nameoff, name, taskid, taskidoff)`:
position of the entry found, `none` for `NULL`. -/
def psync_fstask_search_tree (cmp : String → String → Int) (nameof : α → String)
    (taskidof : α → Nat) (tree : List α) (name : String) (taskid : Nat) : Option Nat :=
  match search_descend cmp nameof name tree with
  | none => none
  | some i =>
    if taskid = 0 ∨ tree[i]?.map taskidof = some taskid then some i
    else
      match search_scan cmp nameof taskidof name taskid (tree.take i).reverse with
      | some k => some (i - 1 - k)
      | none =>
        match search_scan cmp nameof taskidof name taskid (tree.drop (i + 1)) with
        | some k => some (i + 1 + k)
        | none => none

/-- The insertion `psync_fstask_insert_into_tree(tree, nameoff, element)`: the
descent goes left while the new name compares below and right otherwise, so
the element lands in front of the first element it compares below. -/
def psync_fstask_insert_into_tree (cmp : String → String → Int) (nameof : α → String)
    (element : α) : List α → List α
  | [] => [element]
  | node :: rest =>
    if cmp (nameof element) (nameof node) < 0 then element :: node :: rest
    else node :: psync_fstask_insert_into_tree cmp nameof element rest

/-- The entry a lookup returns, with its position: the dereference of the
pointer `psync_fstask_search_tree` returns. -/
def tree_find (cmp : String → String → Int) (nameof : α → String) (taskidof : α → Nat)
    (tree : List α) (name : String) (taskid : Nat) : Option (Nat × α) :=
  (psync_fstask_search_tree cmp nameof taskidof tree name taskid).bind
    (fun i => tree[i]?.map (fun e => (i, e)))

end Trees

/-- Lookup `psync_fstask_find_mkdir(folder, name, taskid)`: the position of the
entry found together with the entry. -/
def psync_fstask_find_mkdir (cmp : String → String → Int) (folder : psync_fstask_folder_t)
    (name : String) (taskid : Nat) : Option (Nat × psync_fstask_mkdir_t) :=
  tree_find cmp (fun e => e.name) (fun e => e.taskid) folder.mkdirs name taskid

/-- Lookup `psync_fstask_find_rmdir(folder, name, taskid)`: the position of the
entry found together with the entry. -/
def psync_fstask_find_rmdir (cmp : String → String → Int) (folder : psync_fstask_folder_t)
    (name : String) (taskid : Nat) : Option (Nat × psync_fstask_rmdir_t) :=
  tree_find cmp (fun e => e.name) (fun e => e.taskid) folder.rmdirs name taskid

/-- Lookup `psync_fstask_find_creat(folder, name, taskid)`: the position of the
entry found together with the entry. -/
def psync_fstask_find_creat (cmp : String → String → Int) (folder : psync_fstask_folder_t)
    (name : String) (taskid : Nat) : Option (Nat × psync_fstask_creat_t) :=
  tree_find cmp (fun e => e.name) (fun e => e.taskid) folder.creats name taskid

/-- Lookup `psync_fstask_find_unlink(folder, name, taskid)`: the position of the
entry found together with the entry. -/
def psync_fstask_find_unlink (cmp : String → String → Int) (folder : psync_fstask_folder_t)
    (name : String) (taskid : Nat) : Option (Nat × psync_fstask_unlink_t) :=
  tree_find cmp (fun e => e.name) (fun e => e.taskid) folder.unlinks name taskid

/-! ## The folder tree -/

/-- Dereference of a folder pointer: the first folder carrying the key. -/
def folder_lookup (folders : List psync_fstask_folder_t) (folderid : Int) :
    Option psync_fstask_folder_t :=
  folders.find? (fun f => f.folderid = folderid)

/-- Assignment through a folder pointer. -/
def folder_update (folderid : Int) (g : psync_fstask_folder_t → psync_fstask_folder_t) :
    List psync_fstask_folder_t → List psync_fstask_folder_t
  | [] => []
  | f :: rest =>
    if f.folderid = folderid then g f :: rest else f :: folder_update folderid g rest

/-- The call `psync_tree_del(&folders, &folder->tree)`. -/
def folder_del (folderid : Int) : List psync_fstask_folder_t → List psync_fstask_folder_t
  | [] => []
  | f :: rest => if f.folderid = folderid then rest else f :: folder_del folderid rest

/-- Insertion of a folder by key.  Both the descent of
`psync_fstask_get_or_create_folder_tasks_locked` and `folder_cmp` decide the
direction by the sign of `int64_t d = folderid - folder->folderid`: left when
`d < 0`, right otherwise, so on the in-order list the folder lands in front of
the first folder for which `d < 0` (`psync_tree_add_before` /
`psync_tree_add_after` at the end of the descent, and `psync_tree_add` with
`folder_cmp`). -/
def folder_add (nf : psync_fstask_folder_t) :
    List psync_fstask_folder_t → List psync_fstask_folder_t
  | [] => [nf]
  | f :: rest =>
    if I64 (nf.folderid - f.folderid) < 0 then nf :: f :: rest else f :: folder_add nf rest

/-- A folder structure after `memset(folder, 0, …)` and the assignment of its
key. -/
def folder_zero (folderid : Int) : psync_fstask_folder_t :=
  { folderid := folderid, mkdirs := [], rmdirs := [], creats := [], unlinks := [],
    taskscnt := 0, refcnt := 0 }

/-- The call `psync_fstask_get_or_create_folder_tasks_locked(folderid)`; the
pointer returned is the key `folderid`.  A folder with `d = 0` is one with the
key `folderid`; when there is none the new folder is inserted where the
descent by the sign of `d` ends (`folder_add`). -/
def psync_fstask_get_or_create_folder_tasks_locked (folders : List psync_fstask_folder_t)
    (folderid : Int) : List psync_fstask_folder_t :=
  match folder_lookup folders folderid with
  | some _ => folder_update folderid (fun f => { f with refcnt := f.refcnt + 1 }) folders
  | none => folder_add { folder_zero folderid with refcnt := 1 } folders

/-- The call `psync_fstask_get_folder_tasks_locked(folderid)`: `none` for
`NULL`, otherwise the tree with the reference taken. -/
def psync_fstask_get_folder_tasks_locked (folders : List psync_fstask_folder_t)
    (folderid : Int) : Option (List psync_fstask_folder_t) :=
  match folder_lookup folders folderid with
  | some _ => some (folder_update folderid (fun f => { f with refcnt := f.refcnt + 1 }) folders)
  | none => none

/-- The call `psync_fstask_release_folder_tasks_locked(folder)`. -/
def psync_fstask_release_folder_tasks_locked (folders : List psync_fstask_folder_t)
    (folder : Int) : List psync_fstask_folder_t :=
  match folder_lookup folders folder with
  | none => folders
  | some f =>
    if f.refcnt - 1 = 0 ∧ f.taskscnt = 0 then folder_del folder folders
    else folder_update folder (fun f => { f with refcnt := f.refcnt - 1 }) folders

/-- The folder a pointer refers to; the empty folder stands for a dangling
pointer. -/
def folder_deref (folders : List psync_fstask_folder_t) (folderid : Int) :
    psync_fstask_folder_t :=
  (folder_lookup folders folderid).getD (folder_zero folderid)

/-! ## Mutating calls -/

/-- The call `psync_fstask_mkdir(folderid, name)`; `ctime` is the value of
`psync_timer_time()`. -/
def psync_fstask_mkdir (cmp : String → String → Int) (s : State) (folderid : Int)
    (name : String) (ctime : Int) (commit : Bool) : Int × State :=
  let folders := psync_fstask_get_or_create_folder_tasks_locked s.folders folderid
  let folder := folder_deref folders folderid
  if folderid ≥ 0 ∧ (sql_select_id s.folder folderid name).isSome
      ∧ (psync_fstask_find_rmdir cmp folder name 0).isNone then
    (-EEXIST, { s with folders := psync_fstask_release_folder_tasks_locked folders folderid })
  else if (psync_fstask_find_mkdir cmp folder name 0).isSome then
    (-EEXIST, { s with folders := psync_fstask_release_folder_tasks_locked folders folderid })
  else
    let taskid := sql_next_id s.fstask
    let fstask := s.fstask ++
      [{ id := taskid, type := PSYNC_FS_TASK_MKDIR, status := 0, folderid := folderid,
         fileid := none, text1 := name, text2 := none, int1 := some ctime, int2 := none }]
    let fstaskdepend :=
      if folderid < 0 then psync_fstask_depend s.fstaskdepend taskid (U64 (-folderid))
      else s.fstaskdepend
    if ¬ commit then
      (- EIO, { s with folders := psync_fstask_release_folder_tasks_locked folders folderid })
    else
      let task : psync_fstask_mkdir_t :=
        { taskid := taskid, ctime := ctime, mtime := ctime, folderid := -(taskid : Int),
          subdircnt := 0, name := name }
      let folders := folder_update folderid (fun f =>
        { f with mkdirs := psync_fstask_insert_into_tree cmp (fun e => e.name) task f.mkdirs,
                 taskscnt := f.taskscnt + 1 }) folders
      let folders := psync_fstask_release_folder_tasks_locked folders folderid
      (0, { s with folders := folders, fstask := fstask, fstaskdepend := fstaskdepend,
                   upload_wakes := if folderid ≥ 0 then s.upload_wakes + 1 else s.upload_wakes })

/-- Lines 316-346 of `psync_fstask_rmdir`: the transaction and the in-memory
insertion, entered with the child folder id and the task to depend on. -/
def psync_fstask_rmdir_tail (cmp : String → String → Int) (s : State)
    (folders : List psync_fstask_folder_t) (folderid : Int) (name : String) (commit : Bool)
    (cfolderid : Int) (depend : Nat) : Int × State :=
  let taskid := sql_next_id s.fstask
  let fstask := s.fstask ++
    [{ id := taskid, type := PSYNC_FS_TASK_RMDIR, status := 0, folderid := folderid,
       fileid := none, text1 := name, text2 := none, int1 := some cfolderid, int2 := none }]
  let fstaskdepend :=
    if depend ≠ 0 then psync_fstask_depend s.fstaskdepend taskid depend else s.fstaskdepend
  let rows := sql_fstask_ids_by_folder fstask cfolderid
  let fstaskdepend := rows.foldl (fun d id => psync_fstask_depend d taskid id) fstaskdepend
  let depend := depend + rows.length
  if ¬ commit then
    (- EIO, { s with folders := psync_fstask_release_folder_tasks_locked folders folderid })
  else
    let task : psync_fstask_rmdir_t := { taskid := taskid, folderid := cfolderid, name := name }
    let folders := folder_update folderid (fun f =>
      { f with rmdirs := psync_fstask_insert_into_tree cmp (fun e => e.name) task f.rmdirs,
               taskscnt := f.taskscnt + 1 }) folders
    let folders := psync_fstask_release_folder_tasks_locked folders folderid
    (0, { s with folders := folders, fstask := fstask, fstaskdepend := fstaskdepend,
                 upload_wakes := if depend = 0 then s.upload_wakes + 1 else s.upload_wakes })

/-- The call `psync_fstask_rmdir(folderid, name)`. -/
def psync_fstask_rmdir (cmp : String → String → Int) (s : State) (folderid : Int)
    (name : String) (commit : Bool) : Int × State :=
  let folders := psync_fstask_get_or_create_folder_tasks_locked s.folders folderid
  let folder := folder_deref folders folderid
  match psync_fstask_find_mkdir cmp folder name 0 with
  | none =>
    match sql_select_id s.folder folderid name with
    | none =>
      (-ENOENT, { s with folders := psync_fstask_release_folder_tasks_locked folders folderid })
    | some row0 =>
      if (psync_fstask_find_rmdir cmp folder name 0).isSome then
        (-ENOENT, { s with folders := psync_fstask_release_folder_tasks_locked folders folderid })
      else
        psync_fstask_rmdir_tail cmp s folders folderid name commit (row0 : Int) 0
  | some (i, mk) =>
    let folders := folder_update folderid (fun f =>
      { f with mkdirs := f.mkdirs.eraseIdx i, taskscnt := f.taskscnt - 1 }) folders
    psync_fstask_rmdir_tail cmp s folders folderid name commit mk.folderid mk.taskid

/-- The call `psync_fstask_add_creat(folder, name)`, `folder` being a pointer
the caller holds; the result is the new entry, `none` for `NULL`. -/
def psync_fstask_add_creat (cmp : String → String → Int) (s : State) (folder : Int)
    (name : String) (commit : Bool) : Option psync_fstask_creat_t × State :=
  let folderid := (folder_deref s.folders folder).folderid
  let taskid := sql_next_id s.fstask
  let fstask := s.fstask ++
    [{ id := taskid, type := PSYNC_FS_TASK_CREAT, status := 1, folderid := folderid,
       fileid := some 0, text1 := name, text2 := none, int1 := none, int2 := none }]
  let fstaskdepend :=
    if folderid < 0 then psync_fstask_depend s.fstaskdepend taskid (U64 folderid)
    else s.fstaskdepend
  if ¬ commit then (none, s)
  else
    let task : psync_fstask_creat_t :=
      { taskid := taskid, fileid := -(taskid : Int), newfile := 1, name := name }
    let folders := folder_update folder (fun f =>
      { f with creats := psync_fstask_insert_into_tree cmp (fun e => e.name) task f.creats,
               taskscnt := f.taskscnt + 1 }) s.folders
    (some task, { s with folders := folders, fstask := fstask, fstaskdepend := fstaskdepend })

/-- Lines 409-432 of `psync_fstask_unlink`: the transaction and the in-memory
insertion, entered with the file id and the task to depend on. -/
def psync_fstask_unlink_tail (cmp : String → String → Int) (s : State)
    (folders : List psync_fstask_folder_t) (folderid : Int) (name : String) (commit : Bool)
    (fileid : Int) (depend : Nat) : Int × State :=
  let taskid := sql_next_id s.fstask
  let fstask := s.fstask ++
    [{ id := taskid, type := PSYNC_FS_TASK_UNLINK, status := 0, folderid := folderid,
       fileid := some fileid, text1 := name, text2 := none, int1 := none, int2 := none }]
  let fstaskdepend :=
    if depend ≠ 0 then psync_fstask_depend s.fstaskdepend taskid depend else s.fstaskdepend
  if ¬ commit then
    (- EIO, { s with folders := psync_fstask_release_folder_tasks_locked folders folderid })
  else
    let task : psync_fstask_unlink_t := { taskid := taskid, fileid := fileid, name := name }
    let folders := folder_update folderid (fun f =>
      { f with unlinks := psync_fstask_insert_into_tree cmp (fun e => e.name) task f.unlinks,
               taskscnt := f.taskscnt + 1 }) folders
    let folders := psync_fstask_release_folder_tasks_locked folders folderid
    (0, { s with folders := folders, fstask := fstask, fstaskdepend := fstaskdepend,
                 upload_wakes := if depend = 0 then s.upload_wakes + 1 else s.upload_wakes })

/-- The call `psync_fstask_unlink(folderid, name)`. -/
def psync_fstask_unlink (cmp : String → String → Int) (s : State) (folderid : Int)
    (name : String) (commit : Bool) : Int × State :=
  let folders := psync_fstask_get_or_create_folder_tasks_locked s.folders folderid
  let folder := folder_deref folders folderid
  match psync_fstask_find_creat cmp folder name 0 with
  | none =>
    match sql_select_id s.file folderid name with
    | none =>
      (-ENOENT, { s with folders := psync_fstask_release_folder_tasks_locked folders folderid })
    | some row0 =>
      if (psync_fstask_find_unlink cmp folder name 0).isSome then
        (-ENOENT, { s with folders := psync_fstask_release_folder_tasks_locked folders folderid })
      else
        psync_fstask_unlink_tail cmp s folders folderid name commit (row0 : Int) 0
  | some (i, cr) =>
    let folders := folder_update folderid (fun f =>
      { f with creats := f.creats.eraseIdx i, taskscnt := f.taskscnt - 1 }) folders
    psync_fstask_unlink_tail cmp s folders folderid name commit cr.fileid cr.taskid

/-- The call `psync_fstask_rename_file(fileid, parentfolderid, name, to_folderid,
new_name)`; `new_name = none` is the `NULL` pointer. -/
def psync_fstask_rename_file (cmp : String → String → Int) (s : State) (fileid : Int)
    (parentfolderid : Int) (name : String) (to_folderid : Int) (new_name : Option String)
    (commit : Bool) : Int × State :=
  let new_name := new_name.getD name
  let ftaskid := sql_next_id s.fstask
  let fstask := s.fstask ++
    [{ id := ftaskid, type := PSYNC_FS_TASK_RENFILE_FROM, status := 10,
       folderid := parentfolderid, fileid := some fileid, text1 := name, text2 := none,
       int1 := none, int2 := none }]
  let ttaskid := sql_next_id fstask
  let fstask := fstask ++
    [{ id := ttaskid, type := PSYNC_FS_TASK_RENFILE_TO, status := 0, folderid := to_folderid,
       fileid := some fileid, text1 := new_name, text2 := none, int1 := some (ftaskid : Int),
       int2 := none }]
  let d := s.fstaskdepend
  let d := if fileid < 0 then psync_fstask_depend d ttaskid (U64 (-fileid)) else d
  let d := if parentfolderid < 0 then psync_fstask_depend d ttaskid (U64 (-parentfolderid)) else d
  let d := if to_folderid < 0 ∧ to_folderid ≠ parentfolderid then
      psync_fstask_depend d ttaskid (U64 (-to_folderid)) else d
  let d := (sql_fstask_ids_by_folder_name fstask to_folderid new_name).foldl
    (fun d row0 => if row0 ≠ ftaskid ∧ row0 ≠ ttaskid then psync_fstask_depend d ttaskid row0
      else d) d
  if ¬ commit then (- EIO, s)
  else
    let folders := psync_fstask_get_or_create_folder_tasks_locked s.folders parentfolderid
    let folder := folder_deref folders parentfolderid
    let folders :=
      match psync_fstask_find_creat cmp folder name 0 with
      | some (i, _) => folder_update parentfolderid (fun f =>
          { f with creats := f.creats.eraseIdx i, taskscnt := f.taskscnt - 1 }) folders
      | none => folders
    let rm : psync_fstask_unlink_t := { taskid := ftaskid, fileid := fileid, name := name }
    let folders := folder_update parentfolderid (fun f =>
      { f with unlinks := psync_fstask_insert_into_tree cmp (fun e => e.name) rm f.unlinks,
               taskscnt := f.taskscnt + 1 }) folders
    let folders := psync_fstask_release_folder_tasks_locked folders parentfolderid
    let folders := psync_fstask_get_or_create_folder_tasks_locked folders to_folderid
    let cr : psync_fstask_creat_t :=
      { taskid := ttaskid, fileid := fileid, newfile := 0, name := new_name }
    let folders := folder_update to_folderid (fun f =>
      { f with creats := psync_fstask_insert_into_tree cmp (fun e => e.name) cr f.creats,
               taskscnt := f.taskscnt + 1 }) folders
    let folders := psync_fstask_release_folder_tasks_locked folders to_folderid
    (0, { s with folders := folders, fstask := fstask, fstaskdepend := d,
                 upload_wakes := s.upload_wakes + 1 })

/-! ## Acknowledgement callbacks

The folder id parameters are given as the value the callee passes on to
`psync_fstask_get_folder_tasks_locked`. -/

/-- The block the acknowledgement callbacks share:
`folder=psync_fstask_get_folder_tasks_locked(k); if (folder){ e=find(folder);
if (e){ psync_tree_del(e); psync_free(e); folder->taskscnt--; }
psync_fstask_release_folder_tasks_locked(folder); }`.
`find` is the lookup, returning the position of the entry, and `g i` removes
the entry at position `i` and decrements the counter. -/
def ack_block {β : Type} (find : psync_fstask_folder_t → Option (Nat × β))
    (g : Nat → psync_fstask_folder_t → psync_fstask_folder_t)
    (fs : List psync_fstask_folder_t) (k : Int) : List psync_fstask_folder_t :=
  match psync_fstask_get_folder_tasks_locked fs k with
  | some folders =>
    psync_fstask_release_folder_tasks_locked
      (match find (folder_deref folders k) with
       | some (i, _) => folder_update k (g i) folders
       | none => folders) k
  | none => fs

/-- The call `psync_fstask_folder_created(parentfolderid, taskid, folderid, name)`.
After the re-keying the pointer `folder` still refers to the re-keyed folder,
so the closing release is applied to it before it is put back into the tree. -/
def psync_fstask_folder_created (cmp : String → String → Int) (s : State)
    (parentfolderid : Int) (taskid : Nat) (folderid : Int) (name : String) : State :=
  let folders := ack_block (fun folder => psync_fstask_find_mkdir cmp folder name taskid)
    (fun i f => { f with mkdirs := f.mkdirs.eraseIdx i, taskscnt := f.taskscnt - 1 })
    s.folders parentfolderid
  let folders :=
    match psync_fstask_get_folder_tasks_locked folders (-(taskid : Int)) with
    | some folders1 =>
      let folder := folder_deref folders1 (-(taskid : Int))
      let folders1 := folder_del (-(taskid : Int)) folders1
      let folder : psync_fstask_folder_t := { folder with folderid := folderid }
      if folder.refcnt - 1 = 0 ∧ folder.taskscnt = 0 then folders1
      else folder_add { folder with refcnt := folder.refcnt - 1 } folders1
    | none => folders
  { s with folders := folders }

/-- The call `psync_fstask_folder_deleted(parentfolderid, taskid, name)`. -/
def psync_fstask_folder_deleted (cmp : String → String → Int) (s : State)
    (parentfolderid : Int) (taskid : Nat) (name : String) : State :=
  let folders := ack_block (fun folder => psync_fstask_find_rmdir cmp folder name taskid)
    (fun i f => { f with rmdirs := f.rmdirs.eraseIdx i, taskscnt := f.taskscnt - 1 })
    s.folders parentfolderid
  { s with folders := folders }

/-- The call `psync_fstask_file_created(parentfolderid, taskid, name)`. -/
def psync_fstask_file_created (cmp : String → String → Int) (s : State)
    (parentfolderid : Int) (taskid : Nat) (name : String) : State :=
  let folders := ack_block (fun folder => psync_fstask_find_creat cmp folder name taskid)
    (fun i f => { f with creats := f.creats.eraseIdx i, taskscnt := f.taskscnt - 1 })
    s.folders parentfolderid
  { s with folders := folders }

/-- The call `psync_fstask_file_deleted(parentfolderid, taskid, name)`. -/
def psync_fstask_file_deleted (cmp : String → String → Int) (s : State)
    (parentfolderid : Int) (taskid : Nat) (name : String) : State :=
  let folders := ack_block (fun folder => psync_fstask_find_unlink cmp folder name taskid)
    (fun i f => { f with unlinks := f.unlinks.eraseIdx i, taskscnt := f.taskscnt - 1 })
    s.folders parentfolderid
  { s with folders := folders }

/-- The call `psync_fstask_file_renamed(folderid, taskid, name, frtaskid)`. -/
def psync_fstask_file_renamed (cmp : String → String → Int) (s : State) (folderid : Int)
    (taskid : Nat) (name : String) (frtaskid : Nat) : State :=
  let folders := ack_block (fun folder => psync_fstask_find_creat cmp folder name taskid)
    (fun i f => { f with creats := f.creats.eraseIdx i, taskscnt := f.taskscnt - 1 })
    s.folders folderid
  let folders :=
    match sql_fstask_by_id s.fstask frtaskid with
    | some row =>
      ack_block (fun folder => psync_fstask_find_unlink cmp folder row.text1 row.id)
        (fun i f => { f with unlinks := f.unlinks.eraseIdx i, taskscnt := f.taskscnt - 1 })
        folders row.folderid
    | none => folders
  sql_delete_fstask { s with folders := folders } frtaskid

/-! ## Start-up replay -/

/-- The initialiser `psync_init_task_mkdir(row)`. -/
def psync_init_task_mkdir (cmp : String → String → Int) (folders : List psync_fstask_folder_t)
    (row : fstask_row) : List psync_fstask_folder_t :=
  let taskid := row.id
  let folderid := row.folderid
  let ctime := row.int1.getD 0
  let folders := psync_fstask_get_or_create_folder_tasks_locked folders folderid
  let task : psync_fstask_mkdir_t :=
    { taskid := taskid, ctime := ctime, mtime := ctime, folderid := -(taskid : Int),
      subdircnt := 0, name := row.text1 }
  let folders := folder_update folderid (fun f =>
    { f with mkdirs := psync_fstask_insert_into_tree cmp (fun e => e.name) task f.mkdirs,
             taskscnt := f.taskscnt + 1 }) folders
  psync_fstask_release_folder_tasks_locked folders folderid

/-- The initialiser `psync_init_task_rmdir(row)`. -/
def psync_init_task_rmdir (cmp : String → String → Int) (folders : List psync_fstask_folder_t)
    (row : fstask_row) : List psync_fstask_folder_t :=
  let folderid := row.folderid
  let cfolderid := row.int1.getD 0
  let folders := psync_fstask_get_or_create_folder_tasks_locked folders folderid
  let folder := folder_deref folders folderid
  let folders :=
    match psync_fstask_find_mkdir cmp folder row.text1 0 with
    | some (i, _) => folder_update folderid (fun f =>
        { f with mkdirs := f.mkdirs.eraseIdx i, taskscnt := f.taskscnt - 1 }) folders
    | none => folders
  let task : psync_fstask_rmdir_t :=
    { taskid := row.id, folderid := cfolderid, name := row.text1 }
  let folders := folder_update folderid (fun f =>
    { f with rmdirs := psync_fstask_insert_into_tree cmp (fun e => e.name) task f.rmdirs,
             taskscnt := f.taskscnt + 1 }) folders
  psync_fstask_release_folder_tasks_locked folders folderid

/-- The initialiser `psync_init_task_creat(row)`. -/
def psync_init_task_creat (cmp : String → String → Int) (folders : List psync_fstask_folder_t)
    (row : fstask_row) : List psync_fstask_folder_t :=
  let taskid := row.id
  let folderid := row.folderid
  let folders := psync_fstask_get_or_create_folder_tasks_locked folders folderid
  let task : psync_fstask_creat_t :=
    { taskid := taskid, fileid := -(taskid : Int), newfile := 1, name := row.text1 }
  let folders := folder_update folderid (fun f =>
    { f with creats := psync_fstask_insert_into_tree cmp (fun e => e.name) task f.creats,
             taskscnt := f.taskscnt + 1 }) folders
  psync_fstask_release_folder_tasks_locked folders folderid

/-- The initialiser `psync_init_task_unlink(row)`. -/
def psync_init_task_unlink (cmp : String → String → Int) (folders : List psync_fstask_folder_t)
    (row : fstask_row) : List psync_fstask_folder_t :=
  let folderid := row.folderid
  let folders := psync_fstask_get_or_create_folder_tasks_locked folders folderid
  let folder := folder_deref folders folderid
  let folders :=
    match psync_fstask_find_creat cmp folder row.text1 0 with
    | some (i, _) => folder_update folderid (fun f =>
        { f with creats := f.creats.eraseIdx i, taskscnt := f.taskscnt - 1 }) folders
    | none => folders
  let task : psync_fstask_unlink_t :=
    { taskid := row.id, fileid := row.fileid.getD 0, name := row.text1 }
  let folders := folder_update folderid (fun f =>
    { f with unlinks := psync_fstask_insert_into_tree cmp (fun e => e.name) task f.unlinks,
             taskscnt := f.taskscnt + 1 }) folders
  psync_fstask_release_folder_tasks_locked folders folderid

/-- The initialiser `psync_init_task_renfile_from(row)`; the folder id read
with `psync_get_number` is passed on as the signed id it was stored as. -/
def psync_init_task_renfile_from (cmp : String → String → Int)
    (folders : List psync_fstask_folder_t) (row : fstask_row) : List psync_fstask_folder_t :=
  let folderid := row.folderid
  let folders := psync_fstask_get_or_create_folder_tasks_locked folders folderid
  let folder := folder_deref folders folderid
  let folders :=
    match psync_fstask_find_creat cmp folder row.text1 0 with
    | some (i, _) => folder_update folderid (fun f =>
        { f with creats := f.creats.eraseIdx i, taskscnt := f.taskscnt - 1 }) folders
    | none => folders
  let rm : psync_fstask_unlink_t :=
    { taskid := row.id, fileid := row.fileid.getD 0, name := row.text1 }
  let folders := folder_update folderid (fun f =>
    { f with unlinks := psync_fstask_insert_into_tree cmp (fun e => e.name) rm f.unlinks,
             taskscnt := f.taskscnt + 1 }) folders
  psync_fstask_release_folder_tasks_locked folders folderid

/-- The initialiser `psync_init_task_renfile_to(row)`; the folder id read
with `psync_get_number` is passed on as the signed id it was stored as. -/
def psync_init_task_renfile_to (cmp : String → String → Int)
    (folders : List psync_fstask_folder_t) (row : fstask_row) : List psync_fstask_folder_t :=
  let folderid := row.folderid
  let folders := psync_fstask_get_or_create_folder_tasks_locked folders folderid
  let cr : psync_fstask_creat_t :=
    { taskid := row.id, fileid := row.fileid.getD 0, newfile := 0, name := row.text1 }
  let folders := folder_update folderid (fun f =>
    { f with creats := psync_fstask_insert_into_tree cmp (fun e => e.name) cr f.creats,
             taskscnt := f.taskscnt + 1 }) folders
  psync_fstask_release_folder_tasks_locked folders folderid

/-- The dispatch of `psync_fstask_init` on one row: the table
`psync_init_task_func` indexed by the row's type, rows of an invalid type are
skipped. -/
def psync_init_task (cmp : String → String → Int) (folders : List psync_fstask_folder_t)
    (row : fstask_row) : List psync_fstask_folder_t :=
  match row.type with
  | 1 => psync_init_task_mkdir cmp folders row
  | 2 => psync_init_task_rmdir cmp folders row
  | 3 => psync_init_task_creat cmp folders row
  | 4 => psync_init_task_unlink cmp folders row
  | 5 => psync_init_task_renfile_from cmp folders row
  | 6 => psync_init_task_renfile_to cmp folders row
  | _ => folders

/-- The call `psync_fstask_init()`: the rows of `fstask` in ascending id are
replayed into the folder tree. -/
def psync_fstask_init (cmp : String → String → Int) (s : State) : State :=
  { s with folders := s.fstask.foldl (psync_init_task cmp) s.folders }

/-! ## The store's operations as call sequences -/

/-- The operation `AddCreat(folder, name)`: the caller takes the handle of the
folder, calls `psync_fstask_add_creat` on it and releases the handle. -/
def AddCreat (cmp : String → String → Int) (s : State) (folderid : Int) (name : String)
    (commit : Bool) : Option psync_fstask_creat_t × State :=
  let s1 := { s with folders := psync_fstask_get_or_create_folder_tasks_locked s.folders folderid }
  let r := psync_fstask_add_creat cmp s1 folderid name commit
  (r.1, { r.2 with folders := psync_fstask_release_folder_tasks_locked r.2.folders folderid })

/-! ## Call sequences -/

/-- A call on the overlay store: one of the five mutating operations, one of
the five acknowledgement callbacks, or a change of the server's tables (which
the store only reads). -/
inductive Call where
  | mkdir (folderid : Int) (name : String) (ctime : Int) (commit : Bool)
  | rmdir (folderid : Int) (name : String) (commit : Bool)
  | add_creat (folderid : Int) (name : String) (commit : Bool)
  | unlink (folderid : Int) (name : String) (commit : Bool)
  | rename_file (fileid : Int) (parentfolderid : Int) (name : String) (to_folderid : Int)
      (new_name : Option String) (commit : Bool)
  | folder_created (parentfolderid : Int) (taskid : Nat) (folderid : Int) (name : String)
  | folder_deleted (parentfolderid : Int) (taskid : Nat) (name : String)
  | file_created (parentfolderid : Int) (taskid : Nat) (name : String)
  | file_deleted (parentfolderid : Int) (taskid : Nat) (name : String)
  | file_renamed (folderid : Int) (taskid : Nat) (name : String) (frtaskid : Nat)
  | server_tables (folder file : List server_row)
deriving DecidableEq, Repr

/-- The state after one call. -/
def Call.run (cmp : String → String → Int) (s : State) : Call → State
  | .mkdir folderid name ctime commit => (psync_fstask_mkdir cmp s folderid name ctime commit).2
  | .rmdir folderid name commit => (psync_fstask_rmdir cmp s folderid name commit).2
  | .add_creat folderid name commit => (AddCreat cmp s folderid name commit).2
  | .unlink folderid name commit => (psync_fstask_unlink cmp s folderid name commit).2
  | .rename_file fileid parentfolderid name to_folderid new_name commit =>
    (psync_fstask_rename_file cmp s fileid parentfolderid name to_folderid new_name commit).2
  | .folder_created parentfolderid taskid folderid name =>
    psync_fstask_folder_created cmp s parentfolderid taskid folderid name
  | .folder_deleted parentfolderid taskid name =>
    psync_fstask_folder_deleted cmp s parentfolderid taskid name
  | .file_created parentfolderid taskid name =>
    psync_fstask_file_created cmp s parentfolderid taskid name
  | .file_deleted parentfolderid taskid name =>
    psync_fstask_file_deleted cmp s parentfolderid taskid name
  | .file_renamed folderid taskid name frtaskid =>
    psync_fstask_file_renamed cmp s folderid taskid name frtaskid
  | .server_tables folder file => { s with folder := folder, file := file }

/-- The state after a sequence of calls. -/
def run_calls (cmp : String → String → Int) (s : State) (calls : List Call) : State :=
  calls.foldl (Call.run cmp) s

/-- The task ids passed as `frtaskid` to `psync_fstask_file_renamed` in a
sequence of calls. -/
def renamed_from (calls : List Call) : List Nat :=
  calls.filterMap (fun c =>
    match c with
    | .file_renamed _ _ _ frtaskid => some frtaskid
    | _ => none)

/-- The task ids of the entries of one folder. -/
def folder_taskids (f : psync_fstask_folder_t) : List Nat :=
  f.mkdirs.map (fun e => e.taskid) ++ f.rmdirs.map (fun e => e.taskid)
    ++ f.creats.map (fun e => e.taskid) ++ f.unlinks.map (fun e => e.taskid)

/-- Some in-memory entry (Mkdir, Rmdir, Creat or Unlink, in any folder) carries
the task id `t`. -/
def HasEntry (fs : List psync_fstask_folder_t) (t : Nat) : Prop :=
  ∃ f ∈ fs, t ∈ folder_taskids f

/-! ## Definitions used in the statements and proofs -/

/-- A folder that nobody references and that holds no task is dropped by
`psync_fstask_release_folder_tasks_locked`; `FolderLive f` says that `f` is not
in that condition. -/
def FolderLive (f : psync_fstask_folder_t) : Prop := f.refcnt ≠ 0 ∨ f.taskscnt ≠ 0

instance (f : psync_fstask_folder_t) : Decidable (FolderLive f) := by
  unfold FolderLive; infer_instance

/-- The folder a bracket `get_or_create … release` works on, with the
reference taken. -/
def folder_held (fs : List psync_fstask_folder_t) (k : Int) : psync_fstask_folder_t :=
  { folder_deref fs k with refcnt := (folder_deref fs k).refcnt + 1 }

/-- The bracket common to the calls of the store: take the folder, apply the
in-memory change `g`, release the folder. -/
def folder_bracket (fs : List psync_fstask_folder_t) (k : Int)
    (g : psync_fstask_folder_t → psync_fstask_folder_t) : List psync_fstask_folder_t :=
  psync_fstask_release_folder_tasks_locked
    (folder_update k g (psync_fstask_get_or_create_folder_tasks_locked fs k)) k

/-- The in-memory change of a successful `psync_fstask_mkdir`, as a function of
the folder. -/
@[reducible] def with_mkdir (cmp : String → String → Int) (task : psync_fstask_mkdir_t)
    (f : psync_fstask_folder_t) : psync_fstask_folder_t :=
  { f with mkdirs := psync_fstask_insert_into_tree cmp (fun e => e.name) task f.mkdirs,
           taskscnt := f.taskscnt + 1 }

/-- The in-memory change of `psync_fstask_rmdir` when it cancels the pending
mkdir at position `i`, as a function of the folder. -/
@[reducible] def with_rmdir_cancel (cmp : String → String → Int) (i : Nat)
    (task : psync_fstask_rmdir_t) (f : psync_fstask_folder_t) : psync_fstask_folder_t :=
  { f with mkdirs := f.mkdirs.eraseIdx i,
           rmdirs := psync_fstask_insert_into_tree cmp (fun e => e.name) task f.rmdirs,
           taskscnt := f.taskscnt - 1 + 1 }

/-- A change of one folder that adds no entry but possibly some with an id in
`N`. -/
def AddsOnly (N : Nat → Prop) (g : psync_fstask_folder_t → psync_fstask_folder_t) : Prop :=
  ∀ f t, t ∈ folder_taskids (g f) → t ∈ folder_taskids f ∨ N t

/-- A change of the folder tree that adds no entry but possibly some with an id
in `N`. -/
def TreeAddsOnly (N : Nat → Prop) (fs fs' : List psync_fstask_folder_t) : Prop :=
  ∀ t, HasEntry fs' t → HasEntry fs t ∨ N t

/-- The ids of the rows of a table, as a predicate. -/
def RowId (t : List fstask_row) (i : Nat) : Prop := ∃ r ∈ t, r.id = i

/-- What the store needs of `psync_filename_cmp`: a total preorder given by the
sign of the result. -/
structure FilenameOrder (cmp : String → String → Int) : Prop where
  refl : ∀ a, cmp a a = 0
  swap : ∀ a b, cmp a b < 0 ↔ 0 < cmp b a
  trans : ∀ a b c, cmp a b ≤ 0 → cmp b c ≤ 0 → cmp a c ≤ 0

/-- The in-order sequence of a tree is ascending by name. -/
def NameSorted {α : Type} (cmp : String → String → Int) (nameof : α → String)
    (tree : List α) : Prop :=
  tree.Pairwise (fun a b => cmp (nameof a) (nameof b) ≤ 0)

/-- No two folders of the tree carry the same key. -/
def KeysNodup (fs : List psync_fstask_folder_t) : Prop :=
  (fs.map (fun f => f.folderid)).Nodup

/-- The counter `taskscnt` of a folder is the number of its entries. -/
def CountOk (f : psync_fstask_folder_t) : Prop :=
  f.taskscnt = ((f.mkdirs.length + f.rmdirs.length + f.creats.length + f.unlinks.length : Nat) : Int)

/-- The folder without the Creat named `name` that carries `taskid` (the first
such entry), `taskscnt` decremented by one if there is one: what the
acknowledgement of a creat is to do to a folder. -/
def without_creat (cmp : String → String → Int) (name : String) (taskid : Nat)
    (f : psync_fstask_folder_t) : psync_fstask_folder_t :=
  { f with creats := f.creats.eraseP (fun e => cmp name e.name = 0 ∧ e.taskid = taskid),
           taskscnt := f.taskscnt -
             (if f.creats.any (fun e => cmp name e.name = 0 ∧ e.taskid = taskid) then 1 else 0) }

/-- The folder without the Unlink named `name` that carries `taskid` (the first
such entry), `taskscnt` decremented by one if there is one. -/
def without_unlink (cmp : String → String → Int) (name : String) (taskid : Nat)
    (f : psync_fstask_folder_t) : psync_fstask_folder_t :=
  { f with unlinks := f.unlinks.eraseP (fun e => cmp name e.name = 0 ∧ e.taskid = taskid),
           taskscnt := f.taskscnt -
             (if f.unlinks.any (fun e => cmp name e.name = 0 ∧ e.taskid = taskid) then 1 else 0) }

instance (f : psync_fstask_folder_t) : Decidable (CountOk f) := by
  unfold CountOk; infer_instance

instance {α : Type} (cmp : String → String → Int) (nameof : α → String) (tree : List α) :
    Decidable (NameSorted cmp nameof tree) := by
  unfold NameSorted; infer_instance

instance (fs : List psync_fstask_folder_t) : Decidable (KeysNodup fs) := by
  unfold KeysNodup; infer_instance

/-- The folder tree at rest, when every call has released its handles: keys
are distinct, no folder is referenced and every folder holds tasks. -/
def AtRest (fs : List psync_fstask_folder_t) : Prop :=
  KeysNodup fs ∧ ∀ f ∈ fs, f.refcnt = 0 ∧ f.taskscnt ≠ 0

/-- A call replays: the rows it appends to `fstask`, replayed on the folder tree
before the call, give the folder tree after the call. -/
def Replays (cmp : String → String → Int) (s s' : State) : Prop :=
  ∃ rows, s'.fstask = s.fstask ++ rows ∧ s'.folders = rows.foldl (psync_init_task cmp) s.folders

/-- The calls of the replay statement: the five mutating calls, an `Rmdir` or
`Unlink` among them not ending in a failed commit, and changes of the server
tables. -/
def Call.replayable : Call → Bool
  | .mkdir _ _ _ _ => true
  | .rmdir _ _ commit => commit
  | .add_creat _ _ _ => true
  | .unlink _ _ commit => commit
  | .rename_file _ _ _ _ _ _ => true
  | .server_tables _ _ => true
  | _ => false

/-- The folder without the Mkdir named `name` that carries `taskid` (the first
such entry), `taskscnt` decremented by one if there is one: what the
acknowledgement of a mkdir is to do to the parent folder. -/
def without_mkdir (cmp : String → String → Int) (name : String) (taskid : Nat)
    (f : psync_fstask_folder_t) : psync_fstask_folder_t :=
  { f with mkdirs := f.mkdirs.eraseP (fun e => cmp name e.name = 0 ∧ e.taskid = taskid),
           taskscnt := f.taskscnt -
             (if f.mkdirs.any (fun e => cmp name e.name = 0 ∧ e.taskid = taskid) then 1 else 0) }

/-- A folder under another key: the assignment `folder->folderid=folderid`. -/
def rekeyed (folderid : Int) (f : psync_fstask_folder_t) : psync_fstask_folder_t :=
  { f with folderid := folderid }

/-- The source folder of a file rename as the claim describes it: without the
Creat named `name` (the first one, if there is one), with the Unlink `rm`
inserted, `taskscnt` one more, or unchanged when a Creat was removed. -/
def renamed_out (cmp : String → String → Int) (name : String) (rm : psync_fstask_unlink_t)
    (f : psync_fstask_folder_t) : psync_fstask_folder_t :=
  { f with creats := f.creats.eraseP (fun e => cmp name e.name = 0),
           unlinks := psync_fstask_insert_into_tree cmp (fun e => e.name) rm f.unlinks,
           taskscnt := f.taskscnt + 1 -
             (if f.creats.any (fun e => cmp name e.name = 0) then 1 else 0) }

/-- The destination folder of a file rename as the claim describes it: with
the Creat `cr` inserted and `taskscnt` one more. -/
def renamed_in (cmp : String → String → Int) (cr : psync_fstask_creat_t)
    (f : psync_fstask_folder_t) : psync_fstask_folder_t :=
  { f with creats := psync_fstask_insert_into_tree cmp (fun e => e.name) cr f.creats,
           taskscnt := f.taskscnt + 1 }

/-- The result `i` of the lookup of a Creat named `name` in a tree with the
in-order sequence `creats`: for `some i` the entry at position `i` has a name
that compares equal to `name`, for `none` no entry has. -/
def CreatFound (cmp : String → String → Int) (name : String)
    (creats : List psync_fstask_creat_t) : Option Nat → Prop
  | some i => ∃ e, creats[i]? = some e ∧ cmp name e.name = 0
  | none => ∀ e ∈ creats, cmp name e.name ≠ 0

/-- The source folder of a file rename when the lookup of the Creat gave `i`:
without the Creat at position `i` if there is one, with the Unlink `rm`
inserted, `taskscnt` one more, or unchanged when a Creat was removed. -/
def renamed_out_at (cmp : String → String → Int) (i : Option Nat)
    (rm : psync_fstask_unlink_t) (f : psync_fstask_folder_t) : psync_fstask_folder_t :=
  { f with creats := (match i with
                      | some i => f.creats.eraseIdx i
                      | none => f.creats),
           unlinks := psync_fstask_insert_into_tree cmp (fun e => e.name) rm f.unlinks,
           taskscnt := f.taskscnt + 1 - (if i.isSome then 1 else 0) }

/-! ## Name lookup on a tree of a given shape -/

section Shapes

variable {α : Type}

/-- Shape of a `psync_tree`.  The type is declared in `ptree.h`, which is not
part of the sources; `pfstasks.c` uses its fields `left` and `right` and its
in-order neighbours `psync_tree_get_prev` / `psync_tree_get_next`. -/
inductive psync_tree (α : Type) where
  | nil : psync_tree α
  | node (left : psync_tree α) (element : α) (right : psync_tree α) : psync_tree α

/-- The elements of a tree in in-order sequence. -/
def psync_tree.inorder : psync_tree α → List α
  | .nil => []
  | .node left element right => left.inorder ++ element :: right.inorder

/-- The descent of `psync_fstask_search_tree` (lines 131-139) on a tree of a
given shape: left while `c < 0`, right while `c > 0`; the result is the in-order
position of the node the loop stops at, `none` when it runs off the tree. -/
def search_descend_tree (cmp : String → String → Int) (nameof : α → String) (name : String) :
    psync_tree α → Option Nat
  | .nil => none
  | .node left element right =>
    if cmp name (nameof element) < 0 then search_descend_tree cmp nameof name left
    else if cmp name (nameof element) > 0 then
      (search_descend_tree cmp nameof name right).map (fun j => left.inorder.length + 1 + j)
    else some left.inorder.length

/-- Lines 140-161 of `psync_fstask_search_tree`, entered with the node the
descent stopped at (position `i` of the in-order list `tree`): the node itself
when `taskid` is 0 or is the node's, otherwise the scan of the predecessors and
then of the successors that carry the name. -/
def search_from (cmp : String → String → Int) (nameof : α → String) (taskidof : α → Nat)
    (tree : List α) (name : String) (taskid : Nat) (i : Nat) : Option Nat :=
  if taskid = 0 ∨ tree[i]?.map taskidof = some taskid then some i
  else
    match search_scan cmp nameof taskidof name taskid (tree.take i).reverse with
    | some k => some (i - 1 - k)
    | none =>
      match search_scan cmp nameof taskidof name taskid (tree.drop (i + 1)) with
      | some k => some (i + 1 + k)
      | none => none

/-- The lookup `psync_fstask_search_tree` on a tree of a given shape: the
in-order position of the entry returned, `none` for `NULL`. -/
def psync_fstask_search_tree_shaped (cmp : String → String → Int) (nameof : α → String)
    (taskidof : α → Nat) (tree : psync_tree α) (name : String) (taskid : Nat) : Option Nat :=
  match search_descend_tree cmp nameof name tree with
  | none => none
  | some i => search_from cmp nameof taskidof tree.inorder name taskid i

/-- The entries of an in-order list a lookup by `(name, taskid)` asks for: the
name compares equal and, unless `taskid` is 0, the task id is `taskid`. -/
def Wanted (cmp : String → String → Int) (nameof : α → String) (taskidof : α → Nat)
    (name : String) (taskid : Nat) (e : α) : Prop :=
  cmp name (nameof e) = 0 ∧ (taskid = 0 ∨ taskidof e = taskid)

/-- The result `r` of a lookup is right for the in-order list `tree`: a
position returned holds a wanted entry, and `none` is returned only when no
entry is wanted. -/
def FindsEntry (cmp : String → String → Int) (nameof : α → String) (taskidof : α → Nat)
    (tree : List α) (name : String) (taskid : Nat) (r : Option Nat) : Prop :=
  (∀ j, r = some j → ∃ e, tree[j]? = some e ∧ Wanted cmp nameof taskidof name taskid e)
  ∧ (r = none → ∀ e ∈ tree, ¬ Wanted cmp nameof taskidof name taskid e)

end Shapes

/-- The call `psync_fstask_rename_file(fileid, parentfolderid, name, to_folderid,
new_name)` when the tree `folder->creats` of the source folder has the shape
`creats`: the lookup `psync_fstask_find_creat(folder, name, 0)` of line 480 is
the descent on that shape, and the node it returns is removed at its in-order
position.  The rest is as in `psync_fstask_rename_file`. -/
def psync_fstask_rename_file_shaped (cmp : String → String → Int) (s : State)
    (creats : psync_tree psync_fstask_creat_t) (fileid : Int)
    (parentfolderid : Int) (name : String) (to_folderid : Int) (new_name : Option String)
    (commit : Bool) : Int × State :=
  let new_name := new_name.getD name
  let ftaskid := sql_next_id s.fstask
  let fstask := s.fstask ++
    [{ id := ftaskid, type := PSYNC_FS_TASK_RENFILE_FROM, status := 10,
       folderid := parentfolderid, fileid := some fileid, text1 := name, text2 := none,
       int1 := none, int2 := none }]
  let ttaskid := sql_next_id fstask
  let fstask := fstask ++
    [{ id := ttaskid, type := PSYNC_FS_TASK_RENFILE_TO, status := 0, folderid := to_folderid,
       fileid := some fileid, text1 := new_name, text2 := none, int1 := some (ftaskid : Int),
       int2 := none }]
  let d := s.fstaskdepend
  let d := if fileid < 0 then psync_fstask_depend d ttaskid (U64 (-fileid)) else d
  let d := if parentfolderid < 0 then psync_fstask_depend d ttaskid (U64 (-parentfolderid)) else d
  let d := if to_folderid < 0 ∧ to_folderid ≠ parentfolderid then
      psync_fstask_depend d ttaskid (U64 (-to_folderid)) else d
  let d := (sql_fstask_ids_by_folder_name fstask to_folderid new_name).foldl
    (fun d row0 => if row0 ≠ ftaskid ∧ row0 ≠ ttaskid then psync_fstask_depend d ttaskid row0
      else d) d
  if ¬ commit then (- EIO, s)
  else
    let folders := psync_fstask_get_or_create_folder_tasks_locked s.folders parentfolderid
    let folders :=
      match psync_fstask_search_tree_shaped cmp (fun e => e.name) (fun e => e.taskid)
          creats name 0 with
      | some i => folder_update parentfolderid (fun f =>
          { f with creats := f.creats.eraseIdx i, taskscnt := f.taskscnt - 1 }) folders
      | none => folders
    let rm : psync_fstask_unlink_t := { taskid := ftaskid, fileid := fileid, name := name }
    let folders := folder_update parentfolderid (fun f =>
      { f with unlinks := psync_fstask_insert_into_tree cmp (fun e => e.name) rm f.unlinks,
               taskscnt := f.taskscnt + 1 }) folders
    let folders := psync_fstask_release_folder_tasks_locked folders parentfolderid
    let folders := psync_fstask_get_or_create_folder_tasks_locked folders to_folderid
    let cr : psync_fstask_creat_t :=
      { taskid := ttaskid, fileid := fileid, newfile := 0, name := new_name }
    let folders := folder_update to_folderid (fun f =>
      { f with creats := psync_fstask_insert_into_tree cmp (fun e => e.name) cr f.creats,
               taskscnt := f.taskscnt + 1 }) folders
    let folders := psync_fstask_release_folder_tasks_locked folders to_folderid
    (0, { s with folders := folders, fstask := fstask, fstaskdepend := d,
                 upload_wakes := s.upload_wakes + 1 })

/-- The tree of Creats used in the examples: three entries named `"a"`, the
one of task 8 at the root. -/
def example_creats : psync_tree psync_fstask_creat_t :=
  .node (.node .nil { taskid := 7, fileid := -7, newfile := 1, name := "a" } .nil)
    { taskid := 8, fileid := -8, newfile := 1, name := "a" }
    (.node .nil { taskid := 9, fileid := -9, newfile := 1, name := "a" } .nil)

/-- A store used in the examples: the root folder holds the Creats of
`example_creats`. -/
def example_store : State :=
  { State.empty [] [] with
    folders := [{ folderid := 0, mkdirs := [], rmdirs := [], creats := example_creats.inorder,
                  unlinks := [], taskscnt := 3, refcnt := 0 }] }

/-! ## Download worker (`pdownload.c`)

The download worker talks to the server, the file system and the settings
through functions that are not part of the sources.  Their results are read
from an environment (`download_env`), and the calls that change the outside
world are recorded in logs of the state (`fs`, `net`, `events`, `localscan`).
Unsigned counters are 64-bit words.  Sleeps, debug output and the freeing of
memory have no effect on the state modelled. -/

/-- Result codes of the network layer (`PSYNC_NET_OK`, `PSYNC_NET_PERMFAIL`,
`PSYNC_NET_TEMPFAIL`). -/
inductive psync_net_result where
  | PSYNC_NET_OK
  | PSYNC_NET_PERMFAIL
  | PSYNC_NET_TEMPFAIL
deriving DecidableEq, Repr

/-- The event types `pdownload.c` sends. -/
inductive psync_eventtype_t where
  | PEVENT_LOCAL_FOLDER_CREATED
  | PEVENT_LOCAL_FOLDER_DELETED
  | PEVENT_LOCAL_FOLDER_RENAMED
  | PEVENT_FILE_DOWNLOAD_STARTED
  | PEVENT_FILE_DOWNLOAD_FINISHED
  | PEVENT_FILE_DOWNLOAD_FAILED
  | PEVENT_LOCAL_FILE_DELETED
deriving DecidableEq, Repr

/-- A call of `psync_send_event_by_id(event, syncid, localpath, remoteid)`. -/
structure psync_event where
  event : psync_eventtype_t
  syncid : Nat
  localpath : String
  remoteid : Nat
deriving DecidableEq, Repr

/-- A row of `localfile(id, syncid, localparentfolderid, name, fileid, hash,
size, inode, mtime, mtimenative, checksum)`. -/
structure localfile_row where
  id : Nat
  syncid : Nat
  localparentfolderid : Nat
  name : String
  fileid : Nat
  hash : Nat
  size : Nat
  inode : Nat
  mtime : Nat
  mtimenative : Nat
  checksum : String
deriving DecidableEq, Repr

/-- What `psync_stat` reports of a file, as far as the download worker reads
it. -/
structure psync_stat_t where
  size : Nat
  inode : Nat
  mtime : Nat
  mtimenative : Nat
deriving DecidableEq, Repr

/-- The element `download_list_t` of the global list `downloads`. -/
structure download_list_t where
  fileid : Nat
  syncid : Nat
  stop : Int
  hash : String
deriving DecidableEq, Repr

/-- Calls that change the file system: `psync_file_open` with
`P_O_CREAT|P_O_TRUNC`, `psync_file_rename_overwrite`, `psync_file_delete`,
`psync_copy_local_file_if_checksum_matches`, the body written by
`psync_p2p_check_download`, and `psync_rename_conflicted_file`; `ok` tells
whether the call succeeded. -/
inductive fs_op where
  | file_open_trunc (path : String) (ok : Bool)
  | file_rename_overwrite (oldname newname : String) (ok : Bool)
  | file_delete (path : String)
  | copy_local_file (src dst : String) (ok : Bool)
  | p2p_download (path : String)
  | rename_conflicted_file (path : String)
deriving DecidableEq, Repr

/-- Requests sent out: the checksum request, the peer-to-peer probe, the
`getfilelink` request, the range planner's request with the old files it may
copy from, and an HTTP connection for a byte range. -/
inductive net_op where
  | get_remote_file_checksum (fileid : Nat)
  | p2p_check_download (fileid : Nat)
  | getfilelink (fileid : Nat)
  | net_download_ranges (fileid : Nat) (oldfiles : List String)
  | http_connect (off len : Nat)
deriving DecidableEq, Repr

/-- Calls to the local scanner. -/
inductive localscan_op where
  | stop_localscan
  | resume_localscan
  | restart_localscan
  | wake_localscan
deriving DecidableEq, Repr

/-- The constants of `psettings.h` and `pcompat.h` the download worker uses;
the headers are not part of the sources. -/
structure psync_settings where
  PSYNC_MAX_PARALLEL_DOWNLOADS : Nat
  PSYNC_START_NEW_DOWNLOADS_TRESHOLD : Nat
  PSYNC_MIN_SIZE_FOR_P2P : Nat
  PSYNC_MIN_SIZE_FOR_CHECKSUMS : Nat
  PSYNC_DIRECTORY_SEPARATOR : String
  PSYNC_APPEND_PARTIAL_FILES : String
deriving DecidableEq, Repr

/-- The state the download worker works on: the admission counters and the
aggregate status (`psync_status`), protected by `current_downloads_mutex`, the
list `downloads`, the table `localfile`, the file locks held, the flag set by
`psync_set_local_full`, the logs of events and outside calls, and the number of
reads of `dwl->stop` made so far. -/
structure download_state where
  starting_downloads : Nat
  started_downloads : Nat
  filesdownloading : Nat
  bytestodownloadcurrent : Nat
  bytesdownloaded : Nat
  downloads : List download_list_t
  localfile : List localfile_row
  locks : List String
  local_full : Bool
  events : List psync_event
  fs : List fs_op
  net : List net_op
  localscan : List localscan_op
  stop_reads : Nat
deriving DecidableEq, Repr

/-- The state before any download: counters at zero, nothing logged. -/
def download_state.init (localfile : List localfile_row) (downloads : List download_list_t) :
    download_state :=
  { starting_downloads := 0, started_downloads := 0, filesdownloading := 0,
    bytestodownloadcurrent := 0, bytesdownloaded := 0, downloads := downloads,
    localfile := localfile, locks := [], local_full := false, events := [], fs := [], net := [],
    localscan := [], stop_reads := 0 }

/-- One pass of a read loop: the value `rd` returned by `psync_http_readall` or
`psync_file_read`, whether `psync_file_writeall_checkoverquota` succeeded and
whether `psync_statuses_ok_array` held. -/
structure chunk_io where
  rd : Int
  write_ok : Bool
  statuses_ok : Bool
deriving DecidableEq, Repr

/-- An element of the range plan (`psync_range_list_t`) together with what its
execution meets: for `PSYNC_RANGE_TRANSFER` whether some host answers
`psync_http_connect`, for a copy whether `psync_file_open` and
`psync_file_seek` succeed, and the passes of the read loop. -/
inductive psync_range_list_t where
  | transfer (off len : Nat) (connected : Bool) (reads : List chunk_io)
  | copy (off len : Nat) (filename : String) (opened : Bool) (seeked : Bool)
      (reads : List chunk_io)
deriving DecidableEq, Repr

/-- The places of `task_download_file` that publish a file: the file already
on disk (line 551), a local copy (line 570, by `localfile` id), the
peer-to-peer download (lines 605-606) and the downloaded file (lines 756-757). -/
inductive publish_site where
  | on_disk
  | local_copy (localfileid : Nat)
  | p2p
  | downloaded
deriving DecidableEq, Repr

/-- What the outside world answers during one run of `task_download_file`. -/
structure download_env where
  /-- Result of `psync_local_path_for_local_folder`, `none` for `NULL`. -/
  localpath : Option String
  /-- Whether `psync_lock_file(name)` returns a lock. -/
  lock_file : Bool
  /-- Result of `psync_get_remote_file_checksum`. -/
  remote_checksum : psync_net_result
  serverhashhex : String
  serversize : Nat
  hash : Nat
  /-- Setting `minlocalfreespace`. -/
  minlocalfreespace : Nat
  /-- Result of `psync_get_free_space_by_path(localpath)`. -/
  freespace : Int
  /-- Hash and size of `psync_get_local_file_checksum(name)` when it returns
  `PSYNC_NET_OK`. -/
  local_checksum : Option (String × Nat)
  /-- Result of `psync_local_path_for_local_file(id)`. -/
  local_file_path : Nat → Option String
  /-- Result of `psync_copy_local_file_if_checksum_matches` from the local file
  `id`. -/
  copy_local_file : Nat → psync_net_result
  /-- Result of `psync_stat(name)` in `stat_and_create_local`, `none` when it
  fails. -/
  stat_name : publish_site → Option psync_stat_t
  /-- Hash and size of `psync_get_local_file_checksum(newname)` in
  `rename_if_notex` when it returns `PSYNC_NET_OK`. -/
  target_checksum : publish_site → Option (String × Nat)
  /-- Result and `isrev` of `psync_is_revision_of_file`. -/
  is_revision_of_file : publish_site → psync_net_result × Bool
  /-- Whether `psync_file_rename_overwrite(oldname, newname)` in
  `rename_if_notex` succeeds. -/
  rename_overwrite : publish_site → Bool
  /-- Result of `psync_p2p_check_download`. -/
  p2p_check_download : psync_net_result
  /-- Whether `psync_apipool_get` returns a connection. -/
  apipool_get : Bool
  /-- The field `result` of the answer to `getfilelink`, `none` when
  `send_command` returns `NULL`. -/
  getfilelink : Option Nat
  /-- Result of `psync_handle_api_result`. -/
  handle_api_result : psync_net_result
  /-- Result of `psync_stat(tmpname)` before the plan, `none` when it fails. -/
  stat_tmpname : Option psync_stat_t
  /-- Whether `psync_file_rename_overwrite(tmpname, tmpold)` succeeds. -/
  rename_tmpold : Bool
  /-- Whether `psync_file_open(tmpname, …)` returns a handle. -/
  file_open : Bool
  /-- Result of `psync_net_download_ranges` and the plan it fills in. -/
  download_ranges : psync_net_result
  ranges : List psync_range_list_t
  /-- Whether `psync_file_sync(fd)` and `psync_file_close(fd)` succeed. -/
  file_sync : Bool
  file_close : Bool
  /-- The hex digest of the bytes written (`psync_hash_final`, `psync_binhex`). -/
  localhashhex : String
  /-- Whether another thread has set `dwl->stop` by the time of the n-th read
  of the flag. -/
  stop_set : Nat → Bool

/-- The counter `current_counter` points to. -/
inductive download_counter where
  | starting_downloads
  | started_downloads
deriving DecidableEq, Repr

/-- The exits of `task_download_file`: the three early `return`s (lines 481,
489, 525), the labels `ret0`, `err_sl_ex`, `err0`, `err1`, `err2`, the
cancellation branch (lines 737-742, which continues at `err0`), the branch of
the checksum mismatch (lines 751-754, which continues at `err0`) and the final
`return 0` (line 775). -/
inductive download_exit where
  | return_481
  | return_489
  | return_525
  | ret0
  | err_sl_ex
  | err0
  | err1
  | err2
  | cancelled
  | mismatch
  | finished
deriving DecidableEq, Repr

/-- The result of a run of `task_download_file`: the value returned, the exit
taken and the state left. -/
structure download_result where
  ret : Int
  exit : download_exit
  state : download_state
deriving DecidableEq, Repr

/-- The local variables of `task_download_file` the exits read. -/
structure download_locals where
  name : String
  current_counter : Option download_counter
  addedsize : Nat
  downloadedsize : Nat
  downloadingcounted : Bool
  tmpold : Option String
deriving DecidableEq, Repr

/-- The call `task_dec_counter(cnt, filesize, downloadedsize, downloading)`. -/
def task_dec_counter (w : download_state) (cnt : Option download_counter)
    (filesize downloadedsize : Nat) (downloading : Bool) : download_state :=
  let w : download_state :=
    match cnt with
    | some .starting_downloads =>
      { w with starting_downloads := U64 ((w.starting_downloads : Int) - 1) }
    | some .started_downloads =>
      { w with started_downloads := U64 ((w.started_downloads : Int) - 1) }
    | none => w
  let w : download_state :=
    { w with bytestodownloadcurrent := U64 ((w.bytestodownloadcurrent : Int) - filesize),
             bytesdownloaded := U64 ((w.bytesdownloaded : Int) - downloadedsize) }
  if downloading then
    let w : download_state := { w with filesdownloading := U64 ((w.filesdownloading : Int) - 1) }
    if w.filesdownloading = 0 then { w with bytesdownloaded := 0, bytestodownloadcurrent := 0 }
    else w
  else w

/-- The condition of the admission loop (lines 500-501): while it holds the
download waits on `current_downloads_cond`. -/
def admission_waits (cfg : psync_settings) (w : download_state) : Prop :=
  w.starting_downloads ≠ 0 ∨ w.started_downloads ≥ cfg.PSYNC_MAX_PARALLEL_DOWNLOADS
    ∨ U64 ((w.bytestodownloadcurrent : Int) - w.bytesdownloaded)
        > cfg.PSYNC_START_NEW_DOWNLOADS_TRESHOLD

instance (cfg : psync_settings) (w : download_state) : Decidable (admission_waits cfg w) :=
  inferInstanceAs (Decidable (w.starting_downloads ≠ 0
    ∨ w.started_downloads ≥ cfg.PSYNC_MAX_PARALLEL_DOWNLOADS
    ∨ U64 ((w.bytestodownloadcurrent : Int) - w.bytesdownloaded)
        > cfg.PSYNC_START_NEW_DOWNLOADS_TRESHOLD))

/-- The critical section of lines 499-508: once the admission loop is left
`starting_downloads` and `filesdownloading` are incremented; `none` while the
download waits. -/
def admission (cfg : psync_settings) (w : download_state) : Option download_state :=
  if admission_waits cfg w then none
  else some { w with starting_downloads := U64 ((w.starting_downloads : Int) + 1),
                     filesdownloading := U64 ((w.filesdownloading : Int) + 1) }

/-- The critical section of lines 589-595: the download moves from `starting`
to `started`. -/
def promotion (w : download_state) (serversize : Nat) : download_state :=
  { w with bytestodownloadcurrent := U64 ((w.bytestodownloadcurrent : Int) + serversize),
           starting_downloads := U64 ((w.starting_downloads : Int) - 1),
           started_downloads := U64 ((w.started_downloads : Int) + 1) }

/-- The call `psync_unlock_file(lock)` for the lock on `name`. -/
def unlock_file (w : download_state) (name : String) : download_state :=
  { w with locks := w.locks.erase name }

/-- A read of `dwl->stop`: the flag of the list element, or set meanwhile by
another thread. -/
def read_stop (env : download_env) (w : download_state) (dwl : Nat) : Bool × download_state :=
  (decide ((w.downloads[dwl]?.map (fun d => d.stop)).getD 0 ≠ 0) || env.stop_set w.stop_reads,
   { w with stop_reads := w.stop_reads + 1 })

/-- The exit `ret0` (lines 805-810). -/
def exit_ret0 (w : download_state) (l : download_locals) : download_result :=
  { ret := 0, exit := .ret0,
    state := unlock_file
      (task_dec_counter w l.current_counter l.addedsize l.downloadedsize l.downloadingcounted)
      l.name }

/-- The exit `err_sl_ex` (lines 797-804). -/
def exit_err_sl_ex (w : download_state) (l : download_locals) : download_result :=
  { ret := -1, exit := .err_sl_ex,
    state := unlock_file
      (task_dec_counter w l.current_counter l.addedsize l.downloadedsize l.downloadingcounted)
      l.name }

/-- The exit `err0` (lines 784-796), reached with the label `exit`. -/
def exit_err0 (exit : download_exit) (w : download_state) (l : download_locals) :
    download_result :=
  let w := task_dec_counter w l.current_counter l.addedsize l.downloadedsize l.downloadingcounted
  let w : download_state :=
    match l.tmpold with
    | some tmpold => { w with fs := w.fs ++ [fs_op.file_delete tmpold] }
    | none => w
  { ret := -1, exit := exit, state := unlock_file w l.name }

/-- The exits `err1` and `err2` (lines 776-783): the file is closed, the event
`PEVENT_FILE_DOWNLOAD_FAILED` is sent, and the run continues at `err0`. -/
def exit_err1 (exit : download_exit) (w : download_state) (l : download_locals)
    (syncid fileid : Nat) : download_result :=
  exit_err0 exit
    { w with events := w.events ++
        [{ event := .PEVENT_FILE_DOWNLOAD_FAILED, syncid := syncid, localpath := l.name,
           remoteid := fileid }] } l

/-- The call `stat_and_create_local(syncid, fileid, localfolderid, filename,
name, checksum, serversize, hash)`; `st` is the result of `psync_stat(name)`.
`none` stands for the return value `-1`.  The row inserted by `REPLACE INTO`
gets the next row id. -/
def stat_and_create_local (w : download_state) (st : Option psync_stat_t)
    (syncid fileid localfolderid : Nat) (filename : String) (checksum : String)
    (serversize hash : Nat) : Option download_state :=
  match st with
  | none => none
  | some st =>
    if st.size ≠ serversize then none
    else
      let localfileid :=
        ((w.localfile.find? (fun r => r.syncid = syncid ∧ r.localparentfolderid = localfolderid
          ∧ r.name = filename)).map (fun r => r.id)).getD 0
      if localfileid ≠ 0 then
        some { w with localfile := w.localfile.map (fun r =>
          if r.id = localfileid then
            { r with localparentfolderid := localfolderid, fileid := fileid, hash := hash,
                     syncid := syncid, size := st.size, inode := st.inode, mtime := st.mtime,
                     mtimenative := st.mtimenative, name := filename, checksum := checksum }
          else r) }
      else
        some { w with localfile := w.localfile ++
          [{ id := (w.localfile.foldl (fun m r => max m r.id) 0) + 1,
             localparentfolderid := localfolderid, fileid := fileid, hash := hash,
             syncid := syncid, size := st.size, inode := st.inode, mtime := st.mtime,
             mtimenative := st.mtimenative, name := filename, checksum := checksum }] }

/-- The call `create_conflicted(name, localfolderid, syncid, filename)`. -/
def create_conflicted (w : download_state) (name : String) (localfolderid syncid : Nat)
    (filename : String) : download_state :=
  { w with localscan := w.localscan ++ [.restart_localscan, .wake_localscan],
           fs := w.fs ++ [fs_op.rename_conflicted_file name],
           localfile := w.localfile.filter (fun r =>
             ¬ (r.syncid = syncid ∧ r.localparentfolderid = localfolderid ∧ r.name = filename)) }

/-- The call `rename_if_notex(oldname, newname, fileid, localfolderid, syncid,
filename)` at the site `site`; the Boolean is `true` for the return value 0. -/
def rename_if_notex (env : download_env) (site : publish_site) (w : download_state)
    (oldname newname : String) (localfolderid syncid : Nat) (filename : String) :
    Bool × download_state :=
  match env.target_checksum site with
  | some _ =>
    match env.is_revision_of_file site with
    | (.PSYNC_NET_TEMPFAIL, _) => (false, w)
    | (.PSYNC_NET_OK, false) =>
      let w := create_conflicted w newname localfolderid syncid filename
      (env.rename_overwrite site,
       { w with fs := w.fs ++
           [fs_op.file_rename_overwrite oldname newname (env.rename_overwrite site)] })
    | _ =>
      (env.rename_overwrite site,
       { w with fs := w.fs ++
           [fs_op.file_rename_overwrite oldname newname (env.rename_overwrite site)] })
  | none =>
    (env.rename_overwrite site,
     { w with fs := w.fs ++
         [fs_op.file_rename_overwrite oldname newname (env.rename_overwrite site)] })

/-- The loop of lines 680-697 over the passes `reads`; when they are used up
`psync_http_readall` returns 0.  The result is `false` for `goto err2`, with
the state and `downloadedsize`. -/
def transfer_loop (env : download_env) (dwl : Nat) :
    List chunk_io → download_state → Nat → Bool × download_state × Nat
  | [], w, downloadedsize => (true, (read_stop env w dwl).2, downloadedsize)
  | c :: reads, w, downloadedsize =>
    if (read_stop env w dwl).1 then (true, (read_stop env w dwl).2, downloadedsize)
    else
      let w := (read_stop env w dwl).2
      if c.rd = 0 then (true, w, downloadedsize)
      else if c.rd < 0 ∨ c.write_ok = false then (false, w, downloadedsize)
      else
        let w : download_state :=
          { w with bytesdownloaded := U64 ((w.bytesdownloaded : Int) + c.rd) }
        let downloadedsize := U64 ((downloadedsize : Int) + c.rd)
        if c.statuses_ok = false then (false, w, downloadedsize)
        else transfer_loop env dwl reads w downloadedsize

/-- The loop of lines 711-731 over the passes `reads`, entered with `result`
bytes left; when the passes are used up `psync_file_read` returns 0. -/
def copy_loop (env : download_env) (dwl : Nat) :
    List chunk_io → download_state → Nat → Nat → Bool × download_state × Nat
  | [], w, downloadedsize, result =>
    if (read_stop env w dwl).1 then (true, (read_stop env w dwl).2, downloadedsize)
    else if result = 0 then (true, (read_stop env w dwl).2, downloadedsize)
    else (false, (read_stop env w dwl).2, downloadedsize)
  | c :: reads, w, downloadedsize, result =>
    if (read_stop env w dwl).1 then (true, (read_stop env w dwl).2, downloadedsize)
    else
      let w := (read_stop env w dwl).2
      if result = 0 then (true, w, downloadedsize)
      else if c.rd ≤ 0 ∨ c.write_ok = false ∨ c.statuses_ok = false then
        (false, w, downloadedsize)
      else
        let w : download_state :=
          { w with bytesdownloaded := U64 ((w.bytesdownloaded : Int) + c.rd) }
        copy_loop env dwl reads w (U64 ((downloadedsize : Int) + c.rd))
          (U64 ((result : Int) - c.rd))

/-- The loop over the range plan (lines 671-736).  The result is `false` for
`goto err2`. -/
def ranges_loop (env : download_env) (dwl : Nat) :
    List psync_range_list_t → download_state → Nat → Bool × download_state × Nat
  | [], w, downloadedsize => (true, w, downloadedsize)
  | .transfer off len connected reads :: ranges, w, downloadedsize =>
    let w : download_state := { w with net := w.net ++ [net_op.http_connect off len] }
    if connected = false then (false, w, downloadedsize)
    else
      match transfer_loop env dwl reads w downloadedsize with
      | (false, w, downloadedsize) => (false, w, downloadedsize)
      | (true, w, downloadedsize) =>
        if (read_stop env w dwl).1 then (true, (read_stop env w dwl).2, downloadedsize)
        else ranges_loop env dwl ranges (read_stop env w dwl).2 downloadedsize
  | .copy _ len _ opened seeked reads :: ranges, w, downloadedsize =>
    if opened = false ∨ seeked = false then (false, w, downloadedsize)
    else
      match copy_loop env dwl reads w downloadedsize len with
      | (false, w, downloadedsize) => (false, w, downloadedsize)
      | (true, w, downloadedsize) =>
        if (read_stop env w dwl).1 then (true, (read_stop env w dwl).2, downloadedsize)
        else ranges_loop env dwl ranges (read_stop env w dwl).2 downloadedsize

/-- Lines 737-775 of `task_download_file`: the check of the stop flag behind
the plan, the finalisation of the temp file, and the publication under
`name`. -/
def download_finish (env : download_env) (w : download_state) (l : download_locals)
    (tmpname : String) (syncid fileid localfolderid : Nat) (filename : String) (dwl : Nat) :
    download_result :=
  if (read_stop env w dwl).1 then
    exit_err0 .cancelled
      { (read_stop env w dwl).2 with
        fs := (read_stop env w dwl).2.fs ++ [fs_op.file_delete tmpname] } l
  else
    let w := (read_stop env w dwl).2
    if env.file_sync = false then exit_err1 .err2 w l syncid fileid
    else if env.file_close = false then exit_err0 .err0 w l
    else if env.localhashhex ≠ env.serverhashhex then exit_err0 .mismatch w l
    else
      let w : download_state := { w with localscan := w.localscan ++ [.stop_localscan] }
      match rename_if_notex env .downloaded w tmpname l.name localfolderid syncid filename with
      | (false, w) =>
        exit_err0 .err0 { w with localscan := w.localscan ++ [.resume_localscan] } l
      | (true, w) =>
        match stat_and_create_local w (env.stat_name .downloaded) syncid fileid localfolderid
            filename env.localhashhex env.serversize env.hash with
        | none => exit_err0 .err0 { w with localscan := w.localscan ++ [.resume_localscan] } l
        | some w =>
          let w : download_state :=
            { w with localscan := w.localscan ++ [.resume_localscan],
                     events := w.events ++
                       [{ event := .PEVENT_FILE_DOWNLOAD_FINISHED, syncid := syncid,
                          localpath := l.name, remoteid := fileid }] }
          let w := task_dec_counter w l.current_counter l.addedsize l.downloadedsize
            l.downloadingcounted
          let w := unlock_file w l.name
          let w : download_state :=
            match l.tmpold with
            | some tmpold => { w with fs := w.fs ++ [fs_op.file_delete tmpold] }
            | none => w
          { ret := 0, exit := .finished, state := w }

/-- Lines 644-653 of `task_download_file`: a temp file left by an earlier run
is kept under the name `tmpold` for the range planner. -/
def rescue_tmpold (cfg : psync_settings) (env : download_env) (w : download_state)
    (l : download_locals) (localpath tmpname filename : String) :
    download_state × download_locals :=
  if env.serversize ≥ cfg.PSYNC_MIN_SIZE_FOR_CHECKSUMS then
    match env.stat_tmpname with
    | some st =>
      if st.size ≥ cfg.PSYNC_MIN_SIZE_FOR_CHECKSUMS then
        let tmpold := localpath ++ cfg.PSYNC_DIRECTORY_SEPARATOR ++ filename ++ "-old"
          ++ cfg.PSYNC_APPEND_PARTIAL_FILES
        ({ w with fs := w.fs ++ [fs_op.file_rename_overwrite tmpname tmpold env.rename_tmpold] },
         if env.rename_tmpold then { l with tmpold := some tmpold } else l)
      else (w, l)
    | none => (w, l)
  else (w, l)

/-- Lines 643-736 of `task_download_file`: the rescue of an old temp file, the
opening of the temp file, the range plan and its execution. -/
def download_execute (cfg : psync_settings) (env : download_env) (w : download_state)
    (l : download_locals) (localpath tmpname : String) (localsize : Nat)
    (syncid fileid localfolderid : Nat) (filename : String) (dwl : Nat) : download_result :=
  match rescue_tmpold cfg env w l localpath tmpname filename with
  | (w, l) =>
    let w : download_state :=
      { w with fs := w.fs ++ [fs_op.file_open_trunc tmpname env.file_open] }
    if env.file_open = false then exit_err0 .err0 w l
    else
      let oldfiles : List String :=
        if env.serversize ≥ cfg.PSYNC_MIN_SIZE_FOR_CHECKSUMS then
          l.tmpold.toList
            ++ (if localsize ≥ cfg.PSYNC_MIN_SIZE_FOR_CHECKSUMS then [l.name] else [])
        else []
      let w : download_state :=
        { w with net := w.net ++ [net_op.net_download_ranges fileid oldfiles] }
      if env.download_ranges = .PSYNC_NET_TEMPFAIL then exit_err1 .err1 w l syncid fileid
      else
        match ranges_loop env dwl env.ranges w l.downloadedsize with
        | (false, w, downloadedsize) =>
          exit_err1 .err2 w { l with downloadedsize := downloadedsize } syncid fileid
        | (true, w, downloadedsize) =>
          download_finish env w { l with downloadedsize := downloadedsize } tmpname syncid
            fileid localfolderid filename dwl

/-- Lines 620-641 of `task_download_file`: the request `getfilelink`. -/
def download_request (cfg : psync_settings) (env : download_env) (w : download_state)
    (l : download_locals) (localpath tmpname : String) (localsize : Nat)
    (syncid fileid localfolderid : Nat) (filename : String) (dwl : Nat) : download_result :=
  if env.apipool_get = false then exit_err_sl_ex w l
  else
    let w : download_state := { w with net := w.net ++ [net_op.getfilelink fileid] }
    match env.getfilelink with
    | none => exit_err_sl_ex w l
    | some result =>
      if result ≠ 0 then
        if env.handle_api_result = .PSYNC_NET_TEMPFAIL then exit_err0 .err0 w l
        else exit_ret0 w l
      else
        download_execute cfg env w l localpath tmpname localsize syncid fileid localfolderid
          filename dwl

/-- Lines 588-619 of `task_download_file`: the event
`PEVENT_FILE_DOWNLOAD_STARTED`, the step from `starting` to `started`, and the
peer-to-peer download.  `localhashhex` is the content of the buffer of that
name. -/
def download_start (cfg : psync_settings) (env : download_env) (w : download_state)
    (l : download_locals) (localpath : String) (localsize : Nat) (localhashhex : String)
    (syncid fileid localfolderid : Nat) (filename : String) (dwl : Nat) : download_result :=
  let w : download_state :=
    { w with events := w.events ++
        [{ event := .PEVENT_FILE_DOWNLOAD_STARTED, syncid := syncid, localpath := l.name,
           remoteid := fileid }] }
  let w := promotion w env.serversize
  let l : download_locals :=
    { l with addedsize := env.serversize, current_counter := some .started_downloads }
  let tmpname := localpath ++ cfg.PSYNC_DIRECTORY_SEPARATOR ++ filename
    ++ cfg.PSYNC_APPEND_PARTIAL_FILES
  if env.serversize ≥ cfg.PSYNC_MIN_SIZE_FOR_P2P then
    let w : download_state := { w with net := w.net ++ [net_op.p2p_check_download fileid] }
    match env.p2p_check_download with
    | .PSYNC_NET_OK =>
      let w : download_state :=
        { w with fs := w.fs ++ [fs_op.p2p_download tmpname],
                 localscan := w.localscan ++ [.stop_localscan] }
      match rename_if_notex env .p2p w tmpname l.name localfolderid syncid filename with
      | (false, w) =>
        exit_err_sl_ex { w with localscan := w.localscan ++ [.resume_localscan] } l
      | (true, w) =>
        match stat_and_create_local w (env.stat_name .p2p) syncid fileid localfolderid
            filename localhashhex env.serversize env.hash with
        | none => exit_err_sl_ex { w with localscan := w.localscan ++ [.resume_localscan] } l
        | some w => exit_ret0 { w with localscan := w.localscan ++ [.resume_localscan] } l
    | .PSYNC_NET_TEMPFAIL => exit_err_sl_ex w l
    | .PSYNC_NET_PERMFAIL =>
      download_request cfg env w l localpath tmpname localsize syncid fileid localfolderid
        filename dwl
  else
    download_request cfg env w l localpath tmpname localsize syncid fileid localfolderid
      filename dwl

/-- The loop of lines 564-582 over the ids the query by `(size, checksum)`
returned: the first local file that can be copied and recorded ends the loop
with `true` (`goto ret0`). -/
def local_copy_loop (env : download_env) (name : String) (syncid fileid localfolderid : Nat)
    (filename : String) : List Nat → download_state → Bool × download_state
  | [], w => (false, w)
  | id :: ids, w =>
    match env.local_file_path id with
    | none => local_copy_loop env name syncid fileid localfolderid filename ids w
    | some tmpname =>
      let ok := decide (env.copy_local_file id = .PSYNC_NET_OK)
      let w : download_state := { w with fs := w.fs ++ [fs_op.copy_local_file tmpname name ok] }
      if ok then
        match stat_and_create_local w (env.stat_name (.local_copy id)) syncid fileid
            localfolderid filename env.serverhashhex env.serversize env.hash with
        | some w => (true, w)
        | none => local_copy_loop env name syncid fileid localfolderid filename ids w
      else local_copy_loop env name syncid fileid localfolderid filename ids w

/-- Lines 511-586 of `task_download_file`: the free-space check and the three
ways to do without a download.  `uninit` is the content of the buffer
`localhashhex` before anything is written to it. -/
def download_local (cfg : psync_settings) (env : download_env) (w : download_state)
    (l : download_locals) (localpath : String) (uninit : String)
    (syncid fileid localfolderid : Nat) (filename : String) (dwl : Nat) : download_result :=
  let checked : Bool := decide (env.minlocalfreespace ≠ 0) && decide (env.freespace ≠ -1)
  if checked ∧ ¬ (U64 env.freespace ≥ U64 ((env.minlocalfreespace : Int) + env.serversize)) then
    { ret := -1, exit := .return_525,
      state := task_dec_counter (unlock_file { w with local_full := true } l.name)
        l.current_counter l.addedsize l.downloadedsize l.downloadingcounted }
  else
    let w : download_state := if checked then { w with local_full := false } else w
    match w.localfile.find? (fun r => r.size = env.serversize ∧ r.checksum = env.serverhashhex
        ∧ r.localparentfolderid = localfolderid ∧ r.syncid = syncid ∧ r.name = filename) with
    | some row =>
      if row.fileid ≠ fileid ∨ row.hash ≠ env.hash then
        exit_ret0 { w with localfile := w.localfile.map (fun r =>
          if r.id = row.id then { r with fileid := fileid, hash := env.hash } else r) } l
      else exit_ret0 w l
    | none =>
      let on_disk : Bool :=
        match env.local_checksum with
        | some (localhashhex, localsize) =>
          decide (localsize = env.serversize ∧ localhashhex = env.serverhashhex)
        | none => false
      if on_disk then
        match stat_and_create_local w (env.stat_name .on_disk) syncid fileid localfolderid
            filename env.serverhashhex env.serversize env.hash with
        | none => exit_err_sl_ex w l
        | some w => exit_ret0 w l
      else
        let localsize := (env.local_checksum.map (fun c => c.2)).getD 0
        let localhashhex := (env.local_checksum.map (fun c => c.1)).getD uninit
        match local_copy_loop env l.name syncid fileid localfolderid filename
            ((w.localfile.filter (fun r => r.size = env.serversize
              ∧ r.checksum = env.serverhashhex)).map (fun r => r.id)) w with
        | (true, w) => exit_ret0 w l
        | (false, w) =>
          if (read_stop env w dwl).1 then exit_ret0 (read_stop env w dwl).2 l
          else
            download_start cfg env (read_stop env w dwl).2 l localpath localsize localhashhex
              syncid fileid localfolderid filename dwl

/-- The call `task_download_file(syncid, fileid, localfolderid, filename, dwl)`,
`dwl` being the position of the element in `downloads`; `none` when the
download waits for admission (lines 500-505) with nobody to wake it. -/
def task_download_file (cfg : psync_settings) (env : download_env) (w : download_state)
    (uninit : String) (syncid fileid localfolderid : Nat) (filename : String) (dwl : Nat) :
    Option download_result :=
  match env.localpath with
  | none => some { ret := 0, exit := .return_481, state := w }
  | some localpath =>
    let name := localpath ++ cfg.PSYNC_DIRECTORY_SEPARATOR ++ filename
    if env.lock_file = false then some { ret := -1, exit := .return_489, state := w }
    else
      let w : download_state :=
        { w with locks := name :: w.locks,
                 net := w.net ++ [net_op.get_remote_file_checksum fileid] }
      let l : download_locals :=
        { name := name, current_counter := none, addedsize := 0, downloadedsize := 0,
          downloadingcounted := false, tmpold := none }
      match env.remote_checksum with
      | .PSYNC_NET_TEMPFAIL => some (exit_err_sl_ex w l)
      | .PSYNC_NET_PERMFAIL => some (exit_ret0 w l)
      | .PSYNC_NET_OK =>
        let w : download_state :=
          { w with downloads :=
              List.modify (fun d => { d with hash := env.serverhashhex }) dwl w.downloads }
        match admission cfg w with
        | none => none
        | some w =>
          some (download_local cfg env w
            { l with current_counter := some .starting_downloads, downloadingcounted := true }
            localpath uninit syncid fileid localfolderid filename dwl)

/-! ### The lifecycle of the admission counters -/

/-- The admission counters together with the counters the downloads in flight
hold (the local variable `current_counter` of each running
`task_download_file`). -/
structure download_lifecycle where
  state : download_state
  held : List download_counter
deriving DecidableEq, Repr

/-- The critical sections that change the admission counters and the byte
counts: a download passes the admission loop (lines 499-510), moves from
`starting` to `started` (lines 589-597), receives a chunk (lines 688-692 and
724-728), or leaves through `task_dec_counter` with the counter it holds
(`none` for a download that has not passed the admission loop). -/
inductive lifecycle_step where
  | enter
  | promote (serversize : Nat)
  | chunk (rd : Int)
  | release (cnt : Option download_counter) (filesize downloadedsize : Nat)
deriving DecidableEq, Repr

/-- One step of the lifecycle; `none` when the step cannot be taken: the
admission loop waits, or no download in flight holds the counter the step
needs. -/
def lifecycle_step.run (cfg : psync_settings) :
    lifecycle_step → download_lifecycle → Option download_lifecycle
  | .enter, s =>
    (admission cfg s.state).map
      (fun w => { state := w, held := download_counter.starting_downloads :: s.held })
  | .promote serversize, s =>
    if download_counter.starting_downloads ∈ s.held then
      some { state := promotion s.state serversize,
             held := download_counter.started_downloads ::
               s.held.erase download_counter.starting_downloads }
    else none
  | .chunk rd, s =>
    some { s with state :=
      { s.state with bytesdownloaded := U64 ((s.state.bytesdownloaded : Int) + rd) } }
  | .release none filesize downloadedsize, s =>
    some { s with state := task_dec_counter s.state none filesize downloadedsize false }
  | .release (some c) filesize downloadedsize, s =>
    if c ∈ s.held then
      some { state := task_dec_counter s.state (some c) filesize downloadedsize true,
             held := s.held.erase c }
    else none

/-- A sequence of lifecycle steps. -/
def lifecycle_run (cfg : psync_settings) :
    List lifecycle_step → download_lifecycle → Option download_lifecycle
  | [], s => some s
  | a :: steps, s => (a.run cfg s).bind (lifecycle_run cfg steps)

/-- Number of events of type `t` in a list of events. -/
def count_events (t : psync_eventtype_t) (evs : List psync_event) : Nat :=
  (evs.filter (fun e => e.event = t)).length

/-- The value a read of `dwl->stop` gives when `n` reads were made before. -/
def stop_value (env : download_env) (w : download_state) (dwl : Nat) (n : Nat) : Bool :=
  decide ((w.downloads[dwl]?.map (fun d => d.stop)).getD 0 ≠ 0) || env.stop_set n

/-- The invariant of the lifecycle: `starting_downloads` counts the downloads
in flight that hold it and is at most 1, `started_downloads` is a 64-bit word,
the two counters add up to at most `PSYNC_MAX_PARALLEL_DOWNLOADS`, and, that
constant being a 64-bit word, `started_downloads` counts the downloads in
flight that hold it. -/
def LifecycleInv (cfg : psync_settings) (s : download_lifecycle) : Prop :=
  s.state.starting_downloads = s.held.count download_counter.starting_downloads
  ∧ s.state.starting_downloads ≤ 1
  ∧ s.state.started_downloads < 18446744073709551616
  ∧ s.state.starting_downloads + s.state.started_downloads ≤ cfg.PSYNC_MAX_PARALLEL_DOWNLOADS
  ∧ (cfg.PSYNC_MAX_PARALLEL_DOWNLOADS < 18446744073709551616 →
      s.state.started_downloads = s.held.count download_counter.started_downloads)

/-- What a run reports of its end in the events `evs` it sends: one
`PEVENT_FILE_DOWNLOAD_FAILED` exactly when it leaves through `err1` or `err2`,
one `PEVENT_FILE_DOWNLOAD_FINISHED` exactly when it leaves through the final
`return 0`; and the value returned at each exit. -/
def EventsOk (evs : List psync_event) (r : download_result) : Prop :=
  count_events .PEVENT_FILE_DOWNLOAD_FAILED evs = (if r.exit = .err1 ∨ r.exit = .err2 then 1 else 0)
  ∧ count_events .PEVENT_FILE_DOWNLOAD_FINISHED evs = (if r.exit = .finished then 1 else 0)
  ∧ r.ret = (if r.exit = .return_481 ∨ r.exit = .ret0 ∨ r.exit = .finished then 0 else -1)

/-- The outcome of a cancelled run that started in the state `w`: it left
through the cancellation branch and returned `-1`, it deleted `tmpname` and
renamed nothing to `name`, and `localfile` is as in `w`. -/
def Cancelled (w : download_state) (tmpname name : String) (r : download_result) : Prop :=
  r.exit = .cancelled ∧ r.ret = -1
  ∧ (∃ ops, r.state.fs = w.fs ++ ops ∧ fs_op.file_delete tmpname ∈ ops
      ∧ ∀ oldname ok, fs_op.file_rename_overwrite oldname name ok ∉ ops)
  ∧ r.state.localfile = w.localfile

/-- Some read of `dwl->stop` with at least `lo` reads before it, made before
the run ended in `r`, gave `true`. -/
def Observed (env : download_env) (w : download_state) (dwl : Nat) (lo : Nat)
    (r : download_result) : Prop :=
  ∃ n, lo ≤ n ∧ n < r.state.stop_reads ∧ stop_value env w dwl n = true

/-- Settings used in the examples. -/
def example_settings : psync_settings :=
  { PSYNC_MAX_PARALLEL_DOWNLOADS := 2, PSYNC_START_NEW_DOWNLOADS_TRESHOLD := 100,
    PSYNC_MIN_SIZE_FOR_P2P := 1000, PSYNC_MIN_SIZE_FOR_CHECKSUMS := 1000,
    PSYNC_DIRECTORY_SEPARATOR := "/", PSYNC_APPEND_PARTIAL_FILES := ".part" }

/-- The element of `downloads` used in the examples: file 7 of sync 1, not
stopped. -/
def example_dwl : download_list_t := { fileid := 7, syncid := 1, stop := 0, hash := "" }

/-- An environment used in the examples: the folder is "/s", every call
succeeds, no local file can serve, and the server sends the 3 bytes of the
file in one chunk of one transfer. -/
def example_env : download_env :=
  { localpath := some "/s", lock_file := true, remote_checksum := .PSYNC_NET_OK,
    serverhashhex := "abc", serversize := 3, hash := 5, minlocalfreespace := 0, freespace := 0,
    local_checksum := none, local_file_path := fun _ => none,
    copy_local_file := fun _ => .PSYNC_NET_PERMFAIL,
    stat_name := fun _ => some { size := 3, inode := 1, mtime := 1, mtimenative := 1 },
    target_checksum := fun _ => none, is_revision_of_file := fun _ => (.PSYNC_NET_OK, true),
    rename_overwrite := fun _ => true, p2p_check_download := .PSYNC_NET_PERMFAIL,
    apipool_get := true, getfilelink := some 0, handle_api_result := .PSYNC_NET_PERMFAIL,
    stat_tmpname := none, rename_tmpold := true, file_open := true,
    download_ranges := .PSYNC_NET_OK,
    ranges := [.transfer 0 3 true [{ rd := 3, write_ok := true, statuses_ok := true }]],
    file_sync := true, file_close := true, localhashhex := "abc", stop_set := fun _ => false }

/-! ## Download tasks: the task table, the per-file thread, cancellation

The table `task` is a list of rows.  The element `dwllist` of a
`download_task_t` is linked into the list `downloads`; a pointer to it is its
position in the list.  `psync_status_recalc_to_download`,
`psync_send_status_update` and the sleeps have no effect on the state
modelled. -/

/-- A row of `task(id, type, syncid, itemid, localitemid, newitemid, name,
newsyncid, inprogress)`. -/
structure task_row where
  id : Nat
  type : Nat
  syncid : Nat
  itemid : Nat
  localitemid : Nat
  newitemid : Nat
  name : String
  newsyncid : Nat
  inprogress : Nat
deriving DecidableEq, Repr

/-- The constants of `ptasks.h` the download worker uses; the header is not
part of the sources. -/
structure task_consts where
  PSYNC_TASK_DWLUPL_MASK : Nat
  PSYNC_TASK_DOWNLOAD : Nat
  PSYNC_DOWNLOAD_FILE : Nat
deriving DecidableEq, Repr

/-- A `download_task_t`: the task id, the position in `downloads` of the
embedded element `dwllist` (which carries `fileid`, `syncid`, `stop` and
`hash`), the local folder and the file name. -/
structure download_task_t where
  taskid : Nat
  dwllist : Nat
  localfolderid : Nat
  filename : String
deriving DecidableEq, Repr

/-- The state of the download thread: the state of the downloads, the table
`task`, the counter `download_wakes`, and the threads started with
`psync_run_thread1("download file", task_run_download_file_thread, dt)`. -/
structure sync_state where
  download : download_state
  task : List task_row
  download_wakes : Nat
  threads : List download_task_t
deriving DecidableEq, Repr

/-- The call `psync_delete_download_tasks_for_file(fileid)`. -/
def psync_delete_download_tasks_for_file (c : task_consts) (s : sync_state) (fileid : Nat) :
    sync_state :=
  { s with
    task := s.task.filter (fun r => ¬ (r.type = c.PSYNC_DOWNLOAD_FILE ∧ r.itemid = fileid)),
    download := { s.download with
      downloads := s.download.downloads.map (fun dwl =>
        if dwl.fileid = fileid then { dwl with stop := 1 } else dwl) } }

/-- The call `psync_stop_file_download(fileid, syncid)`. -/
def psync_stop_file_download (s : sync_state) (fileid syncid : Nat) : sync_state :=
  { s with
    download := { s.download with
      downloads := s.download.downloads.map (fun dwl =>
        if dwl.fileid = fileid ∧ dwl.syncid = syncid then { dwl with stop := 1 } else dwl) } }

/-- The call `psync_stop_sync_download(syncid)`. -/
def psync_stop_sync_download (c : task_consts) (s : sync_state) (syncid : Nat) : sync_state :=
  { s with
    task := s.task.filter (fun r => ¬ (r.syncid = syncid
      ∧ Nat.land r.type c.PSYNC_TASK_DWLUPL_MASK = c.PSYNC_TASK_DOWNLOAD)),
    download := { s.download with
      downloads := s.download.downloads.map (fun dwl =>
        if dwl.syncid = syncid then { dwl with stop := 1 } else dwl) } }

/-- The call `psync_stop_all_download()`. -/
def psync_stop_all_download (s : sync_state) : sync_state :=
  { s with
    download := { s.download with
      downloads := s.download.downloads.map (fun dwl => { dwl with stop := 1 }) } }

/-! ## Deletion of a local file (`task_delete_file`) -/

/-- The error codes of `pcompat.h` the tasks compare `psync_fs_err()` with; the
header is not part of the sources. -/
structure fs_errs where
  P_NOSPC : Int
  P_DQUOT : Int
  P_BUSY : Int
  P_ROFS : Int
  P_NOENT : Int
  P_EXIST : Int
  P_NOTEMPTY : Int
  P_NOTDIR : Int
deriving DecidableEq, Repr

/-- The call `task_wait_no_downloads()`: `none` while a download is starting
or started. -/
def task_wait_no_downloads (w : download_state) : Option download_state :=
  if w.starting_downloads ≠ 0 ∨ w.started_downloads ≠ 0 then none else some w

/-- What the outside world answers during `task_delete_file`, by the id of the
`localfile` row. -/
structure delete_env where
  /-- Result of `psync_local_path_for_local_file(id)`, `none` for `NULL`. -/
  local_file_path : Nat → Option String
  /-- Result of `psync_file_delete(name)`: `none` when it returns 0, otherwise
  the value of `psync_fs_err()`. -/
  file_delete : Nat → Option Int

/-- One pass of the loop of lines 828-847, on the row `row` of the query; the
first component is the variable `ret`. -/
def task_delete_file_row (errs : fs_errs) (denv : delete_env) (fileid : Nat)
    (acc : Int × download_state) (row : localfile_row) : Int × download_state :=
  match denv.local_file_path row.id with
  | some name =>
    let w : download_state := { acc.2 with fs := acc.2.fs ++ [fs_op.file_delete name] }
    if (denv.file_delete row.id).isSome
        ∧ (denv.file_delete row.id = some errs.P_BUSY
          ∨ denv.file_delete row.id = some errs.P_ROFS) then
      (-1, w)
    else
      (acc.1,
       { w with
         events := w.events ++
           [{ event := .PEVENT_LOCAL_FILE_DELETED, syncid := row.syncid, localpath := name,
              remoteid := fileid }],
         localfile := w.localfile.filter (fun r => r.id ≠ row.id) })
  | none =>
    (acc.1, { acc.2 with localfile := acc.2.localfile.filter (fun r => r.id ≠ row.id) })

/-- The call `task_delete_file(syncid, fileid, remotepath)`; the event sent
with `psync_send_event_by_path` is recorded without `remotepath`. -/
def task_delete_file (errs : fs_errs) (denv : delete_env) (w : download_state)
    (syncid fileid : Nat) : Option (Int × download_state) :=
  match task_wait_no_downloads w with
  | none => none
  | some w =>
    let rows := w.localfile.filter (fun r =>
      r.fileid = fileid ∧ (syncid = 0 ∨ r.syncid = syncid))
    let w : download_state := { w with localscan := w.localscan ++ [.restart_localscan] }
    some (rows.foldl (task_delete_file_row errs denv fileid) (0, w))

/-! ## Rename of a local folder (`task_renamedir`) -/

/-- An entry `psync_pstat` handed to the callback of `psync_list_dir`: the
name of the entry and whether it is a folder. -/
structure psync_pstat where
  name : String
  isfolder : Bool
deriving DecidableEq, Repr

/-- Calls that change directories: `psync_rendir`, `psync_file_rename`,
`psync_rmdir_with_trashes`, `psync_rename_conflicted_file` and
`psync_set_local_full`. -/
inductive dir_op where
  | rendir (oldpath newpath : String)
  | file_rename (oldpath newpath : String)
  | rmdir_with_trashes (path : String)
  | rename_conflicted_file (path : String)
  | set_local_full (over : Bool)
deriving DecidableEq, Repr

/-- What one pass of the loop of `task_renamedir` meets: the result of
`psync_rendir(oldpath, newpath)` (`none` when it returns 0, otherwise the value
of `psync_fs_err()`), the result of `psync_stat(newpath)` (`none` when it
fails, otherwise whether `newpath` is a folder) and whether
`psync_rename_conflicted_file(newpath)` succeeds. -/
structure rendir_pass where
  rendir : Option Int
  stat_newpath : Option Bool
  rename_conflicted : Bool
deriving DecidableEq, Repr

/-- The callback `do_move(ptr, st)` with `arr[0] = oldpath`, `arr[1] = newpath`. -/
def do_move (oldpath newpath : String) (log : List dir_op) (st : psync_pstat) : List dir_op :=
  if st.isfolder then log ++ [dir_op.rendir (oldpath ++ st.name) (newpath ++ st.name)]
  else log ++ [dir_op.file_rename (oldpath ++ st.name) (newpath ++ st.name)]

/-- The call `move_folder_contents(oldpath, newpath)`; `children` is what
`psync_list_dir(oldpath, …)` lists and `rmdir` the value
`psync_rmdir_with_trashes(oldpath)` returns. -/
def move_folder_contents (children : List psync_pstat) (rmdir : Int)
    (oldpath newpath : String) (log : List dir_op) : Int × List dir_op :=
  (rmdir, children.foldl (do_move oldpath newpath) log ++ [dir_op.rmdir_with_trashes oldpath])

/-- The call `task_renamedir(oldpath, newpath)` over the passes of its loop;
`none` when the passes given are used up before the loop is left. -/
def task_renamedir (errs : fs_errs) (children : List psync_pstat) (rmdir : Int)
    (oldpath newpath : String) : List rendir_pass → List dir_op → Option (Int × List dir_op)
  | [], _ => none
  | p :: passes, log =>
    let log := log ++ [dir_op.rendir oldpath newpath]
    match p.rendir with
    | none => some (0, log ++ [dir_op.set_local_full false])
    | some err =>
      if err = errs.P_NOSPC ∨ err = errs.P_DQUOT then
        task_renamedir errs children rmdir oldpath newpath passes
          (log ++ [dir_op.set_local_full true])
      else
        let log := log ++ [dir_op.set_local_full false]
        if err = errs.P_BUSY ∨ err = errs.P_ROFS then some (-1, log)
        else if err = errs.P_NOENT then some (0, log)
        else if err = errs.P_EXIST ∨ err = errs.P_NOTEMPTY ∨ err = errs.P_NOTDIR then
          match p.stat_newpath with
          | none => some (-1, log)
          | some true => some (move_folder_contents children rmdir oldpath newpath log)
          | some false =>
            let log := log ++ [dir_op.rename_conflicted_file newpath]
            if p.rename_conflicted then
              task_renamedir errs children rmdir oldpath newpath passes log
            else some (-1, log)
        else some (-1, log)

/-! ## Recursive deletion of a local folder (`task_del_folder_rec`) -/

/-- A row of `localfolder`, as far as the deletion reads it. -/
structure localfolder_row where
  id : Nat
  syncid : Nat
  localparentfolderid : Nat
  name : String
deriving DecidableEq, Repr

/-- A row of `syncedfolder`, as far as the deletion reads it. -/
structure syncedfolder_row where
  syncid : Nat
  localfolderid : Nat
deriving DecidableEq, Repr

/-- Calls to the SQL layer that are recorded: `psync_sql_start_transaction`,
`psync_sql_commit_transaction` and `psync_sql_unlock`. -/
inductive sql_op where
  | start_transaction
  | commit_transaction
  | unlock
deriving DecidableEq, Repr

/-- The state the recursive deletion works on: the state of the downloads
(with `localfile`, the file system log and the calls to the local scanner),
the tables `localfolder` and `syncedfolder`, the calls
`psync_delete_upload_tasks_for_file`, the recorded SQL calls and the calls
`psync_rmdir_with_trashes`. -/
structure folder_state where
  download : download_state
  localfolder : List localfolder_row
  syncedfolder : List syncedfolder_row
  upload_deletes : List Nat
  sql : List sql_op
  rmdirs : List String
deriving DecidableEq, Repr

/-- The call `task_del_folder_rec_do(localpath, localfolderid, syncid)`; the
first argument bounds the depth of the recursion, `none` when it is used up. -/
def task_del_folder_rec_do (sep : String) :
    Nat → String → Nat → Nat → folder_state → Option folder_state
  | 0, _, _, _, _ => none
  | depth + 1, localpath, localfolderid, syncid, s =>
    let files := s.download.localfile.filter (fun r =>
      r.localparentfolderid = localfolderid ∧ r.syncid = syncid)
    let s : folder_state :=
      files.foldl (fun s r =>
        { s with upload_deletes := s.upload_deletes ++ [r.id],
                 download := { s.download with
                   fs := s.download.fs ++ [fs_op.file_delete (localpath ++ sep ++ r.name)] } }) s
    let s : folder_state :=
      { s with download := { s.download with
          localfile := s.download.localfile.filter (fun r =>
            ¬ (r.localparentfolderid = localfolderid ∧ r.syncid = syncid)) } }
    let folders := s.localfolder.filter (fun r =>
      r.localparentfolderid = localfolderid ∧ r.syncid = syncid)
    match folders.foldlM (fun s r =>
        task_del_folder_rec_do sep depth (localpath ++ sep ++ r.name) r.id syncid s) s with
    | none => none
    | some s =>
      some { s with
        localfolder := s.localfolder.filter (fun r =>
          ¬ (r.localparentfolderid = localfolderid ∧ r.syncid = syncid)),
        syncedfolder := s.syncedfolder.filter (fun r =>
          ¬ (r.localfolderid = localfolderid ∧ r.syncid = syncid)) }

/-- The call `task_del_folder_rec(localfolderid, folderid, syncid)`;
`localpath` is the result of `psync_local_path_for_local_folder`, `none` for
`NULL`.  The result is `none` while downloads are in flight or when the depth
given is used up. -/
def task_del_folder_rec (sep : String) (localpath : Option String) (depth : Nat)
    (localfolderid syncid : Nat) (s : folder_state) : Option (Int × folder_state) :=
  match task_wait_no_downloads s.download with
  | none => none
  | some _ =>
    let s : folder_state :=
      { s with download := { s.download with
          localscan := s.download.localscan ++ [.stop_localscan] } }
    match localpath with
    | none => some (0, { s with sql := s.sql ++ [.unlock] })
    | some localpath =>
      let s : folder_state := { s with sql := s.sql ++ [.start_transaction] }
      match task_del_folder_rec_do sep depth localpath localfolderid syncid s with
      | none => none
      | some s =>
        some (0, { s with
          localfolder := s.localfolder.filter (fun r =>
            ¬ (r.id = localfolderid ∧ r.syncid = syncid)),
          sql := s.sql ++ [.commit_transaction],
          rmdirs := s.rmdirs ++ [localpath],
          download := { s.download with
            localscan := s.download.localscan ++ [.resume_localscan] } })

/-- Error codes used in the examples (the values of `errno.h` on Linux). -/
def example_errs : fs_errs :=
  { P_NOSPC := 28, P_DQUOT := 122, P_BUSY := 16, P_ROFS := 30, P_NOENT := 2, P_EXIST := 17,
    P_NOTEMPTY := 39, P_NOTDIR := 20 }

/-! ## Definitions used in the statements on the download worker and the tasks -/

/-- The three admission counters of a state: `starting_downloads`,
`started_downloads` and `filesdownloading`. -/
def counters (w : download_state) : Nat × Nat × Nat :=
  (w.starting_downloads, w.started_downloads, w.filesdownloading)

/-- No read of `dwl->stop` gives `true`: the flag of the element is not set
and no other thread sets it. -/
def NeverStopped (env : download_env) (w : download_state) (dwl : Nat) : Prop :=
  ∀ n, stop_value env w dwl n = false

/-- No read of `dwl->stop` made by the run that started in `w` and ended in
`r` gave `true`: the stop flag was not observed. -/
def Unobserved (env : download_env) (w : download_state) (dwl : Nat)
    (r : download_result) : Prop :=
  ∀ n, w.stop_reads ≤ n → n < r.state.stop_reads → stop_value env w dwl n = false

/-- The execution of the range plan `ranges` ends in `goto err2` (a failed
connection, a failed open or seek of a local file, a read error, a failed write
or a failed status check, lines 671-736) when `dwl->stop` is not observed: the
result of `ranges_loop` with no element in `downloads` and no other thread
setting the flag. -/
def plan_fails (env : download_env) (ranges : List psync_range_list_t) : Prop :=
  (ranges_loop { env with stop_set := fun _ => false } 0 ranges
    (download_state.init [] []) 0).1 = false

instance (env : download_env) (ranges : List psync_range_list_t) :
    Decidable (plan_fails env ranges) :=
  inferInstanceAs (Decidable (_ = false))

/-- What a run that started in the state `w` does once it has opened the temp
file `tmpname`, in the calls `ops` it adds to the log of the file system.  The
temp file is deleted only after a read of `dwl->stop` gave `true`.  If the temp
file was opened: the run does not leave by the `return` of line 481 or by
`ret0`; it leaves by `err1` when the range planner fails temporarily; with the
flag not observed and the planner not failing temporarily it leaves by `err2` when
the plan fails or `psync_file_sync` fails; and when the checksums differ it does
not reach the final `return 0`, leaves `localfile` as it was, renames nothing
onto `name`, and deletes `tmpold` if it renamed the temp file to it. -/
def AfterOpen (env : download_env) (w : download_state) (dwl : Nat)
    (tmpname name tmpold : String) (r : download_result) : Prop :=
  ∃ ops, r.state.fs = w.fs ++ ops
    ∧ (fs_op.file_delete tmpname ∈ ops → Observed env w dwl w.stop_reads r)
    ∧ (fs_op.file_open_trunc tmpname true ∈ ops →
        r.exit ≠ .return_481 ∧ r.exit ≠ .ret0
        ∧ (env.download_ranges = .PSYNC_NET_TEMPFAIL → r.exit = .err1)
        ∧ (Unobserved env w dwl r → env.download_ranges ≠ .PSYNC_NET_TEMPFAIL →
            plan_fails env env.ranges ∨ env.file_sync = false → r.exit = .err2)
        ∧ (env.localhashhex ≠ env.serverhashhex →
            r.exit ≠ .finished
            ∧ r.state.localfile = w.localfile
            ∧ (∀ oldname ok, fs_op.file_rename_overwrite oldname name ok ∉ ops)
            ∧ (fs_op.file_rename_overwrite tmpname tmpold true ∈ ops →
                fs_op.file_delete tmpold ∈ ops)))

/-- The list `after` is the list `before` with the flag `stop` set to 1 on the
elements that satisfy `p` and on no other: same length, and at every position
the same `fileid`, `syncid` and `hash`, `stop = 1` where `p` holds, `stop`
unchanged where it does not; a flag that was set stays set. -/
def StopsExactly (p : download_list_t → Prop) (before after : List download_list_t) : Prop :=
  after.length = before.length
  ∧ ∀ (i : Nat) (dwl : download_list_t), before[i]? = some dwl →
      ∃ dwl1 : download_list_t, after[i]? = some dwl1
        ∧ dwl1.fileid = dwl.fileid ∧ dwl1.syncid = dwl.syncid ∧ dwl1.hash = dwl.hash
        ∧ (p dwl → dwl1.stop = 1) ∧ (¬ p dwl → dwl1.stop = dwl.stop)
        ∧ (dwl.stop ≠ 0 → dwl1.stop ≠ 0)

/-- The deletion of the file of the row `r` fails with `P_BUSY` or `P_ROFS`:
the path of the row resolves and `psync_file_delete` fails with one of the two
codes. -/
def delete_busy (errs : fs_errs) (denv : delete_env) (r : localfile_row) : Prop :=
  (denv.local_file_path r.id).isSome
  ∧ (denv.file_delete r.id = some errs.P_BUSY ∨ denv.file_delete r.id = some errs.P_ROFS)

instance (errs : fs_errs) (denv : delete_env) (r : localfile_row) :
    Decidable (delete_busy errs denv r) :=
  inferInstanceAs (Decidable ((denv.local_file_path r.id).isSome
    ∧ (denv.file_delete r.id = some errs.P_BUSY ∨ denv.file_delete r.id = some errs.P_ROFS)))

/-- A step on the overlay store: one of the calls of `Call`, or the replay of
one row of `fstask` by its initialiser. -/
inductive StoreStep where
  | call (c : Call)
  | init_task (row : fstask_row)
deriving DecidableEq, Repr

/-- The state after one step. -/
def StoreStep.run (cmp : String → String → Int) (s : State) : StoreStep → State
  | .call c => c.run cmp s
  | .init_task row => { s with folders := psync_init_task cmp s.folders row }

/-- The state after a sequence of steps. -/
def run_steps (cmp : String → String → Int) (s : State) (steps : List StoreStep) : State :=
  steps.foldl (StoreStep.run cmp) s

/-- The number of entries of a folder. -/
def folder_entries (f : psync_fstask_folder_t) : Nat :=
  f.mkdirs.length + f.rmdirs.length + f.creats.length + f.unlinks.length

/-- Every folder of the tree counts its entries. -/
def AllCountOk (fs : List psync_fstask_folder_t) : Prop := ∀ f ∈ fs, CountOk f

/-- A row of `localfile` used in the examples: the file "f" of folder 3 in sync
1, with the size and checksum of the example environment but the file id and
hash of an older revision. -/
def example_localfile_row : localfile_row :=
  { id := 1, syncid := 1, localparentfolderid := 3, name := "f", fileid := 6, hash := 4,
    size := 3, inode := 1, mtime := 1, mtimenative := 1, checksum := "abc" }

/-- Answers used in the examples of `task_delete_file`: the file of row 1 is
"/s/f" and its deletion fails with error 16 (`P_BUSY` of `example_errs`), the
file of any other row is "/t/f" and is deleted. -/
def example_delete_env : delete_env :=
  { local_file_path := fun id => some (if id = 1 then "/s/f" else "/t/f"),
    file_delete := fun id => if id = 1 then some 16 else none }

/-- An environment used in the examples: as `example_env`, for a file of 2000
bytes sent in one chunk whose accumulated checksum "xyz" is not the server's
"abc", with a temp file of 1500 bytes left by an earlier run. -/
def example_env_mismatch : download_env :=
  { example_env with
    serversize := 2000,
    stat_tmpname := some { size := 1500, inode := 2, mtime := 1, mtimenative := 1 },
    ranges := [.transfer 0 2000 true [{ rd := 2000, write_ok := true, statuses_ok := true }]],
    localhashhex := "xyz" }

/-- An environment used in the examples: as `example_env`, but no host answers
`psync_http_connect`. -/
def example_env_no_connect : download_env :=
  { example_env with ranges := [.transfer 0 3 false []] }

/-! ## Lemmas on the folder tree -/

theorem folder_lookup_key {fs : List psync_fstask_folder_t} {k : Int}
    {f : psync_fstask_folder_t} (h : folder_lookup fs k = some f) : f.folderid = k := by
  unfold folder_lookup at h
  have := List.find?_some h
  simpa using this

theorem folder_lookup_mem {fs : List psync_fstask_folder_t} {k : Int}
    {f : psync_fstask_folder_t} (h : folder_lookup fs k = some f) : f ∈ fs := by
  unfold folder_lookup at h
  exact List.mem_of_find?_eq_some h

theorem folder_deref_key (fs : List psync_fstask_folder_t) (k : Int) :
    (folder_deref fs k).folderid = k := by
  unfold folder_deref
  cases h : folder_lookup fs k with
  | none => rfl
  | some f => simpa using folder_lookup_key h

theorem folder_deref_of_lookup {fs : List psync_fstask_folder_t} {k : Int}
    {f : psync_fstask_folder_t} (h : folder_lookup fs k = some f) : folder_deref fs k = f := by
  simp [folder_deref, h]

theorem folder_lookup_update_self (k : Int) (g : psync_fstask_folder_t → psync_fstask_folder_t)
    (hg : ∀ f, (g f).folderid = f.folderid) (fs : List psync_fstask_folder_t) :
    folder_lookup (folder_update k g fs) k = (folder_lookup fs k).map g := by
  induction fs with
  | nil => rfl
  | cons f rest ih =>
    unfold folder_lookup at ih ⊢
    by_cases h : f.folderid = k
    · simp [folder_update, h, List.find?, hg]
    · simp [folder_update, h, List.find?, ih]

theorem folder_lookup_update_ne (k k' : Int)
    (g : psync_fstask_folder_t → psync_fstask_folder_t)
    (hg : ∀ f, (g f).folderid = f.folderid) (hk : k' ≠ k) (fs : List psync_fstask_folder_t) :
    folder_lookup (folder_update k g fs) k' = folder_lookup fs k' := by
  induction fs with
  | nil => rfl
  | cons f rest ih =>
    unfold folder_lookup at ih ⊢
    by_cases h : f.folderid = k
    · have h' : ¬ f.folderid = k' := by rw [h]; exact fun e => hk e.symm
      simp [folder_update, h, List.find?, hg, h', hk.symm]
    · by_cases h2 : f.folderid = k'
      · subst h2; simp [folder_update, h, List.find?]
      · simp [folder_update, h, List.find?, h2, ih]

theorem folder_update_update (k : Int) (g1 g2 : psync_fstask_folder_t → psync_fstask_folder_t)
    (hg : ∀ f, (g1 f).folderid = f.folderid) (fs : List psync_fstask_folder_t) :
    folder_update k g2 (folder_update k g1 fs) = folder_update k (fun f => g2 (g1 f)) fs := by
  induction fs with
  | nil => rfl
  | cons f rest ih =>
    by_cases h : f.folderid = k
    · simp [folder_update, h, hg]
    · simp [folder_update, h, ih]

theorem folder_update_id (k : Int) (g : psync_fstask_folder_t → psync_fstask_folder_t)
    (fs : List psync_fstask_folder_t) (hg : ∀ f ∈ fs, f.folderid = k → g f = f) :
    folder_update k g fs = fs := by
  induction fs with
  | nil => rfl
  | cons f rest ih =>
    by_cases h : f.folderid = k
    · simp [folder_update, h, hg f (List.mem_cons_self _ _) h]
    · simp [folder_update, h, ih (fun f' hf' => hg f' (List.mem_cons_of_mem _ hf'))]

theorem folder_update_of_lookup_none (k : Int)
    (g : psync_fstask_folder_t → psync_fstask_folder_t) (fs : List psync_fstask_folder_t)
    (h : folder_lookup fs k = none) : folder_update k g fs = fs := by
  apply folder_update_id
  intro f hf hk
  unfold folder_lookup at h
  have := List.find?_eq_none.mp h f hf
  simp [hk] at this

theorem folder_del_update (k : Int) (g : psync_fstask_folder_t → psync_fstask_folder_t)
    (hg : ∀ f, (g f).folderid = f.folderid) (fs : List psync_fstask_folder_t) :
    folder_del k (folder_update k g fs) = folder_del k fs := by
  induction fs with
  | nil => rfl
  | cons f rest ih =>
    by_cases h : f.folderid = k
    · simp [folder_update, folder_del, h, hg]
    · simp [folder_update, folder_del, h, ih]

theorem folder_lookup_add_self (nf : psync_fstask_folder_t) (fs : List psync_fstask_folder_t)
    (h : folder_lookup fs nf.folderid = none) :
    folder_lookup (folder_add nf fs) nf.folderid = some nf := by
  induction fs with
  | nil => simp [folder_add, folder_lookup, List.find?]
  | cons f rest ih =>
    unfold folder_lookup at ih h ⊢
    have hf : ¬ f.folderid = nf.folderid := by
      intro e; simp [List.find?, e] at h
    have hrest : List.find? (fun f => decide (f.folderid = nf.folderid)) rest = none := by
      simpa [List.find?, hf] using h
    by_cases hlt : I64 (nf.folderid - f.folderid) < 0
    · simp [folder_add, hlt, List.find?]
    · simp [folder_add, hlt, List.find?, hf, ih hrest]

theorem folder_lookup_add_ne (nf : psync_fstask_folder_t) (k' : Int) (hk : k' ≠ nf.folderid)
    (fs : List psync_fstask_folder_t) :
    folder_lookup (folder_add nf fs) k' = folder_lookup fs k' := by
  induction fs with
  | nil => simp [folder_add, folder_lookup, List.find?, hk.symm]
  | cons f rest ih =>
    unfold folder_lookup at ih ⊢
    by_cases hlt : I64 (nf.folderid - f.folderid) < 0
    · simp [folder_add, hlt, List.find?, hk.symm]
    · by_cases h2 : f.folderid = k'
      · subst h2; simp [folder_add, hlt, List.find?]
      · simp [folder_add, hlt, List.find?, h2, ih]

theorem folder_del_add (nf : psync_fstask_folder_t) (fs : List psync_fstask_folder_t)
    (h : folder_lookup fs nf.folderid = none) :
    folder_del nf.folderid (folder_add nf fs) = fs := by
  induction fs with
  | nil => simp [folder_add, folder_del]
  | cons f rest ih =>
    unfold folder_lookup at ih h
    have hf : ¬ f.folderid = nf.folderid := by
      intro e; simp [List.find?, e] at h
    have hrest : List.find? (fun f => decide (f.folderid = nf.folderid)) rest = none := by
      simpa [List.find?, hf] using h
    by_cases hlt : I64 (nf.folderid - f.folderid) < 0
    · simp [folder_add, hlt, folder_del]
    · simp [folder_add, hlt, folder_del, hf, ih hrest]

theorem folder_lookup_del_ne (k k' : Int) (hk : k' ≠ k) (fs : List psync_fstask_folder_t) :
    folder_lookup (folder_del k fs) k' = folder_lookup fs k' := by
  induction fs with
  | nil => rfl
  | cons f rest ih =>
    unfold folder_lookup at ih ⊢
    by_cases h : f.folderid = k
    · have h' : ¬ f.folderid = k' := by rw [h]; exact fun e => hk e.symm
      simp [folder_del, h, List.find?, h', hk.symm]
    · by_cases h2 : f.folderid = k'
      · subst h2; simp [folder_del, h, List.find?]
      · simp [folder_del, h, List.find?, h2, ih]

theorem folder_deref_of_lookup_none {fs : List psync_fstask_folder_t} {k : Int}
    (h : folder_lookup fs k = none) : folder_deref fs k = folder_zero k := by
  simp [folder_deref, h]

theorem lookup_get_or_create_self (fs : List psync_fstask_folder_t) (k : Int) :
    folder_lookup (psync_fstask_get_or_create_folder_tasks_locked fs k) k =
      some { folder_deref fs k with refcnt := (folder_deref fs k).refcnt + 1 } := by
  unfold psync_fstask_get_or_create_folder_tasks_locked
  cases h : folder_lookup fs k with
  | none =>
    have h2 := folder_lookup_add_self { folder_zero k with refcnt := 1 } fs h
    rw [folder_deref_of_lookup_none h]
    exact h2
  | some f =>
    simp only []
    rw [folder_lookup_update_self k _ (by intro _; rfl), h, folder_deref_of_lookup h]
    rfl

theorem lookup_get_or_create_ne (fs : List psync_fstask_folder_t) (k k' : Int) (hk : k' ≠ k) :
    folder_lookup (psync_fstask_get_or_create_folder_tasks_locked fs k) k' =
      folder_lookup fs k' := by
  unfold psync_fstask_get_or_create_folder_tasks_locked
  cases h : folder_lookup fs k with
  | none => exact folder_lookup_add_ne _ k' hk fs
  | some f =>
    simp only []
    exact folder_lookup_update_ne k k' _ (by intro _; rfl) hk fs

theorem release_get_or_create (fs : List psync_fstask_folder_t) (k : Int)
    (hl : ∀ f, folder_lookup fs k = some f → FolderLive f) :
    psync_fstask_release_folder_tasks_locked
      (psync_fstask_get_or_create_folder_tasks_locked fs k) k = fs := by
  unfold psync_fstask_release_folder_tasks_locked
  rw [lookup_get_or_create_self]
  simp only []
  cases h : folder_lookup fs k with
  | none =>
    rw [folder_deref_of_lookup_none h]
    simp only [psync_fstask_get_or_create_folder_tasks_locked, h, folder_zero]
    have h2 := folder_del_add { folder_zero k with refcnt := 1 } fs h
    simpa [folder_zero] using h2
  | some f =>
    have hlive := hl f h
    rw [folder_deref_of_lookup h]
    have hne : ¬ (f.refcnt + 1 - 1 = 0 ∧ f.taskscnt = 0) := by
      unfold FolderLive at hlive
      intro ⟨h1, h2⟩
      rcases hlive with h3 | h3
      · exact h3 (by omega)
      · exact h3 h2
    simp only [hne, if_false, psync_fstask_get_or_create_folder_tasks_locked, h]
    rw [folder_update_update k _ _ (by intro _; rfl)]
    apply folder_update_id
    intro f' _ _
    cases f'
    simp

theorem folder_deref_get_or_create (fs : List psync_fstask_folder_t) (k : Int) :
    folder_deref (psync_fstask_get_or_create_folder_tasks_locked fs k) k = folder_held fs k :=
  folder_deref_of_lookup (lookup_get_or_create_self fs k)

theorem lookup_bracket_ne (fs : List psync_fstask_folder_t) (k k' : Int)
    (g : psync_fstask_folder_t → psync_fstask_folder_t)
    (hg : ∀ f, (g f).folderid = f.folderid) (hk : k' ≠ k) :
    folder_lookup (folder_bracket fs k g) k' = folder_lookup fs k' := by
  unfold folder_bracket psync_fstask_release_folder_tasks_locked
  rw [folder_lookup_update_self k g hg, lookup_get_or_create_self]
  simp only [Option.map_some']
  split
  · rw [folder_lookup_del_ne k k' hk, folder_lookup_update_ne k k' g hg hk,
      lookup_get_or_create_ne fs k k' hk]
  · rw [folder_lookup_update_ne k k' _ (by intro _; rfl) hk, folder_lookup_update_ne k k' g hg hk,
      lookup_get_or_create_ne fs k k' hk]

theorem lookup_bracket_self (fs : List psync_fstask_folder_t) (k : Int)
    (g : psync_fstask_folder_t → psync_fstask_folder_t)
    (hg : ∀ f, (g f).folderid = f.folderid)
    (hlive : ¬ ((g (folder_held fs k)).refcnt - 1 = 0 ∧ (g (folder_held fs k)).taskscnt = 0)) :
    folder_lookup (folder_bracket fs k g) k =
      some { g (folder_held fs k) with refcnt := (g (folder_held fs k)).refcnt - 1 } := by
  unfold folder_bracket psync_fstask_release_folder_tasks_locked
  rw [folder_lookup_update_self k g hg, lookup_get_or_create_self]
  simp only [Option.map_some']
  unfold folder_held at hlive
  rw [if_neg hlive, folder_lookup_update_self k _ (by intro _; rfl),
    folder_lookup_update_self k g hg, lookup_get_or_create_self]
  rfl

/-! ## Lemmas on the name lookup -/

theorem search_tree_zero {α : Type} (cmp : String → String → Int) (nameof : α → String)
    (taskidof : α → Nat) (tree : List α) (name : String) :
    psync_fstask_search_tree cmp nameof taskidof tree name 0 =
      tree.findIdx? (fun e => cmp name (nameof e) = 0) := by
  unfold psync_fstask_search_tree search_descend
  cases h : List.findIdx? (fun e => decide (cmp name (nameof e) = 0)) tree <;> simp

theorem search_tree_zero_none {α : Type} (cmp : String → String → Int) (nameof : α → String)
    (taskidof : α → Nat) (tree : List α) (name : String) :
    psync_fstask_search_tree cmp nameof taskidof tree name 0 = none ↔
      ∀ e ∈ tree, cmp name (nameof e) ≠ 0 := by
  rw [search_tree_zero, List.findIdx?_eq_none_iff]
  simp

theorem tree_find_zero_none {α : Type} (cmp : String → String → Int) (nameof : α → String)
    (taskidof : α → Nat) (tree : List α) (name : String) :
    tree_find cmp nameof taskidof tree name 0 = none ↔
      ∀ e ∈ tree, cmp name (nameof e) ≠ 0 := by
  unfold tree_find
  rw [search_tree_zero]
  constructor
  · intro h
    cases hi : List.findIdx? (fun e => decide (cmp name (nameof e) = 0)) tree with
    | none => simpa [List.findIdx?_eq_none_iff] using hi
    | some i =>
      have hlt := (List.findIdx?_eq_some_iff_findIdx_eq.mp hi).1
      simp [hi, List.getElem?_eq_getElem hlt] at h
  · intro h
    have : List.findIdx? (fun e => decide (cmp name (nameof e) = 0)) tree = none := by
      simpa [List.findIdx?_eq_none_iff] using h
    simp [this]

theorem tree_find_some {α : Type} (cmp : String → String → Int) (nameof : α → String)
    (taskidof : α → Nat) (tree : List α) (name : String) (taskid i : Nat) (e : α)
    (h : tree_find cmp nameof taskidof tree name taskid = some (i, e)) : tree[i]? = some e := by
  unfold tree_find at h
  cases hs : psync_fstask_search_tree cmp nameof taskidof tree name taskid with
  | none => simp [hs] at h
  | some j =>
    simp only [hs, Option.some_bind, Option.map_eq_some'] at h
    obtain ⟨a, ha, hp⟩ := h
    cases hp
    exact ha

/-! ## `psync_fstask_mkdir` -/

theorem sql_select_id_nonneg {t : List server_row} {p : Int} {n : String}
    (h : (sql_select_id t p n).isSome = true) : 0 ≤ p := by
  unfold sql_select_id at h
  cases hf : List.find? (fun r => decide ((r.parentfolderid : Int) = p ∧ r.name = n)) t with
  | none => rw [hf] at h; simp at h
  | some r =>
    have := List.find?_some hf
    simp only [decide_eq_true_eq] at this
    omega

theorem state_eta (s : State) :
    ({ s with folders := s.folders } : State) = s := by
  cases s; rfl

/-- C9: `Mkdir(folderid, name)` returns `-EEXIST` when the server has a directory
`name` under `folderid` that no overlay rmdir for `name` shadows, and whenever
an overlay mkdir for `name` exists; the state after the call (rows, edges,
overlay entries and the folder collection) is the state before it. -/
theorem mkdir_exists_error (cmp : String → String → Int) (s : State) (folderid : Int)
    (name : String) (ctime : Int) (commit : Bool)
    (hlive : ∀ f, folder_lookup s.folders folderid = some f → FolderLive f)
    (h : ((sql_select_id s.folder folderid name).isSome = true ∧
            ∀ e ∈ (folder_deref s.folders folderid).rmdirs, cmp name e.name ≠ 0) ∨
         (∃ e ∈ (folder_deref s.folders folderid).mkdirs, cmp name e.name = 0)) :
    psync_fstask_mkdir cmp s folderid name ctime commit = (-EEXIST, s) := by
  unfold psync_fstask_mkdir
  simp only [folder_deref_get_or_create, release_get_or_create s.folders folderid hlive,
    state_eta]
  have hr : psync_fstask_find_rmdir cmp (folder_held s.folders folderid) name 0 = none ↔
      ∀ e ∈ (folder_deref s.folders folderid).rmdirs, cmp name e.name ≠ 0 :=
    tree_find_zero_none cmp _ _ _ name
  have hm : psync_fstask_find_mkdir cmp (folder_held s.folders folderid) name 0 = none ↔
      ∀ e ∈ (folder_deref s.folders folderid).mkdirs, cmp name e.name ≠ 0 :=
    tree_find_zero_none cmp _ _ _ name
  rcases h with ⟨h1, h2⟩ | ⟨e, he, hc⟩
  · have h3 := hr.mpr h2
    have h4 := sql_select_id_nonneg h1
    simp [h1, h3, h4]
  · have h3 : (psync_fstask_find_mkdir cmp (folder_held s.folders folderid) name 0).isSome
        = true := by
      rw [Option.isSome_iff_ne_none]
      intro hn
      exact hm.mp hn e he hc
    split
    · rfl
    · simp [h3]

/-- Witness for C9 on a server that already has the directory. -/
theorem mkdir_exists_error_witness :
    psync_fstask_mkdir strcmp (State.empty [{ id := 7, parentfolderid := 0, name := "a" }] [])
      0 "a" 100 true
      = (-EEXIST, State.empty [{ id := 7, parentfolderid := 0, name := "a" }] []) :=
  mkdir_exists_error strcmp _ 0 "a" 100 true (by decide) (by decide)

theorem insert_into_tree_perm {α : Type} (cmp : String → String → Int) (nameof : α → String)
    (x : α) (l : List α) :
    (psync_fstask_insert_into_tree cmp nameof x l).Perm (x :: l) := by
  induction l with
  | nil => exact List.Perm.refl _
  | cons a rest ih =>
    unfold psync_fstask_insert_into_tree
    split
    · exact List.Perm.refl _
    · exact (List.Perm.cons a ih).trans (List.Perm.swap x a rest)

theorem mem_psync_fstask_depend (d : List (Nat × Nat)) (a b : Nat) (e : Nat × Nat) :
    e ∈ psync_fstask_depend d a b ↔ e ∈ d ∨ e = (a, b) := by
  unfold psync_fstask_depend
  split
  · constructor
    · exact Or.inl
    · rintro (h | h)
      · exact h
      · subst h; assumption
  · simp

theorem U64_neg {x : Int} (h : IsInt64 x) (hx : x < 0) : U64 (-x) = (-x).toNat := by
  unfold IsInt64 at h
  unfold U64
  congr 1
  omega

/-- C10: a successful `Mkdir(folderid, name)` appends exactly one `fstask` row of
type MKDIR with status 0, adds the edge `(taskid, -folderid)` to `fstaskdepend`
exactly when `folderid < 0`, and inserts into `FolderTasks(folderid)` exactly
one Mkdir entry with that task id, the given name, `subdircnt = 0` and the
placeholder `folderid = -taskid`, the folder's `taskscnt` growing by one; the
other sets of the folder and all other folders are untouched. -/
theorem mkdir_success (cmp : String → String → Int) (s s' : State) (folderid : Int)
    (name : String) (ctime : Int) (commit : Bool)
    (hr : IsInt64 folderid)
    (hcnt : 0 ≤ (folder_deref s.folders folderid).taskscnt)
    (h : psync_fstask_mkdir cmp s folderid name ctime commit = (0, s')) :
    s'.fstask = s.fstask ++
      [{ id := sql_next_id s.fstask, type := PSYNC_FS_TASK_MKDIR, status := 0,
         folderid := folderid, fileid := none, text1 := name, text2 := none,
         int1 := some ctime, int2 := none }]
    ∧ (∀ e, e ∈ s'.fstaskdepend ↔
        e ∈ s.fstaskdepend ∨ (folderid < 0 ∧ e = (sql_next_id s.fstask, (-folderid).toNat)))
    ∧ (∃ f', folder_lookup s'.folders folderid = some f'
        ∧ f'.mkdirs = psync_fstask_insert_into_tree cmp (fun e => e.name)
            { taskid := sql_next_id s.fstask, ctime := ctime, mtime := ctime,
              folderid := -(sql_next_id s.fstask : Int), subdircnt := 0, name := name }
            (folder_deref s.folders folderid).mkdirs
        ∧ f'.mkdirs.Perm
            ({ taskid := sql_next_id s.fstask, ctime := ctime, mtime := ctime,
               folderid := -(sql_next_id s.fstask : Int), subdircnt := 0, name := name }
              :: (folder_deref s.folders folderid).mkdirs)
        ∧ f'.rmdirs = (folder_deref s.folders folderid).rmdirs
        ∧ f'.creats = (folder_deref s.folders folderid).creats
        ∧ f'.unlinks = (folder_deref s.folders folderid).unlinks
        ∧ f'.taskscnt = (folder_deref s.folders folderid).taskscnt + 1)
    ∧ (∀ k, k ≠ folderid → folder_lookup s'.folders k = folder_lookup s.folders k) := by
  unfold psync_fstask_mkdir at h
  simp only [] at h
  split at h
  · simp [EEXIST] at h
  split at h
  · simp [EEXIST] at h
  split at h
  · simp [ EIO] at h
  simp only [Prod.mk.injEq, true_and] at h
  subst h
  refine ⟨rfl, ?_, ?_, ?_⟩
  · intro e
    simp only []
    split
    · rename_i hneg
      rw [mem_psync_fstask_depend, U64_neg hr hneg]
      simp [hneg]
    · rename_i hneg
      simp [hneg]
  · have hb := lookup_bracket_self s.folders folderid
      (with_mkdir cmp { taskid := sql_next_id s.fstask, ctime := ctime, mtime := ctime,
                        folderid := -(sql_next_id s.fstask : Int), subdircnt := 0,
                        name := name }) (by intro _; rfl)
      (by dsimp only [folder_held, with_mkdir]; omega)
    refine ⟨_, hb, rfl, ?_, rfl, rfl, rfl, rfl⟩
    exact insert_into_tree_perm _ _ _ _
  · intro k hk
    exact lookup_bracket_ne s.folders folderid k _ (by intro _; rfl) hk

/-- Witness for C10: a first `Mkdir` under the pending folder `-3`. -/
theorem mkdir_success_witness :
    (psync_fstask_mkdir strcmp (State.empty [] []) (-3) "a" 100 true).2.fstaskdepend = [(1, 3)]
    ∧ (psync_fstask_mkdir strcmp (State.empty [] []) (-3) "a" 100 true).2.fstask.length = 1 := by
  have h := mkdir_success strcmp (State.empty [] [])
    (psync_fstask_mkdir strcmp (State.empty [] []) (-3) "a" 100 true).2 (-3) "a" 100 true
    (by decide) (by decide) (by decide)
  constructor
  · decide
  · rw [h.1]; rfl

/-! ## `Mkdir` followed by `Rmdir` -/

theorem sql_next_id_foldl (t : List fstask_row) (m : Nat) :
    List.foldl (fun m r => max m r.id) m t = max m (List.foldl (fun m r => max m r.id) 0 t) := by
  induction t generalizing m with
  | nil => simp
  | cons r rest ih =>
    simp only [List.foldl_cons]
    rw [ih (max m r.id), ih (max 0 r.id)]
    omega

theorem sql_next_id_append (t : List fstask_row) (r : fstask_row) :
    sql_next_id (t ++ [r]) = max (sql_next_id t) (r.id + 1) := by
  unfold sql_next_id
  simp only [List.foldl_append, List.foldl_cons, List.foldl_nil]
  omega

theorem sql_next_id_gt (t : List fstask_row) : ∀ r ∈ t, r.id < sql_next_id t := by
  induction t using List.reverseRecOn with
  | nil => simp
  | append_singleton rest r ih =>
    intro x hx
    rw [sql_next_id_append]
    rcases List.mem_append.mp hx with h | h
    · have := ih x h; omega
    · simp at h; subst h; omega

theorem mkdir_success_state (cmp : String → String → Int) (s s' : State) (folderid : Int)
    (name : String) (ctime : Int) (commit : Bool)
    (h : psync_fstask_mkdir cmp s folderid name ctime commit = (0, s')) :
    psync_fstask_find_mkdir cmp (folder_held s.folders folderid) name 0 = none
    ∧ s'.folders = folder_bracket s.folders folderid
        (with_mkdir cmp { taskid := sql_next_id s.fstask, ctime := ctime, mtime := ctime,
                          folderid := -(sql_next_id s.fstask : Int), subdircnt := 0,
                          name := name })
    ∧ s'.fstask = s.fstask ++
        [{ id := sql_next_id s.fstask, type := PSYNC_FS_TASK_MKDIR, status := 0,
           folderid := folderid, fileid := none, text1 := name, text2 := none,
           int1 := some ctime, int2 := none }]
    ∧ s'.fstaskdepend =
        (if folderid < 0 then
          psync_fstask_depend s.fstaskdepend (sql_next_id s.fstask) (U64 (-folderid))
         else s.fstaskdepend)
    ∧ s'.folder = s.folder ∧ s'.file = s.file := by
  unfold psync_fstask_mkdir at h
  simp only [folder_deref_get_or_create] at h
  split at h
  · simp [EEXIST] at h
  split at h
  · simp [EEXIST] at h
  rename_i hfind
  split at h
  · simp [ EIO] at h
  simp only [Prod.mk.injEq, true_and] at h
  subst h
  refine ⟨?_, rfl, rfl, rfl, rfl, rfl⟩
  simpa using hfind

theorem tree_find_insert_fresh {α : Type} (cmp : String → String → Int) (nameof : α → String)
    (taskidof : α → Nat) (x : α) (l : List α) (hx : cmp (nameof x) (nameof x) = 0)
    (hl : ∀ e ∈ l, cmp (nameof x) (nameof e) ≠ 0) :
    ∃ i, tree_find cmp nameof taskidof (psync_fstask_insert_into_tree cmp nameof x l)
        (nameof x) 0 = some (i, x)
      ∧ (psync_fstask_insert_into_tree cmp nameof x l).eraseIdx i = l := by
  unfold tree_find
  simp only [search_tree_zero]
  induction l with
  | nil =>
    refine ⟨0, ?_, ?_⟩
    · simp [psync_fstask_insert_into_tree, List.findIdx?_cons, hx]
    · simp [psync_fstask_insert_into_tree]
  | cons a rest ih =>
    have ha : cmp (nameof x) (nameof a) ≠ 0 := hl a (List.mem_cons_self _ _)
    obtain ⟨i, h1, h2⟩ := ih (fun e he => hl e (List.mem_cons_of_mem _ he))
    unfold psync_fstask_insert_into_tree
    split
    · refine ⟨0, ?_, ?_⟩
      · simp [List.findIdx?_cons, hx]
      · simp
    · refine ⟨i + 1, ?_, ?_⟩
      · cases hf : List.findIdx? (fun e => decide (cmp (nameof x) (nameof e) = 0))
            (psync_fstask_insert_into_tree cmp nameof x rest) with
        | none => simp [hf] at h1
        | some j =>
          simp only [hf, Option.some_bind, Option.map_eq_some'] at h1
          obtain ⟨b, hb, hp⟩ := h1
          simp only [Prod.mk.injEq] at hp
          obtain ⟨hji, hbx⟩ := hp
          subst hji; subst hbx
          simp [List.findIdx?_cons, ha, hf, hb]
      · simp [h2]

theorem mem_foldl_depend (rows : List Nat) (taskid : Nat) (d : List (Nat × Nat))
    (e : Nat × Nat) :
    e ∈ rows.foldl (fun d id => psync_fstask_depend d taskid id) d ↔
      e ∈ d ∨ (e.1 = taskid ∧ e.2 ∈ rows) := by
  induction rows generalizing d with
  | nil => simp
  | cons r rest ih =>
    simp only [List.foldl_cons, ih, mem_psync_fstask_depend, List.mem_cons]
    constructor
    · rintro ((h | h) | ⟨h1, h2⟩)
      · exact Or.inl h
      · subst h; exact Or.inr ⟨rfl, Or.inl rfl⟩
      · exact Or.inr ⟨h1, Or.inr h2⟩
    · rintro (h | ⟨h1, h2 | h2⟩)
      · exact Or.inl (Or.inl h)
      · exact Or.inl (Or.inr (Prod.ext h1 h2))
      · exact Or.inr ⟨h1, h2⟩

theorem rmdir_cancel_state (cmp : String → String → Int) (s : State) (folderid : Int)
    (name : String) (commit : Bool) (i : Nat) (mk : psync_fstask_mkdir_t)
    (hf : psync_fstask_find_mkdir cmp (folder_held s.folders folderid) name 0 = some (i, mk)) :
    (psync_fstask_rmdir cmp s folderid name commit).1 = (if commit then 0 else - EIO)
    ∧ (commit = true →
      (psync_fstask_rmdir cmp s folderid name commit).2.folders =
        folder_bracket s.folders folderid
          (with_rmdir_cancel cmp i
            { taskid := sql_next_id s.fstask, folderid := mk.folderid, name := name })
      ∧ (psync_fstask_rmdir cmp s folderid name commit).2.fstask = s.fstask ++
          [{ id := sql_next_id s.fstask, type := PSYNC_FS_TASK_RMDIR, status := 0,
             folderid := folderid, fileid := none, text1 := name, text2 := none,
             int1 := some mk.folderid, int2 := none }]
      ∧ (mk.taskid ≠ 0 →
          (sql_next_id s.fstask, mk.taskid) ∈
            (psync_fstask_rmdir cmp s folderid name commit).2.fstaskdepend)) := by
  unfold psync_fstask_rmdir
  simp only [folder_deref_get_or_create, hf]
  unfold psync_fstask_rmdir_tail
  cases commit with
  | false => simp
  | true =>
    simp only [not_true_eq_false, if_false, Bool.not_eq_true, if_true, forall_const]
    refine ⟨trivial, ?_, trivial, ?_⟩
    · unfold folder_bracket
      rw [folder_update_update folderid _ _ (by intro _; rfl)]
    · intro hne
      simp only [mem_foldl_depend, hne, ne_eq, not_false_eq_true, if_true,
        mem_psync_fstask_depend]
      exact Or.inl (Or.inr trivial)

/-- What `Mkdir(p, n)` followed by `Rmdir(p, n)` leaves, both calls succeeding:
the folder `p` of the overlay, the two rows and the edge between them. -/
theorem mkdir_rmdir_state (cmp : String → String → Int) (s s1 s2 : State) (p : Int)
    (n : String) (ctime : Int) (c1 c2 : Bool)
    (hrefl : cmp n n = 0)
    (hcnt : 0 ≤ (folder_deref s.folders p).taskscnt)
    (h1 : psync_fstask_mkdir cmp s p n ctime c1 = (0, s1))
    (h2 : psync_fstask_rmdir cmp s1 p n c2 = (0, s2)) :
    (∃ f', folder_lookup s2.folders p = some f'
      ∧ f'.mkdirs = (folder_deref s.folders p).mkdirs
      ∧ f'.rmdirs = psync_fstask_insert_into_tree cmp (fun e => e.name)
          { taskid := sql_next_id s.fstask + 1, folderid := -(sql_next_id s.fstask : Int),
            name := n } (folder_deref s.folders p).rmdirs
      ∧ f'.creats = (folder_deref s.folders p).creats
      ∧ f'.unlinks = (folder_deref s.folders p).unlinks
      ∧ f'.taskscnt = (folder_deref s.folders p).taskscnt + 1)
    ∧ s2.fstask = s.fstask ++
        [{ id := sql_next_id s.fstask, type := PSYNC_FS_TASK_MKDIR, status := 0,
           folderid := p, fileid := none, text1 := n, text2 := none,
           int1 := some ctime, int2 := none },
         { id := sql_next_id s.fstask + 1, type := PSYNC_FS_TASK_RMDIR, status := 0,
           folderid := p, fileid := none, text1 := n, text2 := none,
           int1 := some (-(sql_next_id s.fstask : Int)), int2 := none }]
    ∧ (sql_next_id s.fstask + 1, sql_next_id s.fstask) ∈ s2.fstaskdepend := by
  obtain ⟨hnone, hfold, hrows, -, -, -⟩ := mkdir_success_state cmp s s1 p n ctime c1 h1
  have hl1 := lookup_bracket_self s.folders p
    (with_mkdir cmp { taskid := sql_next_id s.fstask, ctime := ctime, mtime := ctime,
                      folderid := -(sql_next_id s.fstask : Int), subdircnt := 0, name := n })
    (by intro _; rfl) (by dsimp only [folder_held, with_mkdir]; omega)
  rw [← hfold] at hl1
  have hold : ∀ e ∈ (folder_deref s.folders p).mkdirs, cmp n e.name ≠ 0 :=
    (tree_find_zero_none cmp _ _ _ n).mp hnone
  obtain ⟨i, hi, herase⟩ := tree_find_insert_fresh cmp (fun e : psync_fstask_mkdir_t => e.name)
    (fun e => e.taskid)
    { taskid := sql_next_id s.fstask, ctime := ctime, mtime := ctime,
      folderid := -(sql_next_id s.fstask : Int), subdircnt := 0, name := n }
    (folder_deref s.folders p).mkdirs hrefl hold
  have hfind : psync_fstask_find_mkdir cmp (folder_held s1.folders p) n 0 = some (i,
      { taskid := sql_next_id s.fstask, ctime := ctime, mtime := ctime,
        folderid := -(sql_next_id s.fstask : Int), subdircnt := 0, name := n }) := by
    unfold psync_fstask_find_mkdir folder_held
    rw [folder_deref_of_lookup hl1]
    exact hi
  have hid : sql_next_id s1.fstask = sql_next_id s.fstask + 1 := by
    rw [hrows, sql_next_id_append]; simp
  obtain ⟨hres, hrest⟩ := rmdir_cancel_state cmp s1 p n c2 i _ hfind
  have hc2 : c2 = true := by
    cases c2 with
    | true => rfl
    | false => rw [h2] at hres; simp [ EIO] at hres
  obtain ⟨hfold2, hrows2, hdep2⟩ := hrest hc2
  rw [h2] at hfold2 hrows2 hdep2
  simp only [hid] at hfold2 hrows2 hdep2
  refine ⟨?_, ?_, ?_⟩
  · have hl2 := lookup_bracket_self s1.folders p
      (with_rmdir_cancel cmp i
        { taskid := sql_next_id s.fstask + 1, folderid := -(sql_next_id s.fstask : Int),
          name := n })
      (by intro _; rfl)
      (by dsimp only [folder_held, with_rmdir_cancel]
          rw [folder_deref_of_lookup hl1]
          dsimp only [folder_held, with_mkdir]; omega)
    rw [← hfold2] at hl2
    refine ⟨_, hl2, ?_, ?_, ?_, ?_, ?_⟩
    · dsimp only [folder_held, with_rmdir_cancel]
      rw [folder_deref_of_lookup hl1]
      exact herase
    · dsimp only [folder_held, with_rmdir_cancel]
      rw [folder_deref_of_lookup hl1]
      rfl
    · dsimp only [folder_held, with_rmdir_cancel]
      rw [folder_deref_of_lookup hl1]
      rfl
    · dsimp only [folder_held, with_rmdir_cancel]
      rw [folder_deref_of_lookup hl1]
      rfl
    · dsimp only [folder_held, with_rmdir_cancel]
      rw [folder_deref_of_lookup hl1]
      dsimp only [folder_held, with_mkdir]; omega
  · rw [hrows2, hrows]; simp
  · exact hdep2 (by unfold sql_next_id; omega)

/-- C1, counterexample: on the empty store `Mkdir(0, "a")` and `Rmdir(0, "a")`
both succeed, and `FolderTasks(0)` then holds an Rmdir entry and has
`taskscnt = 1`. -/
theorem mkdir_rmdir_overlay_not_empty :
    (psync_fstask_mkdir strcmp (State.empty [] []) 0 "a" 100 true).1 = 0
    ∧ (psync_fstask_rmdir strcmp
        (psync_fstask_mkdir strcmp (State.empty [] []) 0 "a" 100 true).2 0 "a" true).1 = 0
    ∧ folder_lookup (psync_fstask_rmdir strcmp
        (psync_fstask_mkdir strcmp (State.empty [] []) 0 "a" 100 true).2 0 "a" true).2.folders 0
      = some { folderid := 0, mkdirs := [], rmdirs := [{ taskid := 2, folderid := -1, name := "a" }],
               creats := [], unlinks := [], taskscnt := 1, refcnt := 0 } := by
  decide

/-- C1, amended: after `Mkdir(p, n)` and then `Rmdir(p, n)` have both succeeded
with no acknowledgement in between, `FolderTasks(p)` has the mkdirs, creats and
unlinks it had before the `Mkdir` (the pending mkdir is cancelled in memory),
its rmdirs have gained the one Rmdir entry of the second call, which carries
the placeholder folder id of the cancelled mkdir, and `taskscnt` is one more
than before. -/
theorem mkdir_rmdir_overlay (cmp : String → String → Int) (s s1 s2 : State) (p : Int)
    (n : String) (ctime : Int) (c1 c2 : Bool)
    (hrefl : cmp n n = 0)
    (hcnt : 0 ≤ (folder_deref s.folders p).taskscnt)
    (h1 : psync_fstask_mkdir cmp s p n ctime c1 = (0, s1))
    (h2 : psync_fstask_rmdir cmp s1 p n c2 = (0, s2)) :
    ∃ f', folder_lookup s2.folders p = some f'
      ∧ f'.mkdirs = (folder_deref s.folders p).mkdirs
      ∧ f'.rmdirs = psync_fstask_insert_into_tree cmp (fun e => e.name)
          { taskid := sql_next_id s.fstask + 1, folderid := -(sql_next_id s.fstask : Int),
            name := n } (folder_deref s.folders p).rmdirs
      ∧ f'.creats = (folder_deref s.folders p).creats
      ∧ f'.unlinks = (folder_deref s.folders p).unlinks
      ∧ f'.taskscnt = (folder_deref s.folders p).taskscnt + 1 :=
  (mkdir_rmdir_state cmp s s1 s2 p n ctime c1 c2 hrefl hcnt h1 h2).1

/-- Witness for the amended C1 on the empty store. -/
theorem mkdir_rmdir_overlay_witness :
    ∃ f', folder_lookup (psync_fstask_rmdir strcmp
        (psync_fstask_mkdir strcmp (State.empty [] []) 0 "a" 100 true).2 0 "a" true).2.folders 0
          = some f'
      ∧ f'.mkdirs = [] ∧ f'.rmdirs = [{ taskid := 2, folderid := -1, name := "a" }]
      ∧ f'.creats = [] ∧ f'.unlinks = [] ∧ f'.taskscnt = 1 :=
  mkdir_rmdir_overlay strcmp (State.empty [] [])
    (psync_fstask_mkdir strcmp (State.empty [] []) 0 "a" 100 true).2
    (psync_fstask_rmdir strcmp
        (psync_fstask_mkdir strcmp (State.empty [] []) 0 "a" 100 true).2 0 "a" true).2
    0 "a" 100 true true (by decide) (by decide) (by decide) (by decide)

/-- C2, counterexample: on the empty store `Mkdir(0, "a")` followed by
`Rmdir(0, "a")`, both succeeding, leaves two rows in `fstask`, where there was
none before. -/
theorem mkdir_rmdir_rows_not_zero :
    (psync_fstask_mkdir strcmp (State.empty [] []) 0 "a" 100 true).1 = 0
    ∧ (psync_fstask_rmdir strcmp
        (psync_fstask_mkdir strcmp (State.empty [] []) 0 "a" 100 true).2 0 "a" true).1 = 0
    ∧ (State.empty [] []).fstask.length = 0
    ∧ (psync_fstask_rmdir strcmp
        (psync_fstask_mkdir strcmp (State.empty [] []) 0 "a" 100 true).2 0 "a"
          true).2.fstask.length = 2 := by
  decide

/-- C2, amended: after `Mkdir(p, n)` followed by `Rmdir(p, n)`, both succeeding
with no acknowledgement in between, the `fstask` table holds exactly two more
rows than before the `Mkdir`: the MKDIR row and, after it, an RMDIR row of
status 0 whose `int1` is the placeholder folder id of the mkdir; and
`fstaskdepend` holds the edge from the RMDIR task to the MKDIR task. -/
theorem mkdir_rmdir_rows (cmp : String → String → Int) (s s1 s2 : State) (p : Int)
    (n : String) (ctime : Int) (c1 c2 : Bool)
    (hrefl : cmp n n = 0)
    (hcnt : 0 ≤ (folder_deref s.folders p).taskscnt)
    (h1 : psync_fstask_mkdir cmp s p n ctime c1 = (0, s1))
    (h2 : psync_fstask_rmdir cmp s1 p n c2 = (0, s2)) :
    s2.fstask = s.fstask ++
        [{ id := sql_next_id s.fstask, type := PSYNC_FS_TASK_MKDIR, status := 0,
           folderid := p, fileid := none, text1 := n, text2 := none,
           int1 := some ctime, int2 := none },
         { id := sql_next_id s.fstask + 1, type := PSYNC_FS_TASK_RMDIR, status := 0,
           folderid := p, fileid := none, text1 := n, text2 := none,
           int1 := some (-(sql_next_id s.fstask : Int)), int2 := none }]
    ∧ s2.fstask.length = s.fstask.length + 2
    ∧ (sql_next_id s.fstask + 1, sql_next_id s.fstask) ∈ s2.fstaskdepend := by
  have h := (mkdir_rmdir_state cmp s s1 s2 p n ctime c1 c2 hrefl hcnt h1 h2).2
  refine ⟨h.1, ?_, h.2⟩
  rw [h.1]; simp

/-- Witness for the amended C2 on the empty store. -/
theorem mkdir_rmdir_rows_witness :
    (psync_fstask_rmdir strcmp
        (psync_fstask_mkdir strcmp (State.empty [] []) 0 "a" 100 true).2 0 "a"
          true).2.fstask.length = 0 + 2
    ∧ (1 + 1, 1) ∈ (psync_fstask_rmdir strcmp
        (psync_fstask_mkdir strcmp (State.empty [] []) 0 "a" 100 true).2 0 "a"
          true).2.fstaskdepend :=
  (mkdir_rmdir_rows strcmp (State.empty [] [])
    (psync_fstask_mkdir strcmp (State.empty [] []) 0 "a" 100 true).2
    (psync_fstask_rmdir strcmp
        (psync_fstask_mkdir strcmp (State.empty [] []) 0 "a" 100 true).2 0 "a" true).2
    0 "a" 100 true true (by decide) (by decide) (by decide) (by decide)).2

/-! ## `psync_fstask_rename_file` -/

theorem mem_foldl_depend_guarded (rows : List Nat) (f t : Nat) (d : List (Nat × Nat))
    (e : Nat × Nat)
    (h : e ∈ rows.foldl (fun d row0 =>
      if row0 ≠ f ∧ row0 ≠ t then psync_fstask_depend d t row0 else d) d) :
    e ∈ d ∨ (e.1 = t ∧ e.2 ∈ rows ∧ e.2 ≠ f ∧ e.2 ≠ t) := by
  induction rows generalizing d with
  | nil => exact Or.inl (by simpa using h)
  | cons r rest ih =>
    simp only [List.foldl_cons] at h
    rcases ih _ h with h1 | ⟨h1, h2, h3⟩
    · split at h1
      · rename_i hr
        rcases (mem_psync_fstask_depend d t r e).mp h1 with h4 | h4
        · exact Or.inl h4
        · subst h4
          exact Or.inr ⟨rfl, List.mem_cons_self _ _, hr.1, hr.2⟩
      · exact Or.inl h1
    · exact Or.inr ⟨h1, List.mem_cons_of_mem _ h2, h3⟩

theorem mem_sql_fstask_ids_by_folder_name (t : List fstask_row) (folderid : Int)
    (text1 : String) (i : Nat) (h : i ∈ sql_fstask_ids_by_folder_name t folderid text1) :
    ∃ r ∈ t, r.id = i := by
  unfold sql_fstask_ids_by_folder_name at h
  obtain ⟨r, hr, hi⟩ := List.mem_map.mp h
  exact ⟨r, (List.mem_filter.mp hr).1, hi⟩

theorem U64_neg_of_pending {x : Int} {t : List fstask_row} (hi : IsInt64 x) (hx : x < 0)
    (h : ∃ r ∈ t, (r.id : Int) = -x) : ∃ r ∈ t, r.id = U64 (-x) := by
  obtain ⟨r, hr, hid⟩ := h
  refine ⟨r, hr, ?_⟩
  unfold IsInt64 at hi
  unfold U64
  omega

/-- The two rows `psync_fstask_rename_file` inserts and the edges it adds. -/
theorem rename_file_state (cmp : String → String → Int) (s s' : State) (fileid : Int)
    (parentfolderid : Int) (name : String) (to_folderid : Int) (new_name : Option String)
    (commit : Bool)
    (h : psync_fstask_rename_file cmp s fileid parentfolderid name to_folderid new_name commit
      = (0, s')) :
    s'.fstask = s.fstask ++
      [{ id := sql_next_id s.fstask, type := PSYNC_FS_TASK_RENFILE_FROM, status := 10,
         folderid := parentfolderid, fileid := some fileid, text1 := name, text2 := none,
         int1 := none, int2 := none },
       { id := sql_next_id s.fstask + 1, type := PSYNC_FS_TASK_RENFILE_TO, status := 0,
         folderid := to_folderid, fileid := some fileid, text1 := new_name.getD name,
         text2 := none, int1 := some (sql_next_id s.fstask : Int), int2 := none }]
    ∧ ∀ e ∈ s'.fstaskdepend, e ∈ s.fstaskdepend ∨
        (e.1 = sql_next_id s.fstask + 1 ∧
          ((fileid < 0 ∧ e.2 = U64 (-fileid)) ∨ (parentfolderid < 0 ∧ e.2 = U64 (-parentfolderid))
            ∨ (to_folderid < 0 ∧ e.2 = U64 (-to_folderid)) ∨ ∃ r ∈ s.fstask, r.id = e.2)) := by
  unfold psync_fstask_rename_file at h
  simp only [] at h
  split at h
  · simp [ EIO] at h
  simp only [Prod.mk.injEq, true_and] at h
  subst h
  have hid : sql_next_id (s.fstask ++
      [{ id := sql_next_id s.fstask, type := PSYNC_FS_TASK_RENFILE_FROM, status := 10,
         folderid := parentfolderid, fileid := some fileid, text1 := name, text2 := none,
         int1 := none, int2 := none }]) = sql_next_id s.fstask + 1 := by
    rw [sql_next_id_append]; simp
  simp only [hid]
  refine ⟨by simp, ?_⟩
  intro e he
  rcases mem_foldl_depend_guarded _ _ _ _ e he with h1 | ⟨h1, h2, h3, h4⟩
  · split at h1
    · rename_i h3
      rcases (mem_psync_fstask_depend _ _ _ e).mp h1 with h1 | h1
      · split at h1
        · rename_i h2
          rcases (mem_psync_fstask_depend _ _ _ e).mp h1 with h1 | h1
          · split at h1
            · rename_i h0
              rcases (mem_psync_fstask_depend _ _ _ e).mp h1 with h1 | h1
              · exact Or.inl h1
              · subst h1; exact Or.inr ⟨rfl, Or.inl ⟨h0, rfl⟩⟩
            · exact Or.inl h1
          · subst h1; exact Or.inr ⟨rfl, Or.inr (Or.inl ⟨h2, rfl⟩)⟩
        · split at h1
          · rename_i h0
            rcases (mem_psync_fstask_depend _ _ _ e).mp h1 with h1 | h1
            · exact Or.inl h1
            · subst h1; exact Or.inr ⟨rfl, Or.inl ⟨h0, rfl⟩⟩
          · exact Or.inl h1
      · subst h1; exact Or.inr ⟨rfl, Or.inr (Or.inr (Or.inl ⟨h3.1, rfl⟩))⟩
    · split at h1
      · rename_i h2
        rcases (mem_psync_fstask_depend _ _ _ e).mp h1 with h1 | h1
        · split at h1
          · rename_i h0
            rcases (mem_psync_fstask_depend _ _ _ e).mp h1 with h1 | h1
            · exact Or.inl h1
            · subst h1; exact Or.inr ⟨rfl, Or.inl ⟨h0, rfl⟩⟩
          · exact Or.inl h1
        · subst h1; exact Or.inr ⟨rfl, Or.inr (Or.inl ⟨h2, rfl⟩)⟩
      · split at h1
        · rename_i h0
          rcases (mem_psync_fstask_depend _ _ _ e).mp h1 with h1 | h1
          · exact Or.inl h1
          · subst h1; exact Or.inr ⟨rfl, Or.inl ⟨h0, rfl⟩⟩
        · exact Or.inl h1
  · refine Or.inr ⟨h1, Or.inr (Or.inr (Or.inr ?_))⟩
    obtain ⟨r, hr, hri⟩ := mem_sql_fstask_ids_by_folder_name _ _ _ _ h2
    simp only [List.append_assoc, List.singleton_append, List.mem_append, List.mem_cons,
      List.mem_singleton, List.not_mem_nil, or_false] at hr
    rcases hr with hr | hr | hr
    · exact ⟨r, hr, hri⟩
    · subst hr; exact absurd hri.symm h3
    · subst hr; exact absurd hri.symm h4

/-- C4, counterexample: on the empty store `RenameFile(5, 0, "f", 0, "g")`
succeeds and inserts the FROM row 1 and the TO row 2, and `fstaskdepend` holds
no edge from task 2 to task 1 (it is empty). -/
theorem rename_file_no_edge_to_from :
    (psync_fstask_rename_file strcmp (State.empty [] []) 5 0 "f" 0 (some "g") true).1 = 0
    ∧ (psync_fstask_rename_file strcmp (State.empty [] []) 5 0 "f" 0 (some "g")
        true).2.fstask.map (fun r => (r.id, r.type, r.status)) = [(1, 5, 10), (2, 6, 0)]
    ∧ (2, 1) ∉ (psync_fstask_rename_file strcmp (State.empty [] []) 5 0 "f" 0 (some "g")
        true).2.fstaskdepend := by
  decide

/-- C4, amended: a successful `RenameFile` appends exactly two `fstask` rows, a
RENFILE_FROM row with status 10 and a RENFILE_TO row with status 0 whose `int1`
holds the FROM task id.  Every edge it adds to `fstaskdepend` leaves the TO
task and points to a row that was in `fstask` before the call; no edge from
the TO task to the FROM task is added.  (Negative ids passed in are negations
of existing `fstask` ids.) -/
theorem rename_file_rows (cmp : String → String → Int) (s s' : State) (fileid : Int)
    (parentfolderid : Int) (name : String) (to_folderid : Int) (new_name : Option String)
    (commit : Bool)
    (hf : IsInt64 fileid) (hp : IsInt64 parentfolderid) (ht : IsInt64 to_folderid)
    (hpf : fileid < 0 → ∃ r ∈ s.fstask, (r.id : Int) = -fileid)
    (hpp : parentfolderid < 0 → ∃ r ∈ s.fstask, (r.id : Int) = -parentfolderid)
    (hpt : to_folderid < 0 → ∃ r ∈ s.fstask, (r.id : Int) = -to_folderid)
    (h : psync_fstask_rename_file cmp s fileid parentfolderid name to_folderid new_name commit
      = (0, s')) :
    s'.fstask = s.fstask ++
      [{ id := sql_next_id s.fstask, type := PSYNC_FS_TASK_RENFILE_FROM, status := 10,
         folderid := parentfolderid, fileid := some fileid, text1 := name, text2 := none,
         int1 := none, int2 := none },
       { id := sql_next_id s.fstask + 1, type := PSYNC_FS_TASK_RENFILE_TO, status := 0,
         folderid := to_folderid, fileid := some fileid, text1 := new_name.getD name,
         text2 := none, int1 := some (sql_next_id s.fstask : Int), int2 := none }]
    ∧ (∀ e ∈ s'.fstaskdepend, e ∈ s.fstaskdepend ∨
        (e.1 = sql_next_id s.fstask + 1 ∧ ∃ r ∈ s.fstask, r.id = e.2))
    ∧ ((sql_next_id s.fstask + 1, sql_next_id s.fstask) ∈ s'.fstaskdepend →
        (sql_next_id s.fstask + 1, sql_next_id s.fstask) ∈ s.fstaskdepend) := by
  obtain ⟨hrows, hedges⟩ :=
    rename_file_state cmp s s' fileid parentfolderid name to_folderid new_name commit h
  have hall : ∀ e ∈ s'.fstaskdepend, e ∈ s.fstaskdepend ∨
      (e.1 = sql_next_id s.fstask + 1 ∧ ∃ r ∈ s.fstask, r.id = e.2) := by
    intro e he
    rcases hedges e he with h1 | ⟨h1, h2⟩
    · exact Or.inl h1
    · refine Or.inr ⟨h1, ?_⟩
      rcases h2 with ⟨hneg, h2⟩ | ⟨hneg, h2⟩ | ⟨hneg, h2⟩ | h2
      · rw [h2]; exact U64_neg_of_pending hf hneg (hpf hneg)
      · rw [h2]; exact U64_neg_of_pending hp hneg (hpp hneg)
      · rw [h2]; exact U64_neg_of_pending ht hneg (hpt hneg)
      · exact h2
  refine ⟨hrows, hall, ?_⟩
  intro he
  rcases hall _ he with h1 | ⟨-, r, hr, hid⟩
  · exact h1
  · have := sql_next_id_gt s.fstask r hr
    simp only at hid
    omega

/-- Witness for the amended C4: a rename of the pending file `-1` out of the
pending folder `-2`. -/
theorem rename_file_rows_witness :
    ((psync_fstask_rename_file strcmp
        (AddCreat strcmp (psync_fstask_mkdir strcmp (State.empty [] []) 0 "d" 100 true).2
          0 "f" true).2 (-2) (-1) "f" 0 none true).2.fstask.map (fun r => r.id)) = [1, 2, 3, 4]
    ∧ ((4, 3) ∈ (psync_fstask_rename_file strcmp
        (AddCreat strcmp (psync_fstask_mkdir strcmp (State.empty [] []) 0 "d" 100 true).2
          0 "f" true).2 (-2) (-1) "f" 0 none true).2.fstaskdepend →
        (4, 3) ∈ (AddCreat strcmp (psync_fstask_mkdir strcmp (State.empty [] []) 0 "d" 100
          true).2 0 "f" true).2.fstaskdepend) := by
  have h := rename_file_rows strcmp
    (AddCreat strcmp (psync_fstask_mkdir strcmp (State.empty [] []) 0 "d" 100 true).2
      0 "f" true).2
    (psync_fstask_rename_file strcmp
        (AddCreat strcmp (psync_fstask_mkdir strcmp (State.empty [] []) 0 "d" 100 true).2
          0 "f" true).2 (-2) (-1) "f" 0 none true).2
    (-2) (-1) "f" 0 none true (by decide) (by decide) (by decide) (by decide) (by decide)
    (by decide) (by decide)
  exact ⟨by decide, h.2.2⟩

/-! ## `psync_fstask_file_renamed` -/

theorem file_renamed_fstask (cmp : String → String → Int) (s : State) (folderid : Int)
    (taskid : Nat) (name : String) (frtaskid : Nat) :
    (psync_fstask_file_renamed cmp s folderid taskid name frtaskid).fstask =
      s.fstask.filter (fun r => r.id ≠ frtaskid) := by
  unfold psync_fstask_file_renamed sql_delete_fstask
  rfl

/-- C5, counterexample: after `RenameFile(5, 0, "f", 0, "g")` on the empty store
(FROM row 1, TO row 2), `file_renamed(0, 2, "g", 1)` leaves the row with id 2
in `fstask`. -/
theorem file_renamed_keeps_to_row :
    (psync_fstask_file_renamed strcmp
      (psync_fstask_rename_file strcmp (State.empty [] []) 5 0 "f" 0 (some "g") true).2
      0 2 "g" 1).fstask.map (fun r => r.id) = [2] := by
  decide

/-- C5, amended: `file_renamed(folder, t_to, name, t_from)` deletes from `fstask`
the row with id `t_from` and no other row: a row is in the table after the
call exactly when it was there before and its id is not `t_from`; so the row
`t_to` of the rename stays. -/
theorem file_renamed_rows (cmp : String → String → Int) (s : State) (folderid : Int)
    (taskid : Nat) (name : String) (frtaskid : Nat) :
    (psync_fstask_file_renamed cmp s folderid taskid name frtaskid).fstask =
        s.fstask.filter (fun r => r.id ≠ frtaskid)
    ∧ (∀ r, r ∈ (psync_fstask_file_renamed cmp s folderid taskid name frtaskid).fstask ↔
        r ∈ s.fstask ∧ r.id ≠ frtaskid) := by
  have h := file_renamed_fstask cmp s folderid taskid name frtaskid
  refine ⟨h, ?_⟩
  intro r
  rw [h]
  simp [List.mem_filter]

/-! ## Task ids held in memory -/

theorem TreeAddsOnly.refl (N : Nat → Prop) (fs : List psync_fstask_folder_t) :
    TreeAddsOnly N fs fs := fun _ h => Or.inl h

theorem TreeAddsOnly.trans {N : Nat → Prop} {a b c : List psync_fstask_folder_t}
    (h1 : TreeAddsOnly N a b) (h2 : TreeAddsOnly N b c) : TreeAddsOnly N a c := by
  intro t ht
  rcases h2 t ht with h | h
  · exact h1 t h
  · exact Or.inr h

theorem hasEntry_update (N : Nat → Prop) (k : Int)
    (g : psync_fstask_folder_t → psync_fstask_folder_t)
    (hg : AddsOnly N g) (fs : List psync_fstask_folder_t) :
    TreeAddsOnly N fs (folder_update k g fs) := by
  induction fs with
  | nil => exact TreeAddsOnly.refl N _
  | cons f rest ih =>
    intro t ht
    unfold folder_update at ht
    split at ht
    · obtain ⟨f', hf', hm⟩ := ht
      rcases List.mem_cons.mp hf' with h | h
      · subst h
        rcases hg f t hm with h | h
        · exact Or.inl ⟨f, List.mem_cons_self _ _, h⟩
        · exact Or.inr h
      · exact Or.inl ⟨f', List.mem_cons_of_mem _ h, hm⟩
    · obtain ⟨f', hf', hm⟩ := ht
      rcases List.mem_cons.mp hf' with h | h
      · subst h
        exact Or.inl ⟨f', List.mem_cons_self _ _, hm⟩
      · rcases ih t ⟨f', h, hm⟩ with ⟨f2, hf2, hm2⟩ | h3
        · exact Or.inl ⟨f2, List.mem_cons_of_mem _ hf2, hm2⟩
        · exact Or.inr h3

theorem mem_folder_del {k : Int} {fs : List psync_fstask_folder_t} {f : psync_fstask_folder_t}
    (h : f ∈ folder_del k fs) : f ∈ fs := by
  induction fs with
  | nil => simp [folder_del] at h
  | cons a rest ih =>
    unfold folder_del at h
    split at h
    · exact List.mem_cons_of_mem _ h
    · rcases List.mem_cons.mp h with h | h
      · subst h; exact List.mem_cons_self _ _
      · exact List.mem_cons_of_mem _ (ih h)

theorem hasEntry_del (N : Nat → Prop) (k : Int) (fs : List psync_fstask_folder_t) :
    TreeAddsOnly N fs (folder_del k fs) := by
  rintro t ⟨f, hf, hm⟩
  exact Or.inl ⟨f, mem_folder_del hf, hm⟩

theorem mem_folder_add {nf : psync_fstask_folder_t} {fs : List psync_fstask_folder_t}
    {f : psync_fstask_folder_t} (h : f ∈ folder_add nf fs) : f = nf ∨ f ∈ fs := by
  induction fs with
  | nil => simpa [folder_add] using h
  | cons a rest ih =>
    unfold folder_add at h
    split at h
    · simpa using h
    · rcases List.mem_cons.mp h with h | h
      · subst h; exact Or.inr (List.mem_cons_self _ _)
      · rcases ih h with h | h
        · exact Or.inl h
        · exact Or.inr (List.mem_cons_of_mem _ h)

theorem addsOnly_refcnt (N : Nat → Prop) (d : Int) :
    AddsOnly N (fun f => { f with refcnt := f.refcnt + d }) :=
  fun _ _ h => Or.inl h

theorem hasEntry_get_or_create (N : Nat → Prop) (k : Int) (fs : List psync_fstask_folder_t) :
    TreeAddsOnly N fs (psync_fstask_get_or_create_folder_tasks_locked fs k) := by
  unfold psync_fstask_get_or_create_folder_tasks_locked
  split
  · exact hasEntry_update N k _ (addsOnly_refcnt N 1) fs
  · rintro t ⟨f, hf, hm⟩
    rcases mem_folder_add hf with h | h
    · subst h; simp [folder_taskids, folder_zero] at hm
    · exact Or.inl ⟨f, h, hm⟩

theorem hasEntry_get (N : Nat → Prop) (k : Int) (fs fs' : List psync_fstask_folder_t)
    (h : psync_fstask_get_folder_tasks_locked fs k = some fs') : TreeAddsOnly N fs fs' := by
  unfold psync_fstask_get_folder_tasks_locked at h
  split at h
  · simp only [Option.some.injEq] at h
    subst h
    exact hasEntry_update N k _ (addsOnly_refcnt N 1) fs
  · simp at h

theorem hasEntry_release (N : Nat → Prop) (k : Int) (fs : List psync_fstask_folder_t) :
    TreeAddsOnly N fs (psync_fstask_release_folder_tasks_locked fs k) := by
  unfold psync_fstask_release_folder_tasks_locked
  split
  · exact TreeAddsOnly.refl N fs
  · split
    · exact hasEntry_del N k fs
    · exact hasEntry_update N k _ (addsOnly_refcnt N (-1)) fs

theorem mem_map_insert_into_tree {α : Type} (cmp : String → String → Int)
    (nameof : α → String) (idof : α → Nat) (x : α) (l : List α) (t : Nat)
    (h : t ∈ (psync_fstask_insert_into_tree cmp nameof x l).map idof) :
    t ∈ l.map idof ∨ t = idof x := by
  have hp := (insert_into_tree_perm cmp nameof x l).map idof
  have := hp.mem_iff.mp h
  simp only [List.map_cons, List.mem_cons] at this
  tauto

theorem mem_map_eraseIdx {α : Type} (idof : α → Nat) (l : List α) (i t : Nat)
    (h : t ∈ (l.eraseIdx i).map idof) : t ∈ l.map idof := by
  obtain ⟨a, ha, hi⟩ := List.mem_map.mp h
  exact List.mem_map.mpr ⟨a, List.mem_of_mem_eraseIdx ha, hi⟩

theorem addsOnly_insert_mkdir (N : Nat → Prop) (cmp : String → String → Int)
    (x : psync_fstask_mkdir_t) (d : Int) (hx : N x.taskid) :
    AddsOnly N (fun f =>
      { f with mkdirs := psync_fstask_insert_into_tree cmp (fun e => e.name) x f.mkdirs,
               taskscnt := f.taskscnt + d }) := by
  intro f t h
  simp only [folder_taskids, List.mem_append] at h ⊢
  rcases h with ((h | h) | h) | h
  · rcases mem_map_insert_into_tree cmp _ _ x _ t h with h | h
    · tauto
    · subst h; exact Or.inr hx
  · tauto
  · tauto
  · tauto

theorem addsOnly_insert_rmdir (N : Nat → Prop) (cmp : String → String → Int)
    (x : psync_fstask_rmdir_t) (d : Int) (hx : N x.taskid) :
    AddsOnly N (fun f =>
      { f with rmdirs := psync_fstask_insert_into_tree cmp (fun e => e.name) x f.rmdirs,
               taskscnt := f.taskscnt + d }) := by
  intro f t h
  simp only [folder_taskids, List.mem_append] at h ⊢
  rcases h with ((h | h) | h) | h
  · tauto
  · rcases mem_map_insert_into_tree cmp _ _ x _ t h with h | h
    · tauto
    · subst h; exact Or.inr hx
  · tauto
  · tauto

theorem addsOnly_insert_creat (N : Nat → Prop) (cmp : String → String → Int)
    (x : psync_fstask_creat_t) (d : Int) (hx : N x.taskid) :
    AddsOnly N (fun f =>
      { f with creats := psync_fstask_insert_into_tree cmp (fun e => e.name) x f.creats,
               taskscnt := f.taskscnt + d }) := by
  intro f t h
  simp only [folder_taskids, List.mem_append] at h ⊢
  rcases h with ((h | h) | h) | h
  · tauto
  · tauto
  · rcases mem_map_insert_into_tree cmp _ _ x _ t h with h | h
    · tauto
    · subst h; exact Or.inr hx
  · tauto

theorem addsOnly_insert_unlink (N : Nat → Prop) (cmp : String → String → Int)
    (x : psync_fstask_unlink_t) (d : Int) (hx : N x.taskid) :
    AddsOnly N (fun f =>
      { f with unlinks := psync_fstask_insert_into_tree cmp (fun e => e.name) x f.unlinks,
               taskscnt := f.taskscnt + d }) := by
  intro f t h
  simp only [folder_taskids, List.mem_append] at h ⊢
  rcases h with ((h | h) | h) | h
  · tauto
  · tauto
  · tauto
  · rcases mem_map_insert_into_tree cmp _ _ x _ t h with h | h
    · tauto
    · subst h; exact Or.inr hx

theorem addsOnly_erase_mkdir (N : Nat → Prop) (i : Nat) (d : Int) :
    AddsOnly N (fun f => { f with mkdirs := f.mkdirs.eraseIdx i, taskscnt := f.taskscnt - d }) := by
  intro f t h
  simp only [folder_taskids, List.mem_append] at h ⊢
  rcases h with ((h | h) | h) | h
  · have := mem_map_eraseIdx _ _ _ _ h; tauto
  · tauto
  · tauto
  · tauto

theorem addsOnly_erase_rmdir (N : Nat → Prop) (i : Nat) (d : Int) :
    AddsOnly N (fun f => { f with rmdirs := f.rmdirs.eraseIdx i, taskscnt := f.taskscnt - d }) := by
  intro f t h
  simp only [folder_taskids, List.mem_append] at h ⊢
  rcases h with ((h | h) | h) | h
  · tauto
  · have := mem_map_eraseIdx _ _ _ _ h; tauto
  · tauto
  · tauto

theorem addsOnly_erase_creat (N : Nat → Prop) (i : Nat) (d : Int) :
    AddsOnly N (fun f => { f with creats := f.creats.eraseIdx i, taskscnt := f.taskscnt - d }) := by
  intro f t h
  simp only [folder_taskids, List.mem_append] at h ⊢
  rcases h with ((h | h) | h) | h
  · tauto
  · tauto
  · have := mem_map_eraseIdx _ _ _ _ h; tauto
  · tauto

theorem addsOnly_erase_unlink (N : Nat → Prop) (i : Nat) (d : Int) :
    AddsOnly N (fun f =>
      { f with unlinks := f.unlinks.eraseIdx i, taskscnt := f.taskscnt - d }) := by
  intro f t h
  simp only [folder_taskids, List.mem_append] at h ⊢
  rcases h with ((h | h) | h) | h
  · tauto
  · tauto
  · tauto
  · have := mem_map_eraseIdx _ _ _ _ h; tauto

/-! ## Entries and rows, call by call -/

theorem rowId_append_self (t : List fstask_row) (r : fstask_row) : RowId (t ++ [r]) r.id :=
  ⟨r, by simp, rfl⟩

theorem hasEntry_bracket (N : Nat → Prop) (k : Int)
    (g : psync_fstask_folder_t → psync_fstask_folder_t) (hg : AddsOnly N g)
    (fs : List psync_fstask_folder_t) :
    TreeAddsOnly N fs (psync_fstask_release_folder_tasks_locked
      (folder_update k g (psync_fstask_get_or_create_folder_tasks_locked fs k)) k) :=
  ((hasEntry_get_or_create N k fs).trans (hasEntry_update N k g hg _)).trans
    (hasEntry_release N k _)

theorem hasEntry_bracket2 (N : Nat → Prop) (k : Int)
    (g1 g2 : psync_fstask_folder_t → psync_fstask_folder_t) (hg1 : AddsOnly N g1)
    (hg2 : AddsOnly N g2) (fs : List psync_fstask_folder_t) :
    TreeAddsOnly N fs (psync_fstask_release_folder_tasks_locked
      (folder_update k g2 (folder_update k g1
        (psync_fstask_get_or_create_folder_tasks_locked fs k))) k) :=
  (((hasEntry_get_or_create N k fs).trans (hasEntry_update N k g1 hg1 _)).trans
    (hasEntry_update N k g2 hg2 _)).trans (hasEntry_release N k _)

theorem hasEntry_bracket0 (N : Nat → Prop) (k : Int) (fs : List psync_fstask_folder_t) :
    TreeAddsOnly N fs (psync_fstask_release_folder_tasks_locked
      (psync_fstask_get_or_create_folder_tasks_locked fs k) k) :=
  (hasEntry_get_or_create N k fs).trans (hasEntry_release N k _)

theorem mkdir_entries (cmp : String → String → Int) (s : State) (folderid : Int)
    (name : String) (ctime : Int) (commit : Bool) :
    (∀ r ∈ s.fstask, r ∈ (psync_fstask_mkdir cmp s folderid name ctime commit).2.fstask)
    ∧ TreeAddsOnly (RowId (psync_fstask_mkdir cmp s folderid name ctime commit).2.fstask)
        s.folders (psync_fstask_mkdir cmp s folderid name ctime commit).2.folders := by
  unfold psync_fstask_mkdir
  simp only []
  split
  · exact ⟨fun r h => h, hasEntry_bracket0 _ _ _⟩
  split
  · exact ⟨fun r h => h, hasEntry_bracket0 _ _ _⟩
  split
  · exact ⟨fun r h => h, hasEntry_bracket0 _ _ _⟩
  · refine ⟨fun r h => List.mem_append_left _ h, ?_⟩
    exact hasEntry_bracket _ _ _
      (addsOnly_insert_mkdir _ cmp _ 1 (rowId_append_self _ _)) _

theorem rmdir_tail_entries (cmp : String → String → Int) (s : State)
    (folders : List psync_fstask_folder_t) (folderid : Int) (name : String) (commit : Bool)
    (cfolderid : Int) (depend : Nat) :
    (∀ r ∈ s.fstask,
      r ∈ (psync_fstask_rmdir_tail cmp s folders folderid name commit cfolderid depend).2.fstask)
    ∧ TreeAddsOnly
        (RowId (psync_fstask_rmdir_tail cmp s folders folderid name commit cfolderid
          depend).2.fstask)
        folders
        (psync_fstask_rmdir_tail cmp s folders folderid name commit cfolderid depend).2.folders := by
  unfold psync_fstask_rmdir_tail
  simp only []
  split
  · exact ⟨fun r h => h, hasEntry_release _ _ _⟩
  · refine ⟨fun r h => List.mem_append_left _ h, ?_⟩
    exact (hasEntry_update _ _ _
      (addsOnly_insert_rmdir _ cmp _ 1 (rowId_append_self _ _)) _).trans
      (hasEntry_release _ _ _)

theorem rmdir_entries (cmp : String → String → Int) (s : State) (folderid : Int)
    (name : String) (commit : Bool) :
    (∀ r ∈ s.fstask, r ∈ (psync_fstask_rmdir cmp s folderid name commit).2.fstask)
    ∧ TreeAddsOnly (RowId (psync_fstask_rmdir cmp s folderid name commit).2.fstask)
        s.folders (psync_fstask_rmdir cmp s folderid name commit).2.folders := by
  unfold psync_fstask_rmdir
  simp only []
  split
  · split
    · exact ⟨fun r h => h, hasEntry_bracket0 _ _ _⟩
    · split
      · exact ⟨fun r h => h, hasEntry_bracket0 _ _ _⟩
      · obtain ⟨h1, h2⟩ := rmdir_tail_entries cmp s
          (psync_fstask_get_or_create_folder_tasks_locked s.folders folderid) folderid name
          commit _ 0
        exact ⟨h1, (hasEntry_get_or_create _ _ _).trans h2⟩
  · obtain ⟨h1, h2⟩ := rmdir_tail_entries cmp s
      (folder_update folderid _
        (psync_fstask_get_or_create_folder_tasks_locked s.folders folderid)) folderid name
      commit _ _
    exact ⟨h1, ((hasEntry_get_or_create _ _ _).trans
      (hasEntry_update _ _ _ (addsOnly_erase_mkdir _ _ 1) _)).trans h2⟩

theorem unlink_tail_entries (cmp : String → String → Int) (s : State)
    (folders : List psync_fstask_folder_t) (folderid : Int) (name : String) (commit : Bool)
    (fileid : Int) (depend : Nat) :
    (∀ r ∈ s.fstask,
      r ∈ (psync_fstask_unlink_tail cmp s folders folderid name commit fileid depend).2.fstask)
    ∧ TreeAddsOnly
        (RowId (psync_fstask_unlink_tail cmp s folders folderid name commit fileid
          depend).2.fstask)
        folders
        (psync_fstask_unlink_tail cmp s folders folderid name commit fileid depend).2.folders := by
  unfold psync_fstask_unlink_tail
  simp only []
  split
  · exact ⟨fun r h => h, hasEntry_release _ _ _⟩
  · refine ⟨fun r h => List.mem_append_left _ h, ?_⟩
    exact (hasEntry_update _ _ _
      (addsOnly_insert_unlink _ cmp _ 1 (rowId_append_self _ _)) _).trans
      (hasEntry_release _ _ _)

theorem unlink_entries (cmp : String → String → Int) (s : State) (folderid : Int)
    (name : String) (commit : Bool) :
    (∀ r ∈ s.fstask, r ∈ (psync_fstask_unlink cmp s folderid name commit).2.fstask)
    ∧ TreeAddsOnly (RowId (psync_fstask_unlink cmp s folderid name commit).2.fstask)
        s.folders (psync_fstask_unlink cmp s folderid name commit).2.folders := by
  unfold psync_fstask_unlink
  simp only []
  split
  · split
    · exact ⟨fun r h => h, hasEntry_bracket0 _ _ _⟩
    · split
      · exact ⟨fun r h => h, hasEntry_bracket0 _ _ _⟩
      · obtain ⟨h1, h2⟩ := unlink_tail_entries cmp s
          (psync_fstask_get_or_create_folder_tasks_locked s.folders folderid) folderid name
          commit _ 0
        exact ⟨h1, (hasEntry_get_or_create _ _ _).trans h2⟩
  · obtain ⟨h1, h2⟩ := unlink_tail_entries cmp s
      (folder_update folderid _
        (psync_fstask_get_or_create_folder_tasks_locked s.folders folderid)) folderid name
      commit _ _
    exact ⟨h1, ((hasEntry_get_or_create _ _ _).trans
      (hasEntry_update _ _ _ (addsOnly_erase_creat _ _ 1) _)).trans h2⟩

theorem add_creat_entries (cmp : String → String → Int) (s : State) (folderid : Int)
    (name : String) (commit : Bool) :
    (∀ r ∈ s.fstask, r ∈ (AddCreat cmp s folderid name commit).2.fstask)
    ∧ TreeAddsOnly (RowId (AddCreat cmp s folderid name commit).2.fstask)
        s.folders (AddCreat cmp s folderid name commit).2.folders := by
  unfold AddCreat psync_fstask_add_creat
  simp only []
  split
  · exact ⟨fun r h => h, hasEntry_bracket0 _ _ _⟩
  · refine ⟨fun r h => List.mem_append_left _ h, ?_⟩
    exact hasEntry_bracket _ _ _
      (addsOnly_insert_creat _ cmp _ 1 (rowId_append_self _ _)) _

theorem rename_file_entries (cmp : String → String → Int) (s : State) (fileid : Int)
    (parentfolderid : Int) (name : String) (to_folderid : Int) (new_name : Option String)
    (commit : Bool) :
    (∀ r ∈ s.fstask, r ∈ (psync_fstask_rename_file cmp s fileid parentfolderid name
        to_folderid new_name commit).2.fstask)
    ∧ TreeAddsOnly (RowId (psync_fstask_rename_file cmp s fileid parentfolderid name
        to_folderid new_name commit).2.fstask)
        s.folders (psync_fstask_rename_file cmp s fileid parentfolderid name
        to_folderid new_name commit).2.folders := by
  unfold psync_fstask_rename_file
  simp only []
  split
  · exact ⟨fun r h => h, TreeAddsOnly.refl _ _⟩
  · refine ⟨fun r h => List.mem_append_left _ (List.mem_append_left _ h), ?_⟩
    have hF : RowId ((s.fstask ++
        [{ id := sql_next_id s.fstask, type := PSYNC_FS_TASK_RENFILE_FROM, status := 10,
           folderid := parentfolderid, fileid := some fileid, text1 := name, text2 := none,
           int1 := none, int2 := none }]) ++
        [{ id := sql_next_id (s.fstask ++
            [{ id := sql_next_id s.fstask, type := PSYNC_FS_TASK_RENFILE_FROM, status := 10,
               folderid := parentfolderid, fileid := some fileid, text1 := name, text2 := none,
               int1 := none, int2 := none }]),
           type := PSYNC_FS_TASK_RENFILE_TO, status := 0, folderid := to_folderid,
           fileid := some fileid, text1 := new_name.getD name, text2 := none,
           int1 := some (sql_next_id s.fstask : Int), int2 := none }])
        (sql_next_id s.fstask) :=
      ⟨{ id := sql_next_id s.fstask, type := PSYNC_FS_TASK_RENFILE_FROM, status := 10,
         folderid := parentfolderid, fileid := some fileid, text1 := name, text2 := none,
         int1 := none, int2 := none }, by simp, rfl⟩
    refine TreeAddsOnly.trans ?_
      (hasEntry_bracket _ _ _ (addsOnly_insert_creat _ cmp _ 1 (rowId_append_self _ _)) _)
    refine TreeAddsOnly.trans ?_ (hasEntry_release _ _ _)
    refine TreeAddsOnly.trans ?_ (hasEntry_update _ _ _ (addsOnly_insert_unlink _ cmp _ 1 hF) _)
    refine TreeAddsOnly.trans (hasEntry_get_or_create _ parentfolderid _) ?_
    split
    · exact hasEntry_update _ _ _ (addsOnly_erase_creat _ _ 1) _
    · exact TreeAddsOnly.refl _ _

theorem lookup_of_get {k : Int} {fs fs' : List psync_fstask_folder_t}
    (h : psync_fstask_get_folder_tasks_locked fs k = some fs') :
    ∃ f, folder_lookup fs k = some f
      ∧ fs' = folder_update k (fun f => { f with refcnt := f.refcnt + 1 }) fs
      ∧ folder_lookup fs' k = some { f with refcnt := f.refcnt + 1 } := by
  unfold psync_fstask_get_folder_tasks_locked at h
  split at h
  · rename_i f hf
    simp only [Option.some.injEq] at h
    subst h
    refine ⟨f, hf, rfl, ?_⟩
    rw [folder_lookup_update_self _ _ (by intro _; rfl), hf]
    rfl
  · simp at h

theorem ack_block_entries {β : Type} (N : Nat → Prop)
    (find : psync_fstask_folder_t → Option (Nat × β))
    (g : Nat → psync_fstask_folder_t → psync_fstask_folder_t) (hg : ∀ i, AddsOnly N (g i))
    (fs : List psync_fstask_folder_t) (k : Int) :
    TreeAddsOnly N fs (ack_block find g fs k) := by
  unfold ack_block
  split
  · rename_i fs1 hget
    refine ((hasEntry_get N _ _ _ hget).trans ?_).trans (hasEntry_release _ _ _)
    split
    · exact hasEntry_update _ _ _ (hg _) _
    · exact TreeAddsOnly.refl _ _
  · exact TreeAddsOnly.refl _ _

theorem folder_deleted_entries (N : Nat → Prop) (cmp : String → String → Int) (s : State)
    (parentfolderid : Int) (taskid : Nat) (name : String) :
    (psync_fstask_folder_deleted cmp s parentfolderid taskid name).fstask = s.fstask
    ∧ TreeAddsOnly N s.folders
        (psync_fstask_folder_deleted cmp s parentfolderid taskid name).folders := by
  unfold psync_fstask_folder_deleted
  refine ⟨rfl, ?_⟩
  simp only []
  exact ack_block_entries N _ _ (by intro i; exact addsOnly_erase_rmdir N i 1) _ _

theorem file_created_entries (N : Nat → Prop) (cmp : String → String → Int) (s : State)
    (parentfolderid : Int) (taskid : Nat) (name : String) :
    (psync_fstask_file_created cmp s parentfolderid taskid name).fstask = s.fstask
    ∧ TreeAddsOnly N s.folders
        (psync_fstask_file_created cmp s parentfolderid taskid name).folders := by
  unfold psync_fstask_file_created
  refine ⟨rfl, ?_⟩
  simp only []
  exact ack_block_entries N _ _ (by intro i; exact addsOnly_erase_creat N i 1) _ _

theorem file_deleted_entries (N : Nat → Prop) (cmp : String → String → Int) (s : State)
    (parentfolderid : Int) (taskid : Nat) (name : String) :
    (psync_fstask_file_deleted cmp s parentfolderid taskid name).fstask = s.fstask
    ∧ TreeAddsOnly N s.folders
        (psync_fstask_file_deleted cmp s parentfolderid taskid name).folders := by
  unfold psync_fstask_file_deleted
  refine ⟨rfl, ?_⟩
  simp only []
  exact ack_block_entries N _ _ (by intro i; exact addsOnly_erase_unlink N i 1) _ _

theorem folder_created_entries (N : Nat → Prop) (cmp : String → String → Int) (s : State)
    (parentfolderid : Int) (taskid : Nat) (folderid : Int) (name : String) :
    (psync_fstask_folder_created cmp s parentfolderid taskid folderid name).fstask = s.fstask
    ∧ TreeAddsOnly N s.folders
        (psync_fstask_folder_created cmp s parentfolderid taskid folderid name).folders := by
  unfold psync_fstask_folder_created
  refine ⟨rfl, ?_⟩
  simp only []
  refine (ack_block_entries N (fun folder => psync_fstask_find_mkdir cmp folder name taskid) _
    (by intro i; exact addsOnly_erase_mkdir N i 1) s.folders parentfolderid).trans ?_
  split
  · rename_i fs1 hget
    obtain ⟨f, -, -, hl⟩ := lookup_of_get hget
    refine (hasEntry_get N _ _ _ hget).trans ?_
    rw [folder_deref_of_lookup hl]
    split
    · exact hasEntry_del _ _ _
    · rintro t ⟨f', hf', hm⟩
      rcases mem_folder_add hf' with h | h
      · subst h
        exact Or.inl ⟨_, folder_lookup_mem hl, hm⟩
      · exact Or.inl ⟨f', mem_folder_del h, hm⟩
  · exact TreeAddsOnly.refl _ _

theorem file_renamed_entries (N : Nat → Prop) (cmp : String → String → Int) (s : State)
    (folderid : Int) (taskid : Nat) (name : String) (frtaskid : Nat) :
    TreeAddsOnly N s.folders
      (psync_fstask_file_renamed cmp s folderid taskid name frtaskid).folders := by
  unfold psync_fstask_file_renamed sql_delete_fstask
  simp only []
  refine (ack_block_entries N (fun folder => psync_fstask_find_creat cmp folder name taskid) _
    (by intro i; exact addsOnly_erase_creat N i 1) s.folders folderid).trans ?_
  split
  · exact ack_block_entries N _ _ (by intro i; exact addsOnly_erase_unlink N i 1) _ _
  · exact TreeAddsOnly.refl _ _

/-- One call keeps the property "every entry in memory has a row with its task
id, or its task id is in `dels`", the `frtaskid` of a `file_renamed` call being
added to `dels`. -/
theorem call_entries_have_rows (cmp : String → String → Int) (s : State) (c : Call)
    (dels : List Nat)
    (h : ∀ t, HasEntry s.folders t → RowId s.fstask t ∨ t ∈ dels) :
    ∀ t, HasEntry (c.run cmp s).folders t →
      RowId (c.run cmp s).fstask t ∨ t ∈ dels ++ renamed_from [c] := by
  have mono : ∀ s' : State, (∀ r ∈ s.fstask, r ∈ s'.fstask) →
      TreeAddsOnly (RowId s'.fstask) s.folders s'.folders →
      ∀ t, HasEntry s'.folders t → RowId s'.fstask t ∨ t ∈ dels ++ renamed_from [c] := by
    intro s' hrows hent t ht
    rcases hent t ht with h1 | h1
    · rcases h t h1 with ⟨r, hr, hid⟩ | h2
      · exact Or.inl ⟨r, hrows r hr, hid⟩
      · exact Or.inr (List.mem_append_left _ h2)
    · exact Or.inl h1
  have same : ∀ s' : State, s'.fstask = s.fstask →
      TreeAddsOnly (RowId s'.fstask) s.folders s'.folders →
      ∀ t, HasEntry s'.folders t → RowId s'.fstask t ∨ t ∈ dels ++ renamed_from [c] := by
    intro s' hrows hent
    exact mono s' (by rw [hrows]; exact fun r hr => hr) hent
  cases c with
  | mkdir folderid name ctime commit =>
    exact mono _ (mkdir_entries cmp s folderid name ctime commit).1
      (mkdir_entries cmp s folderid name ctime commit).2
  | rmdir folderid name commit =>
    exact mono _ (rmdir_entries cmp s folderid name commit).1
      (rmdir_entries cmp s folderid name commit).2
  | add_creat folderid name commit =>
    exact mono _ (add_creat_entries cmp s folderid name commit).1
      (add_creat_entries cmp s folderid name commit).2
  | unlink folderid name commit =>
    exact mono _ (unlink_entries cmp s folderid name commit).1
      (unlink_entries cmp s folderid name commit).2
  | rename_file fileid parentfolderid name to_folderid new_name commit =>
    exact mono _
      (rename_file_entries cmp s fileid parentfolderid name to_folderid new_name commit).1
      (rename_file_entries cmp s fileid parentfolderid name to_folderid new_name commit).2
  | folder_created parentfolderid taskid folderid name =>
    exact same _ (folder_created_entries (fun _ => False) cmp s parentfolderid taskid folderid name).1
      (folder_created_entries _ cmp s parentfolderid taskid folderid name).2
  | folder_deleted parentfolderid taskid name =>
    exact same _ (folder_deleted_entries (fun _ => False) cmp s parentfolderid taskid name).1
      (folder_deleted_entries _ cmp s parentfolderid taskid name).2
  | file_created parentfolderid taskid name =>
    exact same _ (file_created_entries (fun _ => False) cmp s parentfolderid taskid name).1
      (file_created_entries _ cmp s parentfolderid taskid name).2
  | file_deleted parentfolderid taskid name =>
    exact same _ (file_deleted_entries (fun _ => False) cmp s parentfolderid taskid name).1
      (file_deleted_entries _ cmp s parentfolderid taskid name).2
  | server_tables folder file =>
    exact same _ rfl (TreeAddsOnly.refl _ _)
  | file_renamed folderid taskid name frtaskid =>
    intro t ht
    rcases file_renamed_entries (fun _ => False) cmp s folderid taskid name frtaskid t ht
      with h1 | h1
    · rcases h t h1 with ⟨r, hr, hid⟩ | h2
      · by_cases hfr : t = frtaskid
        · exact Or.inr (List.mem_append_right _ (by simp [renamed_from, hfr]))
        · refine Or.inl ⟨r, ?_, hid⟩
          show r ∈ (psync_fstask_file_renamed cmp s folderid taskid name frtaskid).fstask
          rw [file_renamed_fstask cmp s folderid taskid name frtaskid]
          simp [List.mem_filter, hr, hid, hfr]
      · exact Or.inr (List.mem_append_left _ h2)
    · exact absurd h1 id

theorem renamed_from_append (a b : List Call) :
    renamed_from (a ++ b) = renamed_from a ++ renamed_from b := by
  unfold renamed_from
  exact List.filterMap_append _ _ _

theorem run_calls_entries_have_rows (cmp : String → String → Int) (calls : List Call)
    (s : State) (dels : List Nat)
    (h : ∀ t, HasEntry s.folders t → RowId s.fstask t ∨ t ∈ dels) :
    ∀ t, HasEntry (run_calls cmp s calls).folders t →
      RowId (run_calls cmp s calls).fstask t ∨ t ∈ dels ++ renamed_from calls := by
  induction calls generalizing s dels with
  | nil => simpa [run_calls, renamed_from] using h
  | cons c rest ih =>
    have h1 := call_entries_have_rows cmp s c dels h
    have h2 := ih (c.run cmp s) (dels ++ renamed_from [c]) h1
    intro t ht
    have h3 := h2 t ht
    rw [List.append_assoc, ← renamed_from_append] at h3
    exact h3

/-- C8, counterexample: `Mkdir(0, "d")` (task 1, placeholder folder `-1`),
`AddCreat` of `"f"` under that folder (task 2, pending file `-2`),
`RenameFile(-2, -1, "f", 0, "g")` (FROM row 3 with `folderid = -1`, TO row 4),
`folder_created(0, 1, 77, "d")`, which re-keys `FolderTasks(-1)` to 77, and
`file_renamed(0, 4, "g", 3)`, which looks for the Unlink under the key `-1` of
row 3, finds no folder, and deletes row 3.  The Unlink with task id 3 is still
in memory, in `FolderTasks(77)`, and `fstask` has no row with id 3. -/
theorem entry_without_row_after_file_renamed :
    folder_lookup (run_calls strcmp (State.empty [] [])
        [Call.mkdir 0 "d" 100 true, Call.add_creat (-1) "f" true,
         Call.rename_file (-2) (-1) "f" 0 (some "g") true,
         Call.folder_created 0 1 77 "d", Call.file_renamed 0 4 "g" 3]).folders 77
      = some { folderid := 77, mkdirs := [], rmdirs := [], creats := [],
               unlinks := [{ taskid := 3, fileid := -2, name := "f" }],
               taskscnt := 1, refcnt := 0 }
    ∧ (run_calls strcmp (State.empty [] [])
        [Call.mkdir 0 "d" 100 true, Call.add_creat (-1) "f" true,
         Call.rename_file (-2) (-1) "f" 0 (some "g") true,
         Call.folder_created 0 1 77 "d", Call.file_renamed 0 4 "g" 3]).fstask.map
        (fun r => r.id) = [1, 2, 4] := by
  decide

/-- C8, amended: in every state reached from the empty store by Mkdir, Rmdir,
AddCreat, Unlink, RenameFile and the acknowledgement callbacks (folder_created,
folder_deleted, file_created, file_deleted, file_renamed), every in-memory
Mkdir, Rmdir, Creat and Unlink entry has a row in `fstask` whose id equals the
entry's task id, unless that task id has been passed as `t_from` to a
`file_renamed` call (which deletes the row). -/
theorem overlay_entries_have_rows (cmp : String → String → Int) (folder file : List server_row)
    (calls : List Call) :
    ∀ f ∈ (run_calls cmp (State.empty folder file) calls).folders,
      (∀ e ∈ f.mkdirs, (∃ r ∈ (run_calls cmp (State.empty folder file) calls).fstask,
          r.id = e.taskid) ∨ e.taskid ∈ renamed_from calls)
      ∧ (∀ e ∈ f.rmdirs, (∃ r ∈ (run_calls cmp (State.empty folder file) calls).fstask,
          r.id = e.taskid) ∨ e.taskid ∈ renamed_from calls)
      ∧ (∀ e ∈ f.creats, (∃ r ∈ (run_calls cmp (State.empty folder file) calls).fstask,
          r.id = e.taskid) ∨ e.taskid ∈ renamed_from calls)
      ∧ (∀ e ∈ f.unlinks, (∃ r ∈ (run_calls cmp (State.empty folder file) calls).fstask,
          r.id = e.taskid) ∨ e.taskid ∈ renamed_from calls) := by
  have h := run_calls_entries_have_rows cmp calls (State.empty folder file) []
    (by rintro t ⟨f, hf, -⟩; simp [State.empty] at hf)
  simp only [List.nil_append] at h
  intro f hf
  refine ⟨?_, ?_, ?_, ?_⟩ <;> intro e he <;> apply h e.taskid <;> refine ⟨f, hf, ?_⟩ <;>
    simp only [folder_taskids, List.mem_append, List.mem_map]
  · exact Or.inl (Or.inl (Or.inl ⟨e, he, rfl⟩))
  · exact Or.inl (Or.inl (Or.inr ⟨e, he, rfl⟩))
  · exact Or.inl (Or.inr ⟨e, he, rfl⟩)
  · exact Or.inr ⟨e, he, rfl⟩

/-! ## The lookup by name and task id -/

theorem search_scan_none_of_ne {α : Type} (cmp : String → String → Int) (nameof : α → String)
    (idof : α → Nat) (name : String) (t : Nat) (l : List α)
    (h : ∀ e ∈ l, cmp name (nameof e) ≠ 0) :
    search_scan cmp nameof idof name t l = none := by
  cases l with
  | nil => rfl
  | cons a rest =>
    have := h a (List.mem_cons_self _ _)
    simp [search_scan, this]

theorem search_tree_eq_scan {α : Type} (cmp : String → String → Int) (nameof : α → String)
    (idof : α → Nat) (l : List α) (name : String) (t : Nat) (ht : t ≠ 0) :
    psync_fstask_search_tree cmp nameof idof l name t =
      match l.findIdx? (fun e => cmp name (nameof e) = 0) with
      | none => none
      | some i => (search_scan cmp nameof idof name t (l.drop i)).map (fun k => i + k) := by
  unfold psync_fstask_search_tree search_descend
  cases hi : List.findIdx? (fun e => decide (cmp name (nameof e) = 0)) l with
  | none => rfl
  | some i =>
    simp only []
    obtain ⟨hlt, hpi, hbefore⟩ := List.findIdx?_eq_some_iff_getElem.mp hi
    have hdrop : l.drop i = l[i] :: l.drop (i + 1) := List.drop_eq_getElem_cons hlt
    have hci : cmp name (nameof l[i]) = 0 := by simpa using hpi
    have hprev : search_scan cmp nameof idof name t (l.take i).reverse = none := by
      apply search_scan_none_of_ne
      intro e he
      rw [List.mem_reverse] at he
      obtain ⟨j, hj, hje⟩ := List.getElem_of_mem he
      rw [List.length_take] at hj
      have hji : j < i := by omega
      rw [List.getElem_take] at hje
      have := hbefore j hji
      rw [← hje]
      simpa using this
    rw [hdrop, hprev]
    simp only [search_scan, hci, ne_eq, not_true_eq_false, if_false, List.getElem?_eq_getElem hlt,
      Option.map_some', Option.some.injEq, ht, false_or]
    by_cases hid : idof l[i] = t
    · simp [hid]
    · simp only [hid, if_false]
      cases search_scan cmp nameof idof name t (List.drop (i + 1) l) with
      | none => rfl
      | some k => simp; omega

theorem search_scan_eq_findIdx {α : Type} (cmp : String → String → Int) (hc : FilenameOrder cmp)
    (nameof : α → String) (idof : α → Nat) (name : String) (t : Nat) (l : List α)
    (hs : NameSorted cmp nameof l) (hle : ∀ b ∈ l, cmp name (nameof b) ≤ 0) :
    search_scan cmp nameof idof name t l =
      l.findIdx? (fun e => cmp name (nameof e) = 0 ∧ idof e = t) := by
  induction l with
  | nil => rfl
  | cons a rest ih =>
    unfold NameSorted at hs
    rw [List.pairwise_cons] at hs
    have ihr := ih hs.2 (fun b hb => hle b (List.mem_cons_of_mem _ hb))
    unfold search_scan
    by_cases ha : cmp name (nameof a) = 0
    · by_cases hid : idof a = t
      · simp [ha, hid]
      · simp [ha, hid, ihr, List.findIdx?_cons]
    · have hlt : cmp name (nameof a) < 0 := by
        have := hle a (List.mem_cons_self _ _)
        omega
      have hrest : ∀ b ∈ rest, ¬ (cmp name (nameof b) = 0 ∧ idof b = t) := by
        intro b hb ⟨hb0, _⟩
        have h1 : cmp (nameof a) (nameof b) ≤ 0 := hs.1 b hb
        have h2 : cmp (nameof b) name ≤ 0 := by
          by_contra hgt
          have := (hc.swap name (nameof b)).mpr (by omega)
          omega
        have h3 := hc.trans _ _ _ h1 h2
        have h4 := (hc.swap name (nameof a)).mp hlt
        omega
      have hnone : List.findIdx? (fun e => decide (cmp name (nameof e) = 0 ∧ idof e = t)) rest
          = none := by
        rw [List.findIdx?_eq_none_iff]
        intro b hb
        simpa using hrest b hb
      rw [List.findIdx?_cons, List.findIdx?_succ, hnone]
      simp [ha]

theorem findIdx_both_eq {α : Type} (p q : α → Bool) (hpq : ∀ a, q a = true → p a = true)
    (l : List α) :
    l.findIdx? q =
      match l.findIdx? p with
      | none => none
      | some i => ((l.drop i).findIdx? q).map (fun k => i + k) := by
  induction l with
  | nil => rfl
  | cons a rest ih =>
    rw [List.findIdx?_cons, List.findIdx?_cons, List.findIdx?_succ, List.findIdx?_succ]
    by_cases hp : p a = true
    · simp [hp]
    · have hq : q a = false := by
        cases h : q a with
        | false => rfl
        | true => exact absurd (hpq a h) hp
      simp only [hq, hp, Bool.false_eq_true, if_false, ih]
      cases hi : List.findIdx? p rest with
      | none => rfl
      | some i =>
        simp only [Option.map_some', List.drop_succ_cons, Option.map_map]
        congr 1
        funext k
        simp only [Function.comp]
        omega

/-- On a tree ascending by name, the lookup with a task id returns the first
entry whose name compares equal and whose task id is the one asked for. -/
theorem search_tree_eq_findIdx {α : Type} (cmp : String → String → Int)
    (hc : FilenameOrder cmp) (nameof : α → String) (idof : α → Nat) (l : List α)
    (name : String) (t : Nat) (ht : t ≠ 0) (hs : NameSorted cmp nameof l) :
    psync_fstask_search_tree cmp nameof idof l name t =
      l.findIdx? (fun e => cmp name (nameof e) = 0 ∧ idof e = t) := by
  rw [search_tree_eq_scan cmp nameof idof l name t ht,
    findIdx_both_eq (fun e => decide (cmp name (nameof e) = 0))
      (fun e => decide (cmp name (nameof e) = 0 ∧ idof e = t))
      (by intro a h; simp only [decide_eq_true_eq] at h ⊢; exact h.1) l]
  cases hi : List.findIdx? (fun e => decide (cmp name (nameof e) = 0)) l with
  | none => rfl
  | some i =>
    simp only []
    obtain ⟨hlt, hpi, -⟩ := List.findIdx?_eq_some_iff_getElem.mp hi
    have hci : cmp name (nameof l[i]) = 0 := by simpa using hpi
    have hdrop : l.drop i = l[i] :: l.drop (i + 1) := List.drop_eq_getElem_cons hlt
    have hsd : NameSorted cmp nameof (l.drop i) := List.Pairwise.sublist (List.drop_sublist i l) hs
    rw [search_scan_eq_findIdx cmp hc nameof idof name t (l.drop i) hsd]
    intro b hb
    rw [hdrop] at hb hsd
    rcases List.mem_cons.mp hb with h | h
    · rw [h, hci]
    · unfold NameSorted at hsd
      rw [List.pairwise_cons] at hsd
      exact hc.trans _ _ _ (by omega) (hsd.1 b h)

/-! ## One acknowledgement block -/

theorem map_folderid_update (k : Int) (g : psync_fstask_folder_t → psync_fstask_folder_t)
    (hg : ∀ f, (g f).folderid = f.folderid) (fs : List psync_fstask_folder_t) :
    (folder_update k g fs).map (fun f => f.folderid) = fs.map (fun f => f.folderid) := by
  induction fs with
  | nil => rfl
  | cons f rest ih =>
    unfold folder_update
    split
    · simp [hg]
    · simp [ih]

theorem folder_del_sublist (k : Int) (fs : List psync_fstask_folder_t) :
    List.Sublist (folder_del k fs) fs := by
  induction fs with
  | nil => exact List.Sublist.refl _
  | cons f rest ih =>
    unfold folder_del
    split
    · exact List.sublist_cons_self _ _
    · exact List.Sublist.cons₂ _ ih

theorem keysNodup_update {k : Int} {g : psync_fstask_folder_t → psync_fstask_folder_t}
    (hg : ∀ f, (g f).folderid = f.folderid) {fs : List psync_fstask_folder_t}
    (h : KeysNodup fs) : KeysNodup (folder_update k g fs) := by
  unfold KeysNodup at h ⊢
  rw [map_folderid_update k g hg]
  exact h

theorem keysNodup_del {k : Int} {fs : List psync_fstask_folder_t} (h : KeysNodup fs) :
    KeysNodup (folder_del k fs) := by
  unfold KeysNodup at h ⊢
  exact List.Nodup.sublist ((folder_del_sublist k fs).map _) h

theorem folder_lookup_del_self {k : Int} {fs : List psync_fstask_folder_t}
    (h : KeysNodup fs) : folder_lookup (folder_del k fs) k = none := by
  induction fs with
  | nil => rfl
  | cons f rest ih =>
    unfold KeysNodup at h
    rw [List.map_cons, List.nodup_cons] at h
    unfold folder_del
    split
    · rename_i hk
      unfold folder_lookup
      rw [List.find?_eq_none]
      intro x hx hxk
      simp only [decide_eq_true_eq] at hxk
      apply h.1
      rw [hk, ← hxk]
      exact List.mem_map_of_mem _ hx
    · rename_i hk
      have := ih h.2
      unfold folder_lookup at this ⊢
      simp [List.find?, hk, this]

theorem keysNodup_release {k : Int} {fs : List psync_fstask_folder_t} (h : KeysNodup fs) :
    KeysNodup (psync_fstask_release_folder_tasks_locked fs k) := by
  unfold psync_fstask_release_folder_tasks_locked
  split
  · exact h
  · split
    · exact keysNodup_del h
    · exact keysNodup_update (by intro _; rfl) h

theorem keysNodup_ack_block {β : Type} (find : psync_fstask_folder_t → Option (Nat × β))
    (g : Nat → psync_fstask_folder_t → psync_fstask_folder_t)
    (hg : ∀ i f, (g i f).folderid = f.folderid)
    (fs : List psync_fstask_folder_t) (k : Int) (h : KeysNodup fs) :
    KeysNodup (ack_block find g fs k) := by
  unfold ack_block
  split
  · rename_i fs1 hget
    obtain ⟨f, -, hfs1, -⟩ := lookup_of_get hget
    have h1 : KeysNodup fs1 := by rw [hfs1]; exact keysNodup_update (by intro _; rfl) h
    apply keysNodup_release
    split
    · exact keysNodup_update (hg _) h1
    · exact h1
  · exact h

theorem countOk_zero {f : psync_fstask_folder_t} (h : CountOk f) (hr : f.refcnt = 0)
    (ht : f.taskscnt = 0) : f = folder_zero f.folderid := by
  unfold CountOk at h
  rw [ht] at h
  have h1 : f.mkdirs = [] := List.eq_nil_of_length_eq_zero (by omega)
  have h2 : f.rmdirs = [] := List.eq_nil_of_length_eq_zero (by omega)
  have h3 : f.creats = [] := List.eq_nil_of_length_eq_zero (by omega)
  have h4 : f.unlinks = [] := List.eq_nil_of_length_eq_zero (by omega)
  cases f
  simp only [folder_zero] at *
  simp [h1, h2, h3, h4, hr, ht]

/-- The effect of one acknowledgement block on the folders as `folder_deref`
sees them, when the block implements the change `target` of the folder. -/
theorem ack_block_deref {β : Type} (find : psync_fstask_folder_t → Option (Nat × β))
    (g : Nat → psync_fstask_folder_t → psync_fstask_folder_t)
    (target : psync_fstask_folder_t → psync_fstask_folder_t)
    (fs : List psync_fstask_folder_t) (k : Int)
    (hg : ∀ i f, (g i f).folderid = f.folderid)
    (hkeys : KeysNodup fs)
    (hzero : target (folder_zero k) = folder_zero k)
    (hnone : ∀ f, folder_lookup fs k = some f →
      find { f with refcnt := f.refcnt + 1 } = none → target f = f)
    (hsome : ∀ f i b, folder_lookup fs k = some f →
      find { f with refcnt := f.refcnt + 1 } = some (i, b) →
      { g i { f with refcnt := f.refcnt + 1 } with
          refcnt := (g i { f with refcnt := f.refcnt + 1 }).refcnt - 1 } = target f)
    (hcount : ∀ f, folder_lookup fs k = some f → CountOk (target f)) :
    ∀ k', folder_deref (ack_block find g fs k) k' =
      if k' = k then target (folder_deref fs k) else folder_deref fs k' := by
  intro k'
  unfold ack_block
  cases hget : psync_fstask_get_folder_tasks_locked fs k with
  | none =>
    simp only []
    have hl : folder_lookup fs k = none := by
      unfold psync_fstask_get_folder_tasks_locked at hget
      split at hget
      · simp at hget
      · assumption
    split
    · rename_i hk
      rw [hk, folder_deref_of_lookup_none hl, hzero]
    · rfl
  | some fs1 =>
    simp only []
    obtain ⟨f, hf, hfs1, hl1⟩ := lookup_of_get hget
    have hk1 : KeysNodup fs1 := by rw [hfs1]; exact keysNodup_update (by intro _; rfl) hkeys
    rw [folder_deref_of_lookup hl1, folder_deref_of_lookup hf]
    have hfk : f.folderid = k := folder_lookup_key hf
    -- the tree before the release, and the folder at key `k` in it
    have key : ∀ (fs2 : List psync_fstask_folder_t) (f2 : psync_fstask_folder_t),
        KeysNodup fs2 → folder_lookup fs2 k = some f2 →
        (∀ k'', k'' ≠ k → folder_lookup fs2 k'' = folder_lookup fs k'') →
        { f2 with refcnt := f2.refcnt - 1 } = target f →
        folder_deref (psync_fstask_release_folder_tasks_locked fs2 k) k' =
          if k' = k then target f else folder_deref fs k' := by
      intro fs2 f2 hk2 hl2 hother htarget
      unfold psync_fstask_release_folder_tasks_locked
      rw [hl2]
      simp only []
      by_cases hk : k' = k
      · rw [if_pos hk, hk]
        split
        · rename_i hcond
          unfold folder_deref
          rw [folder_lookup_del_self hk2]
          have ht : (target f).refcnt = 0 ∧ (target f).taskscnt = 0 := by
            rw [← htarget]; exact hcond
          have hid : (target f).folderid = k := by
            rw [← htarget]; exact (folder_lookup_key hl2 : f2.folderid = k)
          have := countOk_zero (hcount f hf) ht.1 ht.2
          rw [hid] at this
          simp [this]
        · unfold folder_deref
          rw [folder_lookup_update_self k _ (by intro _; rfl), hl2]
          simpa using htarget
      · rw [if_neg hk]
        split
        · unfold folder_deref
          rw [folder_lookup_del_ne k k' hk, hother k' hk]
        · unfold folder_deref
          rw [folder_lookup_update_ne k k' _ (by intro _; rfl) hk, hother k' hk]
    have hother1 : ∀ k'', k'' ≠ k → folder_lookup fs1 k'' = folder_lookup fs k'' := by
      intro k'' hk''
      rw [hfs1]
      exact folder_lookup_update_ne k k'' _ (by intro _; rfl) hk'' fs
    cases hfind : find { f with refcnt := f.refcnt + 1 } with
    | none =>
      simp only []
      apply key fs1 _ hk1 hl1 hother1
      rw [hnone f hf hfind]
      cases f
      simp
    | some ib =>
      obtain ⟨i, b⟩ := ib
      simp only []
      apply key (folder_update k (g i) fs1) (g i { f with refcnt := f.refcnt + 1 })
        (keysNodup_update (hg i) hk1)
      · rw [folder_lookup_update_self k (g i) (hg i), hl1]
        rfl
      · intro k'' hk''
        rw [folder_lookup_update_ne k k'' (g i) (hg i) hk'', hother1 k'' hk'']
      · exact hsome f i b hf hfind

/-! ## `psync_fstask_file_renamed` on the overlay -/

theorem eraseIdx_of_findIdx_some {α : Type} (p : α → Bool) (l : List α) (i : Nat)
    (h : l.findIdx? p = some i) :
    l.eraseIdx i = l.eraseP p ∧ l.any p = true ∧ i < l.length := by
  induction l generalizing i with
  | nil => simp at h
  | cons a rest ih =>
    rw [List.findIdx?_cons, List.findIdx?_succ] at h
    by_cases hp : p a = true
    · simp only [hp, if_true, Option.some.injEq] at h
      subst h
      simp [hp]
    · simp only [hp, Bool.false_eq_true, if_false, Option.map_eq_some'] at h
      obtain ⟨j, hj, hji⟩ := h
      subst hji
      obtain ⟨h1, h2, h3⟩ := ih j hj
      refine ⟨?_, ?_, ?_⟩
      · simp [hp, h1]
      · simp only [List.any_cons, h2, Bool.or_true]
      · simp only [List.length_cons]; omega

theorem eraseP_of_findIdx_none {α : Type} (p : α → Bool) (l : List α)
    (h : l.findIdx? p = none) : l.eraseP p = l ∧ l.any p = false := by
  rw [List.findIdx?_eq_none_iff] at h
  refine ⟨List.eraseP_of_forall_not (fun a ha => by simpa using h a ha), ?_⟩
  rw [List.any_eq_false]
  intro x hx
  simpa using h x hx

theorem tree_find_eq_findIdx {α : Type} (cmp : String → String → Int)
    (hc : FilenameOrder cmp) (nameof : α → String) (idof : α → Nat) (l : List α)
    (name : String) (t : Nat) (ht : t ≠ 0) (hs : NameSorted cmp nameof l) :
    (tree_find cmp nameof idof l name t = none ∧
      l.findIdx? (fun e => cmp name (nameof e) = 0 ∧ idof e = t) = none)
    ∨ ∃ i b, tree_find cmp nameof idof l name t = some (i, b) ∧
      l.findIdx? (fun e => cmp name (nameof e) = 0 ∧ idof e = t) = some i := by
  unfold tree_find
  rw [search_tree_eq_findIdx cmp hc nameof idof l name t ht hs]
  cases hi : List.findIdx? (fun e => decide (cmp name (nameof e) = 0 ∧ idof e = t)) l with
  | none => exact Or.inl ⟨rfl, rfl⟩
  | some i =>
    have hlt := (List.findIdx?_eq_some_iff_getElem.mp hi).1
    refine Or.inr ⟨i, l[i], ?_, rfl⟩
    simp [List.getElem?_eq_getElem hlt]

theorem countOk_without_creat (cmp : String → String → Int) (name : String) (taskid : Nat)
    (f : psync_fstask_folder_t) (h : CountOk f) : CountOk (without_creat cmp name taskid f) := by
  unfold CountOk without_creat at *
  simp only [List.length_eraseP]
  split
  · rename_i hany
    obtain ⟨x, hx, -⟩ := List.any_eq_true.mp hany
    have := List.length_pos_of_mem hx
    omega
  · omega

theorem countOk_without_unlink (cmp : String → String → Int) (name : String) (taskid : Nat)
    (f : psync_fstask_folder_t) (h : CountOk f) : CountOk (without_unlink cmp name taskid f) := by
  unfold CountOk without_unlink at *
  simp only [List.length_eraseP]
  split
  · rename_i hany
    obtain ⟨x, hx, -⟩ := List.any_eq_true.mp hany
    have := List.length_pos_of_mem hx
    omega
  · omega

theorem countOk_zero_folder (k : Int) : CountOk (folder_zero k) := by
  simp [CountOk, folder_zero]

theorem ack_creat_deref (cmp : String → String → Int) (hc : FilenameOrder cmp)
    (fs : List psync_fstask_folder_t) (k : Int) (name : String) (taskid : Nat)
    (ht : taskid ≠ 0) (hkeys : KeysNodup fs) (hcount : CountOk (folder_deref fs k))
    (hsorted : NameSorted cmp (fun e => e.name) (folder_deref fs k).creats) :
    ∀ k', folder_deref
        (ack_block (fun f => psync_fstask_find_creat cmp f name taskid)
          (fun i f => { f with creats := f.creats.eraseIdx i, taskscnt := f.taskscnt - 1 })
          fs k) k' =
      if k' = k then without_creat cmp name taskid (folder_deref fs k) else folder_deref fs k' := by
  apply ack_block_deref _ _ (without_creat cmp name taskid) fs k (by intro _ _; rfl) hkeys
  · simp [without_creat, folder_zero]
  · intro f hf hfind
    rw [folder_deref_of_lookup hf] at hsorted
    rcases tree_find_eq_findIdx cmp hc (fun e : psync_fstask_creat_t => e.name)
      (fun e => e.taskid) f.creats name taskid ht hsorted with ⟨-, h2⟩ | ⟨i, b, h1, -⟩
    · obtain ⟨h3, h4⟩ := eraseP_of_findIdx_none _ _ h2
      unfold without_creat
      rw [h3, h4]
      cases f
      simp
    · unfold psync_fstask_find_creat at hfind
      rw [h1] at hfind
      simp at hfind
  · intro f i b hf hfind
    rw [folder_deref_of_lookup hf] at hsorted
    rcases tree_find_eq_findIdx cmp hc (fun e : psync_fstask_creat_t => e.name)
      (fun e => e.taskid) f.creats name taskid ht hsorted with ⟨h1, -⟩ | ⟨i', b', h1, h2⟩
    · unfold psync_fstask_find_creat at hfind
      rw [h1] at hfind
      simp at hfind
    · unfold psync_fstask_find_creat at hfind
      rw [h1] at hfind
      simp only [Option.some.injEq, Prod.mk.injEq] at hfind
      obtain ⟨hi, -⟩ := hfind
      subst hi
      obtain ⟨h3, h4, -⟩ := eraseIdx_of_findIdx_some _ _ _ h2
      unfold without_creat
      rw [← h3, h4]
      cases f
      simp
  · intro f hf
    rw [folder_deref_of_lookup hf] at hcount
    exact countOk_without_creat cmp name taskid f hcount

theorem ack_unlink_deref (cmp : String → String → Int) (hc : FilenameOrder cmp)
    (fs : List psync_fstask_folder_t) (k : Int) (name : String) (taskid : Nat)
    (ht : taskid ≠ 0) (hkeys : KeysNodup fs) (hcount : CountOk (folder_deref fs k))
    (hsorted : NameSorted cmp (fun e => e.name) (folder_deref fs k).unlinks) :
    ∀ k', folder_deref
        (ack_block (fun f => psync_fstask_find_unlink cmp f name taskid)
          (fun i f => { f with unlinks := f.unlinks.eraseIdx i, taskscnt := f.taskscnt - 1 })
          fs k) k' =
      if k' = k then without_unlink cmp name taskid (folder_deref fs k)
      else folder_deref fs k' := by
  apply ack_block_deref _ _ (without_unlink cmp name taskid) fs k (by intro _ _; rfl) hkeys
  · simp [without_unlink, folder_zero]
  · intro f hf hfind
    rw [folder_deref_of_lookup hf] at hsorted
    rcases tree_find_eq_findIdx cmp hc (fun e : psync_fstask_unlink_t => e.name)
      (fun e => e.taskid) f.unlinks name taskid ht hsorted with ⟨-, h2⟩ | ⟨i, b, h1, -⟩
    · obtain ⟨h3, h4⟩ := eraseP_of_findIdx_none _ _ h2
      unfold without_unlink
      rw [h3, h4]
      cases f
      simp
    · unfold psync_fstask_find_unlink at hfind
      rw [h1] at hfind
      simp at hfind
  · intro f i b hf hfind
    rw [folder_deref_of_lookup hf] at hsorted
    rcases tree_find_eq_findIdx cmp hc (fun e : psync_fstask_unlink_t => e.name)
      (fun e => e.taskid) f.unlinks name taskid ht hsorted with ⟨h1, -⟩ | ⟨i', b', h1, h2⟩
    · unfold psync_fstask_find_unlink at hfind
      rw [h1] at hfind
      simp at hfind
    · unfold psync_fstask_find_unlink at hfind
      rw [h1] at hfind
      simp only [Option.some.injEq, Prod.mk.injEq] at hfind
      obtain ⟨hi, -⟩ := hfind
      subst hi
      obtain ⟨h3, h4, -⟩ := eraseIdx_of_findIdx_some _ _ _ h2
      unfold without_unlink
      rw [← h3, h4]
      cases f
      simp
  · intro f hf
    rw [folder_deref_of_lookup hf] at hcount
    exact countOk_without_unlink cmp name taskid f hcount

theorem file_renamed_folders (cmp : String → String → Int) (s : State) (folderid : Int)
    (taskid : Nat) (name : String) (frtaskid : Nat) :
    (psync_fstask_file_renamed cmp s folderid taskid name frtaskid).folders =
      match sql_fstask_by_id s.fstask frtaskid with
      | some row =>
        ack_block (fun f => psync_fstask_find_unlink cmp f row.text1 row.id)
          (fun i f => { f with unlinks := f.unlinks.eraseIdx i, taskscnt := f.taskscnt - 1 })
          (ack_block (fun f => psync_fstask_find_creat cmp f name taskid)
            (fun i f => { f with creats := f.creats.eraseIdx i, taskscnt := f.taskscnt - 1 })
            s.folders folderid) row.folderid
      | none =>
        ack_block (fun f => psync_fstask_find_creat cmp f name taskid)
          (fun i f => { f with creats := f.creats.eraseIdx i, taskscnt := f.taskscnt - 1 })
          s.folders folderid := by
  unfold psync_fstask_file_renamed sql_delete_fstask
  cases sql_fstask_by_id s.fstask frtaskid <;> rfl

theorem countOk_deref {fs : List psync_fstask_folder_t} (h : ∀ f ∈ fs, CountOk f) (k : Int) :
    CountOk (folder_deref fs k) := by
  unfold folder_deref
  cases hl : folder_lookup fs k with
  | none => exact countOk_zero_folder k
  | some f => exact h f (folder_lookup_mem hl)

theorem sorted_unlinks_deref {cmp : String → String → Int} {fs : List psync_fstask_folder_t}
    (h : ∀ f ∈ fs, NameSorted cmp (fun e => e.name) f.unlinks) (k : Int) :
    NameSorted cmp (fun e => e.name) (folder_deref fs k).unlinks := by
  unfold folder_deref
  cases hl : folder_lookup fs k with
  | none => exact List.Pairwise.nil
  | some f => exact h f (folder_lookup_mem hl)

theorem sorted_creats_deref {cmp : String → String → Int} {fs : List psync_fstask_folder_t}
    (h : ∀ f ∈ fs, NameSorted cmp (fun e => e.name) f.creats) (k : Int) :
    NameSorted cmp (fun e => e.name) (folder_deref fs k).creats := by
  unfold folder_deref
  cases hl : folder_lookup fs k with
  | none => exact List.Pairwise.nil
  | some f => exact h f (folder_lookup_mem hl)

/-- C6: `file_renamed(folder, t_to, name, t_from)`, called while the `fstask` row
`t_from` exists, removes from `FolderTasks(folder)` the Creat named `name` with
task id `t_to` and from the folder recorded in row `t_from` the Unlink with
task id `t_from` under the name recorded in that row; `taskscnt` of a folder
drops by one per entry removed from it, and every other set and folder is as
before (a folder absent from the collection counts as the folder with empty
sets and zero counters).  The tree is taken well-formed: distinct keys,
`taskscnt` counting the entries, creats and unlinks ascending by name; task
ids are not 0. -/
theorem file_renamed_overlay (cmp : String → String → Int) (hc : FilenameOrder cmp)
    (s : State) (folderid : Int) (taskid : Nat) (name : String) (frtaskid : Nat)
    (row : fstask_row)
    (hrow : sql_fstask_by_id s.fstask frtaskid = some row)
    (hto : taskid ≠ 0) (hfrom : frtaskid ≠ 0)
    (hkeys : KeysNodup s.folders)
    (hcount : ∀ f ∈ s.folders, CountOk f)
    (hcreats : ∀ f ∈ s.folders, NameSorted cmp (fun e => e.name) f.creats)
    (hunlinks : ∀ f ∈ s.folders, NameSorted cmp (fun e => e.name) f.unlinks) :
    ∀ k, folder_deref (psync_fstask_file_renamed cmp s folderid taskid name frtaskid).folders k =
      (if k = row.folderid then without_unlink cmp row.text1 frtaskid else id)
        ((if k = folderid then without_creat cmp name taskid else id)
          (folder_deref s.folders k)) := by
  have hid : row.id = frtaskid := by
    unfold sql_fstask_by_id at hrow
    simpa using List.find?_some hrow
  have h1 := ack_creat_deref cmp hc s.folders folderid name taskid hto hkeys
    (countOk_deref hcount folderid) (sorted_creats_deref hcreats folderid)
  have hk1 := keysNodup_ack_block (fun f => psync_fstask_find_creat cmp f name taskid)
    (fun i f => { f with creats := f.creats.eraseIdx i, taskscnt := f.taskscnt - 1 })
    (by intro _ _; rfl) s.folders folderid hkeys
  have hc2 : CountOk (folder_deref (ack_block (fun f => psync_fstask_find_creat cmp f name taskid)
      (fun i f => { f with creats := f.creats.eraseIdx i, taskscnt := f.taskscnt - 1 })
      s.folders folderid) row.folderid) := by
    rw [h1]
    split
    · exact countOk_without_creat cmp name taskid _ (countOk_deref hcount folderid)
    · exact countOk_deref hcount _
  have hs2 : NameSorted cmp (fun e => e.name)
      (folder_deref (ack_block (fun f => psync_fstask_find_creat cmp f name taskid)
      (fun i f => { f with creats := f.creats.eraseIdx i, taskscnt := f.taskscnt - 1 })
      s.folders folderid) row.folderid).unlinks := by
    rw [h1]
    split
    · exact sorted_unlinks_deref hunlinks folderid
    · exact sorted_unlinks_deref hunlinks _
  have h2 := ack_unlink_deref cmp hc _ row.folderid row.text1 row.id (by rw [hid]; exact hfrom)
    hk1 hc2 hs2
  intro k
  rw [file_renamed_folders, hrow]
  simp only []
  rw [h2 k, h1 k, h1 row.folderid, hid]
  by_cases hk : k = row.folderid
  · subst hk
    by_cases hk2 : row.folderid = folderid
    · simp [hk2]
    · simp [hk2]
  · by_cases hk2 : k = folderid
    · subst hk2; simp [hk]
    · simp [hk, hk2]

theorem strcmp_le_iff (a b : String) : strcmp a b ≤ 0 ↔ a ≤ b := by
  unfold strcmp
  by_cases h : a = b
  · simp [h]
  · by_cases h2 : a < b
    · simp [h, h2, le_of_lt h2]
    · simp only [h, h2, if_false]
      constructor
      · intro h3; omega
      · intro h3
        exact absurd (lt_of_le_of_ne h3 h) h2

theorem strcmp_lt_iff (a b : String) : strcmp a b < 0 ↔ a < b := by
  unfold strcmp
  by_cases h : a = b
  · simp [h]
  · by_cases h2 : a < b
    · simp [h, h2]
    · simp [h, h2]

theorem strcmp_pos_iff (a b : String) : 0 < strcmp a b ↔ b < a := by
  unfold strcmp
  by_cases h : a = b
  · simp [h]
  · by_cases h2 : a < b
    · simp [h, h2, lt_asymm h2]
    · simp only [h, h2, if_false]
      constructor
      · intro _
        rcases lt_trichotomy a b with h3 | h3 | h3
        · exact absurd h3 h2
        · exact absurd h3 h
        · exact h3
      · intro _; omega

/-- The comparator `strcmp` is a total preorder. -/
theorem strcmp_order : FilenameOrder strcmp where
  refl := by intro a; simp [strcmp]
  swap := by intro a b; rw [strcmp_lt_iff, strcmp_pos_iff]
  trans := by
    intro a b c h1 h2
    rw [strcmp_le_iff] at *
    exact le_trans h1 h2

/-- Witness for C6: after `RenameFile(5, 0, "f", 1, "g")` on the empty store,
`file_renamed(1, 2, "g", 1)` empties both folders. -/
theorem file_renamed_overlay_witness :
    folder_deref (psync_fstask_file_renamed strcmp
        (psync_fstask_rename_file strcmp (State.empty [] []) 5 0 "f" 1 (some "g") true).2
        1 2 "g" 1).folders 0 = folder_zero 0
    ∧ folder_deref (psync_fstask_file_renamed strcmp
        (psync_fstask_rename_file strcmp (State.empty [] []) 5 0 "f" 1 (some "g") true).2
        1 2 "g" 1).folders 1 = folder_zero 1 := by
  have h := file_renamed_overlay strcmp strcmp_order
    (psync_fstask_rename_file strcmp (State.empty [] []) 5 0 "f" 1 (some "g") true).2
    1 2 "g" 1
    { id := 1, type := PSYNC_FS_TASK_RENFILE_FROM, status := 10, folderid := 0,
      fileid := some 5, text1 := "f", text2 := none, int1 := none, int2 := none }
    (by decide) (by decide) (by decide) (by decide) (by decide) (by decide) (by decide)
  exact ⟨(h 0).trans (by decide), (h 1).trans (by decide)⟩

/-- Witness for the amended C8: in the state of the counterexample the Unlink
with task id 3 is covered by the exception, 3 having been passed as `t_from`. -/
theorem overlay_entries_have_rows_witness :
    (∃ r ∈ (run_calls strcmp (State.empty [] [])
        [Call.mkdir 0 "d" 100 true, Call.add_creat (-1) "f" true,
         Call.rename_file (-2) (-1) "f" 0 (some "g") true,
         Call.folder_created 0 1 77 "d", Call.file_renamed 0 4 "g" 3]).fstask, r.id = 3)
    ∨ 3 ∈ renamed_from
        [Call.mkdir 0 "d" 100 true, Call.add_creat (-1) "f" true,
         Call.rename_file (-2) (-1) "f" 0 (some "g") true,
         Call.folder_created 0 1 77 "d", Call.file_renamed 0 4 "g" 3] :=
  (overlay_entries_have_rows strcmp [] []
    [Call.mkdir 0 "d" 100 true, Call.add_creat (-1) "f" true,
     Call.rename_file (-2) (-1) "f" 0 (some "g") true,
     Call.folder_created 0 1 77 "d", Call.file_renamed 0 4 "g" 3]
    { folderid := 77, mkdirs := [], rmdirs := [], creats := [],
      unlinks := [{ taskid := 3, fileid := -2, name := "f" }], taskscnt := 1, refcnt := 0 }
    (by decide)).2.2.2 { taskid := 3, fileid := -2, name := "f" } (by decide)

/-! ## Dependency edges of `AddCreat` -/

/-- C7, the failing input: `Mkdir(0, "d")` creates task 1 and the pending folder
`-1`; `AddCreat` under that folder creates task 2 and records the edge
`(2, 2^64 - 1)`: the folder id itself, converted to `uint64_t`, instead of its
negation.  No `fstask` row has that id, and no edge from task 2 to task 1, the
task that creates the parent, is recorded. -/
theorem add_creat_edge_dangling :
    (run_calls strcmp (State.empty [] [])
      [Call.mkdir 0 "d" 100 true, Call.add_creat (-1) "f" true]).fstask.map
        (fun r => (r.id, r.type, r.folderid)) = [(1, 1, 0), (2, 3, -1)]
    ∧ (run_calls strcmp (State.empty [] [])
      [Call.mkdir 0 "d" 100 true, Call.add_creat (-1) "f" true]).fstaskdepend
        = [(2, 18446744073709551615)] := by
  decide

/-! ## Replay -/

/-- C3, the failing input: `Mkdir(0, "a")` commits; `Rmdir(0, "a")` removes the
pending Mkdir from memory and then fails to commit (`-EIO`).  The live store
has no folder left, the `fstask` table still holds the MKDIR row, and the
replay of that table rebuilds the Mkdir entry. -/
theorem replay_differs_after_failed_commit :
    (psync_fstask_rmdir strcmp
      (psync_fstask_mkdir strcmp (State.empty [] []) 0 "a" 100 true).2 0 "a" false).1 = - EIO
    ∧ (run_calls strcmp (State.empty [] [])
        [Call.mkdir 0 "a" 100 true, Call.rmdir 0 "a" false]).folders = []
    ∧ (psync_fstask_init strcmp
        { run_calls strcmp (State.empty [] [])
            [Call.mkdir 0 "a" 100 true, Call.rmdir 0 "a" false] with folders := [] }).folders
        = [{ folderid := 0,
             mkdirs := [{ taskid := 1, ctime := 100, mtime := 100, folderid := -1,
                          subdircnt := 0, name := "a" }],
             rmdirs := [], creats := [], unlinks := [], taskscnt := 1, refcnt := 0 }] := by
  decide

/-! ### The folder tree between calls -/

theorem folder_add_keys_perm (nf : psync_fstask_folder_t) (fs : List psync_fstask_folder_t) :
    ((folder_add nf fs).map (fun f => f.folderid)).Perm
      (nf.folderid :: fs.map (fun f => f.folderid)) := by
  induction fs with
  | nil => exact List.Perm.refl _
  | cons a rest ih =>
    unfold folder_add
    split
    · exact List.Perm.refl _
    · simp only [List.map_cons]
      exact (List.Perm.cons _ ih).trans (List.Perm.swap _ _ _)

theorem not_mem_keys_of_lookup_none {fs : List psync_fstask_folder_t} {k : Int}
    (h : folder_lookup fs k = none) : k ∉ fs.map (fun f => f.folderid) := by
  intro hm
  obtain ⟨f, hf, hk⟩ := List.mem_map.mp hm
  unfold folder_lookup at h
  have := List.find?_eq_none.mp h f hf
  simp [hk] at this

theorem keysNodup_get_or_create {k : Int} {fs : List psync_fstask_folder_t}
    (h : KeysNodup fs) : KeysNodup (psync_fstask_get_or_create_folder_tasks_locked fs k) := by
  unfold psync_fstask_get_or_create_folder_tasks_locked
  cases hl : folder_lookup fs k with
  | some f => exact keysNodup_update (by intro _; rfl) h
  | none =>
    simp only []
    unfold KeysNodup at h ⊢
    rw [(folder_add_keys_perm _ fs).nodup_iff]
    exact List.nodup_cons.mpr ⟨not_mem_keys_of_lookup_none hl, h⟩

theorem lookup_of_mem {fs : List psync_fstask_folder_t} (h : KeysNodup fs)
    {f : psync_fstask_folder_t} (hf : f ∈ fs) : folder_lookup fs f.folderid = some f := by
  induction fs with
  | nil => simp at hf
  | cons a rest ih =>
    unfold KeysNodup at h
    rw [List.map_cons, List.nodup_cons] at h
    unfold folder_lookup
    rcases List.mem_cons.mp hf with hfa | hfr
    · subst hfa
      simp [List.find?]
    · have hne : a.folderid ≠ f.folderid := by
        intro e
        apply h.1
        rw [e]
        exact List.mem_map_of_mem _ hfr
      have := ih h.2 hfr
      unfold folder_lookup at this
      simp [List.find?, hne, this]

theorem keysNodup_bracket {k : Int} {g : psync_fstask_folder_t → psync_fstask_folder_t}
    (hg : ∀ f, (g f).folderid = f.folderid) {fs : List psync_fstask_folder_t}
    (h : KeysNodup fs) : KeysNodup (folder_bracket fs k g) :=
  keysNodup_release (keysNodup_update hg (keysNodup_get_or_create h))

theorem atRest_deref_refcnt {fs : List psync_fstask_folder_t} (h : AtRest fs) (k : Int) :
    (folder_deref fs k).refcnt = 0 := by
  unfold folder_deref
  cases hl : folder_lookup fs k with
  | none => rfl
  | some f => exact (h.2 f (folder_lookup_mem hl)).1

theorem atRest_bracket {k : Int} {g : psync_fstask_folder_t → psync_fstask_folder_t}
    (hg : ∀ f, (g f).folderid = f.folderid) (hr : ∀ f, (g f).refcnt = f.refcnt)
    {fs : List psync_fstask_folder_t} (h : AtRest fs) : AtRest (folder_bracket fs k g) := by
  have hkn := keysNodup_bracket (k := k) hg h.1
  refine ⟨hkn, ?_⟩
  intro f hf
  have hl := lookup_of_mem hkn hf
  by_cases hk : f.folderid = k
  · rw [hk] at hl
    by_cases hcond : (g (folder_held fs k)).refcnt - 1 = 0 ∧ (g (folder_held fs k)).taskscnt = 0
    · exfalso
      have hdel : folder_bracket fs k g =
          folder_del k (folder_update k g (psync_fstask_get_or_create_folder_tasks_locked fs k)) := by
        unfold folder_bracket psync_fstask_release_folder_tasks_locked
        rw [folder_lookup_update_self k g hg, lookup_get_or_create_self]
        simp only [Option.map_some']
        unfold folder_held at hcond
        rw [if_pos hcond]
      rw [hdel, folder_lookup_del_self (keysNodup_update hg (keysNodup_get_or_create h.1))] at hl
      simp at hl
    · rw [lookup_bracket_self fs k g hg hcond] at hl
      simp only [Option.some.injEq] at hl
      have hr1 : (g (folder_held fs k)).refcnt = 1 := by
        rw [hr]
        simp only [folder_held]
        rw [atRest_deref_refcnt h k]
        rfl
      rw [← hl]
      simp only []
      constructor
      · omega
      · intro h0
        exact hcond ⟨by omega, h0⟩
  · rw [lookup_bracket_ne fs k f.folderid g hg hk] at hl
    exact h.2 f (folder_lookup_mem hl)

theorem atRest_release_get_or_create {fs : List psync_fstask_folder_t} (h : AtRest fs)
    (k : Int) :
    psync_fstask_release_folder_tasks_locked
      (psync_fstask_get_or_create_folder_tasks_locked fs k) k = fs :=
  release_get_or_create fs k
    (fun f hf => Or.inr (h.2 f (folder_lookup_mem hf)).2)

theorem atRest_bracket2 {k : Int} {g1 g2 : psync_fstask_folder_t → psync_fstask_folder_t}
    (hg1 : ∀ f, (g1 f).folderid = f.folderid) (hr1 : ∀ f, (g1 f).refcnt = f.refcnt)
    (hg2 : ∀ f, (g2 f).folderid = f.folderid) (hr2 : ∀ f, (g2 f).refcnt = f.refcnt)
    {fs : List psync_fstask_folder_t} (h : AtRest fs) :
    AtRest (psync_fstask_release_folder_tasks_locked
      (folder_update k g2 (folder_update k g1
        (psync_fstask_get_or_create_folder_tasks_locked fs k))) k) := by
  rw [folder_update_update k g1 g2 hg1]
  exact atRest_bracket (g := fun f => g2 (g1 f)) (by intro f; rw [hg2, hg1])
    (by intro f; rw [hr2, hr1]) h

theorem atRest_init_task (cmp : String → String → Int) (fs : List psync_fstask_folder_t)
    (row : fstask_row) (h : AtRest fs) : AtRest (psync_init_task cmp fs row) := by
  unfold psync_init_task
  split
  · exact atRest_bracket (by intro _; rfl) (by intro _; rfl) h
  · unfold psync_init_task_rmdir
    simp only []
    split
    · exact atRest_bracket2 (by intro _; rfl) (by intro _; rfl) (by intro _; rfl)
        (by intro _; rfl) h
    · exact atRest_bracket (by intro _; rfl) (by intro _; rfl) h
  · exact atRest_bracket (by intro _; rfl) (by intro _; rfl) h
  · unfold psync_init_task_unlink
    simp only []
    split
    · exact atRest_bracket2 (by intro _; rfl) (by intro _; rfl) (by intro _; rfl)
        (by intro _; rfl) h
    · exact atRest_bracket (by intro _; rfl) (by intro _; rfl) h
  · unfold psync_init_task_renfile_from
    simp only []
    split
    · exact atRest_bracket2 (by intro _; rfl) (by intro _; rfl) (by intro _; rfl)
        (by intro _; rfl) h
    · exact atRest_bracket (by intro _; rfl) (by intro _; rfl) h
  · exact atRest_bracket (by intro _; rfl) (by intro _; rfl) h
  · exact h

theorem atRest_foldl_init_task (cmp : String → String → Int) (rows : List fstask_row)
    (fs : List psync_fstask_folder_t) (h : AtRest fs) :
    AtRest (rows.foldl (psync_init_task cmp) fs) := by
  induction rows generalizing fs with
  | nil => exact h
  | cons r rest ih => exact ih _ (atRest_init_task cmp fs r h)

theorem replays_nil (cmp : String → String → Int) (s s' : State) (h1 : s'.fstask = s.fstask)
    (h2 : s'.folders = s.folders) : Replays cmp s s' :=
  ⟨[], by simp [h1], by simp [h2]⟩

theorem mkdir_replays (cmp : String → String → Int) (s : State) (folderid : Int)
    (name : String) (ctime : Int) (commit : Bool) (h : AtRest s.folders) :
    Replays cmp s (psync_fstask_mkdir cmp s folderid name ctime commit).2 := by
  unfold psync_fstask_mkdir
  simp only []
  split
  · exact replays_nil cmp _ _ rfl (atRest_release_get_or_create h folderid)
  split
  · exact replays_nil cmp _ _ rfl (atRest_release_get_or_create h folderid)
  split
  · exact replays_nil cmp _ _ rfl (atRest_release_get_or_create h folderid)
  · exact ⟨[_], rfl, rfl⟩

theorem add_creat_replays (cmp : String → String → Int) (s : State) (folderid : Int)
    (name : String) (commit : Bool) (h : AtRest s.folders) :
    Replays cmp s (AddCreat cmp s folderid name commit).2 := by
  unfold AddCreat psync_fstask_add_creat
  simp only []
  split
  · exact replays_nil cmp _ _ rfl (atRest_release_get_or_create h folderid)
  · refine ⟨[_], rfl, ?_⟩
    simp only [List.foldl_cons, List.foldl_nil]
    unfold psync_init_task psync_init_task_creat
    simp only [PSYNC_FS_TASK_CREAT, folder_deref_get_or_create, folder_held, folder_deref_key]

theorem rmdir_replays (cmp : String → String → Int) (s : State) (folderid : Int)
    (name : String) (h : AtRest s.folders) :
    Replays cmp s (psync_fstask_rmdir cmp s folderid name true).2 := by
  unfold psync_fstask_rmdir
  simp only []
  split
  · rename_i hfind
    split
    · exact replays_nil cmp _ _ rfl (atRest_release_get_or_create h folderid)
    · split
      · exact replays_nil cmp _ _ rfl (atRest_release_get_or_create h folderid)
      · refine ⟨[_], rfl, ?_⟩
        simp only [List.foldl_cons, List.foldl_nil]
        unfold psync_init_task psync_init_task_rmdir
        simp only [PSYNC_FS_TASK_RMDIR, hfind]
        rfl
  · rename_i i mk hfind
    refine ⟨[_], rfl, ?_⟩
    simp only [List.foldl_cons, List.foldl_nil]
    unfold psync_init_task psync_init_task_rmdir
    simp only [PSYNC_FS_TASK_RMDIR, hfind]
    rfl

theorem unlink_replays (cmp : String → String → Int) (s : State) (folderid : Int)
    (name : String) (h : AtRest s.folders) :
    Replays cmp s (psync_fstask_unlink cmp s folderid name true).2 := by
  unfold psync_fstask_unlink
  simp only []
  split
  · rename_i hfind
    split
    · exact replays_nil cmp _ _ rfl (atRest_release_get_or_create h folderid)
    · split
      · exact replays_nil cmp _ _ rfl (atRest_release_get_or_create h folderid)
      · refine ⟨[_], rfl, ?_⟩
        simp only [List.foldl_cons, List.foldl_nil]
        unfold psync_init_task psync_init_task_unlink
        simp only [PSYNC_FS_TASK_UNLINK, hfind]
        rfl
  · rename_i i cr hfind
    refine ⟨[_], rfl, ?_⟩
    simp only [List.foldl_cons, List.foldl_nil]
    unfold psync_init_task psync_init_task_unlink
    simp only [PSYNC_FS_TASK_UNLINK, hfind]
    rfl

theorem rename_file_replays (cmp : String → String → Int) (s : State) (fileid : Int)
    (parentfolderid : Int) (name : String) (to_folderid : Int) (new_name : Option String)
    (commit : Bool) :
    Replays cmp s (psync_fstask_rename_file cmp s fileid parentfolderid name to_folderid
      new_name commit).2 := by
  unfold psync_fstask_rename_file
  simp only []
  split
  · exact replays_nil cmp _ _ rfl rfl
  · refine ⟨[_, _], (List.append_assoc _ [_] [_]), ?_⟩
    simp only [List.foldl_cons, List.foldl_nil]
    unfold psync_init_task psync_init_task_renfile_from psync_init_task_renfile_to
    simp only [PSYNC_FS_TASK_RENFILE_FROM, PSYNC_FS_TASK_RENFILE_TO]
    cases psync_fstask_find_creat cmp
      (folder_deref (psync_fstask_get_or_create_folder_tasks_locked s.folders parentfolderid)
        parentfolderid) name 0 <;> rfl

theorem call_replays (cmp : String → String → Int) (s : State) (c : Call)
    (hc : c.replayable = true) (h : AtRest s.folders) : Replays cmp s (c.run cmp s) := by
  cases c with
  | mkdir folderid name ctime commit => exact mkdir_replays cmp s folderid name ctime commit h
  | rmdir folderid name commit =>
    simp only [Call.replayable] at hc
    subst hc
    exact rmdir_replays cmp s folderid name h
  | add_creat folderid name commit => exact add_creat_replays cmp s folderid name commit h
  | unlink folderid name commit =>
    simp only [Call.replayable] at hc
    subst hc
    exact unlink_replays cmp s folderid name h
  | rename_file fileid parentfolderid name to_folderid new_name commit =>
    exact rename_file_replays cmp s fileid parentfolderid name to_folderid new_name commit
  | server_tables folder file => exact replays_nil cmp _ _ rfl rfl
  | folder_created _ _ _ _ => simp [Call.replayable] at hc
  | folder_deleted _ _ _ => simp [Call.replayable] at hc
  | file_created _ _ _ => simp [Call.replayable] at hc
  | file_deleted _ _ _ => simp [Call.replayable] at hc
  | file_renamed _ _ _ _ => simp [Call.replayable] at hc

theorem run_calls_replay (cmp : String → String → Int) (calls : List Call) (s : State)
    (hc : ∀ c ∈ calls, c.replayable = true) (h : AtRest s.folders)
    (hs : s.fstask.foldl (psync_init_task cmp) [] = s.folders) :
    (run_calls cmp s calls).fstask.foldl (psync_init_task cmp) [] = (run_calls cmp s calls).folders
    ∧ AtRest (run_calls cmp s calls).folders := by
  induction calls generalizing s with
  | nil => exact ⟨hs, h⟩
  | cons c rest ih =>
    obtain ⟨rows, hrows, hfolders⟩ := call_replays cmp s c (hc c (List.mem_cons_self _ _)) h
    apply ih (c.run cmp s) (fun c' hc' => hc c' (List.mem_cons_of_mem _ hc'))
    · rw [hfolders]; exact atRest_foldl_init_task cmp rows s.folders h
    · rw [hrows, List.foldl_append, hs, hfolders]

/-- Replay, for calls that commit: for every state reached from the empty store
by Mkdir, Rmdir, AddCreat, Unlink and RenameFile calls (and changes of the
server tables), no `Rmdir` or `Unlink` among them ending in a failed commit,
`psync_fstask_init` run on the empty folder tree over the resulting `fstask`
table rebuilds exactly the folder tree of the live state. -/
theorem replay_of_committed_calls (cmp : String → String → Int) (folder file : List server_row)
    (calls : List Call) (hc : ∀ c ∈ calls, c.replayable = true) :
    (psync_fstask_init cmp
      { run_calls cmp (State.empty folder file) calls with folders := [] }).folders
      = (run_calls cmp (State.empty folder file) calls).folders :=
  (run_calls_replay cmp calls (State.empty folder file) hc
    ⟨List.nodup_nil, by intro f hf; simp [State.empty] at hf⟩ rfl).1

/-- The replay statement applied to a sequence that cancels a pending mkdir
and renames a pending file. -/
theorem replay_of_committed_calls_witness :
    (psync_fstask_init strcmp
      { run_calls strcmp (State.empty [] [])
          [Call.mkdir 0 "a" 100 true, Call.add_creat (-1) "f" true, Call.rmdir 0 "a" true,
           Call.rename_file (-2) (-1) "f" 0 none true] with folders := [] }).folders
      = (run_calls strcmp (State.empty [] [])
          [Call.mkdir 0 "a" 100 true, Call.add_creat (-1) "f" true, Call.rmdir 0 "a" true,
           Call.rename_file (-2) (-1) "f" 0 none true]).folders :=
  replay_of_committed_calls strcmp [] [] _ (by decide)

/-! ## Name lookup -/

/-- Under a filename order, comparing equal is symmetric. -/
theorem cmp_zero_symm {cmp : String → String → Int} (hc : FilenameOrder cmp) {a b : String}
    (h : cmp a b = 0) : cmp b a = 0 := by
  have h1 := hc.swap a b
  have h2 := hc.swap b a
  omega

/-- Under a filename order, `a ≤ b` unless `b < a`. -/
theorem cmp_le_of_not_lt {cmp : String → String → Int} (hc : FilenameOrder cmp) {a b : String}
    (h : ¬ cmp b a < 0) : cmp a b ≤ 0 := by
  have h1 := hc.swap b a
  omega

/-- Under a filename order, `name < a` and `a ≤ b` give `name ≠ b`. -/
theorem cmp_ne_of_lt_of_le {cmp : String → String → Int} (hc : FilenameOrder cmp)
    {name a b : String} (h1 : cmp name a < 0) (h2 : cmp a b ≤ 0) : cmp name b ≠ 0 := by
  intro h0
  have h3 : cmp b name ≤ 0 := by have := cmp_zero_symm hc h0; omega
  have h4 := hc.trans _ _ _ h2 h3
  have h5 := (hc.swap name a).mp h1
  omega

/-- Under a filename order, `a < name` and `b ≤ a` give `name ≠ b`. -/
theorem cmp_ne_of_gt_of_le {cmp : String → String → Int} (hc : FilenameOrder cmp)
    {name a b : String} (h1 : 0 < cmp name a) (h2 : cmp b a ≤ 0) : cmp name b ≠ 0 := by
  intro h0
  have h3 : cmp name b ≤ 0 := by omega
  have h4 := hc.trans _ _ _ h3 h2
  omega

/-- A scan that returns a position returns one that holds an entry with the
name and the task id. -/
theorem search_scan_sound {α : Type} (cmp : String → String → Int) (nameof : α → String)
    (idof : α → Nat) (name : String) (t : Nat) (l : List α) (k : Nat)
    (h : search_scan cmp nameof idof name t l = some k) :
    ∃ e, l[k]? = some e ∧ cmp name (nameof e) = 0 ∧ idof e = t := by
  induction l generalizing k with
  | nil => simp [search_scan] at h
  | cons a rest ih =>
    unfold search_scan at h
    by_cases ha : cmp name (nameof a) = 0
    · by_cases hid : idof a = t
      · simp only [ha, ne_eq, not_true_eq_false, if_false, hid, if_true, Option.some.injEq] at h
        subst h
        exact ⟨a, by simp, ha, hid⟩
      · simp only [ha, ne_eq, not_true_eq_false, if_false, hid, Option.map_eq_some'] at h
        obtain ⟨k', hk', hkk⟩ := h
        subst hkk
        obtain ⟨e, he, h1, h2⟩ := ih k' hk'
        exact ⟨e, by simpa using he, h1, h2⟩
    · simp [ha] at h

/-- A scan over a list in which the entries carrying the name come first
returns `none` only when no entry has the name and the task id. -/
theorem search_scan_complete {α : Type} (cmp : String → String → Int) (nameof : α → String)
    (idof : α → Nat) (name : String) (t : Nat) (l : List α)
    (hp : l.Pairwise (fun a b => cmp name (nameof a) ≠ 0 → cmp name (nameof b) ≠ 0))
    (h : search_scan cmp nameof idof name t l = none) :
    ∀ e ∈ l, ¬ (cmp name (nameof e) = 0 ∧ idof e = t) := by
  induction l with
  | nil => intro e he; simp at he
  | cons a rest ih =>
    rw [List.pairwise_cons] at hp
    unfold search_scan at h
    intro e he
    by_cases ha : cmp name (nameof a) = 0
    · by_cases hid : idof a = t
      · simp [ha, hid] at h
      · simp only [ha, ne_eq, not_true_eq_false, if_false, hid, Option.map_eq_none'] at h
        rcases List.mem_cons.mp he with he | he
        · subst he; intro hh; exact hid hh.2
        · exact ih hp.2 h e he
    · rcases List.mem_cons.mp he with he | he
      · subst he; intro hh; exact ha hh.1
      · intro hh; exact hp.1 e he ha hh.1

/-- In a name-sorted list the entries behind an entry with the name `name`
that carry the name come first. -/
theorem pairwise_drop_of_sorted {α : Type} {cmp : String → String → Int} (hc : FilenameOrder cmp)
    {nameof : α → String} {l : List α} (hs : NameSorted cmp nameof l) {name : String}
    {i : Nat} {e : α} (hi : l[i]? = some e) (he : cmp name (nameof e) = 0) :
    (l.drop (i + 1)).Pairwise
      (fun a b => cmp name (nameof a) ≠ 0 → cmp name (nameof b) ≠ 0) := by
  have hlt : i < l.length := by
    rcases Nat.lt_or_ge i l.length with h | h
    · exact h
    · rw [List.getElem?_eq_none h] at hi; cases hi
  have hie : l[i] = e := by
    rw [List.getElem?_eq_getElem hlt] at hi; exact Option.some.inj hi
  have hsplit : l = l.take i ++ e :: l.drop (i + 1) := by
    conv_lhs => rw [← List.take_append_drop i l, List.drop_eq_getElem_cons hlt, hie]
  unfold NameSorted at hs
  rw [hsplit, List.pairwise_append, List.pairwise_cons] at hs
  obtain ⟨_, ⟨hge, hd⟩, _⟩ := hs
  refine List.Pairwise.imp_of_mem ?_ hd
  intro a b ha _ hab hane
  have hna : cmp name (nameof a) ≤ 0 := by
    have := hc.trans name (nameof e) (nameof a) (by omega) (hge a ha)
    exact this
  exact cmp_ne_of_lt_of_le hc (by omega) hab

/-- In a name-sorted list the entries in front of an entry with the name
`name`, walked backwards, have those carrying the name first. -/
theorem pairwise_take_reverse_of_sorted {α : Type} {cmp : String → String → Int}
    (hc : FilenameOrder cmp) {nameof : α → String} {l : List α}
    (hs : NameSorted cmp nameof l) {name : String}
    {i : Nat} {e : α} (hi : l[i]? = some e) (he : cmp name (nameof e) = 0) :
    ((l.take i).reverse).Pairwise
      (fun a b => cmp name (nameof a) ≠ 0 → cmp name (nameof b) ≠ 0) := by
  have hlt : i < l.length := by
    rcases Nat.lt_or_ge i l.length with h | h
    · exact h
    · rw [List.getElem?_eq_none h] at hi; cases hi
  have hie : l[i] = e := by
    rw [List.getElem?_eq_getElem hlt] at hi; exact Option.some.inj hi
  have hsplit : l = l.take i ++ e :: l.drop (i + 1) := by
    conv_lhs => rw [← List.take_append_drop i l, List.drop_eq_getElem_cons hlt, hie]
  unfold NameSorted at hs
  rw [hsplit, List.pairwise_append] at hs
  obtain ⟨ht, _, hcross⟩ := hs
  rw [List.pairwise_reverse]
  refine List.Pairwise.imp_of_mem ?_ ht
  intro a b _ hb hab hbne
  have hbe : cmp (nameof b) (nameof e) ≤ 0 := hcross b hb e (List.mem_cons_self _ _)
  have hen : cmp (nameof e) name ≤ 0 := by have := cmp_zero_symm hc he; omega
  have hbn : cmp (nameof b) name ≤ 0 := hc.trans _ _ _ hbe hen
  have hpos : 0 < cmp name (nameof b) := by
    have := hc.swap (nameof b) name
    have := hc.swap name (nameof b)
    omega
  exact cmp_ne_of_gt_of_le hc hpos hab

/-- The part of `psync_fstask_search_tree` behind the descent is right on a
name-sorted list, whichever entry with the name the descent stopped at. -/
theorem search_from_spec {α : Type} (cmp : String → String → Int) (hc : FilenameOrder cmp)
    (nameof : α → String) (idof : α → Nat) (l : List α) (hs : NameSorted cmp nameof l)
    (name : String) (t : Nat) (i : Nat) (e : α) (hi : l[i]? = some e)
    (he : cmp name (nameof e) = 0) :
    FindsEntry cmp nameof idof l name t (search_from cmp nameof idof l name t i) := by
  have hlt : i < l.length := by
    rcases Nat.lt_or_ge i l.length with h | h
    · exact h
    · rw [List.getElem?_eq_none h] at hi; cases hi
  have hie : l[i] = e := by
    rw [List.getElem?_eq_getElem hlt] at hi; exact Option.some.inj hi
  have hsplit : l = l.take i ++ e :: l.drop (i + 1) := by
    conv_lhs => rw [← List.take_append_drop i l, List.drop_eq_getElem_cons hlt, hie]
  unfold search_from
  by_cases h0 : t = 0 ∨ l[i]?.map idof = some t
  · rw [if_pos h0]
    refine ⟨?_, by intro h; cases h⟩
    intro j hj
    cases hj
    refine ⟨e, hi, he, ?_⟩
    rcases h0 with h0 | h0
    · exact Or.inl h0
    · rw [hi] at h0; exact Or.inr (by simpa using h0)
  · rw [if_neg h0]
    have ht : t ≠ 0 := fun h => h0 (Or.inl h)
    have hei : idof e ≠ t := by
      intro h; apply h0; right; rw [hi]; simp [h]
    cases hb : search_scan cmp nameof idof name t (l.take i).reverse with
    | some k =>
      simp only []
      refine ⟨?_, by intro h; cases h⟩
      intro j hj
      cases hj
      obtain ⟨x, hx, hx1, hx2⟩ := search_scan_sound cmp nameof idof name t _ k hb
      refine ⟨x, ?_, hx1, Or.inr hx2⟩
      have hk : k < (l.take i).reverse.length := by
        rcases Nat.lt_or_ge k (l.take i).reverse.length with h | h
        · exact h
        · rw [List.getElem?_eq_none h] at hx; cases hx
      rw [List.length_reverse, List.length_take] at hk
      have hki : k < i := by omega
      rw [List.getElem?_reverse (by rw [List.length_take]; omega), List.length_take,
        List.getElem?_take] at hx
      have hmin : min i l.length = i := by omega
      rw [hmin, if_pos (by omega)] at hx
      exact hx
    | none =>
      simp only []
      have hnb := search_scan_complete cmp nameof idof name t _
        (pairwise_take_reverse_of_sorted hc hs hi he) hb
      cases hf : search_scan cmp nameof idof name t (l.drop (i + 1)) with
      | some k =>
        simp only []
        refine ⟨?_, by intro h; cases h⟩
        intro j hj
        cases hj
        obtain ⟨x, hx, hx1, hx2⟩ := search_scan_sound cmp nameof idof name t _ k hf
        refine ⟨x, ?_, hx1, Or.inr hx2⟩
        rw [List.getElem?_drop] at hx
        exact hx
      | none =>
        simp only []
        refine ⟨(by intro j hj; cases hj), ?_⟩
        intro _ x hx hw
        have hnf := search_scan_complete cmp nameof idof name t _
          (pairwise_drop_of_sorted hc hs hi he) hf
        have hwt : idof x = t := by
          rcases hw.2 with h | h
          · exact absurd h ht
          · exact h
        rw [hsplit] at hx
        rcases List.mem_append.mp hx with hx | hx
        · exact hnb x (List.mem_reverse.mpr hx) ⟨hw.1, hwt⟩
        · rcases List.mem_cons.mp hx with hx | hx
          · subst hx; exact hei hwt
          · exact hnf x hx ⟨hw.1, hwt⟩

/-- The descent on a tree whose in-order sequence is name-sorted stops at an
entry with the name, and runs off the tree only when no entry has the name. -/
theorem search_descend_tree_spec {α : Type} (cmp : String → String → Int)
    (hc : FilenameOrder cmp) (nameof : α → String) (name : String) (t : psync_tree α)
    (hs : NameSorted cmp nameof t.inorder) :
    (∀ i, search_descend_tree cmp nameof name t = some i →
      ∃ e, t.inorder[i]? = some e ∧ cmp name (nameof e) = 0)
    ∧ (search_descend_tree cmp nameof name t = none →
      ∀ e ∈ t.inorder, cmp name (nameof e) ≠ 0) := by
  induction t with
  | nil =>
    refine ⟨?_, ?_⟩
    · intro i h; simp [search_descend_tree] at h
    · intro _ e he; simp [psync_tree.inorder] at he
  | node l x r ihl ihr =>
    unfold NameSorted at hs ihl ihr
    simp only [psync_tree.inorder] at hs ⊢
    rw [List.pairwise_append, List.pairwise_cons] at hs
    obtain ⟨hsl, ⟨hxr, hsr⟩, hcross⟩ := hs
    have hl := ihl hsl
    have hr := ihr hsr
    unfold search_descend_tree
    by_cases h1 : cmp name (nameof x) < 0
    · rw [if_pos h1]
      refine ⟨?_, ?_⟩
      · intro i hi
        obtain ⟨e, he, he0⟩ := hl.1 i hi
        refine ⟨e, ?_, he0⟩
        have hlt : i < l.inorder.length := by
          rcases Nat.lt_or_ge i l.inorder.length with h | h
          · exact h
          · rw [List.getElem?_eq_none h] at he; cases he
        rw [List.getElem?_append_left hlt]; exact he
      · intro hn e he
        rcases List.mem_append.mp he with he | he
        · exact hl.2 hn e he
        · rcases List.mem_cons.mp he with he | he
          · subst he; omega
          · exact cmp_ne_of_lt_of_le hc h1 (hxr e he)
    · rw [if_neg h1]
      by_cases h2 : cmp name (nameof x) > 0
      · rw [if_pos h2]
        refine ⟨?_, ?_⟩
        · intro i hi
          rw [Option.map_eq_some'] at hi
          obtain ⟨j, hj, hji⟩ := hi
          subst hji
          obtain ⟨e, he, he0⟩ := hr.1 j hj
          refine ⟨e, ?_, he0⟩
          rw [List.getElem?_append_right (by omega)]
          have : l.inorder.length + 1 + j - l.inorder.length = j + 1 := by omega
          rw [this]
          simpa using he
        · intro hn e he
          rw [Option.map_eq_none'] at hn
          rcases List.mem_append.mp he with he | he
          · exact cmp_ne_of_gt_of_le hc h2 (hcross e he x (List.mem_cons_self _ _))
          · rcases List.mem_cons.mp he with he | he
            · subst he; omega
            · exact hr.2 hn e he
      · rw [if_neg h2]
        refine ⟨?_, by intro h; cases h⟩
        intro i hi
        cases hi
        refine ⟨x, ?_, by omega⟩
        rw [List.getElem?_append_right (Nat.le_refl _)]
        simp

/-- The lookup on a tree of any shape whose in-order sequence is name-sorted
is right. -/
theorem search_tree_shaped_spec {α : Type} (cmp : String → String → Int)
    (hc : FilenameOrder cmp) (nameof : α → String) (idof : α → Nat) (t : psync_tree α)
    (hs : NameSorted cmp nameof t.inorder) (name : String) (taskid : Nat) :
    FindsEntry cmp nameof idof t.inorder name taskid
      (psync_fstask_search_tree_shaped cmp nameof idof t name taskid) := by
  have hd := search_descend_tree_spec cmp hc nameof name t hs
  unfold psync_fstask_search_tree_shaped
  cases h : search_descend_tree cmp nameof name t with
  | none =>
    simp only []
    refine ⟨(by intro j hj; cases hj), ?_⟩
    intro _ e he hw
    exact hd.2 h e he hw.1
  | some i =>
    simp only []
    obtain ⟨e, he, he0⟩ := hd.1 i h
    exact search_from_spec cmp hc nameof idof _ hs name taskid i e he he0

/-- The lookup on the in-order list is the lookup on a tree whose descent stops
at the first entry with the name. -/
theorem search_tree_eq_search_from {α : Type} (cmp : String → String → Int)
    (nameof : α → String) (idof : α → Nat) (l : List α) (name : String) (taskid : Nat) :
    psync_fstask_search_tree cmp nameof idof l name taskid =
      match search_descend cmp nameof name l with
      | none => none
      | some i => search_from cmp nameof idof l name taskid i := rfl

/-- The lookup on a name-sorted in-order list is right. -/
theorem search_tree_spec {α : Type} (cmp : String → String → Int)
    (hc : FilenameOrder cmp) (nameof : α → String) (idof : α → Nat) (l : List α)
    (hs : NameSorted cmp nameof l) (name : String) (taskid : Nat) :
    FindsEntry cmp nameof idof l name taskid
      (psync_fstask_search_tree cmp nameof idof l name taskid) := by
  rw [search_tree_eq_search_from]
  cases h : search_descend cmp nameof name l with
  | none =>
    simp only []
    refine ⟨(by intro j hj; cases hj), ?_⟩
    intro _ e he hw
    unfold search_descend at h
    rw [List.findIdx?_eq_none_iff] at h
    have := h e he
    simp [hw.1] at this
  | some i =>
    simp only []
    unfold search_descend at h
    obtain ⟨hlt, hpi, _⟩ := List.findIdx?_eq_some_iff_getElem.mp h
    exact search_from_spec cmp hc nameof idof l hs name taskid i l[i]
      (List.getElem?_eq_getElem hlt) (by simpa using hpi)

/-- The entry a lookup on a name-sorted list returns is a wanted one, and
`none` is returned only when no entry is wanted. -/
theorem tree_find_spec {α : Type} (cmp : String → String → Int)
    (hc : FilenameOrder cmp) (nameof : α → String) (idof : α → Nat) (l : List α)
    (hs : NameSorted cmp nameof l) (name : String) (taskid : Nat) :
    (∀ i e, tree_find cmp nameof idof l name taskid = some (i, e) →
      l[i]? = some e ∧ Wanted cmp nameof idof name taskid e)
    ∧ (tree_find cmp nameof idof l name taskid = none →
      ∀ e ∈ l, ¬ Wanted cmp nameof idof name taskid e) := by
  have hspec := search_tree_spec cmp hc nameof idof l hs name taskid
  unfold tree_find
  cases h : psync_fstask_search_tree cmp nameof idof l name taskid with
  | none =>
    refine ⟨?_, ?_⟩
    · intro i e he; simp at he
    · intro _; exact hspec.2 h
  | some j =>
    obtain ⟨x, hx, hw⟩ := hspec.1 j h
    refine ⟨?_, ?_⟩
    · intro i e he
      simp only [Option.some_bind, hx, Option.map_some', Option.some.injEq, Prod.mk.injEq] at he
      obtain ⟨h1, h2⟩ := he
      subst h1; subst h2
      exact ⟨hx, hw⟩
    · intro he
      simp [hx] at he

/-- C17: name lookup over a set ordered by the filename comparator.  On a tree
of any shape whose in-order sequence is ascending by name,
`psync_fstask_search_tree` returns an entry whose name compares equal to the
query and, when `taskid ≠ 0`, whose task id is `taskid`, and it returns `NULL`
only when the set holds no such entry, also when several entries share the
name; the same holds of `find_mkdir`, `find_rmdir`, `find_creat` and
`find_unlink` on the sets of a folder. -/
theorem name_lookup_correct (cmp : String → String → Int) (hc : FilenameOrder cmp) :
    (∀ (α : Type) (nameof : α → String) (taskidof : α → Nat) (tree : psync_tree α)
      (name : String) (taskid : Nat), NameSorted cmp nameof tree.inorder →
      FindsEntry cmp nameof taskidof tree.inorder name taskid
        (psync_fstask_search_tree_shaped cmp nameof taskidof tree name taskid))
    ∧ (∀ (folder : psync_fstask_folder_t) (name : String) (taskid : Nat),
      NameSorted cmp (fun e => e.name) folder.mkdirs →
      (∀ i e, psync_fstask_find_mkdir cmp folder name taskid = some (i, e) →
        folder.mkdirs[i]? = some e ∧ cmp name e.name = 0 ∧ (taskid = 0 ∨ e.taskid = taskid))
      ∧ (psync_fstask_find_mkdir cmp folder name taskid = none →
        ∀ e ∈ folder.mkdirs, ¬ (cmp name e.name = 0 ∧ (taskid = 0 ∨ e.taskid = taskid))))
    ∧ (∀ (folder : psync_fstask_folder_t) (name : String) (taskid : Nat),
      NameSorted cmp (fun e => e.name) folder.rmdirs →
      (∀ i e, psync_fstask_find_rmdir cmp folder name taskid = some (i, e) →
        folder.rmdirs[i]? = some e ∧ cmp name e.name = 0 ∧ (taskid = 0 ∨ e.taskid = taskid))
      ∧ (psync_fstask_find_rmdir cmp folder name taskid = none →
        ∀ e ∈ folder.rmdirs, ¬ (cmp name e.name = 0 ∧ (taskid = 0 ∨ e.taskid = taskid))))
    ∧ (∀ (folder : psync_fstask_folder_t) (name : String) (taskid : Nat),
      NameSorted cmp (fun e => e.name) folder.creats →
      (∀ i e, psync_fstask_find_creat cmp folder name taskid = some (i, e) →
        folder.creats[i]? = some e ∧ cmp name e.name = 0 ∧ (taskid = 0 ∨ e.taskid = taskid))
      ∧ (psync_fstask_find_creat cmp folder name taskid = none →
        ∀ e ∈ folder.creats, ¬ (cmp name e.name = 0 ∧ (taskid = 0 ∨ e.taskid = taskid))))
    ∧ (∀ (folder : psync_fstask_folder_t) (name : String) (taskid : Nat),
      NameSorted cmp (fun e => e.name) folder.unlinks →
      (∀ i e, psync_fstask_find_unlink cmp folder name taskid = some (i, e) →
        folder.unlinks[i]? = some e ∧ cmp name e.name = 0 ∧ (taskid = 0 ∨ e.taskid = taskid))
      ∧ (psync_fstask_find_unlink cmp folder name taskid = none →
        ∀ e ∈ folder.unlinks, ¬ (cmp name e.name = 0 ∧ (taskid = 0 ∨ e.taskid = taskid)))) := by
  refine ⟨?_, ?_, ?_, ?_, ?_⟩
  · intro α nameof taskidof tree name taskid hs
    exact search_tree_shaped_spec cmp hc nameof taskidof tree hs name taskid
  · intro folder name taskid hs
    exact tree_find_spec cmp hc (fun e => e.name) (fun e => e.taskid) folder.mkdirs hs name taskid
  · intro folder name taskid hs
    exact tree_find_spec cmp hc (fun e => e.name) (fun e => e.taskid) folder.rmdirs hs name taskid
  · intro folder name taskid hs
    exact tree_find_spec cmp hc (fun e => e.name) (fun e => e.taskid) folder.creats hs name taskid
  · intro folder name taskid hs
    exact tree_find_spec cmp hc (fun e => e.name) (fun e => e.taskid) folder.unlinks hs name taskid

/-- Witness for C17: three Unlink entries share the name `"a"`, the descent
stops at the root (position 1), and the entry with task id 7 is found by the
scan of the predecessors at position 0. -/
theorem name_lookup_correct_witness :
    FilenameOrder strcmp
    ∧ psync_fstask_search_tree_shaped strcmp (fun e => e.name) (fun e => e.taskid)
        (psync_tree.node
          (psync_tree.node psync_tree.nil
            ({ taskid := 7, fileid := 1, name := "a" } : psync_fstask_unlink_t) psync_tree.nil)
          { taskid := 8, fileid := 2, name := "a" }
          (psync_tree.node psync_tree.nil { taskid := 9, fileid := 3, name := "a" }
            psync_tree.nil)) "a" 7 = some 0
    ∧ FindsEntry strcmp (fun e => e.name) (fun e => e.taskid)
        [({ taskid := 7, fileid := 1, name := "a" } : psync_fstask_unlink_t),
         { taskid := 8, fileid := 2, name := "a" }, { taskid := 9, fileid := 3, name := "a" }]
        "a" 7 (some 0) :=
  ⟨strcmp_order, by decide,
    (name_lookup_correct strcmp strcmp_order).1 psync_fstask_unlink_t (fun e => e.name)
      (fun e => e.taskid)
      (psync_tree.node
        (psync_tree.node psync_tree.nil { taskid := 7, fileid := 1, name := "a" } psync_tree.nil)
        { taskid := 8, fileid := 2, name := "a" }
        (psync_tree.node psync_tree.nil { taskid := 9, fileid := 3, name := "a" }
          psync_tree.nil)) "a" 7 (by decide)⟩

/-! ## Order of the folder collection -/

/-- C16, evaluation at the failing input: on the empty collection
`GetOrCreate(9223372036854775807)` followed by `GetOrCreate(-2)`, both ids being
values of `int64_t`.  At the root the difference `d = -2 - 9223372036854775807`
wraps to `9223372036854775807 > 0`, so the new folder is added after the root:
the in-order sequence of the collection is `9223372036854775807, -2`, which is
not ascending by folder id. -/
theorem get_or_create_order_broken :
    IsInt64 9223372036854775807 ∧ IsInt64 (-2)
    ∧ I64 (-2 - 9223372036854775807) = 9223372036854775807
    ∧ (psync_fstask_get_or_create_folder_tasks_locked
        (psync_fstask_get_or_create_folder_tasks_locked [] 9223372036854775807) (-2)).map
          (fun f => (f.folderid, f.refcnt, f.taskscnt))
        = [(9223372036854775807, 1, 0), (-2, 1, 0)]
    ∧ ¬ ((psync_fstask_get_or_create_folder_tasks_locked
        (psync_fstask_get_or_create_folder_tasks_locked [] 9223372036854775807) (-2)).map
          (fun f => f.folderid)).Pairwise (fun a b => a < b) := by
  decide

/-! ## `Rmdir`: the `-ENOENT` exit and the cancelled mkdir -/

/-- The folder a bracket leaves under its key: none when the release drops it. -/
theorem lookup_bracket (fs : List psync_fstask_folder_t) (k : Int)
    (g : psync_fstask_folder_t → psync_fstask_folder_t)
    (hg : ∀ f, (g f).folderid = f.folderid) (hkeys : KeysNodup fs) :
    folder_lookup (folder_bracket fs k g) k =
      if (g (folder_held fs k)).refcnt - 1 = 0 ∧ (g (folder_held fs k)).taskscnt = 0 then none
      else some { g (folder_held fs k) with refcnt := (g (folder_held fs k)).refcnt - 1 } := by
  by_cases hd : (g (folder_held fs k)).refcnt - 1 = 0 ∧ (g (folder_held fs k)).taskscnt = 0
  · rw [if_pos hd]
    unfold folder_bracket psync_fstask_release_folder_tasks_locked
    rw [folder_lookup_update_self k g hg, lookup_get_or_create_self]
    simp only [Option.map_some']
    unfold folder_held at hd
    rw [if_pos hd]
    exact folder_lookup_del_self (keysNodup_update hg (keysNodup_get_or_create hkeys))
  · rw [if_neg hd]
    exact lookup_bracket_self fs k g hg hd

/-- A lookup by name alone that finds an entry finds one of the tree, with
the name. -/
theorem tree_find_zero_some {α : Type} (cmp : String → String → Int) (nameof : α → String)
    (taskidof : α → Nat) (tree : List α) (name : String) (i : Nat) (e : α)
    (h : tree_find cmp nameof taskidof tree name 0 = some (i, e)) :
    tree[i]? = some e ∧ cmp name (nameof e) = 0
      ∧ tree.findIdx? (fun e => cmp name (nameof e) = 0) = some i := by
  have h1 := tree_find_some cmp nameof taskidof tree name 0 i e h
  unfold tree_find at h
  rw [search_tree_zero] at h
  cases hi : List.findIdx? (fun e => decide (cmp name (nameof e) = 0)) tree with
  | none => simp [hi] at h
  | some j =>
    obtain ⟨hlt, hpj, _⟩ := List.findIdx?_eq_some_iff_getElem.mp hi
    simp only [hi, Option.some_bind, List.getElem?_eq_getElem hlt, Option.map_some',
      Option.some.injEq, Prod.mk.injEq] at h
    obtain ⟨h2, h3⟩ := h
    subst h2; subst h3
    exact ⟨h1, by simpa using hpj, rfl⟩

/-- The first row of the query by parent and name is absent exactly when no
row has the parent and the name. -/
theorem sql_select_id_none (t : List server_row) (p : Int) (n : String) :
    sql_select_id t p n = none ↔ ∀ r ∈ t, ¬ ((r.parentfolderid : Int) = p ∧ r.name = n) := by
  unfold sql_select_id
  rw [Option.map_eq_none', List.find?_eq_none]
  simp

/-- The return value of the transaction part of `psync_fstask_rmdir`. -/
theorem rmdir_tail_ret (cmp : String → String → Int) (s : State)
    (folders : List psync_fstask_folder_t) (folderid : Int) (name : String) (commit : Bool)
    (cfolderid : Int) (depend : Nat) :
    (psync_fstask_rmdir_tail cmp s folders folderid name commit cfolderid depend).1
      = if commit then 0 else - EIO := by
  unfold psync_fstask_rmdir_tail
  cases commit <;> simp

/-- C11: `psync_fstask_rmdir(folderid, name)` returns `-ENOENT` exactly when the
folder holds no pending mkdir for `name` and either the server's `folder` table
has no directory `name` under `folderid` or the folder holds a pending rmdir for
`name`; on `-ENOENT` the whole state (both tables and the overlay) is unchanged.
When a pending mkdir exists it is taken out of the folder's `mkdirs`, and the
Rmdir entry a committed call inserts carries that mkdir's placeholder folder
id. -/
theorem rmdir_not_found (cmp : String → String → Int) (s : State) (folderid : Int)
    (name : String) (commit : Bool)
    (hkeys : KeysNodup s.folders)
    (hlive : ∀ f, folder_lookup s.folders folderid = some f → FolderLive f) :
    ((psync_fstask_rmdir cmp s folderid name commit).1 = -ENOENT ↔
      (∀ e ∈ (folder_deref s.folders folderid).mkdirs, cmp name e.name ≠ 0)
      ∧ ((∀ r ∈ s.folder, ¬ ((r.parentfolderid : Int) = folderid ∧ r.name = name))
        ∨ ∃ e ∈ (folder_deref s.folders folderid).rmdirs, cmp name e.name = 0))
    ∧ ((psync_fstask_rmdir cmp s folderid name commit).1 = -ENOENT →
      (psync_fstask_rmdir cmp s folderid name commit).2 = s)
    ∧ (∀ i mk,
      psync_fstask_find_mkdir cmp (folder_deref s.folders folderid) name 0 = some (i, mk) →
      (∀ f', folder_lookup (psync_fstask_rmdir cmp s folderid name commit).2.folders folderid
          = some f' → f'.mkdirs = (folder_deref s.folders folderid).mkdirs.eraseIdx i)
      ∧ (commit = true →
        (psync_fstask_rmdir cmp s folderid name commit).1 = 0
        ∧ ∃ f', folder_lookup (psync_fstask_rmdir cmp s folderid name commit).2.folders folderid
            = some f'
          ∧ f'.rmdirs = psync_fstask_insert_into_tree cmp (fun e => e.name)
              { taskid := sql_next_id s.fstask, folderid := mk.folderid, name := name }
              (folder_deref s.folders folderid).rmdirs)) := by
  have hm : psync_fstask_find_mkdir cmp (folder_held s.folders folderid) name 0 = none ↔
      ∀ e ∈ (folder_deref s.folders folderid).mkdirs, cmp name e.name ≠ 0 :=
    tree_find_zero_none cmp _ _ _ name
  have hr : psync_fstask_find_rmdir cmp (folder_held s.folders folderid) name 0 = none ↔
      ∀ e ∈ (folder_deref s.folders folderid).rmdirs, cmp name e.name ≠ 0 :=
    tree_find_zero_none cmp _ _ _ name
  have hsel := sql_select_id_none s.folder folderid name
  have hret : (psync_fstask_rmdir cmp s folderid name commit).1 = -ENOENT →
      psync_fstask_find_mkdir cmp (folder_held s.folders folderid) name 0 = none
      ∧ (sql_select_id s.folder folderid name = none
        ∨ psync_fstask_find_rmdir cmp (folder_held s.folders folderid) name 0 ≠ none)
      ∧ (psync_fstask_rmdir cmp s folderid name commit).2 = s := by
    unfold psync_fstask_rmdir
    simp only [folder_deref_get_or_create, release_get_or_create s.folders folderid hlive,
      state_eta]
    cases hfm : psync_fstask_find_mkdir cmp (folder_held s.folders folderid) name 0 with
    | some p =>
      obtain ⟨i, mk⟩ := p
      simp only [rmdir_tail_ret]
      cases commit <;> simp [ENOENT, EIO]
    | none =>
      simp only []
      cases hsq : sql_select_id s.folder folderid name with
      | none => simp
      | some row0 =>
        simp only []
        cases hfr : psync_fstask_find_rmdir cmp (folder_held s.folders folderid) name 0 with
        | some q => simp
        | none =>
          simp only [Option.isSome_none, Bool.false_eq_true, if_false, rmdir_tail_ret]
          cases commit <;> simp [ENOENT, EIO]
  have hconv : psync_fstask_find_mkdir cmp (folder_held s.folders folderid) name 0 = none →
      (sql_select_id s.folder folderid name = none
        ∨ psync_fstask_find_rmdir cmp (folder_held s.folders folderid) name 0 ≠ none) →
      (psync_fstask_rmdir cmp s folderid name commit).1 = -ENOENT := by
    intro hfm hor
    unfold psync_fstask_rmdir
    simp only [folder_deref_get_or_create, hfm]
    cases hsq : sql_select_id s.folder folderid name with
    | none => rfl
    | some row0 =>
      simp only []
      rcases hor with hor | hor
      · rw [hsq] at hor; cases hor
      · rw [if_pos (Option.isSome_iff_ne_none.mpr hor)]
  refine ⟨⟨?_, ?_⟩, fun h => (hret h).2.2, ?_⟩
  · intro h
    obtain ⟨h1, h2, _⟩ := hret h
    refine ⟨hm.mp h1, ?_⟩
    rcases h2 with h2 | h2
    · exact Or.inl (hsel.mp h2)
    · right
      by_contra hne
      apply h2
      apply hr.mpr
      intro e he hc
      exact hne ⟨e, he, hc⟩
  · intro ⟨h1, h2⟩
    apply hconv (hm.mpr h1)
    rcases h2 with h2 | ⟨e, he, hc⟩
    · exact Or.inl (hsel.mpr h2)
    · right
      intro hn
      exact hr.mp hn e he hc
  · intro i mk hf
    have hf' : psync_fstask_find_mkdir cmp (folder_held s.folders folderid) name 0
        = some (i, mk) := hf
    obtain ⟨f, hlf⟩ : ∃ f, folder_lookup s.folders folderid = some f := by
      cases hl : folder_lookup s.folders folderid with
      | some f => exact ⟨f, rfl⟩
      | none =>
        rw [folder_deref_of_lookup_none hl] at hf
        simp [psync_fstask_find_mkdir, tree_find, psync_fstask_search_tree, search_descend,
          folder_zero] at hf
    have hdf : folder_deref s.folders folderid = f := folder_deref_of_lookup hlf
    have hfl := hlive f hlf
    refine ⟨?_, ?_⟩
    · intro f' hf'l
      cases commit with
      | true =>
        rw [((rmdir_cancel_state cmp s folderid name true i mk hf').2 rfl).1,
          lookup_bracket _ _ _ (by intro _; rfl) hkeys] at hf'l
        split at hf'l
        · cases hf'l
        · cases hf'l
          simp [folder_held, hdf]
      | false =>
        have hfolders : (psync_fstask_rmdir cmp s folderid name false).2.folders =
            folder_bracket s.folders folderid (fun f =>
              { f with mkdirs := f.mkdirs.eraseIdx i, taskscnt := f.taskscnt - 1 }) := by
          unfold psync_fstask_rmdir
          simp only [folder_deref_get_or_create, hf']
          unfold psync_fstask_rmdir_tail
          simp [folder_bracket]
        rw [hfolders, lookup_bracket _ _ _ (by intro _; rfl) hkeys] at hf'l
        split at hf'l
        · cases hf'l
        · cases hf'l
          simp [folder_held, hdf]
    · intro hc
      subst hc
      have hst := rmdir_cancel_state cmp s folderid name true i mk hf'
      refine ⟨by simpa using hst.1, ?_⟩
      rw [(hst.2 rfl).1]
      have hne : ¬ ((with_rmdir_cancel cmp i
            { taskid := sql_next_id s.fstask, folderid := mk.folderid, name := name }
            (folder_held s.folders folderid)).refcnt - 1 = 0
          ∧ (with_rmdir_cancel cmp i
            { taskid := sql_next_id s.fstask, folderid := mk.folderid, name := name }
            (folder_held s.folders folderid)).taskscnt = 0) := by
        unfold FolderLive at hfl
        dsimp only [with_rmdir_cancel, folder_held]
        rw [hdf]
        omega
      rw [lookup_bracket_self _ _ _ (by intro _; rfl) hne]
      exact ⟨_, rfl, by simp [folder_held, hdf]⟩

/-- Witness for C11: on the store that holds the pending mkdir of `"a"` (task 1)
under the root, a committed `Rmdir(0, "a")` succeeds and its Rmdir entry carries
the placeholder folder id `-1` of that mkdir. -/
theorem rmdir_not_found_witness :
    (psync_fstask_rmdir strcmp (psync_fstask_mkdir strcmp (State.empty [] []) 0 "a" 100 true).2
      0 "a" true).1 = 0
    ∧ ∃ f', folder_lookup (psync_fstask_rmdir strcmp
          (psync_fstask_mkdir strcmp (State.empty [] []) 0 "a" 100 true).2 0 "a" true).2.folders 0
        = some f'
      ∧ f'.rmdirs = psync_fstask_insert_into_tree strcmp (fun e => e.name)
          { taskid := sql_next_id
              (psync_fstask_mkdir strcmp (State.empty [] []) 0 "a" 100 true).2.fstask,
            folderid := -1, name := "a" }
          (folder_deref (psync_fstask_mkdir strcmp (State.empty [] []) 0 "a" 100 true).2.folders
            0).rmdirs :=
  ((rmdir_not_found strcmp (psync_fstask_mkdir strcmp (State.empty [] []) 0 "a" 100 true).2
    0 "a" true (by decide) (by decide)).2.2 0
    { taskid := 1, ctime := 100, mtime := 100, folderid := -1, subdircnt := 0, name := "a" }
    (by decide)).2 rfl

/-! ## `Rmdir`: the row and the dependency edges -/

/-- The ids the query by folder returns are the ids of the rows with that
folder id. -/
theorem mem_sql_fstask_ids_by_folder (t : List fstask_row) (folderid : Int) (i : Nat) :
    i ∈ sql_fstask_ids_by_folder t folderid ↔ ∃ r ∈ t, r.folderid = folderid ∧ r.id = i := by
  unfold sql_fstask_ids_by_folder
  simp only [List.mem_map, List.mem_filter, decide_eq_true_eq]
  constructor
  · rintro ⟨r, ⟨h1, h2⟩, h3⟩; exact ⟨r, h1, h2, h3⟩
  · rintro ⟨r, h1, h2, h3⟩; exact ⟨r, ⟨h1, h2⟩, h3⟩

/-- What a successful transaction part of `psync_fstask_rmdir` leaves in the
tables and the wake counter. -/
theorem rmdir_tail_state (cmp : String → String → Int) (s s' : State)
    (folders : List psync_fstask_folder_t) (folderid : Int) (name : String) (commit : Bool)
    (cfolderid : Int) (depend : Nat)
    (h : psync_fstask_rmdir_tail cmp s folders folderid name commit cfolderid depend = (0, s')) :
    s'.fstask = s.fstask ++
        [{ id := sql_next_id s.fstask, type := PSYNC_FS_TASK_RMDIR, status := 0,
           folderid := folderid, fileid := none, text1 := name, text2 := none,
           int1 := some cfolderid, int2 := none }]
    ∧ (∀ e, e ∈ s'.fstaskdepend ↔ e ∈ s.fstaskdepend ∨
        (e.1 = sql_next_id s.fstask ∧
          ((depend ≠ 0 ∧ e.2 = depend) ∨ ∃ r ∈ s'.fstask, r.folderid = cfolderid ∧ r.id = e.2)))
    ∧ ((s'.upload_wakes = s.upload_wakes + 1 ∧ s'.fstaskdepend = s.fstaskdepend)
      ∨ s'.upload_wakes = s.upload_wakes) := by
  unfold psync_fstask_rmdir_tail at h
  simp only [] at h
  split at h
  · simp [ EIO] at h
  simp only [Prod.mk.injEq, true_and] at h
  subst h
  refine ⟨rfl, ?_, ?_⟩
  · intro e
    simp only [mem_foldl_depend, mem_sql_fstask_ids_by_folder]
    by_cases hd : depend = 0
    · simp [hd]
    · simp only [hd, ne_eq, not_false_eq_true, if_true, mem_psync_fstask_depend, true_and]
      constructor
      · rintro ((h1 | h1) | h1)
        · exact Or.inl h1
        · subst h1; exact Or.inr ⟨rfl, Or.inl rfl⟩
        · exact Or.inr ⟨h1.1, Or.inr h1.2⟩
      · rintro (h1 | ⟨h1, h2 | h2⟩)
        · exact Or.inl (Or.inl h1)
        · left; right; exact Prod.ext h1 h2
        · exact Or.inr ⟨h1, h2⟩
  · simp only []
    split
    · rename_i h0
      left
      refine ⟨rfl, ?_⟩
      have h1 : depend = 0 := by omega
      have h2 : sql_fstask_ids_by_folder (s.fstask ++
          [{ id := sql_next_id s.fstask, type := PSYNC_FS_TASK_RMDIR, status := 0,
             folderid := folderid, fileid := none, text1 := name, text2 := none,
             int1 := some cfolderid, int2 := none }]) cfolderid = [] := by
        apply List.eq_nil_of_length_eq_zero; omega
      simp [h1, h2]
    · right; rfl

/-- C12: a successful `psync_fstask_rmdir` appends one RMDIR row to `fstask`
(status 0, `int1` the child folder id), and the edges it adds to `fstaskdepend`
are exactly those from the new task to the task of the cancelled mkdir, when a
pending mkdir was cancelled, and to every row of `fstask` whose `folderid` is the
child folder id; `psync_fsupload_wake` is called only when no edge was added. -/
theorem rmdir_success_rows (cmp : String → String → Int) (s s' : State) (folderid : Int)
    (name : String) (commit : Bool)
    (hids : ∀ e ∈ (folder_deref s.folders folderid).mkdirs, e.taskid ≠ 0)
    (h : psync_fstask_rmdir cmp s folderid name commit = (0, s')) :
    ∃ cfolderid : Int,
      s'.fstask = s.fstask ++
        [{ id := sql_next_id s.fstask, type := PSYNC_FS_TASK_RMDIR, status := 0,
           folderid := folderid, fileid := none, text1 := name, text2 := none,
           int1 := some cfolderid, int2 := none }]
      ∧ ((∃ i mk, psync_fstask_find_mkdir cmp (folder_deref s.folders folderid) name 0
            = some (i, mk) ∧ cfolderid = mk.folderid)
        ∨ (psync_fstask_find_mkdir cmp (folder_deref s.folders folderid) name 0 = none
          ∧ ∃ row0, sql_select_id s.folder folderid name = some row0 ∧ cfolderid = (row0 : Int)))
      ∧ (∀ e, e ∈ s'.fstaskdepend ↔ e ∈ s.fstaskdepend ∨
          (e.1 = sql_next_id s.fstask ∧
            ((∃ i mk, psync_fstask_find_mkdir cmp (folder_deref s.folders folderid) name 0
                = some (i, mk) ∧ e.2 = mk.taskid)
              ∨ ∃ r ∈ s'.fstask, r.folderid = cfolderid ∧ r.id = e.2)))
      ∧ ((s'.upload_wakes = s.upload_wakes + 1 ∧ s'.fstaskdepend = s.fstaskdepend)
        ∨ s'.upload_wakes = s.upload_wakes) := by
  have hfeq : psync_fstask_find_mkdir cmp (folder_held s.folders folderid) name 0
      = psync_fstask_find_mkdir cmp (folder_deref s.folders folderid) name 0 := rfl
  unfold psync_fstask_rmdir at h
  simp only [folder_deref_get_or_create, hfeq] at h
  cases hfm : psync_fstask_find_mkdir cmp (folder_deref s.folders folderid) name 0 with
  | none =>
    simp only [hfm] at h
    cases hsq : sql_select_id s.folder folderid name with
    | none => simp [hsq, ENOENT] at h
    | some row0 =>
      simp only [hsq] at h
      split at h
      · simp [ENOENT] at h
      obtain ⟨h1, h2, h3⟩ := rmdir_tail_state cmp s s' _ folderid name commit _ _ h
      refine ⟨(row0 : Int), h1, Or.inr ⟨rfl, row0, rfl, rfl⟩, ?_, h3⟩
      intro e
      rw [h2 e]
      simp
  | some p =>
    obtain ⟨i, mk⟩ := p
    simp only [hfm] at h
    obtain ⟨h1, h2, h3⟩ := rmdir_tail_state cmp s s' _ folderid name commit _ _ h
    refine ⟨mk.folderid, h1, Or.inl ⟨i, mk, rfl, rfl⟩, ?_, h3⟩
    have hmk : mk.taskid ≠ 0 := by
      obtain ⟨hget, _⟩ := tree_find_zero_some cmp _ _ _ name i mk hfm
      exact hids mk (List.getElem?_mem hget)
    intro e
    rw [h2 e]
    have hex : (∃ i' mk', (i = i' ∧ mk = mk') ∧ e.2 = mk'.taskid) ↔ e.2 = mk.taskid :=
      ⟨by rintro ⟨_, _, ⟨rfl, rfl⟩, h⟩; exact h, fun h => ⟨i, mk, ⟨rfl, rfl⟩, h⟩⟩
    simp [hmk, hex]

/-- Witness for C12: the committed `Rmdir(0, "a")` that cancels the pending
mkdir of task 1 appends the RMDIR row 2 with child folder id `-1`. -/
theorem rmdir_success_rows_witness :
    ∃ cfolderid : Int,
      (psync_fstask_rmdir strcmp (psync_fstask_mkdir strcmp (State.empty [] []) 0 "a" 100 true).2
        0 "a" true).2.fstask
      = (psync_fstask_mkdir strcmp (State.empty [] []) 0 "a" 100 true).2.fstask ++
        [{ id := sql_next_id
              (psync_fstask_mkdir strcmp (State.empty [] []) 0 "a" 100 true).2.fstask,
           type := PSYNC_FS_TASK_RMDIR, status := 0,
           folderid := 0, fileid := none, text1 := "a", text2 := none,
           int1 := some cfolderid, int2 := none }] := by
  obtain ⟨c, h1, _⟩ := rmdir_success_rows strcmp
    (psync_fstask_mkdir strcmp (State.empty [] []) 0 "a" 100 true).2
    (psync_fstask_rmdir strcmp (psync_fstask_mkdir strcmp (State.empty [] []) 0 "a" 100 true).2
      0 "a" true).2 0 "a" true (by decide) (by decide)
  exact ⟨c, h1⟩

/-! ## `RenameFile`: the overlay -/

/-- An assignment through a folder pointer depends only on what it does to the
folder the pointer refers to. -/
theorem folder_update_congr (k : Int) (g1 g2 : psync_fstask_folder_t → psync_fstask_folder_t)
    (fs : List psync_fstask_folder_t)
    (h : ∀ f, folder_lookup fs k = some f → g1 f = g2 f) :
    folder_update k g1 fs = folder_update k g2 fs := by
  induction fs with
  | nil => rfl
  | cons a rest ih =>
    unfold folder_update
    by_cases ha : a.folderid = k
    · rw [if_pos ha, if_pos ha, h a (by simp [folder_lookup, List.find?, ha])]
    · rw [if_neg ha, if_neg ha, ih]
      intro f hf
      apply h
      simpa [folder_lookup, List.find?, ha] using hf

/-- The folder tree a successful `psync_fstask_rename_file` leaves: two
brackets, on the source and on the destination folder. -/
theorem rename_file_folders (cmp : String → String → Int) (s s' : State) (fileid : Int)
    (parentfolderid : Int) (name : String) (to_folderid : Int) (new_name : Option String)
    (commit : Bool)
    (h : psync_fstask_rename_file cmp s fileid parentfolderid name to_folderid new_name commit
      = (0, s')) :
    s'.folders =
      folder_bracket
        (folder_bracket s.folders parentfolderid
          (renamed_out cmp name { taskid := sql_next_id s.fstask, fileid := fileid, name := name }))
        to_folderid
        (renamed_in cmp { taskid := sql_next_id s.fstask + 1, fileid := fileid, newfile := 0,
                          name := new_name.getD name }) := by
  unfold psync_fstask_rename_file at h
  simp only [] at h
  split at h
  · simp [ EIO] at h
  simp only [Prod.mk.injEq, true_and] at h
  subst h
  have hid : sql_next_id (s.fstask ++
      [{ id := sql_next_id s.fstask, type := PSYNC_FS_TASK_RENFILE_FROM, status := 10,
         folderid := parentfolderid, fileid := some fileid, text1 := name, text2 := none,
         int1 := none, int2 := none }]) = sql_next_id s.fstask + 1 := by
    rw [sql_next_id_append]; simp
  have hkey : folder_update parentfolderid (fun f =>
        { f with unlinks := psync_fstask_insert_into_tree cmp (fun e => e.name)
                   { taskid := sql_next_id s.fstask, fileid := fileid, name := name } f.unlinks,
                 taskscnt := f.taskscnt + 1 })
        (match psync_fstask_find_creat cmp (folder_held s.folders parentfolderid) name 0 with
          | some (i, _) => folder_update parentfolderid (fun f =>
              { f with creats := f.creats.eraseIdx i, taskscnt := f.taskscnt - 1 })
              (psync_fstask_get_or_create_folder_tasks_locked s.folders parentfolderid)
          | none => psync_fstask_get_or_create_folder_tasks_locked s.folders parentfolderid)
      = folder_update parentfolderid
          (renamed_out cmp name { taskid := sql_next_id s.fstask, fileid := fileid, name := name })
          (psync_fstask_get_or_create_folder_tasks_locked s.folders parentfolderid) := by
    cases hf : psync_fstask_find_creat cmp (folder_held s.folders parentfolderid) name 0 with
    | none =>
      simp only []
      have hnone := (tree_find_zero_none cmp _ _ _ name).mp hf
      have hfi : List.findIdx? (fun e : psync_fstask_creat_t => decide (cmp name e.name = 0))
          (folder_held s.folders parentfolderid).creats = none := by
        rw [List.findIdx?_eq_none_iff]
        intro e he
        simpa using hnone e he
      obtain ⟨h1, h2⟩ := eraseP_of_findIdx_none _ _ hfi
      apply folder_update_congr
      intro f hlf
      rw [lookup_get_or_create_self] at hlf
      have hfe : f = folder_held s.folders parentfolderid := (Option.some.inj hlf).symm
      subst hfe
      unfold renamed_out
      rw [h1, h2]
      simp
    | some p =>
      obtain ⟨i, c⟩ := p
      simp only []
      obtain ⟨_, _, hfi⟩ := tree_find_zero_some cmp _ _ _ name i c hf
      obtain ⟨h1, h2, _⟩ := eraseIdx_of_findIdx_some _ _ i hfi
      rw [folder_update_update parentfolderid _ _ (by intro _; rfl)]
      apply folder_update_congr
      intro f hlf
      rw [lookup_get_or_create_self] at hlf
      have hfe : f = folder_held s.folders parentfolderid := (Option.some.inj hlf).symm
      subst hfe
      unfold renamed_out
      rw [← h1, h2]
      simp only [if_true, psync_fstask_folder_t.mk.injEq, true_and, and_true]
      omega
  simp only [hid, folder_deref_get_or_create, hkey]
  rfl

/-- The folder a bracket leaves under its key when the change does not touch
the reference count and leaves tasks in the folder. -/
theorem lookup_bracket_of (fs : List psync_fstask_folder_t) (k : Int)
    (g : psync_fstask_folder_t → psync_fstask_folder_t)
    (hg : ∀ f, (g f).folderid = f.folderid)
    (hr : ∀ f r, g { f with refcnt := r } = { g f with refcnt := r })
    (ht : (g (folder_deref fs k)).taskscnt ≠ 0) :
    folder_lookup (folder_bracket fs k g) k = some (g (folder_deref fs k)) := by
  have hheld : g (folder_held fs k)
      = { g (folder_deref fs k) with refcnt := (folder_deref fs k).refcnt + 1 } := hr _ _
  have hsame : (g (folder_deref fs k)).refcnt = (folder_deref fs k).refcnt := by
    have := hr (folder_deref fs k) (folder_deref fs k).refcnt
    have h2 : ({ folder_deref fs k with refcnt := (folder_deref fs k).refcnt }
        : psync_fstask_folder_t) = folder_deref fs k := by
      cases folder_deref fs k; rfl
    rw [h2] at this
    rw [this]
  rw [lookup_bracket_self fs k g hg (by rw [hheld]; intro ⟨_, h2⟩; exact ht h2), hheld]
  congr 1
  cases hgd : g (folder_deref fs k) with
  | mk a b c d e f r =>
    rw [hgd] at hsame
    simp only [psync_fstask_folder_t.mk.injEq, true_and] at hsame ⊢
    omega

/-- A list in which some element satisfies a test is not empty. -/
theorem length_pos_of_any {α : Type} (p : α → Bool) (l : List α) (h : l.any p = true) :
    1 ≤ l.length := by
  cases l with
  | nil => simp at h
  | cons a rest => simp

/-- The overlay after a successful `psync_fstask_rename_file` on the in-order
lists, where the lookup of the Creat returns the first entry of the name. -/
theorem rename_file_overlay_first (cmp : String → String → Int) (s s' : State) (fileid : Int)
    (parentfolderid : Int) (name : String) (to_folderid : Int) (new_name : Option String)
    (commit : Bool)
    (hcount : CountOk (folder_deref s.folders parentfolderid))
    (hto : 0 ≤ (folder_deref s.folders to_folderid).taskscnt)
    (h : psync_fstask_rename_file cmp s fileid parentfolderid name to_folderid new_name commit
      = (0, s')) :
    (parentfolderid ≠ to_folderid →
      folder_lookup s'.folders parentfolderid = some
        (renamed_out cmp name { taskid := sql_next_id s.fstask, fileid := fileid, name := name }
          (folder_deref s.folders parentfolderid))
      ∧ folder_lookup s'.folders to_folderid = some
        (renamed_in cmp { taskid := sql_next_id s.fstask + 1, fileid := fileid, newfile := 0,
                          name := new_name.getD name }
          (folder_deref s.folders to_folderid)))
    ∧ (parentfolderid = to_folderid →
      folder_lookup s'.folders parentfolderid = some
        (renamed_in cmp { taskid := sql_next_id s.fstask + 1, fileid := fileid, newfile := 0,
                          name := new_name.getD name }
          (renamed_out cmp name
            { taskid := sql_next_id s.fstask, fileid := fileid, name := name }
            (folder_deref s.folders parentfolderid))))
    ∧ (∀ k, k ≠ parentfolderid → k ≠ to_folderid →
      folder_lookup s'.folders k = folder_lookup s.folders k) := by
  rw [rename_file_folders cmp s s' fileid parentfolderid name to_folderid new_name commit h]
  have hout : (renamed_out cmp name
      { taskid := sql_next_id s.fstask, fileid := fileid, name := name }
      (folder_deref s.folders parentfolderid)).taskscnt ≥ 1 := by
    unfold CountOk at hcount
    unfold renamed_out
    simp only []
    split
    · rename_i hany
      have := length_pos_of_any _ _ hany
      omega
    · omega
  have h1 := lookup_bracket_of s.folders parentfolderid
    (renamed_out cmp name { taskid := sql_next_id s.fstask, fileid := fileid, name := name })
    (by intro _; rfl) (by intro _ _; rfl) (by omega)
  refine ⟨?_, ?_, ?_⟩
  · intro hne
    constructor
    · rw [lookup_bracket_ne _ _ _ _ (by intro _; rfl) hne, h1]
    · have hd : folder_deref (folder_bracket s.folders parentfolderid
          (renamed_out cmp name
            { taskid := sql_next_id s.fstask, fileid := fileid, name := name })) to_folderid
          = folder_deref s.folders to_folderid := by
        unfold folder_deref
        rw [lookup_bracket_ne _ _ _ _ (by intro _; rfl) (Ne.symm hne)]
      have h2 := lookup_bracket_of (folder_bracket s.folders parentfolderid
          (renamed_out cmp name
            { taskid := sql_next_id s.fstask, fileid := fileid, name := name })) to_folderid
        (renamed_in cmp { taskid := sql_next_id s.fstask + 1, fileid := fileid, newfile := 0,
                          name := new_name.getD name })
        (by intro _; rfl) (by intro _ _; rfl)
        (by rw [hd]; unfold renamed_in; simp only []; omega)
      rw [h2, hd]
  · intro heq
    subst heq
    have hd := folder_deref_of_lookup h1
    have h2 := lookup_bracket_of (folder_bracket s.folders parentfolderid
        (renamed_out cmp name
          { taskid := sql_next_id s.fstask, fileid := fileid, name := name })) parentfolderid
      (renamed_in cmp { taskid := sql_next_id s.fstask + 1, fileid := fileid, newfile := 0,
                        name := new_name.getD name })
      (by intro _; rfl) (by intro _ _; rfl)
      (by rw [hd]; unfold renamed_in; simp only []; omega)
    rw [h2, hd]
  · intro k hk1 hk2
    rw [lookup_bracket_ne _ _ _ _ (by intro _; rfl) hk2,
      lookup_bracket_ne _ _ _ _ (by intro _; rfl) hk1]

/-- With `taskid = 0` the lookup returns the node the descent stops at. -/
theorem search_tree_shaped_zero {α : Type} (cmp : String → String → Int)
    (nameof : α → String) (idof : α → Nat) (t : psync_tree α) (name : String) :
    psync_fstask_search_tree_shaped cmp nameof idof t name 0
      = search_descend_tree cmp nameof name t := by
  unfold psync_fstask_search_tree_shaped
  cases search_descend_tree cmp nameof name t with
  | none => rfl
  | some i => simp [search_from]

/-- The node the descent on a name-sorted tree of Creats stops at is an entry
of the name, and the descent runs off the tree only when no entry has the
name. -/
theorem creatFound_descend (cmp : String → String → Int) (hc : FilenameOrder cmp)
    (name : String) (t : psync_tree psync_fstask_creat_t)
    (hs : NameSorted cmp (fun e => e.name) t.inorder) :
    CreatFound cmp name t.inorder (search_descend_tree cmp (fun e => e.name) name t) := by
  have hd := search_descend_tree_spec cmp hc (fun e : psync_fstask_creat_t => e.name) name t hs
  cases h : search_descend_tree cmp (fun e : psync_fstask_creat_t => e.name) name t with
  | none => exact hd.2 h
  | some i => exact hd.1 i h

/-- The folder tree a successful `psync_fstask_rename_file` leaves when the
lookup of the Creat is the descent on the shape `creats`: two brackets, on the
source and on the destination folder. -/
theorem rename_file_shaped_folders (cmp : String → String → Int) (s s' : State)
    (creats : psync_tree psync_fstask_creat_t) (fileid : Int)
    (parentfolderid : Int) (name : String) (to_folderid : Int) (new_name : Option String)
    (commit : Bool)
    (h : psync_fstask_rename_file_shaped cmp s creats fileid parentfolderid name to_folderid
      new_name commit = (0, s')) :
    s'.folders =
      folder_bracket
        (folder_bracket s.folders parentfolderid
          (renamed_out_at cmp (search_descend_tree cmp (fun e => e.name) name creats)
            { taskid := sql_next_id s.fstask, fileid := fileid, name := name }))
        to_folderid
        (renamed_in cmp { taskid := sql_next_id s.fstask + 1, fileid := fileid, newfile := 0,
                          name := new_name.getD name }) := by
  unfold psync_fstask_rename_file_shaped at h
  simp only [] at h
  split at h
  · simp [ EIO] at h
  simp only [Prod.mk.injEq, true_and] at h
  subst h
  have hid : sql_next_id (s.fstask ++
      [{ id := sql_next_id s.fstask, type := PSYNC_FS_TASK_RENFILE_FROM, status := 10,
         folderid := parentfolderid, fileid := some fileid, text1 := name, text2 := none,
         int1 := none, int2 := none }]) = sql_next_id s.fstask + 1 := by
    rw [sql_next_id_append]; simp
  have hkey : folder_update parentfolderid (fun f =>
        { f with unlinks := psync_fstask_insert_into_tree cmp (fun e => e.name)
                   { taskid := sql_next_id s.fstask, fileid := fileid, name := name } f.unlinks,
                 taskscnt := f.taskscnt + 1 })
        (match psync_fstask_search_tree_shaped cmp (fun e => e.name) (fun e => e.taskid)
            creats name 0 with
          | some i => folder_update parentfolderid (fun f =>
              { f with creats := f.creats.eraseIdx i, taskscnt := f.taskscnt - 1 })
              (psync_fstask_get_or_create_folder_tasks_locked s.folders parentfolderid)
          | none => psync_fstask_get_or_create_folder_tasks_locked s.folders parentfolderid)
      = folder_update parentfolderid
          (renamed_out_at cmp (search_descend_tree cmp (fun e => e.name) name creats)
            { taskid := sql_next_id s.fstask, fileid := fileid, name := name })
          (psync_fstask_get_or_create_folder_tasks_locked s.folders parentfolderid) := by
    rw [search_tree_shaped_zero]
    cases search_descend_tree cmp (fun e : psync_fstask_creat_t => e.name) name creats with
    | none =>
      simp only []
      apply folder_update_congr
      intro f _
      unfold renamed_out_at
      simp
    | some i =>
      simp only []
      rw [folder_update_update parentfolderid _ _ (by intro _; rfl)]
      apply folder_update_congr
      intro f _
      unfold renamed_out_at
      simp only [Option.isSome_some, if_true, psync_fstask_folder_t.mk.injEq, true_and, and_true]
      omega
  simp only [hid, hkey]
  rfl

/-- In a list with at most one element passing a test, two positions that
hold passing elements are the same. -/
theorem unique_position {α : Type} (p : α → Bool) (l : List α)
    (hu : (l.filter p).length ≤ 1) {i j : Nat} {a b : α}
    (ha : l[i]? = some a) (hpa : p a = true) (hb : l[j]? = some b) (hpb : p b = true) :
    i = j := by
  induction l generalizing i j with
  | nil => simp at ha
  | cons x xs ih =>
    have hmem : ∀ (k : Nat) (c : α), xs[k]? = some c → p c = true →
        1 ≤ (xs.filter p).length := by
      intro k c hc hpc
      have hin : c ∈ xs.filter p := List.mem_filter.mpr ⟨List.getElem?_mem hc, hpc⟩
      exact List.length_pos_of_mem hin
    cases i with
    | zero =>
      cases j with
      | zero => rfl
      | succ j =>
        simp only [List.getElem?_cons_zero, Option.some.injEq] at ha
        simp only [List.getElem?_cons_succ] at hb
        subst ha
        have := hmem j b hb hpb
        simp only [List.filter_cons, hpa, if_true, List.length_cons] at hu
        omega
    | succ i =>
      cases j with
      | zero =>
        simp only [List.getElem?_cons_zero, Option.some.injEq] at hb
        simp only [List.getElem?_cons_succ] at ha
        subst hb
        have := hmem i a ha hpa
        simp only [List.filter_cons, hpb, if_true, List.length_cons] at hu
        omega
      | succ j =>
        simp only [List.getElem?_cons_succ] at ha hb
        have hu2 : (xs.filter p).length ≤ 1 := by
          rw [List.filter_cons] at hu
          split at hu
          · simp only [List.length_cons] at hu; omega
          · exact hu
        rw [ih hu2 ha hb]

/-- When at most one entry of a name-sorted tree has the name, the descent on
any shape stops where the descent on the in-order list does. -/
theorem search_descend_tree_of_unique {α : Type} (cmp : String → String → Int)
    (hc : FilenameOrder cmp) (nameof : α → String) (name : String) (t : psync_tree α)
    (hs : NameSorted cmp nameof t.inorder)
    (hu : (t.inorder.filter (fun e => cmp name (nameof e) = 0)).length ≤ 1) :
    search_descend_tree cmp nameof name t = search_descend cmp nameof name t.inorder := by
  have hd := search_descend_tree_spec cmp hc nameof name t hs
  unfold search_descend
  cases h : search_descend_tree cmp nameof name t with
  | none =>
    symm
    rw [List.findIdx?_eq_none_iff]
    intro e he
    simpa using hd.2 h e he
  | some i =>
    obtain ⟨e, he, he0⟩ := hd.1 i h
    cases hf : List.findIdx? (fun e => decide (cmp name (nameof e) = 0)) t.inorder with
    | none =>
      rw [List.findIdx?_eq_none_iff] at hf
      have := hf e (List.getElem?_mem he)
      simp [he0] at this
    | some j =>
      obtain ⟨hlt, hpj, _⟩ := List.findIdx?_eq_some_iff_getElem.mp hf
      rw [unique_position _ _ hu he (by simpa using he0) (List.getElem?_eq_getElem hlt) hpj]

/-- In a source folder where at most one Creat has the name, the call on a
tree of any shape is the call on the in-order list. -/
theorem rename_file_shaped_of_unique (cmp : String → String → Int) (hc : FilenameOrder cmp)
    (s : State) (creats : psync_tree psync_fstask_creat_t) (fileid : Int)
    (parentfolderid : Int) (name : String) (to_folderid : Int) (new_name : Option String)
    (commit : Bool)
    (hshape : creats.inorder = (folder_deref s.folders parentfolderid).creats)
    (hsorted : NameSorted cmp (fun e => e.name) creats.inorder)
    (hunique : ((folder_deref s.folders parentfolderid).creats.filter
      (fun e => cmp name e.name = 0)).length ≤ 1) :
    psync_fstask_rename_file_shaped cmp s creats fileid parentfolderid name to_folderid
        new_name commit
      = psync_fstask_rename_file cmp s fileid parentfolderid name to_folderid new_name
        commit := by
  have e1 : psync_fstask_search_tree_shaped cmp (fun e => e.name) (fun e => e.taskid)
      creats name 0
      = List.findIdx? (fun e : psync_fstask_creat_t => decide (cmp name e.name = 0))
          (folder_deref s.folders parentfolderid).creats := by
    rw [search_tree_shaped_zero, search_descend_tree_of_unique cmp hc _ name creats hsorted
      (by rw [hshape]; exact hunique), hshape]
    rfl
  have e2 : psync_fstask_find_creat cmp
      (folder_deref (psync_fstask_get_or_create_folder_tasks_locked s.folders parentfolderid)
        parentfolderid) name 0
      = (List.findIdx? (fun e : psync_fstask_creat_t => decide (cmp name e.name = 0))
          (folder_deref s.folders parentfolderid).creats).bind
          (fun i => (folder_deref s.folders parentfolderid).creats[i]?.map (fun e => (i, e))) := by
    rw [folder_deref_get_or_create]
    unfold psync_fstask_find_creat tree_find
    rw [search_tree_zero]
    rfl
  unfold psync_fstask_rename_file_shaped psync_fstask_rename_file
  simp only []
  rw [e1, e2]
  cases hf : List.findIdx? (fun e : psync_fstask_creat_t => decide (cmp name e.name = 0))
      (folder_deref s.folders parentfolderid).creats with
  | none => rfl
  | some j =>
    obtain ⟨hlt, _, _⟩ := List.findIdx?_eq_some_iff_getElem.mp hf
    simp only [Option.some_bind, List.getElem?_eq_getElem hlt, Option.map_some']

/-- C13: the overlay after a successful `psync_fstask_rename_file(fileid,
parentfolderid, name, to_folderid, new_name)`, for a tree of Creats of the
source folder of any shape `creats` whose in-order sequence is name-sorted.
The lookup of line 480 returns the node `i` the descent stops at: an entry whose
name compares equal to `name`, or nothing when the folder has no such entry.
The source folder has lost that Creat, has gained the Unlink carrying the FROM
task id, and its `taskscnt` is one more (unchanged when a Creat was removed);
the destination folder has gained the Creat carrying the TO task id, `fileid`
and `newfile = 0` under the new name, and its `taskscnt` is one more; when
source and destination are the same folder both changes apply to it; no other
folder changes. -/
theorem rename_file_overlay (cmp : String → String → Int) (hc : FilenameOrder cmp)
    (s s' : State) (creats : psync_tree psync_fstask_creat_t) (fileid : Int)
    (parentfolderid : Int) (name : String) (to_folderid : Int) (new_name : Option String)
    (commit : Bool)
    (hshape : creats.inorder = (folder_deref s.folders parentfolderid).creats)
    (hsorted : NameSorted cmp (fun e => e.name) creats.inorder)
    (hcount : CountOk (folder_deref s.folders parentfolderid))
    (hto : 0 ≤ (folder_deref s.folders to_folderid).taskscnt)
    (h : psync_fstask_rename_file_shaped cmp s creats fileid parentfolderid name to_folderid
      new_name commit = (0, s')) :
    CreatFound cmp name (folder_deref s.folders parentfolderid).creats
        (search_descend_tree cmp (fun e => e.name) name creats)
    ∧ (parentfolderid ≠ to_folderid →
      folder_lookup s'.folders parentfolderid = some
        (renamed_out_at cmp (search_descend_tree cmp (fun e => e.name) name creats)
          { taskid := sql_next_id s.fstask, fileid := fileid, name := name }
          (folder_deref s.folders parentfolderid))
      ∧ folder_lookup s'.folders to_folderid = some
        (renamed_in cmp { taskid := sql_next_id s.fstask + 1, fileid := fileid, newfile := 0,
                          name := new_name.getD name }
          (folder_deref s.folders to_folderid)))
    ∧ (parentfolderid = to_folderid →
      folder_lookup s'.folders parentfolderid = some
        (renamed_in cmp { taskid := sql_next_id s.fstask + 1, fileid := fileid, newfile := 0,
                          name := new_name.getD name }
          (renamed_out_at cmp (search_descend_tree cmp (fun e => e.name) name creats)
            { taskid := sql_next_id s.fstask, fileid := fileid, name := name }
            (folder_deref s.folders parentfolderid))))
    ∧ (∀ k, k ≠ parentfolderid → k ≠ to_folderid →
      folder_lookup s'.folders k = folder_lookup s.folders k) := by
  have hfound := creatFound_descend cmp hc name creats hsorted
  rw [hshape] at hfound
  rw [rename_file_shaped_folders cmp s s' creats fileid parentfolderid name to_folderid new_name
    commit h]
  generalize search_descend_tree cmp (fun e : psync_fstask_creat_t => e.name) name creats = i
    at hfound ⊢
  have hout : (renamed_out_at cmp i
      { taskid := sql_next_id s.fstask, fileid := fileid, name := name }
      (folder_deref s.folders parentfolderid)).taskscnt ≥ 1 := by
    unfold CountOk at hcount
    unfold renamed_out_at
    simp only []
    cases i with
    | none => simp; omega
    | some i =>
      obtain ⟨e, he, _⟩ := hfound
      have hlt : i < (folder_deref s.folders parentfolderid).creats.length := by
        rcases Nat.lt_or_ge i (folder_deref s.folders parentfolderid).creats.length with h | h
        · exact h
        · rw [List.getElem?_eq_none h] at he; cases he
      simp
      omega
  have h1 := lookup_bracket_of s.folders parentfolderid
    (renamed_out_at cmp i { taskid := sql_next_id s.fstask, fileid := fileid, name := name })
    (by intro _; rfl) (by intro _ _; rfl) (by omega)
  refine ⟨hfound, ?_, ?_, ?_⟩
  · intro hne
    constructor
    · rw [lookup_bracket_ne _ _ _ _ (by intro _; rfl) hne, h1]
    · have hd : folder_deref (folder_bracket s.folders parentfolderid
          (renamed_out_at cmp i
            { taskid := sql_next_id s.fstask, fileid := fileid, name := name })) to_folderid
          = folder_deref s.folders to_folderid := by
        unfold folder_deref
        rw [lookup_bracket_ne _ _ _ _ (by intro _; rfl) (Ne.symm hne)]
      have h2 := lookup_bracket_of (folder_bracket s.folders parentfolderid
          (renamed_out_at cmp i
            { taskid := sql_next_id s.fstask, fileid := fileid, name := name })) to_folderid
        (renamed_in cmp { taskid := sql_next_id s.fstask + 1, fileid := fileid, newfile := 0,
                          name := new_name.getD name })
        (by intro _; rfl) (by intro _ _; rfl)
        (by rw [hd]; unfold renamed_in; simp only []; omega)
      rw [h2, hd]
  · intro heq
    subst heq
    have hd := folder_deref_of_lookup h1
    have h2 := lookup_bracket_of (folder_bracket s.folders parentfolderid
        (renamed_out_at cmp i
          { taskid := sql_next_id s.fstask, fileid := fileid, name := name })) parentfolderid
      (renamed_in cmp { taskid := sql_next_id s.fstask + 1, fileid := fileid, newfile := 0,
                        name := new_name.getD name })
      (by intro _; rfl) (by intro _ _; rfl)
      (by rw [hd]; unfold renamed_in; simp only []; omega)
    rw [h2, hd]
  · intro k hk1 hk2
    rw [lookup_bracket_ne _ _ _ _ (by intro _; rfl) hk2,
      lookup_bracket_ne _ _ _ _ (by intro _; rfl) hk1]

/-- Witness for C13: the root folder holds three Creats named `"a"`, of the
tasks 7, 8 and 9, the one of task 8 at the root of the tree.  The rename of
`"a"` to `"g"` in folder 5 removes the Creat of task 8, where the descent
stops. -/
theorem rename_file_overlay_witness :
    search_descend_tree strcmp (fun e => e.name) "a" example_creats = some 1
    ∧ folder_lookup (psync_fstask_rename_file_shaped strcmp example_store example_creats
        (-8) 0 "a" 5 (some "g") true).2.folders 0
      = some { folderid := 0, mkdirs := [], rmdirs := [],
               creats := [{ taskid := 7, fileid := -7, newfile := 1, name := "a" },
                          { taskid := 9, fileid := -9, newfile := 1, name := "a" }],
               unlinks := [{ taskid := 1, fileid := -8, name := "a" }],
               taskscnt := 3, refcnt := 0 }
    ∧ folder_lookup (psync_fstask_rename_file_shaped strcmp example_store example_creats
        (-8) 0 "a" 5 (some "g") true).2.folders 5
      = some { folderid := 5, mkdirs := [], rmdirs := [],
               creats := [{ taskid := 2, fileid := -8, newfile := 0, name := "g" }],
               unlinks := [], taskscnt := 1, refcnt := 0 } := by
  obtain ⟨_, h1, _, _⟩ := rename_file_overlay strcmp strcmp_order example_store
    (psync_fstask_rename_file_shaped strcmp example_store example_creats
      (-8) 0 "a" 5 (some "g") true).2
    example_creats (-8) 0 "a" 5 (some "g") true (by decide) (by decide) (by decide) (by decide)
    (by decide)
  refine ⟨by decide, ?_, ?_⟩
  · rw [(h1 (by decide)).1]
    decide
  · rw [(h1 (by decide)).2]
    decide

/-! ## `psync_fstask_folder_created` -/

theorem countOk_without_mkdir (cmp : String → String → Int) (name : String) (taskid : Nat)
    (f : psync_fstask_folder_t) (h : CountOk f) : CountOk (without_mkdir cmp name taskid f) := by
  unfold CountOk without_mkdir at *
  simp only [List.length_eraseP]
  split
  · rename_i hany
    obtain ⟨x, hx, -⟩ := List.any_eq_true.mp hany
    have := List.length_pos_of_mem hx
    omega
  · omega

/-- The acknowledgement block of a mkdir, read through `folder_deref`. -/
theorem ack_mkdir_deref (cmp : String → String → Int) (hc : FilenameOrder cmp)
    (fs : List psync_fstask_folder_t) (k : Int) (name : String) (taskid : Nat)
    (ht : taskid ≠ 0) (hkeys : KeysNodup fs) (hcount : CountOk (folder_deref fs k))
    (hsorted : NameSorted cmp (fun e => e.name) (folder_deref fs k).mkdirs) :
    ∀ k', folder_deref
        (ack_block (fun f => psync_fstask_find_mkdir cmp f name taskid)
          (fun i f => { f with mkdirs := f.mkdirs.eraseIdx i, taskscnt := f.taskscnt - 1 })
          fs k) k' =
      if k' = k then without_mkdir cmp name taskid (folder_deref fs k) else folder_deref fs k' := by
  apply ack_block_deref _ _ (without_mkdir cmp name taskid) fs k (by intro _ _; rfl) hkeys
  · simp [without_mkdir, folder_zero]
  · intro f hf hfind
    rw [folder_deref_of_lookup hf] at hsorted
    rcases tree_find_eq_findIdx cmp hc (fun e : psync_fstask_mkdir_t => e.name)
      (fun e => e.taskid) f.mkdirs name taskid ht hsorted with ⟨-, h2⟩ | ⟨i, b, h1, -⟩
    · obtain ⟨h3, h4⟩ := eraseP_of_findIdx_none _ _ h2
      unfold without_mkdir
      rw [h3, h4]
      cases f
      simp
    · unfold psync_fstask_find_mkdir at hfind
      rw [h1] at hfind
      simp at hfind
  · intro f i b hf hfind
    rw [folder_deref_of_lookup hf] at hsorted
    rcases tree_find_eq_findIdx cmp hc (fun e : psync_fstask_mkdir_t => e.name)
      (fun e => e.taskid) f.mkdirs name taskid ht hsorted with ⟨h1, -⟩ | ⟨i', b', h1, h2⟩
    · unfold psync_fstask_find_mkdir at hfind
      rw [h1] at hfind
      simp at hfind
    · unfold psync_fstask_find_mkdir at hfind
      rw [h1] at hfind
      simp only [Option.some.injEq, Prod.mk.injEq] at hfind
      obtain ⟨hi, -⟩ := hfind
      subst hi
      obtain ⟨h3, h4, -⟩ := eraseIdx_of_findIdx_some _ _ _ h2
      unfold without_mkdir
      rw [← h3, h4]
      cases f
      simp
  · intro f hf
    rw [folder_deref_of_lookup hf] at hcount
    exact countOk_without_mkdir cmp name taskid f hcount

/-- A release leaves the folders under other keys alone. -/
theorem lookup_release_ne (fs : List psync_fstask_folder_t) (k k' : Int) (hk : k' ≠ k) :
    folder_lookup (psync_fstask_release_folder_tasks_locked fs k) k' = folder_lookup fs k' := by
  unfold psync_fstask_release_folder_tasks_locked
  cases folder_lookup fs k with
  | none => rfl
  | some f =>
    simp only []
    split
    · exact folder_lookup_del_ne k k' hk fs
    · exact folder_lookup_update_ne k k' _ (by intro _; rfl) hk fs

/-- An acknowledgement block leaves the folders under other keys alone. -/
theorem lookup_ack_block_ne {β : Type} (find : psync_fstask_folder_t → Option (Nat × β))
    (g : Nat → psync_fstask_folder_t → psync_fstask_folder_t)
    (hg : ∀ i f, (g i f).folderid = f.folderid)
    (fs : List psync_fstask_folder_t) (k k' : Int) (hk : k' ≠ k) :
    folder_lookup (ack_block find g fs k) k' = folder_lookup fs k' := by
  unfold ack_block
  cases hget : psync_fstask_get_folder_tasks_locked fs k with
  | none => rfl
  | some fs1 =>
    simp only []
    obtain ⟨f, _, hfs1⟩ := lookup_of_get hget
    rw [lookup_release_ne _ k k' hk]
    have h1 : folder_lookup fs1 k' = folder_lookup fs k' := by
      rw [hfs1.1]
      exact folder_lookup_update_ne k k' _ (by intro _; rfl) hk fs
    cases find (folder_deref fs1 k) with
    | none => exact h1
    | some ib =>
      obtain ⟨i, b⟩ := ib
      simp only []
      rw [folder_lookup_update_ne k k' (g i) (hg i) hk, h1]

/-- The folder tree `psync_fstask_folder_created` leaves when the placeholder
folder exists and stays referenced or holds tasks: the placeholder is taken out
and put back under the new key. -/
theorem folder_created_folders (cmp : String → String → Int) (s : State)
    (parentfolderid : Int) (taskid : Nat) (folderid : Int) (name : String)
    (F : psync_fstask_folder_t)
    (hF : folder_lookup
      (ack_block (fun folder => psync_fstask_find_mkdir cmp folder name taskid)
        (fun i f => { f with mkdirs := f.mkdirs.eraseIdx i, taskscnt := f.taskscnt - 1 })
        s.folders parentfolderid) (-(taskid : Int)) = some F)
    (hlive : FolderLive F) :
    (psync_fstask_folder_created cmp s parentfolderid taskid folderid name).folders
      = folder_add (rekeyed folderid F)
          (folder_del (-(taskid : Int))
            (ack_block (fun folder => psync_fstask_find_mkdir cmp folder name taskid)
              (fun i f => { f with mkdirs := f.mkdirs.eraseIdx i, taskscnt := f.taskscnt - 1 })
              s.folders parentfolderid)) := by
  unfold psync_fstask_folder_created
  simp only []
  generalize ack_block (fun folder => psync_fstask_find_mkdir cmp folder name taskid)
    (fun i f => { f with mkdirs := f.mkdirs.eraseIdx i, taskscnt := f.taskscnt - 1 })
    s.folders parentfolderid = fs1 at hF ⊢
  have hget : psync_fstask_get_folder_tasks_locked fs1 (-(taskid : Int))
      = some (folder_update (-(taskid : Int)) (fun f => { f with refcnt := f.refcnt + 1 }) fs1) := by
    unfold psync_fstask_get_folder_tasks_locked
    rw [hF]
  have hd : folder_deref
      (folder_update (-(taskid : Int)) (fun f => { f with refcnt := f.refcnt + 1 }) fs1)
      (-(taskid : Int)) = { F with refcnt := F.refcnt + 1 } := by
    apply folder_deref_of_lookup
    rw [folder_lookup_update_self _ _ (by intro _; rfl), hF]
    rfl
  rw [hget]
  simp only [hd]
  have hne : ¬ (F.refcnt + 1 - 1 = 0 ∧ F.taskscnt = 0) := by
    unfold FolderLive at hlive
    omega
  rw [if_neg hne, folder_del_update (-(taskid : Int)) _ (by intro _; rfl)]
  congr 1
  cases F
  simp [rekeyed]

/-- C14, counterexample: `Mkdir(0, "d")` (task 1, placeholder folder `-1`),
`AddCreat` of `"f"` under the placeholder (task 2), `Mkdir(77, "x")` (task 3,
held by `FolderTasks(77)`), then `folder_created(0, 1, 77, "d")`.  The
placeholder is re-keyed to 77 while the collection already holds a
`FolderTasks` with key 77: afterwards it holds two with that key. -/
theorem folder_created_duplicate_key :
    (run_calls strcmp (State.empty [] [])
      [Call.mkdir 0 "d" 100 true, Call.add_creat (-1) "f" true, Call.mkdir 77 "x" 100 true,
       Call.folder_created 0 1 77 "d"]).folders.map
        (fun f => (f.folderid, f.mkdirs.map (fun e => e.name), f.creats.map (fun e => e.name)))
      = [(77, ["x"], []), (77, [], ["f"])]
    ∧ ¬ KeysNodup (run_calls strcmp (State.empty [] [])
      [Call.mkdir 0 "d" 100 true, Call.add_creat (-1) "f" true, Call.mkdir 77 "x" 100 true,
       Call.folder_created 0 1 77 "d"]).folders := by
  decide

/-- C14, amended: `psync_fstask_folder_created(parentfolderid, taskid, folderid,
name)` called while a `FolderTasks` is stored at key `-taskid` and none at key
`folderid`.  The Mkdir entry with `(name, taskid)` is removed from the parent
folder if present; the lookup of `folderid` returns the former placeholder
folder, its sets, `taskscnt` and `refcnt` unchanged; the lookup of `-taskid`
returns none; no two folders of the collection carry the same key; the
folders under other keys are unchanged. -/
theorem folder_created_rekeys (cmp : String → String → Int) (hc : FilenameOrder cmp) (s : State)
    (parentfolderid : Int) (taskid : Nat) (folderid : Int) (name : String)
    (F : psync_fstask_folder_t)
    (ht : taskid ≠ 0)
    (hpar : parentfolderid ≠ -(taskid : Int))
    (hkeys : KeysNodup s.folders)
    (hcount : CountOk (folder_deref s.folders parentfolderid))
    (hsorted : NameSorted cmp (fun e => e.name) (folder_deref s.folders parentfolderid).mkdirs)
    (hF : folder_lookup s.folders (-(taskid : Int)) = some F)
    (hlive : FolderLive F)
    (hfresh : folder_lookup s.folders folderid = none) :
    folder_lookup (psync_fstask_folder_created cmp s parentfolderid taskid folderid name).folders
        folderid = some (rekeyed folderid F)
    ∧ folder_lookup (psync_fstask_folder_created cmp s parentfolderid taskid folderid name).folders
        (-(taskid : Int)) = none
    ∧ KeysNodup (psync_fstask_folder_created cmp s parentfolderid taskid folderid name).folders
    ∧ (∀ k, k ≠ folderid → k ≠ -(taskid : Int) →
      folder_deref (psync_fstask_folder_created cmp s parentfolderid taskid folderid name).folders k
        = if k = parentfolderid then without_mkdir cmp name taskid (folder_deref s.folders k)
          else folder_deref s.folders k) := by
  have hne : folderid ≠ -(taskid : Int) := by
    intro h; rw [h, hF] at hfresh; cases hfresh
  have hack := ack_mkdir_deref cmp hc s.folders parentfolderid name taskid ht hkeys hcount hsorted
  have hk1 := keysNodup_ack_block (fun folder => psync_fstask_find_mkdir cmp folder name taskid)
    (fun i f => { f with mkdirs := f.mkdirs.eraseIdx i, taskscnt := f.taskscnt - 1 })
    (by intro _ _; rfl) s.folders parentfolderid hkeys
  have hF1 : folder_lookup
      (ack_block (fun folder => psync_fstask_find_mkdir cmp folder name taskid)
        (fun i f => { f with mkdirs := f.mkdirs.eraseIdx i, taskscnt := f.taskscnt - 1 })
        s.folders parentfolderid) (-(taskid : Int)) = some F := by
    rw [lookup_ack_block_ne _ _ (by intro _ _; rfl) _ _ _ (Ne.symm hpar), hF]
  have hfr1 : folder_lookup
      (ack_block (fun folder => psync_fstask_find_mkdir cmp folder name taskid)
        (fun i f => { f with mkdirs := f.mkdirs.eraseIdx i, taskscnt := f.taskscnt - 1 })
        s.folders parentfolderid) folderid = none := by
    by_cases hfp : folderid = parentfolderid
    · subst hfp
      unfold ack_block psync_fstask_get_folder_tasks_locked
      rw [hfresh]
      exact hfresh
    · rw [lookup_ack_block_ne _ _ (by intro _ _; rfl) _ _ _ hfp, hfresh]
  rw [folder_created_folders cmp s parentfolderid taskid folderid name F hF1 hlive]
  generalize ack_block (fun folder => psync_fstask_find_mkdir cmp folder name taskid)
    (fun i f => { f with mkdirs := f.mkdirs.eraseIdx i, taskscnt := f.taskscnt - 1 })
    s.folders parentfolderid = fs1 at hack hk1 hF1 hfr1 ⊢
  have hdel : folder_lookup (folder_del (-(taskid : Int)) fs1) folderid = none := by
    rw [folder_lookup_del_ne _ _ hne, hfr1]
  refine ⟨?_, ?_, ?_, ?_⟩
  · exact folder_lookup_add_self (rekeyed folderid F) _ hdel
  · rw [folder_lookup_add_ne (rekeyed folderid F) _ (Ne.symm hne)]
    exact folder_lookup_del_self hk1
  · unfold KeysNodup
    rw [(folder_add_keys_perm _ _).nodup_iff]
    exact List.nodup_cons.mpr ⟨not_mem_keys_of_lookup_none hdel, keysNodup_del hk1⟩
  · intro k hk1' hk2'
    have hlk : folder_deref (folder_add (rekeyed folderid F) (folder_del (-(taskid : Int)) fs1)) k
        = folder_deref fs1 k := by
      unfold folder_deref
      rw [folder_lookup_add_ne (rekeyed folderid F) k hk1', folder_lookup_del_ne _ _ hk2']
    rw [hlk, hack k]
    by_cases hkp : k = parentfolderid
    · subst hkp; rfl
    · rw [if_neg hkp, if_neg hkp]

/-- Witness for the amended C14: the placeholder folder `-1`, holding the Creat
of task 2, is found under the key 77 after `folder_created(0, 1, 77, "d")`, and
nothing is left under the key `-1`. -/
theorem folder_created_rekeys_witness :
    folder_lookup (psync_fstask_folder_created strcmp
        (run_calls strcmp (State.empty [] [])
          [Call.mkdir 0 "d" 100 true, Call.add_creat (-1) "f" true]) 0 1 77 "d").folders 77
      = some { folderid := 77, mkdirs := [], rmdirs := [],
               creats := [{ taskid := 2, fileid := -2, newfile := 1, name := "f" }],
               unlinks := [], taskscnt := 1, refcnt := 0 }
    ∧ folder_lookup (psync_fstask_folder_created strcmp
        (run_calls strcmp (State.empty [] [])
          [Call.mkdir 0 "d" 100 true, Call.add_creat (-1) "f" true]) 0 1 77 "d").folders
          (-((1 : Nat) : Int)) = none :=
  ⟨(folder_created_rekeys strcmp strcmp_order
      (run_calls strcmp (State.empty [] [])
        [Call.mkdir 0 "d" 100 true, Call.add_creat (-1) "f" true]) 0 1 77 "d"
      { folderid := -1, mkdirs := [], rmdirs := [],
        creats := [{ taskid := 2, fileid := -2, newfile := 1, name := "f" }],
        unlinks := [], taskscnt := 1, refcnt := 0 }
      (by decide) (by decide) (by decide) (by decide) (by decide) (by decide) (by decide)
      (by decide)).1,
   (folder_created_rekeys strcmp strcmp_order
      (run_calls strcmp (State.empty [] [])
        [Call.mkdir 0 "d" 100 true, Call.add_creat (-1) "f" true]) 0 1 77 "d"
      { folderid := -1, mkdirs := [], rmdirs := [],
        creats := [{ taskid := 2, fileid := -2, newfile := 1, name := "f" }],
        unlinks := [], taskscnt := 1, refcnt := 0 }
      (by decide) (by decide) (by decide) (by decide) (by decide) (by decide) (by decide)
      (by decide)).2.1⟩

/-! ## Invariant (I1): when a folder is dropped -/

theorem U64_lt (x : Int) : U64 x < 18446744073709551616 := by
  unfold U64
  have h := Int.emod_lt_of_pos x (show (0 : Int) < 18446744073709551616 by norm_num)
  have h0 := Int.emod_nonneg x (show (18446744073709551616 : Int) ≠ 0 by norm_num)
  omega

theorem U64_succ (n : Nat) (h : n + 1 < 18446744073709551616) : U64 ((n : Int) + 1) = n + 1 := by
  unfold U64
  rw [Int.emod_eq_of_lt (by omega) (by omega)]
  omega

theorem U64_pred (n : Nat) (h0 : 1 ≤ n) (h : n < 18446744073709551616) :
    U64 ((n : Int) - 1) = n - 1 := by
  unfold U64
  rw [Int.emod_eq_of_lt (by omega) (by omega)]
  omega

theorem task_dec_counter_starting (w : download_state) (cnt : Option download_counter)
    (a d : Nat) (b : Bool) :
    (task_dec_counter w cnt a d b).starting_downloads =
      if cnt = some .starting_downloads then U64 ((w.starting_downloads : Int) - 1)
      else w.starting_downloads := by
  unfold task_dec_counter
  rcases cnt with _ | _ | _ <;> cases b <;> simp <;> split <;> rfl

theorem task_dec_counter_started (w : download_state) (cnt : Option download_counter)
    (a d : Nat) (b : Bool) :
    (task_dec_counter w cnt a d b).started_downloads =
      if cnt = some .started_downloads then U64 ((w.started_downloads : Int) - 1)
      else w.started_downloads := by
  unfold task_dec_counter
  rcases cnt with _ | _ | _ <;> cases b <;> simp <;> split <;> rfl

theorem lifecycle_step_inv (cfg : psync_settings) (a : lifecycle_step)
    (s s' : download_lifecycle) (hs : LifecycleInv cfg s) (h : a.run cfg s = some s') :
    LifecycleInv cfg s' := by
  obtain ⟨h1, h2, h3, h4, h5⟩ := hs
  cases a with
  | enter =>
    simp only [lifecycle_step.run, admission, Option.map_eq_some'] at h
    obtain ⟨w, hw, rfl⟩ := h
    split at hw
    · cases hw
    · rename_i hnw
      cases hw
      simp only [admission_waits, not_or, not_not] at hnw
      obtain ⟨hz, hlt, _⟩ := hnw
      have hu : U64 ((s.state.starting_downloads : Int) + 1) = 1 := by
        rw [hz]; rfl
      refine ⟨?_, ?_, h3, ?_, ?_⟩
      · simp only [hu, List.count_cons_self, ← h1]; omega
      · simp only [hu]; exact le_refl _
      · simp only [hu]; omega
      · intro hm
        simp only [List.count_cons_of_ne (by decide : download_counter.starting_downloads ≠ download_counter.started_downloads)]
        exact h5 hm
  | promote serversize =>
    simp only [lifecycle_step.run] at h
    split at h
    · rename_i hmem
      cases h
      have hpos : 0 < s.held.count download_counter.starting_downloads :=
        List.count_pos_iff.2 hmem
      have hone : s.state.starting_downloads = 1 := by omega
      have hu : U64 ((s.state.starting_downloads : Int) - 1) = 0 := by rw [hone]; rfl
      have hlt := U64_lt ((s.state.started_downloads : Int) + 1)
      refine ⟨?_, ?_, ?_, ?_, ?_⟩
      · simp only [promotion, hu]
        rw [List.count_cons_of_ne (by decide), List.count_erase_self]
        omega
      · simp only [promotion, hu]; omega
      · simp only [promotion]; exact hlt
      · simp only [promotion, hu]
        by_cases hm : cfg.PSYNC_MAX_PARALLEL_DOWNLOADS < 18446744073709551616
        · rw [U64_succ _ (by omega)]; omega
        · omega
      · intro hm
        simp only [promotion]
        rw [U64_succ _ (by omega), List.count_cons_self, List.count_erase_of_ne (by decide)]
        rw [h5 hm]
    · cases h
  | chunk rd =>
    simp only [lifecycle_step.run] at h
    cases h
    exact ⟨h1, h2, h3, h4, h5⟩
  | release cnt filesize downloadedsize =>
    cases cnt with
    | none =>
      simp only [lifecycle_step.run] at h
      cases h
      refine ⟨?_, ?_, ?_, ?_, ?_⟩ <;>
        simp only [task_dec_counter_starting, task_dec_counter_started, if_false,
          reduceCtorEq] <;> assumption
    | some c =>
      simp only [lifecycle_step.run] at h
      split at h
      · rename_i hmem
        cases h
        have hpos : 0 < s.held.count c := List.count_pos_iff.2 hmem
        cases c with
        | starting_downloads =>
          have hone : s.state.starting_downloads = 1 := by omega
          have hu : U64 ((s.state.starting_downloads : Int) - 1) = 0 := by rw [hone]; rfl
          refine ⟨?_, ?_, ?_, ?_, ?_⟩ <;>
            simp only [task_dec_counter_starting, task_dec_counter_started, if_true, if_false,
              reduceCtorEq, Option.some.injEq, hu, List.count_erase_self]
          · omega
          · omega
          · exact h3
          · omega
          · intro hm
            rw [List.count_erase_of_ne (by decide)]
            exact h5 hm
        | started_downloads =>
          have hlt := U64_lt ((s.state.started_downloads : Int) - 1)
          refine ⟨?_, ?_, ?_, ?_, ?_⟩ <;>
            simp only [task_dec_counter_starting, task_dec_counter_started, if_true, if_false,
              reduceCtorEq, Option.some.injEq]
          · rw [List.count_erase_of_ne (by decide)]; exact h1
          · exact h2
          · exact hlt
          · by_cases hm : cfg.PSYNC_MAX_PARALLEL_DOWNLOADS < 18446744073709551616
            · have := h5 hm
              rw [U64_pred _ (by omega) h3]; omega
            · omega
          · intro hm
            have := h5 hm
            rw [U64_pred _ (by omega) h3, List.count_erase_self]
            omega
      · cases h

theorem lifecycle_run_inv (cfg : psync_settings) (steps : List lifecycle_step) :
    ∀ (s s' : download_lifecycle), LifecycleInv cfg s → lifecycle_run cfg steps s = some s' →
      LifecycleInv cfg s' := by
  induction steps with
  | nil => intro s s' hs h; simp only [lifecycle_run, Option.some.injEq] at h; exact h ▸ hs
  | cons a steps ih =>
    intro s s' hs h
    simp only [lifecycle_run, Option.bind_eq_some] at h
    obtain ⟨s1, h1, h2⟩ := h
    exact ih s1 s' (lifecycle_step_inv cfg a s s1 hs h1) h2

/-- C18 (admission invariant). In every state reached from the initial state
(counters at zero, no download in flight) by lifecycle steps (a download
passes the admission loop; it moves from `starting` to `started`; it receives
a chunk; it leaves through `task_dec_counter` with the counter it holds),
`starting_downloads + started_downloads ≤ PSYNC_MAX_PARALLEL_DOWNLOADS`, and
so `0 ≤ started_downloads ≤ PSYNC_MAX_PARALLEL_DOWNLOADS`. -/
theorem admission_invariant (cfg : psync_settings) (localfile : List localfile_row)
    (downloads : List download_list_t) (steps : List lifecycle_step) (s : download_lifecycle)
    (h : lifecycle_run cfg steps
      { state := download_state.init localfile downloads, held := [] } = some s) :
    s.state.starting_downloads + s.state.started_downloads ≤ cfg.PSYNC_MAX_PARALLEL_DOWNLOADS
    ∧ 0 ≤ s.state.started_downloads
    ∧ s.state.started_downloads ≤ cfg.PSYNC_MAX_PARALLEL_DOWNLOADS := by
  have hinv := lifecycle_run_inv cfg steps _ s
    (show LifecycleInv cfg { state := download_state.init localfile downloads, held := [] } from
      ⟨rfl, Nat.zero_le _, by show (0 : Nat) < _; norm_num, Nat.zero_le _, by intro _; rfl⟩) h
  obtain ⟨_, _, _, h4, _⟩ := hinv
  exact ⟨h4, Nat.zero_le _, by omega⟩

/-- C18 (witness). Two downloads with at most two in parallel: the first
passes admission, starts, receives 4 bytes; the second passes admission; the
first leaves. -/
theorem admission_invariant_witness :
    ∃ s, lifecycle_run example_settings
        [.enter, .promote 10, .chunk 4, .enter, .release (some .started_downloads) 10 4]
        { state := download_state.init [] [], held := [] } = some s
      ∧ s.held = [download_counter.starting_downloads]
      ∧ s.state.starting_downloads + s.state.started_downloads ≤ 2
      ∧ 0 ≤ s.state.started_downloads
      ∧ s.state.started_downloads ≤ 2 :=
  ⟨_, rfl, by decide,
    admission_invariant example_settings [] []
      [.enter, .promote 10, .chunk 4, .enter, .release (some .started_downloads) 10 4] _ rfl⟩

/-! ## Download worker: what the parts leave unchanged -/

@[simp]
theorem task_dec_counter_events (w : download_state) (cnt : Option download_counter)
    (a d : Nat) (b : Bool) : (task_dec_counter w cnt a d b).events = w.events := by
  unfold task_dec_counter
  rcases cnt with _ | _ | _ <;> cases b <;> simp <;> split <;> rfl

@[simp]
theorem task_dec_counter_fs (w : download_state) (cnt : Option download_counter)
    (a d : Nat) (b : Bool) : (task_dec_counter w cnt a d b).fs = w.fs := by
  unfold task_dec_counter
  rcases cnt with _ | _ | _ <;> cases b <;> simp <;> split <;> rfl

@[simp]
theorem task_dec_counter_localfile (w : download_state) (cnt : Option download_counter)
    (a d : Nat) (b : Bool) : (task_dec_counter w cnt a d b).localfile = w.localfile := by
  unfold task_dec_counter
  rcases cnt with _ | _ | _ <;> cases b <;> simp <;> split <;> rfl

@[simp]
theorem task_dec_counter_stop_reads (w : download_state) (cnt : Option download_counter)
    (a d : Nat) (b : Bool) : (task_dec_counter w cnt a d b).stop_reads = w.stop_reads := by
  unfold task_dec_counter
  rcases cnt with _ | _ | _ <;> cases b <;> simp <;> split <;> rfl

@[simp]
theorem exit_ret0_ret (w : download_state) (l : download_locals) :
    (exit_ret0 w l).ret = 0 := rfl

@[simp]
theorem exit_ret0_exit (w : download_state) (l : download_locals) :
    (exit_ret0 w l).exit = .ret0 := rfl

@[simp]
theorem exit_ret0_events (w : download_state) (l : download_locals) :
    (exit_ret0 w l).state.events = w.events := by simp [exit_ret0, unlock_file]

@[simp]
theorem exit_ret0_fs (w : download_state) (l : download_locals) :
    (exit_ret0 w l).state.fs = w.fs := by simp [exit_ret0, unlock_file]

@[simp]
theorem exit_ret0_localfile (w : download_state) (l : download_locals) :
    (exit_ret0 w l).state.localfile = w.localfile := by simp [exit_ret0, unlock_file]

@[simp]
theorem exit_ret0_stop_reads (w : download_state) (l : download_locals) :
    (exit_ret0 w l).state.stop_reads = w.stop_reads := by simp [exit_ret0, unlock_file]

@[simp]
theorem exit_err_sl_ex_ret (w : download_state) (l : download_locals) :
    (exit_err_sl_ex w l).ret = -1 := rfl

@[simp]
theorem exit_err_sl_ex_exit (w : download_state) (l : download_locals) :
    (exit_err_sl_ex w l).exit = .err_sl_ex := rfl

@[simp]
theorem exit_err_sl_ex_events (w : download_state) (l : download_locals) :
    (exit_err_sl_ex w l).state.events = w.events := by simp [exit_err_sl_ex, unlock_file]

@[simp]
theorem exit_err_sl_ex_stop_reads (w : download_state) (l : download_locals) :
    (exit_err_sl_ex w l).state.stop_reads = w.stop_reads := by
  simp [exit_err_sl_ex, unlock_file]

@[simp]
theorem exit_err0_ret (e : download_exit) (w : download_state) (l : download_locals) :
    (exit_err0 e w l).ret = -1 := rfl

@[simp]
theorem exit_err0_exit (e : download_exit) (w : download_state) (l : download_locals) :
    (exit_err0 e w l).exit = e := rfl

@[simp]
theorem exit_err0_events (e : download_exit) (w : download_state) (l : download_locals) :
    (exit_err0 e w l).state.events = w.events := by
  unfold exit_err0; cases l.tmpold <;> simp [unlock_file]

@[simp]
theorem exit_err0_fs (e : download_exit) (w : download_state) (l : download_locals) :
    (exit_err0 e w l).state.fs = w.fs ++ l.tmpold.toList.map fs_op.file_delete := by
  unfold exit_err0; cases l.tmpold <;> simp [unlock_file]

@[simp]
theorem exit_err0_localfile (e : download_exit) (w : download_state)
    (l : download_locals) : (exit_err0 e w l).state.localfile = w.localfile := by
  unfold exit_err0; cases l.tmpold <;> simp [unlock_file]

@[simp]
theorem exit_err0_stop_reads (e : download_exit) (w : download_state)
    (l : download_locals) : (exit_err0 e w l).state.stop_reads = w.stop_reads := by
  unfold exit_err0; cases l.tmpold <;> simp [unlock_file]

@[simp]
theorem exit_err1_ret (e : download_exit) (w : download_state) (l : download_locals)
    (syncid fileid : Nat) : (exit_err1 e w l syncid fileid).ret = -1 := rfl

@[simp]
theorem exit_err1_exit (e : download_exit) (w : download_state) (l : download_locals)
    (syncid fileid : Nat) : (exit_err1 e w l syncid fileid).exit = e := rfl

@[simp]
theorem exit_err1_events (e : download_exit) (w : download_state) (l : download_locals)
    (syncid fileid : Nat) :
    (exit_err1 e w l syncid fileid).state.events = w.events ++
      [{ event := .PEVENT_FILE_DOWNLOAD_FAILED, syncid := syncid, localpath := l.name,
         remoteid := fileid }] := by
  simp [exit_err1]

@[simp]
theorem exit_err1_stop_reads (e : download_exit) (w : download_state)
    (l : download_locals) (syncid fileid : Nat) :
    (exit_err1 e w l syncid fileid).state.stop_reads = w.stop_reads := by
  simp [exit_err1]

@[simp]
theorem read_stop_events (env : download_env) (w : download_state) (dwl : Nat) :
    (read_stop env w dwl).2.events = w.events := rfl

@[simp]
theorem read_stop_fs (env : download_env) (w : download_state) (dwl : Nat) :
    (read_stop env w dwl).2.fs = w.fs := rfl

@[simp]
theorem read_stop_localfile (env : download_env) (w : download_state) (dwl : Nat) :
    (read_stop env w dwl).2.localfile = w.localfile := rfl

@[simp]
theorem read_stop_downloads (env : download_env) (w : download_state) (dwl : Nat) :
    (read_stop env w dwl).2.downloads = w.downloads := rfl

@[simp]
theorem read_stop_stop_reads (env : download_env) (w : download_state) (dwl : Nat) :
    (read_stop env w dwl).2.stop_reads = w.stop_reads + 1 := rfl

theorem read_stop_value (env : download_env) (w : download_state) (dwl : Nat) :
    (read_stop env w dwl).1 = stop_value env w dwl w.stop_reads := rfl

/-- The read loop of a transfer changes neither the events, nor the file
system, nor `localfile`, nor `downloads`. -/
theorem transfer_loop_frame (env : download_env) (dwl : Nat) (reads : List chunk_io) :
    ∀ (w : download_state) (d : Nat),
      (transfer_loop env dwl reads w d).2.1.events = w.events
      ∧ (transfer_loop env dwl reads w d).2.1.fs = w.fs
      ∧ (transfer_loop env dwl reads w d).2.1.localfile = w.localfile
      ∧ (transfer_loop env dwl reads w d).2.1.downloads = w.downloads := by
  induction reads with
  | nil => intro w d; simp [transfer_loop]
  | cons c reads ih =>
    intro w d
    unfold transfer_loop
    split
    · simp
    · simp only []
      split
      · simp
      · split
        · simp
        · split
          · simp
          · have := ih { (read_stop env w dwl).2 with
              bytesdownloaded := U64 (((read_stop env w dwl).2.bytesdownloaded : Int) + c.rd) }
              (U64 ((d : Int) + c.rd))
            simpa using this

theorem copy_loop_frame (env : download_env) (dwl : Nat) (reads : List chunk_io) :
    ∀ (w : download_state) (d result : Nat),
      (copy_loop env dwl reads w d result).2.1.events = w.events
      ∧ (copy_loop env dwl reads w d result).2.1.fs = w.fs
      ∧ (copy_loop env dwl reads w d result).2.1.localfile = w.localfile
      ∧ (copy_loop env dwl reads w d result).2.1.downloads = w.downloads := by
  induction reads with
  | nil =>
    intro w d result
    unfold copy_loop
    split
    · simp
    · split <;> simp
  | cons c reads ih =>
    intro w d result
    unfold copy_loop
    split
    · simp
    · simp only []
      split
      · simp
      · split
        · simp
        · have := ih { (read_stop env w dwl).2 with
            bytesdownloaded := U64 (((read_stop env w dwl).2.bytesdownloaded : Int) + c.rd) }
            (U64 ((d : Int) + c.rd)) (U64 ((result : Int) - c.rd))
          simpa using this

theorem ranges_loop_frame (env : download_env) (dwl : Nat) (ranges : List psync_range_list_t) :
    ∀ (w : download_state) (d : Nat),
      (ranges_loop env dwl ranges w d).2.1.events = w.events
      ∧ (ranges_loop env dwl ranges w d).2.1.fs = w.fs
      ∧ (ranges_loop env dwl ranges w d).2.1.localfile = w.localfile
      ∧ (ranges_loop env dwl ranges w d).2.1.downloads = w.downloads := by
  induction ranges with
  | nil => intro w d; simp [ranges_loop]
  | cons r ranges ih =>
    intro w d
    cases r with
    | transfer off len connected reads =>
      unfold ranges_loop
      simp only []
      split
      · simp
      · have ht := transfer_loop_frame env dwl reads
          { w with net := w.net ++ [net_op.http_connect off len] } d
        rcases hrl : transfer_loop env dwl reads
          { w with net := w.net ++ [net_op.http_connect off len] } d with ⟨b, w1, d1⟩
        rw [hrl] at ht
        cases b
        · simpa using ht
        · simp only []
          split
          · simpa using ht
          · have := ih (read_stop env w1 dwl).2 d1
            simp only [read_stop_events, read_stop_fs, read_stop_localfile,
              read_stop_downloads] at this
            simp only [] at ht
            rw [ht.1, ht.2.1, ht.2.2.1, ht.2.2.2] at this
            exact this
    | copy off len filename opened seeked reads =>
      unfold ranges_loop
      split
      · simp
      · have ht := copy_loop_frame env dwl reads w d len
        rcases hrl : copy_loop env dwl reads w d len with ⟨b, w1, d1⟩
        rw [hrl] at ht
        cases b
        · simpa using ht
        · simp only []
          split
          · simpa using ht
          · have := ih (read_stop env w1 dwl).2 d1
            simp only [read_stop_events, read_stop_fs, read_stop_localfile,
              read_stop_downloads] at this
            simp only [] at ht
            rw [ht.1, ht.2.1, ht.2.2.1, ht.2.2.2] at this
            exact this

theorem stat_and_create_local_frame {w w' : download_state} {st : Option psync_stat_t}
    {syncid fileid localfolderid : Nat} {filename checksum : String} {serversize hash : Nat}
    (h : stat_and_create_local w st syncid fileid localfolderid filename checksum serversize hash
      = some w') :
    w'.events = w.events ∧ w'.fs = w.fs ∧ w'.stop_reads = w.stop_reads
    ∧ w'.downloads = w.downloads := by
  unfold stat_and_create_local at h
  split at h
  · cases h
  · split at h
    · cases h
    · simp only [] at h
      split at h <;> cases h <;> exact ⟨rfl, rfl, rfl, rfl⟩

theorem rename_if_notex_frame (env : download_env) (site : publish_site) (w : download_state)
    (oldname newname : String) (localfolderid syncid : Nat) (filename : String) :
    (rename_if_notex env site w oldname newname localfolderid syncid filename).2.events = w.events
    ∧ (rename_if_notex env site w oldname newname localfolderid syncid filename).2.stop_reads
        = w.stop_reads
    ∧ (rename_if_notex env site w oldname newname localfolderid syncid filename).2.downloads
        = w.downloads := by
  unfold rename_if_notex
  split
  · split <;> simp [create_conflicted]
  · simp

theorem local_copy_loop_frame (env : download_env) (name : String)
    (syncid fileid localfolderid : Nat) (filename : String) (ids : List Nat) :
    ∀ w : download_state,
      (local_copy_loop env name syncid fileid localfolderid filename ids w).2.events = w.events
      ∧ (local_copy_loop env name syncid fileid localfolderid filename ids w).2.stop_reads
          = w.stop_reads
      ∧ (local_copy_loop env name syncid fileid localfolderid filename ids w).2.downloads
          = w.downloads
      ∧ ((local_copy_loop env name syncid fileid localfolderid filename ids w).1 = false →
          (local_copy_loop env name syncid fileid localfolderid filename ids w).2.localfile
            = w.localfile
          ∧ ∃ ops, (local_copy_loop env name syncid fileid localfolderid filename ids w).2.fs
              = w.fs ++ ops
            ∧ ∀ o ∈ ops, ∃ src dst ok, o = fs_op.copy_local_file src dst ok) := by
  induction ids with
  | nil => intro w; simp [local_copy_loop]
  | cons id ids ih =>
    intro w
    unfold local_copy_loop
    split
    · exact ih w
    · rename_i tmpname htmp
      simp only []
      split
      · rename_i hok
        split
        · rename_i w1 hs
          obtain ⟨h1, h2, h3, h4⟩ := stat_and_create_local_frame hs
          simp only [] at h1 h2 h3 h4 ⊢
          exact ⟨h1, h3, h4, by intro h; cases h⟩
        · obtain ⟨h1, h2, h3, h4⟩ := ih { w with fs := w.fs ++
            [fs_op.copy_local_file tmpname name (decide (env.copy_local_file id = .PSYNC_NET_OK))] }
          refine ⟨h1, h2, h3, ?_⟩
          intro hb
          obtain ⟨h5, ops, h6, h7⟩ := h4 hb
          refine ⟨h5, fs_op.copy_local_file tmpname name
            (decide (env.copy_local_file id = .PSYNC_NET_OK)) :: ops, by rw [h6]; simp, ?_⟩
          intro o ho
          rcases List.mem_cons.1 ho with rfl | ho
          · exact ⟨_, _, _, rfl⟩
          · exact h7 o ho
      · obtain ⟨h1, h2, h3, h4⟩ := ih { w with fs := w.fs ++
          [fs_op.copy_local_file tmpname name (decide (env.copy_local_file id = .PSYNC_NET_OK))] }
        refine ⟨h1, h2, h3, ?_⟩
        intro hb
        obtain ⟨h5, ops, h6, h7⟩ := h4 hb
        refine ⟨h5, fs_op.copy_local_file tmpname name
            (decide (env.copy_local_file id = .PSYNC_NET_OK)) :: ops, by rw [h6]; simp, ?_⟩
        intro o ho
        rcases List.mem_cons.1 ho with rfl | ho
        · exact ⟨_, _, _, rfl⟩
        · exact h7 o ho

/-! ## Download worker: the events of a run -/

theorem download_finish_events (env : download_env) (w : download_state) (l : download_locals)
    (tmpname : String) (syncid fileid localfolderid : Nat) (filename : String) (dwl : Nat) :
    ∃ evs, (download_finish env w l tmpname syncid fileid localfolderid filename dwl).state.events
        = w.events ++ evs
      ∧ EventsOk evs (download_finish env w l tmpname syncid fileid localfolderid filename dwl) := by
  unfold download_finish
  split
  · exact ⟨[], by simp, by simp [EventsOk, count_events]⟩
  · simp only []
    split
    · exact ⟨[_], by simp; rfl, by simp [EventsOk, count_events]⟩
    · split
      · exact ⟨[], by simp, by simp [EventsOk, count_events]⟩
      · split
        · exact ⟨[], by simp, by simp [EventsOk, count_events]⟩
        · have hr := rename_if_notex_frame env .downloaded
            { (read_stop env w dwl).2 with
              localscan := (read_stop env w dwl).2.localscan ++ [.stop_localscan] }
            tmpname l.name localfolderid syncid filename
          split
          · rename_i w1 hw1
            rw [hw1] at hr
            have he : w1.events = w.events := by simpa using hr.1
            exact ⟨[], by simp [he], by simp [EventsOk, count_events]⟩
          · rename_i w1 hw1
            rw [hw1] at hr
            have he : w1.events = w.events := by simpa using hr.1
            split
            · exact ⟨[], by simp [he], by simp [EventsOk, count_events]⟩
            · rename_i w2 hw2
              have hs := stat_and_create_local_frame hw2
              refine ⟨[{ event := .PEVENT_FILE_DOWNLOAD_FINISHED, syncid := syncid,
                         localpath := l.name, remoteid := fileid }], ?_, ?_⟩
              · cases l.tmpold <;> simp [unlock_file, hs.1, he]
              · simp [EventsOk, count_events]

theorem rescue_tmpold_frame (cfg : psync_settings) (env : download_env) (w : download_state)
    (l : download_locals) (localpath tmpname filename : String) :
    (rescue_tmpold cfg env w l localpath tmpname filename).1.events = w.events
    ∧ (rescue_tmpold cfg env w l localpath tmpname filename).1.localfile = w.localfile
    ∧ (rescue_tmpold cfg env w l localpath tmpname filename).1.stop_reads = w.stop_reads
    ∧ (rescue_tmpold cfg env w l localpath tmpname filename).1.downloads = w.downloads
    ∧ (rescue_tmpold cfg env w l localpath tmpname filename).2.name = l.name := by
  unfold rescue_tmpold
  split
  · split
    · split
      · refine ⟨rfl, rfl, rfl, rfl, ?_⟩
        simp only []
        split <;> rfl
      · exact ⟨rfl, rfl, rfl, rfl, rfl⟩
    · exact ⟨rfl, rfl, rfl, rfl, rfl⟩
  · exact ⟨rfl, rfl, rfl, rfl, rfl⟩

theorem count_events_append (t : psync_eventtype_t) (a b : List psync_event) :
    count_events t (a ++ b) = count_events t a + count_events t b := by
  simp [count_events]

/-- Events sent before a part of the run, none of them a report of the end of
the download, do not change what the part reports. -/
theorem events_stage_of {w w1 : download_state} {r : download_result} (pre : List psync_event)
    (hpre : ∀ e ∈ pre, e.event = .PEVENT_FILE_DOWNLOAD_STARTED)
    (hw : w1.events = w.events ++ pre)
    (h : ∃ evs, r.state.events = w1.events ++ evs ∧ EventsOk evs r) :
    ∃ evs, r.state.events = w.events ++ evs ∧ EventsOk evs r := by
  obtain ⟨evs, h1, h2, h3, h4⟩ := h
  refine ⟨pre ++ evs, by rw [h1, hw, List.append_assoc], ?_, ?_, h4⟩
  · rw [count_events_append, ← h2]
    have : count_events .PEVENT_FILE_DOWNLOAD_FAILED pre = 0 := by
      unfold count_events
      rw [List.length_eq_zero, List.filter_eq_nil_iff]
      intro e he
      simp [hpre e he]
    omega
  · rw [count_events_append, ← h3]
    have : count_events .PEVENT_FILE_DOWNLOAD_FINISHED pre = 0 := by
      unfold count_events
      rw [List.length_eq_zero, List.filter_eq_nil_iff]
      intro e he
      simp [hpre e he]
    omega

theorem download_execute_events (cfg : psync_settings) (env : download_env)
    (w : download_state) (l : download_locals) (localpath tmpname : String) (localsize : Nat)
    (syncid fileid localfolderid : Nat) (filename : String) (dwl : Nat) :
    ∃ evs, (download_execute cfg env w l localpath tmpname localsize syncid fileid localfolderid
        filename dwl).state.events = w.events ++ evs
      ∧ EventsOk evs (download_execute cfg env w l localpath tmpname localsize syncid fileid
        localfolderid filename dwl) := by
  unfold download_execute
  have hres := rescue_tmpold_frame cfg env w l localpath tmpname filename
  rcases hr : rescue_tmpold cfg env w l localpath tmpname filename with ⟨w1, l1⟩
  rw [hr] at hres
  simp only [] at hres ⊢
  split
  · exact ⟨[], by simp [hres.1], by simp [EventsOk, count_events]⟩
  · split
    · exact ⟨[_], by simp [hres.1]; rfl, by simp [EventsOk, count_events]⟩
    · have hf := ranges_loop_frame env dwl env.ranges
        { w1 with fs := w1.fs ++ [fs_op.file_open_trunc tmpname env.file_open],
                  net := w1.net ++ [net_op.net_download_ranges fileid
                    (if env.serversize ≥ cfg.PSYNC_MIN_SIZE_FOR_CHECKSUMS then
                      l1.tmpold.toList
                        ++ (if localsize ≥ cfg.PSYNC_MIN_SIZE_FOR_CHECKSUMS then [l1.name] else [])
                    else [])] } l1.downloadedsize
      split
      · rename_i w2 d2 h2
        rw [h2] at hf
        have he : w2.events = w.events := by rw [← hres.1]; simpa using hf.1
        exact ⟨[_], by simp [he]; rfl, by simp [EventsOk, count_events]⟩
      · rename_i w2 d2 h2
        rw [h2] at hf
        have he : w2.events = w.events := by rw [← hres.1]; simpa using hf.1
        exact events_stage_of [] (by simp) (by simp [he]) (download_finish_events env w2 _ _ _ _ _ _ _)

theorem download_request_events (cfg : psync_settings) (env : download_env)
    (w : download_state) (l : download_locals) (localpath tmpname : String) (localsize : Nat)
    (syncid fileid localfolderid : Nat) (filename : String) (dwl : Nat) :
    ∃ evs, (download_request cfg env w l localpath tmpname localsize syncid fileid localfolderid
        filename dwl).state.events = w.events ++ evs
      ∧ EventsOk evs (download_request cfg env w l localpath tmpname localsize syncid fileid
        localfolderid filename dwl) := by
  unfold download_request
  split
  · exact ⟨[], by simp, by simp [EventsOk, count_events]⟩
  · simp only []
    split
    · exact ⟨[], by simp, by simp [EventsOk, count_events]⟩
    · split
      · split
        · exact ⟨[], by simp, by simp [EventsOk, count_events]⟩
        · exact ⟨[], by simp, by simp [EventsOk, count_events]⟩
      · exact events_stage_of [] (by simp) (by simp)
          (download_execute_events cfg env _ _ _ _ _ _ _ _ _ _)

theorem rename_if_notex_eq {env : download_env} {site : publish_site} {w w1 : download_state}
    {oldname newname : String} {localfolderid syncid : Nat} {filename : String} {b : Bool}
    (h : rename_if_notex env site w oldname newname localfolderid syncid filename = (b, w1)) :
    w1.events = w.events ∧ w1.stop_reads = w.stop_reads ∧ w1.downloads = w.downloads := by
  have := rename_if_notex_frame env site w oldname newname localfolderid syncid filename
  rw [h] at this
  exact this

theorem local_copy_loop_eq {env : download_env} {name : String}
    {syncid fileid localfolderid : Nat} {filename : String} {ids : List Nat}
    {w w1 : download_state} {b : Bool}
    (h : local_copy_loop env name syncid fileid localfolderid filename ids w = (b, w1)) :
    w1.events = w.events ∧ w1.stop_reads = w.stop_reads ∧ w1.downloads = w.downloads
    ∧ (b = false → w1.localfile = w.localfile
        ∧ ∃ ops, w1.fs = w.fs ++ ops
          ∧ ∀ o ∈ ops, ∃ src dst ok, o = fs_op.copy_local_file src dst ok) := by
  have := local_copy_loop_frame env name syncid fileid localfolderid filename ids w
  rw [h] at this
  exact this

theorem started_only (syncid : Nat) (name : String) (fileid : Nat) :
    ∀ e ∈ [psync_event.mk .PEVENT_FILE_DOWNLOAD_STARTED syncid name fileid],
      e.event = .PEVENT_FILE_DOWNLOAD_STARTED := by
  intro e he
  rw [List.mem_singleton] at he
  rw [he]

theorem download_start_events (cfg : psync_settings) (env : download_env)
    (w : download_state) (l : download_locals) (localpath : String) (localsize : Nat)
    (localhashhex : String) (syncid fileid localfolderid : Nat) (filename : String)
    (dwl : Nat) :
    ∃ evs, (download_start cfg env w l localpath localsize localhashhex syncid fileid
        localfolderid filename dwl).state.events = w.events ++ evs
      ∧ EventsOk evs (download_start cfg env w l localpath localsize localhashhex syncid fileid
        localfolderid filename dwl) := by
  unfold download_start
  simp only []
  have hpre := started_only syncid l.name fileid
  split
  · split
    · split
      · rename_i w1 hw1
        have hr := rename_if_notex_eq hw1
        refine events_stage_of _ hpre ?_ ⟨[], by simp; rfl, by simp [EventsOk, count_events]⟩
        rw [hr.1]; rfl
      · rename_i w1 hw1
        have hr := rename_if_notex_eq hw1
        split
        · refine events_stage_of _ hpre ?_ ⟨[], by simp; rfl, by simp [EventsOk, count_events]⟩
          rw [hr.1]; rfl
        · rename_i w2 hw2
          have hs := stat_and_create_local_frame hw2
          refine events_stage_of _ hpre ?_ ⟨[], by simp; rfl, by simp [EventsOk, count_events]⟩
          rw [hs.1, hr.1]; rfl
    · refine events_stage_of _ hpre ?_ ⟨[], by simp; rfl, by simp [EventsOk, count_events]⟩
      rfl
    · refine events_stage_of _ hpre ?_ (download_request_events cfg env _ _ _ _ _ _ _ _ _ _)
      rfl
  · refine events_stage_of _ hpre ?_ (download_request_events cfg env _ _ _ _ _ _ _ _ _ _)
    rfl

theorem download_local_events (cfg : psync_settings) (env : download_env)
    (w : download_state) (l : download_locals) (localpath : String) (uninit : String)
    (syncid fileid localfolderid : Nat) (filename : String) (dwl : Nat) :
    ∃ evs, (download_local cfg env w l localpath uninit syncid fileid localfolderid filename
        dwl).state.events = w.events ++ evs
      ∧ EventsOk evs (download_local cfg env w l localpath uninit syncid fileid localfolderid
        filename dwl) := by
  unfold download_local
  simp only []
  split
  · exact ⟨[], by simp [unlock_file], by simp [EventsOk, count_events]⟩
  · split
    · split
      · refine events_stage_of [] (by simp) ?_
          ⟨[], by simp; rfl, by simp [EventsOk, count_events]⟩
        simp only [List.append_nil]
        split <;> rfl
      · refine events_stage_of [] (by simp) ?_
          ⟨[], by simp; rfl, by simp [EventsOk, count_events]⟩
        simp only [List.append_nil]
        split <;> rfl
    · split
      · split
        · refine events_stage_of [] (by simp) ?_
            ⟨[], by simp; rfl, by simp [EventsOk, count_events]⟩
          simp only [List.append_nil]
          split <;> rfl
        · rename_i w1 hw1
          have hs := stat_and_create_local_frame hw1
          refine events_stage_of [] (by simp) ?_
            ⟨[], by simp; rfl, by simp [EventsOk, count_events]⟩
          rw [hs.1, List.append_nil]
          split <;> rfl
      · split
        · rename_i w1 hw1
          have hl := (local_copy_loop_eq hw1).1
          refine events_stage_of [] (by simp) ?_
            ⟨[], by simp; rfl, by simp [EventsOk, count_events]⟩
          rw [List.append_nil, hl]
          split <;> rfl
        · rename_i w1 hw1
          have hl := (local_copy_loop_eq hw1).1
          have he : w1.events = w.events := by
            rw [hl]; split <;> rfl
          split
          · exact ⟨[], by simp [he], by simp [EventsOk, count_events]⟩
          · refine events_stage_of [] (by simp) ?_
              (download_start_events cfg env _ _ _ _ _ _ _ _ _ _)
            simp [he]

theorem task_download_file_events (cfg : psync_settings) (env : download_env)
    (w : download_state) (uninit : String) (syncid fileid localfolderid : Nat)
    (filename : String) (dwl : Nat) (r : download_result)
    (h : task_download_file cfg env w uninit syncid fileid localfolderid filename dwl = some r) :
    ∃ evs, r.state.events = w.events ++ evs ∧ EventsOk evs r := by
  unfold task_download_file at h
  split at h
  · cases h
    exact ⟨[], by simp, by simp [EventsOk, count_events]⟩
  · split at h
    · cases h
      exact ⟨[], by simp, by simp [EventsOk, count_events]⟩
    · simp only [] at h
      split at h
      · cases h
        exact ⟨[], by simp, by simp [EventsOk, count_events]⟩
      · cases h
        exact ⟨[], by simp, by simp [EventsOk, count_events]⟩
      · split at h
        · cases h
        · rename_i w1 hw1
          cases h
          refine events_stage_of [] (by simp) ?_
            (download_local_events cfg env _ _ _ _ _ _ _ _ _)
          unfold admission at hw1
          split at hw1
          · cases hw1
          · cases hw1
            simp

/-! ## Download worker: the reads of the stop flag -/

theorem stop_value_congr (env : download_env) {w w1 : download_state} (dwl : Nat)
    (h : w1.downloads = w.downloads) : stop_value env w1 dwl = stop_value env w dwl := by
  funext n
  simp [stop_value, h]

theorem stop_value_mono (env : download_env) (w : download_state) (dwl : Nat)
    (hmono : ∀ m n, m ≤ n → env.stop_set m = true → env.stop_set n = true)
    {m n : Nat} (hmn : m ≤ n) (h : stop_value env w dwl m = true) :
    stop_value env w dwl n = true := by
  unfold stop_value at h ⊢
  rw [Bool.or_eq_true] at h ⊢
  rcases h with h | h
  · exact Or.inl h
  · exact Or.inr (hmono m n hmn h)

theorem stop_value_of_downloads {env : download_env} {w w1 : download_state} {dwl n : Nat}
    (h : w1.downloads = w.downloads) (h3 : stop_value env w dwl n = true) :
    stop_value env w1 dwl n = true := by
  rw [stop_value_congr env dwl h]
  exact h3

theorem cancelled_of_stage {w w1 : download_state} {r : download_result}
    {tmpname name : String} (pre : List fs_op) (hfs : w1.fs = w.fs ++ pre)
    (hpre : ∀ oldname ok, fs_op.file_rename_overwrite oldname name ok ∉ pre)
    (hlf : w1.localfile = w.localfile) (h : Cancelled w1 tmpname name r) :
    Cancelled w tmpname name r := by
  obtain ⟨h1, h2, ⟨ops, h3, h4, h5⟩, h6⟩ := h
  refine ⟨h1, h2, ⟨pre ++ ops, by rw [h3, hfs, List.append_assoc], ?_, ?_⟩, by rw [h6, hlf]⟩
  · exact List.mem_append_right _ h4
  · intro oldname ok hmem
    rcases List.mem_append.1 hmem with hm | hm
    · exact hpre oldname ok hm
    · exact h5 oldname ok hm

theorem observed_of_stage {env : download_env} {w w1 : download_state} {dwl lo lo1 : Nat}
    {r : download_result} (hd : w1.downloads = w.downloads) (hlo : lo1 ≤ lo)
    (h : Observed env w dwl lo r) : Observed env w1 dwl lo1 r := by
  obtain ⟨n, h1, h2, h3⟩ := h
  exact ⟨n, le_trans hlo h1, h2, by rw [stop_value_congr env dwl hd]; exact h3⟩

theorem not_observed {env : download_env} {w : download_state} {dwl lo : Nat}
    {r : download_result} (h : r.state.stop_reads ≤ lo) : ¬ Observed env w dwl lo r := by
  rintro ⟨n, h1, h2, _⟩
  omega

/-- The read loop of a transfer ends without error as soon as a read of the
flag gives `true`. -/
theorem transfer_loop_stop (env : download_env) (dwl : Nat) (reads : List chunk_io) :
    ∀ (w : download_state) (d : Nat),
      w.stop_reads ≤ (transfer_loop env dwl reads w d).2.1.stop_reads
      ∧ ∀ n, w.stop_reads ≤ n → n < (transfer_loop env dwl reads w d).2.1.stop_reads →
          stop_value env w dwl n = true → (transfer_loop env dwl reads w d).1 = true := by
  induction reads with
  | nil => intro w d; simp [transfer_loop]
  | cons c reads ih =>
    intro w d
    unfold transfer_loop
    split
    · simp
    · rename_i hread
      rw [read_stop_value] at hread
      have hone : ∀ n, w.stop_reads ≤ n → n < w.stop_reads + 1 →
          stop_value env w dwl n = true → False := by
        intro n h1 h2 h3
        have : n = w.stop_reads := by omega
        rw [this] at h3
        exact hread h3
      simp only []
      split
      · simp
      · split
        · refine ⟨by simp, ?_⟩
          intro n h1 h2 h3
          exact (hone n h1 (by simpa using h2) h3).elim
        · split
          · refine ⟨by simp, ?_⟩
            intro n h1 h2 h3
            exact (hone n h1 (by simpa using h2) h3).elim
          · obtain ⟨i1, i2⟩ := ih { (read_stop env w dwl).2 with
              bytesdownloaded := U64 (((read_stop env w dwl).2.bytesdownloaded : Int) + c.rd) }
              (U64 ((d : Int) + c.rd))
            refine ⟨le_trans (by simp) i1, ?_⟩
            intro n h1 h2 h3
            by_cases hn : n = w.stop_reads
            · rw [hn] at h3
              exact (hread h3).elim
            · exact i2 n (by simp; omega) h2 h3

theorem copy_loop_stop (env : download_env) (dwl : Nat) (reads : List chunk_io) :
    ∀ (w : download_state) (d result : Nat),
      w.stop_reads ≤ (copy_loop env dwl reads w d result).2.1.stop_reads
      ∧ ∀ n, w.stop_reads ≤ n → n < (copy_loop env dwl reads w d result).2.1.stop_reads →
          stop_value env w dwl n = true → (copy_loop env dwl reads w d result).1 = true := by
  induction reads with
  | nil =>
    intro w d result
    unfold copy_loop
    split
    · simp
    · rename_i hread
      rw [read_stop_value] at hread
      split
      · simp
      · refine ⟨by simp, ?_⟩
        intro n h1 h2 h3
        have : n = w.stop_reads := by simp at h2; omega
        rw [this] at h3
        exact (hread h3).elim
  | cons c reads ih =>
    intro w d result
    unfold copy_loop
    split
    · simp
    · rename_i hread
      rw [read_stop_value] at hread
      simp only []
      split
      · simp
      · split
        · refine ⟨by simp, ?_⟩
          intro n h1 h2 h3
          have : n = w.stop_reads := by simp at h2; omega
          rw [this] at h3
          exact (hread h3).elim
        · obtain ⟨i1, i2⟩ := ih { (read_stop env w dwl).2 with
            bytesdownloaded := U64 (((read_stop env w dwl).2.bytesdownloaded : Int) + c.rd) }
            (U64 ((d : Int) + c.rd)) (U64 ((result : Int) - c.rd))
          refine ⟨le_trans (by simp) i1, ?_⟩
          intro n h1 h2 h3
          by_cases hn : n = w.stop_reads
          · rw [hn] at h3
            exact (hread h3).elim
          · exact i2 n (by simp; omega) h2 h3

theorem transfer_loop_eq {env : download_env} {dwl : Nat} {reads : List chunk_io}
    {w w1 : download_state} {d d1 : Nat} {b : Bool}
    (h : transfer_loop env dwl reads w d = (b, w1, d1)) :
    w1.downloads = w.downloads ∧ w.stop_reads ≤ w1.stop_reads
    ∧ ∀ n, w.stop_reads ≤ n → n < w1.stop_reads → stop_value env w dwl n = true → b = true := by
  have h1 := transfer_loop_frame env dwl reads w d
  have h2 := transfer_loop_stop env dwl reads w d
  rw [h] at h1 h2
  exact ⟨h1.2.2.2, h2.1, h2.2⟩

theorem copy_loop_eq {env : download_env} {dwl : Nat} {reads : List chunk_io}
    {w w1 : download_state} {d d1 result : Nat} {b : Bool}
    (h : copy_loop env dwl reads w d result = (b, w1, d1)) :
    w1.downloads = w.downloads ∧ w.stop_reads ≤ w1.stop_reads
    ∧ ∀ n, w.stop_reads ≤ n → n < w1.stop_reads → stop_value env w dwl n = true → b = true := by
  have h1 := copy_loop_frame env dwl reads w d result
  have h2 := copy_loop_stop env dwl reads w d result
  rw [h] at h1 h2
  exact ⟨h1.2.2.2, h2.1, h2.2⟩

/-- What follows a range of the plan (lines 734-736 and the next ranges), given
what the read loop of the range did. -/
theorem ranges_loop_step (env : download_env) (dwl : Nat)
    (hmono : ∀ m n, m ≤ n → env.stop_set m = true → env.stop_set n = true)
    (ranges : List psync_range_list_t) (w w1 : download_state) (d1 : Nat)
    (ih : ∀ (w : download_state) (d : Nat),
      w.stop_reads ≤ (ranges_loop env dwl ranges w d).2.1.stop_reads
      ∧ ∀ n, w.stop_reads ≤ n → n < (ranges_loop env dwl ranges w d).2.1.stop_reads →
          stop_value env w dwl n = true → (ranges_loop env dwl ranges w d).1 = true)
    (hd : w1.downloads = w.downloads) (hle : w.stop_reads ≤ w1.stop_reads) :
    w.stop_reads ≤
      (if (read_stop env w1 dwl).1 then (true, (read_stop env w1 dwl).2, d1)
        else ranges_loop env dwl ranges (read_stop env w1 dwl).2 d1).2.1.stop_reads
    ∧ ∀ n, w.stop_reads ≤ n →
        n < (if (read_stop env w1 dwl).1 then (true, (read_stop env w1 dwl).2, d1)
          else ranges_loop env dwl ranges (read_stop env w1 dwl).2 d1).2.1.stop_reads →
        stop_value env w dwl n = true →
        (if (read_stop env w1 dwl).1 then (true, (read_stop env w1 dwl).2, d1)
          else ranges_loop env dwl ranges (read_stop env w1 dwl).2 d1).1 = true := by
  split
  · exact ⟨by simp; omega, by intro _ _ _ _; rfl⟩
  · rename_i hread
    rw [read_stop_value] at hread
    obtain ⟨i1, i2⟩ := ih (read_stop env w1 dwl).2 d1
    refine ⟨le_trans (by simp; omega) i1, ?_⟩
    intro n h1 h2 h3
    by_cases hn : n ≤ w1.stop_reads
    · have := stop_value_mono env w dwl hmono hn h3
      rw [← stop_value_congr env dwl hd] at this
      exact (hread this).elim
    · refine i2 n (by simp; omega) h2 ?_
      rw [stop_value_congr env dwl (show (read_stop env w1 dwl).2.downloads = w.downloads from hd)]
      exact h3

/-- The execution of the plan ends without error as soon as a read of the flag
gives `true`, the flag staying set once it is set. -/
theorem ranges_loop_stop (env : download_env) (dwl : Nat)
    (hmono : ∀ m n, m ≤ n → env.stop_set m = true → env.stop_set n = true)
    (ranges : List psync_range_list_t) :
    ∀ (w : download_state) (d : Nat),
      w.stop_reads ≤ (ranges_loop env dwl ranges w d).2.1.stop_reads
      ∧ ∀ n, w.stop_reads ≤ n → n < (ranges_loop env dwl ranges w d).2.1.stop_reads →
          stop_value env w dwl n = true → (ranges_loop env dwl ranges w d).1 = true := by
  induction ranges with
  | nil => intro w d; simp [ranges_loop]
  | cons r ranges ih =>
    intro w d
    cases r with
    | transfer off len connected reads =>
      unfold ranges_loop
      simp only []
      split
      · refine ⟨le_refl _, ?_⟩
        intro n h1 h2 _
        simp only [] at h2
        omega
      · rcases hrl : transfer_loop env dwl reads
          { w with net := w.net ++ [net_op.http_connect off len] } d with ⟨b, w1, d1⟩
        obtain ⟨t1, t2, t3⟩ := transfer_loop_eq hrl
        cases b
        · refine ⟨t2, ?_⟩
          intro n h1 h2 h3
          exact t3 n h1 h2 h3
        · exact ranges_loop_step env dwl hmono ranges w w1 d1 ih t1 t2
    | copy off len filename opened seeked reads =>
      unfold ranges_loop
      split
      · refine ⟨le_refl _, ?_⟩
        intro n h1 h2 _
        simp only [] at h2
        omega
      · rcases hrl : copy_loop env dwl reads w d len with ⟨b, w1, d1⟩
        obtain ⟨t1, t2, t3⟩ := copy_loop_eq hrl
        cases b
        · refine ⟨t2, ?_⟩
          intro n h1 h2 h3
          exact t3 n h1 h2 h3
        · exact ranges_loop_step env dwl hmono ranges w w1 d1 ih t1 t2

theorem ranges_loop_eq {env : download_env} {dwl : Nat}
    (hmono : ∀ m n, m ≤ n → env.stop_set m = true → env.stop_set n = true)
    {ranges : List psync_range_list_t} {w w1 : download_state} {d d1 : Nat} {b : Bool}
    (h : ranges_loop env dwl ranges w d = (b, w1, d1)) :
    w1.events = w.events ∧ w1.fs = w.fs ∧ w1.localfile = w.localfile
    ∧ w1.downloads = w.downloads ∧ w.stop_reads ≤ w1.stop_reads
    ∧ ∀ n, w.stop_reads ≤ n → n < w1.stop_reads → stop_value env w dwl n = true → b = true := by
  have h1 := ranges_loop_frame env dwl ranges w d
  have h2 := ranges_loop_stop env dwl hmono ranges w d
  rw [h] at h1 h2
  exact ⟨h1.1, h1.2.1, h1.2.2.1, h1.2.2.2, h2.1, h2.2⟩

theorem stat_and_create_local_eq {w w' : download_state} {st : Option psync_stat_t}
    {syncid fileid localfolderid : Nat} {filename checksum : String} {serversize hash : Nat}
    (h : stat_and_create_local w st syncid fileid localfolderid filename checksum serversize hash
      = some w') : w'.stop_reads = w.stop_reads :=
  (stat_and_create_local_frame h).2.2.1

theorem download_finish_stop_reads (env : download_env) (w : download_state)
    (l : download_locals) (tmpname : String) (syncid fileid localfolderid : Nat)
    (filename : String) (dwl : Nat) :
    (download_finish env w l tmpname syncid fileid localfolderid filename dwl).state.stop_reads
      = w.stop_reads + 1 := by
  unfold download_finish
  split
  · simp
  · simp only []
    split
    · simp
    · split
      · simp
      · split
        · simp
        · split
          · rename_i w1 hw1
            have hr := rename_if_notex_eq hw1
            simp [hr.2.1]
          · rename_i w1 hw1
            have hr := rename_if_notex_eq hw1
            split
            · simp [hr.2.1]
            · rename_i w2 hw2
              have hs := stat_and_create_local_eq hw2
              cases l.tmpold <;> simp [unlock_file, hs, hr.2.1]

/-- The branch of lines 737-742: with the flag set the temp file is deleted
and the run leaves through `err0`. -/
theorem download_finish_cancel (env : download_env) (w : download_state)
    (l : download_locals) (tmpname : String) (syncid fileid localfolderid : Nat)
    (filename : String) (dwl : Nat) (h : stop_value env w dwl w.stop_reads = true) :
    Cancelled w tmpname l.name
      (download_finish env w l tmpname syncid fileid localfolderid filename dwl) := by
  unfold download_finish
  rw [← read_stop_value] at h
  rw [if_pos h]
  refine ⟨rfl, rfl, ⟨fs_op.file_delete tmpname :: l.tmpold.toList.map fs_op.file_delete,
    by simp, List.mem_cons_self _ _, ?_⟩, by simp⟩
  intro oldname ok hmem
  rcases List.mem_cons.1 hmem with hm | hm
  · cases hm
  · rw [List.mem_map] at hm
    obtain ⟨_, _, hm⟩ := hm
    cases hm

theorem rescue_tmpold_fs (cfg : psync_settings) (env : download_env) (w : download_state)
    (l : download_locals) (localpath tmpname filename : String) :
    ∃ ops, (rescue_tmpold cfg env w l localpath tmpname filename).1.fs = w.fs ++ ops
      ∧ ∀ o ∈ ops, o = fs_op.file_rename_overwrite tmpname
          (localpath ++ cfg.PSYNC_DIRECTORY_SEPARATOR ++ filename ++ "-old"
            ++ cfg.PSYNC_APPEND_PARTIAL_FILES) env.rename_tmpold := by
  unfold rescue_tmpold
  split
  · split
    · split
      · exact ⟨[_], rfl, by intro o ho; exact List.mem_singleton.1 ho⟩
      · exact ⟨[], by simp, by intro o ho; cases ho⟩
    · exact ⟨[], by simp, by intro o ho; cases ho⟩
  · exact ⟨[], by simp, by intro o ho; cases ho⟩

theorem tmpold_ne_name (a b : String) : a ++ "-old" ++ b ≠ a := by
  intro h
  have := congrArg String.length h
  simp only [String.length_append] at this
  have h4 : "-old".length = 4 := by decide
  omega

theorem download_execute_cancel (cfg : psync_settings) (env : download_env)
    (hmono : ∀ m n, m ≤ n → env.stop_set m = true → env.stop_set n = true)
    (w : download_state) (l : download_locals) (localpath tmpname : String) (localsize : Nat)
    (syncid fileid localfolderid : Nat) (filename : String) (dwl : Nat)
    (hname : l.name = localpath ++ cfg.PSYNC_DIRECTORY_SEPARATOR ++ filename)
    (ho : Observed env w dwl w.stop_reads (download_execute cfg env w l localpath tmpname
      localsize syncid fileid localfolderid filename dwl)) :
    Cancelled w tmpname l.name (download_execute cfg env w l localpath tmpname localsize syncid
      fileid localfolderid filename dwl) := by
  unfold download_execute at ho ⊢
  have hres := rescue_tmpold_frame cfg env w l localpath tmpname filename
  obtain ⟨ops, hfs, hops⟩ := rescue_tmpold_fs cfg env w l localpath tmpname filename
  rcases hr : rescue_tmpold cfg env w l localpath tmpname filename with ⟨w1, l1⟩
  rw [hr] at hres hfs ho
  simp only [] at hres hfs ho ⊢
  obtain ⟨_, hlf, hsr, hd, hn⟩ := hres
  split at ho
  · exact (not_observed (by simp [hsr]) ho).elim
  · split at ho
    · exact (not_observed (by simp [hsr]) ho).elim
    · rename_i hopen htemp
      rw [if_neg hopen, if_neg htemp]
      split at ho
      · rename_i w2 d2 h2
        obtain ⟨_, _, _, r4, r5, r6⟩ := ranges_loop_eq hmono h2
        obtain ⟨n, n1, n2, n3⟩ := ho
        simp only [exit_err1_stop_reads] at n2
        have := r6 n (by simp [hsr, n1]) n2 (stop_value_of_downloads hd n3)
        cases this
      · rename_i w2 d2 h2
        obtain ⟨r1, r2, r3, r4, r5, r6⟩ := ranges_loop_eq hmono h2
        obtain ⟨n, n1, n2, n3⟩ := ho
        rw [download_finish_stop_reads] at n2
        have hstop : stop_value env w2 dwl w2.stop_reads = true := by
          rw [stop_value_congr env dwl (show w2.downloads = w.downloads by rw [r4]; exact hd)]
          exact stop_value_mono env w dwl hmono (by omega) n3
        have hc := download_finish_cancel env w2 { l1 with downloadedsize := d2 } tmpname syncid
          fileid localfolderid filename dwl hstop
        rw [← hn]
        refine cancelled_of_stage (ops ++ [fs_op.file_open_trunc tmpname env.file_open]) ?_ ?_ ?_
          hc
        · rw [r2]
          simp [hfs]
        · intro oldname ok hmem
          rcases List.mem_append.1 hmem with hm | hm
          · have := hops _ hm
            injection this with _ e2 _
            rw [hn, hname] at e2
            exact tmpold_ne_name _ _ e2.symm
          · rw [List.mem_singleton] at hm
            cases hm
        · rw [r3]
          exact hlf

theorem download_request_cancel (cfg : psync_settings) (env : download_env)
    (hmono : ∀ m n, m ≤ n → env.stop_set m = true → env.stop_set n = true)
    (w : download_state) (l : download_locals) (localpath tmpname : String) (localsize : Nat)
    (syncid fileid localfolderid : Nat) (filename : String) (dwl : Nat)
    (hname : l.name = localpath ++ cfg.PSYNC_DIRECTORY_SEPARATOR ++ filename)
    (ho : Observed env w dwl w.stop_reads (download_request cfg env w l localpath tmpname
      localsize syncid fileid localfolderid filename dwl)) :
    Cancelled w tmpname l.name (download_request cfg env w l localpath tmpname localsize syncid
      fileid localfolderid filename dwl) := by
  unfold download_request at ho ⊢
  split at ho
  · exact (not_observed (by simp) ho).elim
  · simp only [] at ho
    split at ho
    · exact (not_observed (by simp) ho).elim
    · split at ho
      · split at ho
        · exact (not_observed (by simp) ho).elim
        · exact (not_observed (by simp) ho).elim
      · rename_i hapi _ result hres hz
        rw [if_neg hapi]
        simp only [hres, if_neg hz]
        exact cancelled_of_stage [] (by simp) (by intro _ _ hm; cases hm) rfl
          (download_execute_cancel cfg env hmono _ l localpath tmpname localsize syncid fileid
            localfolderid filename dwl hname (observed_of_stage rfl (le_refl _) ho))

theorem download_start_cancel (cfg : psync_settings) (env : download_env)
    (hmono : ∀ m n, m ≤ n → env.stop_set m = true → env.stop_set n = true)
    (w : download_state) (l : download_locals) (localpath : String) (localsize : Nat)
    (localhashhex : String) (syncid fileid localfolderid : Nat) (filename : String)
    (dwl : Nat) (hname : l.name = localpath ++ cfg.PSYNC_DIRECTORY_SEPARATOR ++ filename)
    (ho : Observed env w dwl w.stop_reads (download_start cfg env w l localpath localsize
      localhashhex syncid fileid localfolderid filename dwl)) :
    Cancelled w (localpath ++ cfg.PSYNC_DIRECTORY_SEPARATOR ++ filename
        ++ cfg.PSYNC_APPEND_PARTIAL_FILES) l.name
      (download_start cfg env w l localpath localsize localhashhex syncid fileid localfolderid
        filename dwl) := by
  unfold download_start at ho ⊢
  simp only [] at ho ⊢
  split at ho
  · rename_i hp2p
    rw [if_pos hp2p]
    split at ho
    · split at ho
      · rename_i w1 hw1
        have hr := rename_if_notex_eq hw1
        exact (not_observed (by simp [hr.2.1, promotion]) ho).elim
      · rename_i w1 hw1
        have hr := rename_if_notex_eq hw1
        split at ho
        · exact (not_observed (by simp [hr.2.1, promotion]) ho).elim
        · rename_i w2 hw2
          have hs := stat_and_create_local_eq hw2
          exact (not_observed (by simp [hs, hr.2.1, promotion]) ho).elim
    · exact (not_observed (by simp [promotion]) ho).elim
    · exact cancelled_of_stage [] (by simp [promotion]) (by intro _ _ hm; cases hm) rfl
        (download_request_cancel cfg env hmono _
          { l with addedsize := env.serversize, current_counter := some .started_downloads }
          localpath _ localsize syncid fileid localfolderid filename dwl hname
          (observed_of_stage rfl (le_refl _) ho))
  · rename_i hp2p
    rw [if_neg hp2p]
    exact cancelled_of_stage [] (by simp [promotion]) (by intro _ _ hm; cases hm) rfl
      (download_request_cancel cfg env hmono _
        { l with addedsize := env.serversize, current_counter := some .started_downloads }
        localpath _ localsize syncid fileid localfolderid filename dwl hname
        (observed_of_stage rfl (le_refl _) ho))

theorem download_local_cancel (cfg : psync_settings) (env : download_env)
    (hmono : ∀ m n, m ≤ n → env.stop_set m = true → env.stop_set n = true)
    (w : download_state) (l : download_locals) (localpath : String) (uninit : String)
    (syncid fileid localfolderid : Nat) (filename : String) (dwl : Nat)
    (hname : l.name = localpath ++ cfg.PSYNC_DIRECTORY_SEPARATOR ++ filename)
    (ho : Observed env w dwl (w.stop_reads + 1) (download_local cfg env w l localpath uninit
      syncid fileid localfolderid filename dwl)) :
    Cancelled w (localpath ++ cfg.PSYNC_DIRECTORY_SEPARATOR ++ filename
        ++ cfg.PSYNC_APPEND_PARTIAL_FILES) l.name
      (download_local cfg env w l localpath uninit syncid fileid localfolderid filename dwl) := by
  unfold download_local at ho ⊢
  simp only [] at ho ⊢
  have hW : ∀ (c : Prop) [Decidable c],
      (if c then ({ w with local_full := false } : download_state) else w).stop_reads
        = w.stop_reads
      ∧ (if c then ({ w with local_full := false } : download_state) else w).downloads
        = w.downloads
      ∧ (if c then ({ w with local_full := false } : download_state) else w).fs = w.fs
      ∧ (if c then ({ w with local_full := false } : download_state) else w).localfile
        = w.localfile := by
    intro c _
    split <;> exact ⟨rfl, rfl, rfl, rfl⟩
  split at ho
  · exact (not_observed (by simp [unlock_file]) ho).elim
  · rename_i hfree
    rw [if_neg hfree]
    split at ho
    · split at ho
      · exact (not_observed (by simp [(hW _).1]) ho).elim
      · exact (not_observed (by simp [(hW _).1]) ho).elim
    · split at ho
      · split at ho
        · exact (not_observed (by simp [(hW _).1]) ho).elim
        · rename_i w1 hw1
          have hs := stat_and_create_local_eq hw1
          exact (not_observed (by simp [hs, (hW _).1]) ho).elim
      · rename_i hdisk
        rw [if_neg hdisk]
        split at ho
        · rename_i w1 hw1
          have hl := local_copy_loop_eq hw1
          exact (not_observed (by simp [hl.2.1, (hW _).1]) ho).elim
        · rename_i w1 hw1
          obtain ⟨_, l2, l3, l4⟩ := local_copy_loop_eq hw1
          obtain ⟨l5, ops, l6, l7⟩ := l4 rfl
          split at ho
          · exact (not_observed (by simp [l2, (hW _).1]) ho).elim
          · rename_i hread
            rw [if_neg hread]
            refine cancelled_of_stage ops (by simp [l6, (hW _).2.2.1]) ?_
              (by simp [l5, (hW _).2.2.2])
              (download_start_cancel cfg env hmono _ l localpath _ _ syncid fileid localfolderid
                filename dwl hname
                (observed_of_stage (by simp [l3, (hW _).2.1]) (by simp [l2, (hW _).1]) ho))
            intro oldname ok hmem
            obtain ⟨_, _, _, h⟩ := l7 _ hmem
            cases h

theorem stop_value_modify_hash (env : download_env) (w w1 : download_state) (dwl : Nat)
    (hash : String)
    (h : w1.downloads = List.modify (fun d => { d with hash := hash }) dwl w.downloads) :
    stop_value env w1 dwl = stop_value env w dwl := by
  funext n
  unfold stop_value
  rw [h, List.getElem?_modify_eq]
  cases w.downloads[dwl]? <;> rfl

/-- A read of the stop flag after the first gives `true` only in a run that is
cancelled. -/
theorem task_download_file_cancel (cfg : psync_settings) (env : download_env)
    (hmono : ∀ m n, m ≤ n → env.stop_set m = true → env.stop_set n = true)
    (w : download_state) (uninit : String) (syncid fileid localfolderid : Nat)
    (filename : String) (dwl : Nat) (r : download_result)
    (h : task_download_file cfg env w uninit syncid fileid localfolderid filename dwl = some r)
    (ho : Observed env w dwl (w.stop_reads + 1) r) :
    ∃ localpath, env.localpath = some localpath
      ∧ Cancelled w (localpath ++ cfg.PSYNC_DIRECTORY_SEPARATOR ++ filename
          ++ cfg.PSYNC_APPEND_PARTIAL_FILES)
        (localpath ++ cfg.PSYNC_DIRECTORY_SEPARATOR ++ filename) r := by
  unfold task_download_file at h
  split at h
  · cases h
    exact (not_observed (by simp) ho).elim
  · rename_i localpath hpath
    refine ⟨localpath, hpath, ?_⟩
    split at h
    · cases h
      exact (not_observed (by simp) ho).elim
    · simp only [] at h
      split at h
      · cases h
        exact (not_observed (by simp) ho).elim
      · cases h
        exact (not_observed (by simp) ho).elim
      · split at h
        · cases h
        · rename_i w1 hw1
          cases h
          unfold admission at hw1
          split at hw1
          · cases hw1
          · cases hw1
            refine cancelled_of_stage [] (by simp) (by intro _ _ hm; cases hm) rfl
              (download_local_cancel cfg env hmono _
                { name := localpath ++ cfg.PSYNC_DIRECTORY_SEPARATOR ++ filename,
                  current_counter := some .starting_downloads, addedsize := 0,
                  downloadedsize := 0, downloadingcounted := true, tmpold := none }
                localpath uninit syncid fileid localfolderid filename dwl rfl ?_)
            obtain ⟨n, n1, n2, n3⟩ := ho
            refine ⟨n, n1, n2, ?_⟩
            rw [stop_value_modify_hash env w _ dwl env.serverhashhex rfl]
            exact n3

/-- The run of the example environment: the file is downloaded and published,
the events are `PEVENT_FILE_DOWNLOAD_STARTED` and
`PEVENT_FILE_DOWNLOAD_FINISHED`, the row of the file is written, and the
counters are back at zero. -/
theorem example_download_finished :
    ∃ r, task_download_file example_settings example_env
        (download_state.init [] [example_dwl]) "" 1 7 3 "f" 0 = some r
      ∧ r.ret = 0 ∧ r.exit = .finished
      ∧ r.state.events =
          [{ event := .PEVENT_FILE_DOWNLOAD_STARTED, syncid := 1, localpath := "/s/f",
             remoteid := 7 },
           { event := .PEVENT_FILE_DOWNLOAD_FINISHED, syncid := 1, localpath := "/s/f",
             remoteid := 7 }]
      ∧ r.state.fs =
          [fs_op.file_open_trunc "/s/f.part" true,
           fs_op.file_rename_overwrite "/s/f.part" "/s/f" true]
      ∧ r.state.localfile =
          [{ id := 1, syncid := 1, localparentfolderid := 3, name := "f", fileid := 7,
             hash := 5, size := 3, inode := 1, mtime := 1, mtimenative := 1,
             checksum := "abc" }]
      ∧ r.state.starting_downloads = 0 ∧ r.state.started_downloads = 0
      ∧ r.state.filesdownloading = 0 ∧ r.state.bytesdownloaded = 0
      ∧ r.state.locks = [] :=
  ⟨_, rfl, by decide, by decide, by decide, by decide, by decide, by decide, by decide,
    by decide, by decide, by decide⟩

/-! ## Reports of the end of a download -/

/-- C19 (counterexample). Two runs of `task_download_file` for the file "f" of
the folder "/s". In the first `psync_lock_file` returns no lock: the run
returns `-1` without a single read of the stop flag and without any event, so
the failure is not reported by `PEVENT_FILE_DOWNLOAD_FAILED`. In the second the
file on disk already has the size and checksum of the server: the run returns
`0` without `PEVENT_FILE_DOWNLOAD_FINISHED`. -/
theorem download_end_unreported :
    (∃ r, task_download_file example_settings { example_env with lock_file := false }
        (download_state.init [] [example_dwl]) "" 1 7 3 "f" 0 = some r
      ∧ r.ret = -1 ∧ r.state.stop_reads = 0
      ∧ count_events .PEVENT_FILE_DOWNLOAD_FAILED r.state.events = 0)
    ∧ (∃ r, task_download_file example_settings
        { example_env with local_checksum := some ("abc", 3) }
        (download_state.init [] [example_dwl]) "" 1 7 3 "f" 0 = some r
      ∧ r.ret = 0
      ∧ count_events .PEVENT_FILE_DOWNLOAD_FINISHED r.state.events = 0) :=
  ⟨⟨_, rfl, by decide, by decide, by decide⟩, ⟨_, rfl, by decide, by decide⟩⟩

/-! ## Cancellation -/

/-- C20 (cancellation is a quiet failure exit). The reads of `dwl->stop` of a
run are numbered from `w.stop_reads`; the first is the one of line 585, the
later ones are those of the execution of the plan (lines 680, 711, 734 and
737). The flag stays set once it is set. If one of the later reads gives
`true`, the run returns `-1`; among the calls `ops` it makes to the file system
there is the deletion of the temp file `localpath/filename` +
`PSYNC_APPEND_PARTIAL_FILES` and no rename to `name = localpath/filename`;
`localfile` is left as it was; and among the events `evs` it sends there is
neither `PEVENT_FILE_DOWNLOAD_FINISHED` nor `PEVENT_FILE_DOWNLOAD_FAILED`. -/
theorem cancellation_quiet (cfg : psync_settings) (env : download_env)
    (w : download_state) (uninit : String) (syncid fileid localfolderid : Nat)
    (filename : String) (dwl : Nat) (r : download_result)
    (hmono : ∀ m n, m ≤ n → env.stop_set m = true → env.stop_set n = true)
    (h : task_download_file cfg env w uninit syncid fileid localfolderid filename dwl = some r)
    (hobs : ∃ n, w.stop_reads < n ∧ n < r.state.stop_reads ∧ stop_value env w dwl n = true) :
    ∃ localpath, env.localpath = some localpath
      ∧ r.ret = -1
      ∧ (∃ ops, r.state.fs = w.fs ++ ops
          ∧ fs_op.file_delete (localpath ++ cfg.PSYNC_DIRECTORY_SEPARATOR ++ filename
              ++ cfg.PSYNC_APPEND_PARTIAL_FILES) ∈ ops
          ∧ ∀ oldname ok, fs_op.file_rename_overwrite oldname
              (localpath ++ cfg.PSYNC_DIRECTORY_SEPARATOR ++ filename) ok ∉ ops)
      ∧ r.state.localfile = w.localfile
      ∧ ∃ evs, r.state.events = w.events ++ evs
          ∧ count_events .PEVENT_FILE_DOWNLOAD_FINISHED evs = 0
          ∧ count_events .PEVENT_FILE_DOWNLOAD_FAILED evs = 0 := by
  obtain ⟨n, n1, n2, n3⟩ := hobs
  obtain ⟨localpath, hpath, hexit, hret, hfs, hlf⟩ :=
    task_download_file_cancel cfg env hmono w uninit syncid fileid localfolderid filename dwl r h
      ⟨n, n1, n2, n3⟩
  obtain ⟨evs, e1, e2, e3, _⟩ :=
    task_download_file_events cfg env w uninit syncid fileid localfolderid filename dwl r h
  refine ⟨localpath, hpath, hret, hfs, hlf, evs, e1, ?_, ?_⟩
  · rw [e3, hexit]; rfl
  · rw [e2, hexit]; rfl

/-- C20 (witness). Another thread sets the flag after the check of line 585:
the read loop of the transfer sees it, the run deletes "/s/f.part" and returns
`-1`. -/
theorem cancellation_quiet_witness :
    ∃ r, task_download_file example_settings
        { example_env with stop_set := fun n => decide (1 ≤ n) }
        (download_state.init [] [example_dwl]) "" 1 7 3 "f" 0 = some r
      ∧ r.state.stop_reads = 4
      ∧ r.ret = -1
      ∧ (∃ ops, r.state.fs = [] ++ ops
          ∧ fs_op.file_delete ("/s" ++ "/" ++ "f" ++ ".part") ∈ ops
          ∧ ∀ oldname ok, fs_op.file_rename_overwrite oldname ("/s" ++ "/" ++ "f") ok ∉ ops)
      ∧ r.state.localfile = []
      ∧ ∃ evs, r.state.events = [] ++ evs
          ∧ count_events .PEVENT_FILE_DOWNLOAD_FINISHED evs = 0
          ∧ count_events .PEVENT_FILE_DOWNLOAD_FAILED evs = 0 := by
  obtain ⟨localpath, hpath, hrest⟩ := cancellation_quiet example_settings
    { example_env with stop_set := fun n => decide (1 ≤ n) }
    (download_state.init [] [example_dwl]) "" 1 7 3 "f" 0 _
    (by intro m n hmn hm; simp only [decide_eq_true_eq] at hm ⊢; omega) rfl
    ⟨1, by decide, by decide, by decide⟩
  cases hpath
  exact ⟨_, rfl, by decide, hrest⟩

/-! ## Frame of the range loop, in equation form -/

theorem ranges_loop_frame_eq {env : download_env} {dwl : Nat}
    {ranges : List psync_range_list_t} {w w1 : download_state} {d d1 : Nat} {b : Bool}
    (h : ranges_loop env dwl ranges w d = (b, w1, d1)) :
    w1.events = w.events ∧ w1.fs = w.fs ∧ w1.localfile = w.localfile
    ∧ w1.downloads = w.downloads := by
  have h1 := ranges_loop_frame env dwl ranges w d
  rw [h] at h1
  exact h1

/-! ## C21: the conflict rule of `rename_if_notex` -/

/-- C21 (conflict rule of `rename_if_notex`).  The log of file-system calls
grows by `psync_rename_conflicted_file(newname)` exactly when the checksum of
the target can be computed and `is_revision_of_file` answers `PSYNC_NET_OK`
with `isrev = 0`, and in that case exactly the `localfile` rows of
`(syncid, localfolderid, filename)` are deleted; when the checksum can be
computed and the answer is `PSYNC_NET_TEMPFAIL` nothing is renamed and the
result is failure; in every other case the one call made after the possible
conflict copy is `psync_file_rename_overwrite(oldname, newname)`, whose outcome
is the result. -/
theorem rename_if_notex_conflict_rule (env : download_env) (site : publish_site)
    (w : download_state) (oldname newname : String) (localfolderid syncid : Nat)
    (filename : String) :
    (rename_if_notex env site w oldname newname localfolderid syncid filename).2.fs
      = w.fs
        ++ (if (env.target_checksum site).isSome
              ∧ env.is_revision_of_file site = (.PSYNC_NET_OK, false)
            then [fs_op.rename_conflicted_file newname] else [])
        ++ (if (env.target_checksum site).isSome
              ∧ (env.is_revision_of_file site).1 = .PSYNC_NET_TEMPFAIL
            then []
            else [fs_op.file_rename_overwrite oldname newname (env.rename_overwrite site)])
    ∧ (rename_if_notex env site w oldname newname localfolderid syncid filename).2.localfile
      = (if (env.target_checksum site).isSome
            ∧ env.is_revision_of_file site = (.PSYNC_NET_OK, false)
          then w.localfile.filter (fun r =>
            ¬ (r.syncid = syncid ∧ r.localparentfolderid = localfolderid ∧ r.name = filename))
          else w.localfile)
    ∧ (rename_if_notex env site w oldname newname localfolderid syncid filename).1
      = (if (env.target_checksum site).isSome
            ∧ (env.is_revision_of_file site).1 = .PSYNC_NET_TEMPFAIL
          then false else env.rename_overwrite site) := by
  unfold rename_if_notex
  rcases hc : env.target_checksum site with _ | c
  · simp
  · rcases hr : env.is_revision_of_file site with ⟨res, isrev⟩
    cases res <;> cases isrev <;> simp [create_conflicted]

/-! ## C22: the identity short-circuit -/

@[simp]
theorem task_dec_counter_net (w : download_state) (cnt : Option download_counter)
    (a d : Nat) (b : Bool) : (task_dec_counter w cnt a d b).net = w.net := by
  unfold task_dec_counter
  rcases cnt with _ | _ | _ <;> cases b <;> simp <;> split <;> rfl

@[simp]
theorem exit_ret0_net (w : download_state) (l : download_locals) :
    (exit_ret0 w l).state.net = w.net := by simp [exit_ret0, unlock_file]

/-- An update by row id changes one row when the ids are distinct. -/
theorem map_update_by_id {rows : List localfile_row} (hids : (rows.map (fun r => r.id)).Nodup)
    {row : localfile_row} (hrow : row ∈ rows) (g : localfile_row → localfile_row) :
    rows.map (fun r => if r.id = row.id then g r else r)
      = rows.map (fun r => if r = row then g r else r) := by
  apply List.map_congr_left
  intro r hr
  by_cases h : r = row
  · subst h; simp
  · have hne : r.id ≠ row.id := by
      intro hid
      exact h (List.inj_on_of_nodup_map hids hr hrow hid)
    rw [if_neg hne, if_neg h]

/-- The identity short-circuit of lines 529-547, after a free-space check that
does not fail. -/
theorem download_local_identity (cfg : psync_settings) (env : download_env)
    (w : download_state) (l : download_locals) (localpath : String) (uninit : String)
    (syncid fileid localfolderid : Nat) (filename : String) (dwl : Nat) (row0 : localfile_row)
    (hfree : env.minlocalfreespace = 0 ∨ env.freespace = -1
      ∨ U64 env.freespace ≥ U64 ((env.minlocalfreespace : Int) + env.serversize))
    (hfind : w.localfile.find? (fun r => decide (r.size = env.serversize
      ∧ r.checksum = env.serverhashhex ∧ r.localparentfolderid = localfolderid
      ∧ r.syncid = syncid ∧ r.name = filename)) = some row0) :
    (download_local cfg env w l localpath uninit syncid fileid localfolderid filename dwl).ret = 0
    ∧ (download_local cfg env w l localpath uninit syncid fileid localfolderid filename
        dwl).state.localfile =
        (if row0.fileid ≠ fileid ∨ row0.hash ≠ env.hash then
          w.localfile.map (fun x =>
            if x.id = row0.id then { x with fileid := fileid, hash := env.hash } else x)
        else w.localfile)
    ∧ (download_local cfg env w l localpath uninit syncid fileid localfolderid filename
        dwl).state.fs = w.fs
    ∧ (download_local cfg env w l localpath uninit syncid fileid localfolderid filename
        dwl).state.net = w.net
    ∧ (download_local cfg env w l localpath uninit syncid fileid localfolderid filename
        dwl).state.events = w.events := by
  have hnofail : ¬ ((decide (env.minlocalfreespace ≠ 0) && decide (env.freespace ≠ -1)) = true
      ∧ ¬ (U64 env.freespace ≥ U64 ((env.minlocalfreespace : Int) + env.serversize))) := by
    rintro ⟨h1, h2⟩
    simp only [Bool.and_eq_true, decide_eq_true_eq] at h1
    rcases hfree with h | h | h
    · exact h1.1 h
    · exact h1.2 h
    · exact h2 h
  have hW : ∀ (c : Prop) [Decidable c],
      (if c then ({ w with local_full := false } : download_state) else w).localfile
        = w.localfile
      ∧ (if c then ({ w with local_full := false } : download_state) else w).fs = w.fs
      ∧ (if c then ({ w with local_full := false } : download_state) else w).net = w.net
      ∧ (if c then ({ w with local_full := false } : download_state) else w).events
        = w.events := by
    intro c _
    split <;> exact ⟨rfl, rfl, rfl, rfl⟩
  unfold download_local
  simp only []
  rw [if_neg hnofail, (hW _).1]
  simp only [hfind]
  by_cases hd : row0.fileid ≠ fileid ∨ row0.hash ≠ env.hash
  · rw [if_pos hd, if_pos hd]
    refine ⟨rfl, by simp, by simp [(hW _).2.1], by simp [(hW _).2.2.1], by simp [(hW _).2.2.2]⟩
  · rw [if_neg hd, if_neg hd]
    refine ⟨rfl, by simp [(hW _).1], by simp [(hW _).2.1], by simp [(hW _).2.2.1],
      by simp [(hW _).2.2.2]⟩

/-- C22 (identity short-circuit).  When the folder path resolves, the lock
is taken, the checksum request succeeds, the admission does not wait, the
free-space check passes and `localfile` (ids distinct) has a row of
`(syncid, localfolderid, filename)` with the server's size and checksum, the
run returns 0; the row `row0` the query finds gets the server's `fileid` and
`hash` exactly when one of them differs, every other row stays as it is; no
file-system call is made, the only request is the checksum request, and no
event is sent. -/
theorem identity_short_circuit (cfg : psync_settings) (env : download_env)
    (w : download_state) (uninit : String) (syncid fileid localfolderid : Nat)
    (filename : String) (dwl : Nat) (localpath : String) (row : localfile_row)
    (hpath : env.localpath = some localpath) (hlock : env.lock_file = true)
    (hsum : env.remote_checksum = .PSYNC_NET_OK)
    (hadm : ¬ admission_waits cfg w)
    (hfree : env.minlocalfreespace = 0 ∨ env.freespace = -1
      ∨ U64 env.freespace ≥ U64 ((env.minlocalfreespace : Int) + env.serversize))
    (hids : (w.localfile.map (fun r => r.id)).Nodup)
    (hrow : row ∈ w.localfile)
    (hmatch : row.syncid = syncid ∧ row.localparentfolderid = localfolderid
      ∧ row.name = filename ∧ row.size = env.serversize ∧ row.checksum = env.serverhashhex) :
    ∃ r row0, task_download_file cfg env w uninit syncid fileid localfolderid filename dwl
        = some r
      ∧ row0 ∈ w.localfile
      ∧ (row0.syncid = syncid ∧ row0.localparentfolderid = localfolderid
          ∧ row0.name = filename ∧ row0.size = env.serversize
          ∧ row0.checksum = env.serverhashhex)
      ∧ r.ret = 0
      ∧ r.state.localfile =
          (if row0.fileid ≠ fileid ∨ row0.hash ≠ env.hash then
            w.localfile.map (fun x =>
              if x = row0 then { x with fileid := fileid, hash := env.hash } else x)
          else w.localfile)
      ∧ r.state.fs = w.fs
      ∧ r.state.net = w.net ++ [net_op.get_remote_file_checksum fileid]
      ∧ r.state.events = w.events := by
  have hfind : ∃ row0, w.localfile.find? (fun r => decide (r.size = env.serversize
      ∧ r.checksum = env.serverhashhex ∧ r.localparentfolderid = localfolderid
      ∧ r.syncid = syncid ∧ r.name = filename)) = some row0 := by
    rcases hf : w.localfile.find? (fun r => decide (r.size = env.serversize
      ∧ r.checksum = env.serverhashhex ∧ r.localparentfolderid = localfolderid
      ∧ r.syncid = syncid ∧ r.name = filename)) with _ | row0
    · rw [List.find?_eq_none] at hf
      have := hf row hrow
      simp [hmatch.1, hmatch.2.1, hmatch.2.2.1, hmatch.2.2.2.1, hmatch.2.2.2.2] at this
    · first | exact ⟨row0, rfl⟩ | exact ⟨row0, hf⟩
  obtain ⟨row0, hfind⟩ := hfind
  have hmem : row0 ∈ w.localfile := List.mem_of_find?_eq_some hfind
  have hp := List.find?_some hfind
  simp only [decide_eq_true_eq] at hp
  have hadm2 : admission cfg { w with
      locks := (localpath ++ cfg.PSYNC_DIRECTORY_SEPARATOR ++ filename) :: w.locks,
      net := w.net ++ [net_op.get_remote_file_checksum fileid],
      downloads := List.modify (fun d => { d with hash := env.serverhashhex }) dwl w.downloads }
      = some { w with
      locks := (localpath ++ cfg.PSYNC_DIRECTORY_SEPARATOR ++ filename) :: w.locks,
      net := w.net ++ [net_op.get_remote_file_checksum fileid],
      downloads := List.modify (fun d => { d with hash := env.serverhashhex }) dwl w.downloads,
      starting_downloads := U64 ((w.starting_downloads : Int) + 1),
      filesdownloading := U64 ((w.filesdownloading : Int) + 1) } := by
    unfold admission
    exact if_neg hadm
  have hrun : task_download_file cfg env w uninit syncid fileid localfolderid filename dwl
      = some (download_local cfg env { w with
          locks := (localpath ++ cfg.PSYNC_DIRECTORY_SEPARATOR ++ filename) :: w.locks,
          net := w.net ++ [net_op.get_remote_file_checksum fileid],
          downloads :=
            List.modify (fun d => { d with hash := env.serverhashhex }) dwl w.downloads,
          starting_downloads := U64 ((w.starting_downloads : Int) + 1),
          filesdownloading := U64 ((w.filesdownloading : Int) + 1) }
        { name := localpath ++ cfg.PSYNC_DIRECTORY_SEPARATOR ++ filename,
          current_counter := some .starting_downloads, addedsize := 0, downloadedsize := 0,
          downloadingcounted := true, tmpold := none }
        localpath uninit syncid fileid localfolderid filename dwl) := by
    unfold task_download_file
    simp only [hpath, hlock, hsum, hadm2]
    rfl
  obtain ⟨d1, d2, d3, d4, d5⟩ := download_local_identity cfg env _
    { name := localpath ++ cfg.PSYNC_DIRECTORY_SEPARATOR ++ filename,
      current_counter := some .starting_downloads, addedsize := 0, downloadedsize := 0,
      downloadingcounted := true, tmpold := none }
    localpath uninit syncid fileid localfolderid filename dwl row0 hfree
    (show List.find? _ (download_state.localfile { w with
          locks := (localpath ++ cfg.PSYNC_DIRECTORY_SEPARATOR ++ filename) :: w.locks,
          net := w.net ++ [net_op.get_remote_file_checksum fileid],
          downloads :=
            List.modify (fun d => { d with hash := env.serverhashhex }) dwl w.downloads,
          starting_downloads := U64 ((w.starting_downloads : Int) + 1),
          filesdownloading := U64 ((w.filesdownloading : Int) + 1) }) = some row0 from hfind)
  refine ⟨_, row0, hrun, hmem, ⟨hp.2.2.2.1, hp.2.2.1, hp.2.2.2.2, hp.1, hp.2.1⟩, d1, ?_, d3,
    d4, d5⟩
  rw [d2]
  split
  · exact map_update_by_id hids hmem _
  · rfl

/-! ## C23: the task lifecycle of a file download -/

@[simp]
theorem task_dec_counter_downloads (w : download_state) (cnt : Option download_counter)
    (a d : Nat) (b : Bool) : (task_dec_counter w cnt a d b).downloads = w.downloads := by
  unfold task_dec_counter
  rcases cnt with _ | _ | _ <;> cases b <;> simp <;> split <;> rfl

@[simp]
theorem exit_ret0_downloads (w : download_state) (l : download_locals) :
    (exit_ret0 w l).state.downloads = w.downloads := by simp [exit_ret0, unlock_file]

@[simp]
theorem exit_err_sl_ex_downloads (w : download_state) (l : download_locals) :
    (exit_err_sl_ex w l).state.downloads = w.downloads := by
  simp [exit_err_sl_ex, unlock_file]

@[simp]
theorem exit_err0_downloads (e : download_exit) (w : download_state) (l : download_locals) :
    (exit_err0 e w l).state.downloads = w.downloads := by
  unfold exit_err0; cases l.tmpold <;> simp [unlock_file]

@[simp]
theorem exit_err1_downloads (e : download_exit) (w : download_state) (l : download_locals)
    (syncid fileid : Nat) : (exit_err1 e w l syncid fileid).state.downloads = w.downloads := by
  simp [exit_err1]

/-- One pass of the loop of `task_delete_file`: a row whose file is busy stays
and sets `ret`, any other row is deleted by its id. -/
theorem task_delete_file_row_spec (errs : fs_errs) (denv : delete_env) (fileid : Nat)
    (acc : Int × download_state) (row : localfile_row) :
    (delete_busy errs denv row →
      (task_delete_file_row errs denv fileid acc row).1 = -1
      ∧ (task_delete_file_row errs denv fileid acc row).2.localfile = acc.2.localfile)
    ∧ (¬ delete_busy errs denv row →
      (task_delete_file_row errs denv fileid acc row).1 = acc.1
      ∧ (task_delete_file_row errs denv fileid acc row).2.localfile
          = acc.2.localfile.filter (fun r => r.id ≠ row.id)) := by
  unfold task_delete_file_row delete_busy
  rcases hp : denv.local_file_path row.id with _ | name
  · simp
  · simp only [Option.isSome_some, true_and]
    constructor
    · intro hb
      have hs : (denv.file_delete row.id).isSome = true := by
        rcases hb with hb | hb <;> rw [hb] <;> rfl
      rw [if_pos ⟨hs, hb⟩]
      exact ⟨rfl, rfl⟩
    · intro hb
      rw [if_neg (fun h => hb h.2)]
      exact ⟨rfl, rfl⟩

theorem task_delete_file_loop_spec (errs : fs_errs) (denv : delete_env) (fileid : Nat)
    (rows : List localfile_row) :
    ∀ acc : Int × download_state,
      ((rows.foldl (task_delete_file_row errs denv fileid) acc).1
        = if ∃ q ∈ rows, delete_busy errs denv q then -1 else acc.1)
      ∧ (rows.foldl (task_delete_file_row errs denv fileid) acc).2.localfile
        = acc.2.localfile.filter (fun r =>
            ¬ ∃ q ∈ rows, q.id = r.id ∧ ¬ delete_busy errs denv q) := by
  induction rows with
  | nil => intro acc; simp
  | cons row rows ih =>
    intro acc
    rw [List.foldl_cons]
    obtain ⟨i1, i2⟩ := ih (task_delete_file_row errs denv fileid acc row)
    obtain ⟨s1, s2⟩ := task_delete_file_row_spec errs denv fileid acc row
    by_cases hb : delete_busy errs denv row
    · obtain ⟨t1, t2⟩ := s1 hb
      constructor
      · rw [i1, t1, if_pos (⟨row, List.mem_cons_self _ _, hb⟩ :
          ∃ q ∈ row :: rows, delete_busy errs denv q)]
        split <;> rfl
      · rw [i2, t2]
        apply List.filter_congr
        intro r _
        simp only [List.mem_cons, decide_eq_decide]
        constructor
        · rintro h ⟨q, hq | hq, h1, h2⟩
          · rw [hq] at h2; exact h2 hb
          · exact h ⟨q, hq, h1, h2⟩
        · rintro h ⟨q, hq, h1, h2⟩
          exact h ⟨q, Or.inr hq, h1, h2⟩
    · obtain ⟨t1, t2⟩ := s2 hb
      constructor
      · rw [i1, t1]
        by_cases he : ∃ q ∈ rows, delete_busy errs denv q
        · obtain ⟨q, hq, hqb⟩ := he
          rw [if_pos ⟨q, hq, hqb⟩, if_pos ⟨q, List.mem_cons_of_mem _ hq, hqb⟩]
        · rw [if_neg he, if_neg]
          rintro ⟨q, hq, hqb⟩
          rcases List.mem_cons.1 hq with rfl | hq
          · exact hb hqb
          · exact he ⟨q, hq, hqb⟩
      · rw [i2, t2, List.filter_filter]
        apply List.filter_congr
        intro r _
        rw [← Bool.decide_and, decide_eq_decide]
        simp only [List.mem_cons]
        constructor
        · rintro ⟨h1, h2⟩ ⟨q, hq | hq, h3, h4⟩
          · rw [hq] at h3; exact h2 h3.symm
          · exact h1 ⟨q, hq, h3, h4⟩
        · intro h
          refine ⟨fun ⟨q, hq, h3, h4⟩ => h ⟨q, Or.inr hq, h3, h4⟩, ?_⟩
          intro hid
          exact h ⟨row, Or.inl rfl, hid.symm, hb⟩

/-- C24 (`task_delete_file`).  With distinct row ids: the result is `-1`
exactly when the deletion of the file of some matching row (same `fileid`, and
same `syncid` unless `syncid = 0`) failed with `P_BUSY` or `P_ROFS`, and 0
otherwise; the rows left in `localfile` are the rows that do not match and the
matching rows whose deletion failed in that way, in their order. -/
theorem task_delete_file_rows (errs : fs_errs) (denv : delete_env) (w : download_state)
    (syncid fileid : Nat) (ret : Int) (w1 : download_state)
    (hids : (w.localfile.map (fun r => r.id)).Nodup)
    (h : task_delete_file errs denv w syncid fileid = some (ret, w1)) :
    (ret = -1 ↔ ∃ r ∈ w.localfile,
        (r.fileid = fileid ∧ (syncid = 0 ∨ r.syncid = syncid)) ∧ delete_busy errs denv r)
    ∧ (ret = 0 ∨ ret = -1)
    ∧ w1.localfile = w.localfile.filter (fun r =>
        ¬ (r.fileid = fileid ∧ (syncid = 0 ∨ r.syncid = syncid)) ∨ delete_busy errs denv r) := by
  unfold task_delete_file task_wait_no_downloads at h
  split at h
  · cases h
  · rename_i w0 hw0
    split at hw0
    · cases hw0
    · cases hw0
      simp only [Option.some.injEq] at h
      obtain ⟨l1, l2⟩ := task_delete_file_loop_spec errs denv fileid
        (w.localfile.filter (fun r => r.fileid = fileid ∧ (syncid = 0 ∨ r.syncid = syncid)))
        (0, { w with localscan := w.localscan ++ [.restart_localscan] })
      rw [h] at l1 l2
      simp only [] at l1 l2
      have hex : (∃ q ∈ w.localfile.filter (fun r =>
            decide (r.fileid = fileid ∧ (syncid = 0 ∨ r.syncid = syncid))),
            delete_busy errs denv q)
          ↔ ∃ r ∈ w.localfile,
            (r.fileid = fileid ∧ (syncid = 0 ∨ r.syncid = syncid)) ∧ delete_busy errs denv r := by
        constructor
        · rintro ⟨q, hq, hb⟩
          rw [List.mem_filter] at hq
          exact ⟨q, hq.1, by simpa using hq.2, hb⟩
        · rintro ⟨q, hq, hm, hb⟩
          exact ⟨q, List.mem_filter.2 ⟨hq, by simpa using hm⟩, hb⟩
      refine ⟨?_, ?_, ?_⟩
      · rw [l1]
        by_cases he : ∃ q ∈ w.localfile.filter (fun r =>
            decide (r.fileid = fileid ∧ (syncid = 0 ∨ r.syncid = syncid))),
            delete_busy errs denv q
        · rw [if_pos he]
          exact ⟨fun _ => hex.1 he, fun _ => rfl⟩
        · rw [if_neg he]
          constructor
          · intro h0
            exact absurd h0 (by decide)
          · intro hx
            exact (he (hex.2 hx)).elim
      · rw [l1]
        split
        · exact Or.inr rfl
        · exact Or.inl rfl
      · rw [l2]
        apply List.filter_congr
        intro r hr
        simp only [decide_eq_decide]
        constructor
        · intro hn
          by_cases hm : r.fileid = fileid ∧ (syncid = 0 ∨ r.syncid = syncid)
          · right
            by_contra hb
            exact hn ⟨r, List.mem_filter.2 ⟨hr, by simpa using hm⟩, rfl, hb⟩
          · exact Or.inl hm
        · rintro hh ⟨q, hq, hid, hb⟩
          rw [List.mem_filter] at hq
          have hqr : q = r := List.inj_on_of_nodup_map hids hq.1 hr hid
          subst hqr
          rcases hh with hh | hh
          · exact hh (by simpa using hq.2)
          · exact hb hh

/-! ## C25, C26, C27: stop functions, `move_folder_contents`, recursive delete -/

theorem stopsExactly_map (p : download_list_t → Prop) [DecidablePred p]
    (l : List download_list_t) :
    StopsExactly p l (l.map (fun dwl => if p dwl then { dwl with stop := 1 } else dwl)) := by
  refine ⟨by simp, ?_⟩
  intro i dwl h
  refine ⟨if p dwl then { dwl with stop := 1 } else dwl, by simp [h], ?_⟩
  by_cases hp : p dwl
  · simp [hp]
  · simp [hp]

/-- C25 (stop functions).  `psync_stop_file_download` sets `stop` on exactly
the elements of `downloads` with the given `fileid` and `syncid`,
`psync_stop_sync_download` on those with the `syncid`,
`psync_delete_download_tasks_for_file` on those with the `fileid`,
`psync_stop_all_download` on all; no flag is cleared, no other field and no
membership changes. -/
theorem stop_sets_matching_flags (c : task_consts) (s : sync_state) (fileid syncid : Nat) :
    StopsExactly (fun dwl => dwl.fileid = fileid ∧ dwl.syncid = syncid)
      s.download.downloads (psync_stop_file_download s fileid syncid).download.downloads
    ∧ StopsExactly (fun dwl => dwl.syncid = syncid)
      s.download.downloads (psync_stop_sync_download c s syncid).download.downloads
    ∧ StopsExactly (fun dwl => dwl.fileid = fileid)
      s.download.downloads
      (psync_delete_download_tasks_for_file c s fileid).download.downloads
    ∧ StopsExactly (fun _ => True)
      s.download.downloads (psync_stop_all_download s).download.downloads := by
  refine ⟨stopsExactly_map _ _, stopsExactly_map _ _, stopsExactly_map _ _, ?_⟩
  have := stopsExactly_map (fun _ => True) s.download.downloads
  simpa [psync_stop_all_download] using this

/-- C26 (failing input).  `task_renamedir("/s/a", "/s/b")` where
`psync_rendir` fails with `P_EXIST` and "/s/b" is a directory, "/s/a" holding
the file "f": `do_move` renames "/s/af" to "/s/bf", the two paths joined with
the name without a directory separator, not "/s/a/f" to "/s/b/f". -/
theorem move_folder_contents_paths :
    task_renamedir example_errs [{ name := "f", isfolder := false }] 0 "/s/a" "/s/b"
        [{ rendir := some 17, stat_newpath := some true, rename_conflicted := true }] []
      = some (0, [dir_op.rendir "/s/a" "/s/b", dir_op.set_local_full false,
          dir_op.file_rename "/s/af" "/s/bf", dir_op.rmdir_with_trashes "/s/a"]) := by
  decide

/-- C27 (failing input).  `task_del_folder_rec` on a local folder whose path
cannot be resolved: the scanner is stopped and the function returns 0 after
`psync_sql_unlock()`, without a call of `psync_resume_localscan`. -/
theorem del_folder_rec_no_resume :
    task_del_folder_rec "/" none 1 3 1
        { download := download_state.init [] [], localfolder := [], syncedfolder := [],
          upload_deletes := [], sql := [], rmdirs := [] }
      = some (0,
        { download :=
            { download_state.init [] [] with localscan := [localscan_op.stop_localscan] },
          localfolder := [], syncedfolder := [], upload_deletes := [],
          sql := [sql_op.unlock], rmdirs := [] }) := by
  decide

/-! ## C28: the admission counters on every exit -/

theorem task_dec_counter_filesdownloading (w : download_state) (cnt : Option download_counter)
    (a d : Nat) (b : Bool) :
    (task_dec_counter w cnt a d b).filesdownloading =
      if b then U64 ((w.filesdownloading : Int) - 1) else w.filesdownloading := by
  unfold task_dec_counter
  rcases cnt with _ | _ | _ <;> cases b <;> simp <;> split <;> rfl

/-- The admission counters `task_dec_counter` leaves depend on the counters
it finds, the counter it is given and the flag `downloading` only. -/
theorem counters_task_dec_counter (w w1 : download_state) (cnt : Option download_counter)
    (a d a1 d1 : Nat) (b : Bool) (h : counters w = counters w1) :
    counters (task_dec_counter w cnt a d b) = counters (task_dec_counter w1 cnt a1 d1 b) := by
  simp only [counters, Prod.mk.injEq] at h
  obtain ⟨h1, h2, h3⟩ := h
  simp only [counters, task_dec_counter_starting, task_dec_counter_started,
    task_dec_counter_filesdownloading, h1, h2, h3]

theorem counters_exit_ret0 (w : download_state) (l : download_locals) :
    counters (exit_ret0 w l).state
      = counters (task_dec_counter w l.current_counter 0 0 l.downloadingcounted) := by
  unfold exit_ret0 unlock_file
  exact counters_task_dec_counter _ _ _ _ _ _ _ _ rfl

theorem counters_exit_err_sl_ex (w : download_state) (l : download_locals) :
    counters (exit_err_sl_ex w l).state
      = counters (task_dec_counter w l.current_counter 0 0 l.downloadingcounted) := by
  unfold exit_err_sl_ex unlock_file
  exact counters_task_dec_counter _ _ _ _ _ _ _ _ rfl

theorem counters_exit_err0 (e : download_exit) (w : download_state) (l : download_locals) :
    counters (exit_err0 e w l).state
      = counters (task_dec_counter w l.current_counter 0 0 l.downloadingcounted) := by
  unfold exit_err0 unlock_file
  cases l.tmpold <;> exact counters_task_dec_counter _ _ _ _ _ _ _ _ rfl

theorem counters_exit_err1 (e : download_exit) (w : download_state) (l : download_locals)
    (syncid fileid : Nat) :
    counters (exit_err1 e w l syncid fileid).state
      = counters (task_dec_counter w l.current_counter 0 0 l.downloadingcounted) := by
  unfold exit_err1
  rw [counters_exit_err0]
  exact counters_task_dec_counter _ _ _ _ _ _ _ _ rfl

theorem counters_transfer_loop (env : download_env) (dwl : Nat) (reads : List chunk_io) :
    ∀ (w : download_state) (d : Nat),
      counters (transfer_loop env dwl reads w d).2.1 = counters w := by
  induction reads with
  | nil => intro w d; rfl
  | cons c reads ih =>
    intro w d
    unfold transfer_loop
    split
    · rfl
    · simp only []
      split
      · rfl
      · split
        · rfl
        · split
          · rfl
          · rw [ih]; rfl

theorem counters_copy_loop (env : download_env) (dwl : Nat) (reads : List chunk_io) :
    ∀ (w : download_state) (d result : Nat),
      counters (copy_loop env dwl reads w d result).2.1 = counters w := by
  induction reads with
  | nil =>
    intro w d result
    unfold copy_loop
    split
    · rfl
    · split <;> rfl
  | cons c reads ih =>
    intro w d result
    unfold copy_loop
    split
    · rfl
    · simp only []
      split
      · rfl
      · split
        · rfl
        · rw [ih]; rfl

theorem counters_ranges_loop (env : download_env) (dwl : Nat)
    (ranges : List psync_range_list_t) :
    ∀ (w : download_state) (d : Nat),
      counters (ranges_loop env dwl ranges w d).2.1 = counters w := by
  induction ranges with
  | nil => intro w d; rfl
  | cons r ranges ih =>
    intro w d
    cases r with
    | transfer off len connected reads =>
      unfold ranges_loop
      simp only []
      split
      · rfl
      · have ht := counters_transfer_loop env dwl reads
          { w with net := w.net ++ [net_op.http_connect off len] } d
        rcases hrl : transfer_loop env dwl reads
          { w with net := w.net ++ [net_op.http_connect off len] } d with ⟨b, w1, d1⟩
        rw [hrl] at ht
        cases b
        · exact ht
        · simp only []
          split
          · exact ht
          · rw [ih]; exact ht
    | copy off len filename opened seeked reads =>
      unfold ranges_loop
      split
      · rfl
      · have ht := counters_copy_loop env dwl reads w d len
        rcases hrl : copy_loop env dwl reads w d len with ⟨b, w1, d1⟩
        rw [hrl] at ht
        cases b
        · exact ht
        · simp only []
          split
          · exact ht
          · rw [ih]; exact ht

theorem counters_ranges_loop_eq {env : download_env} {dwl : Nat}
    {ranges : List psync_range_list_t} {w w1 : download_state} {d d1 : Nat} {b : Bool}
    (h : ranges_loop env dwl ranges w d = (b, w1, d1)) : counters w1 = counters w := by
  have := counters_ranges_loop env dwl ranges w d
  rw [h] at this
  exact this

theorem counters_rename_if_notex_eq {env : download_env} {site : publish_site}
    {w w1 : download_state} {oldname newname : String} {localfolderid syncid : Nat}
    {filename : String} {b : Bool}
    (h : rename_if_notex env site w oldname newname localfolderid syncid filename = (b, w1)) :
    counters w1 = counters w := by
  unfold rename_if_notex at h
  split at h
  · split at h <;> cases h <;> rfl
  · cases h; rfl

theorem counters_stat_and_create_local {w w1 : download_state} {st : Option psync_stat_t}
    {syncid fileid localfolderid : Nat} {filename checksum : String} {serversize hash : Nat}
    (h : stat_and_create_local w st syncid fileid localfolderid filename checksum serversize hash
      = some w1) : counters w1 = counters w := by
  unfold stat_and_create_local at h
  split at h
  · cases h
  · split at h
    · cases h
    · simp only [] at h
      split at h <;> cases h <;> rfl

theorem counters_local_copy_loop (env : download_env) (name : String)
    (syncid fileid localfolderid : Nat) (filename : String) (ids : List Nat) :
    ∀ w : download_state,
      counters (local_copy_loop env name syncid fileid localfolderid filename ids w).2
        = counters w := by
  induction ids with
  | nil => intro w; rfl
  | cons id ids ih =>
    intro w
    unfold local_copy_loop
    split
    · exact ih w
    · simp only []
      split
      · split
        · rename_i w1 hs
          exact (counters_stat_and_create_local hs).trans rfl
        · rw [ih]; rfl
      · rw [ih]; rfl

theorem counters_local_copy_loop_eq {env : download_env} {name : String}
    {syncid fileid localfolderid : Nat} {filename : String} {ids : List Nat}
    {w w1 : download_state} {b : Bool}
    (h : local_copy_loop env name syncid fileid localfolderid filename ids w = (b, w1)) :
    counters w1 = counters w := by
  have := counters_local_copy_loop env name syncid fileid localfolderid filename ids w
  rw [h] at this
  exact this

theorem counters_rescue_tmpold (cfg : psync_settings) (env : download_env) (w : download_state)
    (l : download_locals) (localpath tmpname filename : String) :
    counters (rescue_tmpold cfg env w l localpath tmpname filename).1 = counters w
    ∧ (rescue_tmpold cfg env w l localpath tmpname filename).2.current_counter
        = l.current_counter
    ∧ (rescue_tmpold cfg env w l localpath tmpname filename).2.downloadingcounted
        = l.downloadingcounted := by
  unfold rescue_tmpold
  split
  · split
    · split
      · refine ⟨rfl, ?_, ?_⟩ <;> simp only [] <;> split <;> rfl
      · exact ⟨rfl, rfl, rfl⟩
    · exact ⟨rfl, rfl, rfl⟩
  · exact ⟨rfl, rfl, rfl⟩

theorem counters_download_finish (env : download_env) (w : download_state)
    (l : download_locals) (tmpname : String) (syncid fileid localfolderid : Nat)
    (filename : String) (dwl : Nat) :
    counters (download_finish env w l tmpname syncid fileid localfolderid filename dwl).state
      = counters (task_dec_counter w l.current_counter 0 0 l.downloadingcounted) := by
  unfold download_finish
  split
  · rw [counters_exit_err0]
    exact counters_task_dec_counter _ _ _ _ _ _ _ _ rfl
  · simp only []
    split
    · rw [counters_exit_err1]
      exact counters_task_dec_counter _ _ _ _ _ _ _ _ rfl
    · split
      · rw [counters_exit_err0]
        exact counters_task_dec_counter _ _ _ _ _ _ _ _ rfl
      · split
        · rw [counters_exit_err0]
          exact counters_task_dec_counter _ _ _ _ _ _ _ _ rfl
        · split
          · rename_i w1 hw1
            have hr := counters_rename_if_notex_eq hw1
            rw [counters_exit_err0]
            exact counters_task_dec_counter _ _ _ _ _ _ _ _ hr
          · rename_i w1 hw1
            have hr := counters_rename_if_notex_eq hw1
            split
            · rw [counters_exit_err0]
              exact counters_task_dec_counter _ _ _ _ _ _ _ _ hr
            · rename_i w2 hw2
              have hs := counters_stat_and_create_local hw2
              have : counters w2 = counters w := by rw [hs, hr]; rfl
              cases l.tmpold <;>
                exact counters_task_dec_counter _ _ _ _ _ _ _ _ this

theorem counters_download_execute (cfg : psync_settings) (env : download_env)
    (w : download_state) (l : download_locals) (localpath tmpname : String) (localsize : Nat)
    (syncid fileid localfolderid : Nat) (filename : String) (dwl : Nat) :
    counters (download_execute cfg env w l localpath tmpname localsize syncid fileid
        localfolderid filename dwl).state
      = counters (task_dec_counter w l.current_counter 0 0 l.downloadingcounted) := by
  unfold download_execute
  have hres := counters_rescue_tmpold cfg env w l localpath tmpname filename
  rcases hr : rescue_tmpold cfg env w l localpath tmpname filename with ⟨w1, l1⟩
  rw [hr] at hres
  simp only [] at hres ⊢
  obtain ⟨h1, h2, h3⟩ := hres
  rw [← h2, ← h3]
  split
  · rw [counters_exit_err0]
    exact counters_task_dec_counter _ _ _ _ _ _ _ _ h1
  · split
    · rw [counters_exit_err1]
      exact counters_task_dec_counter _ _ _ _ _ _ _ _ h1
    · split
      · rename_i w2 d2 hrl
        have := counters_ranges_loop_eq hrl
        rw [counters_exit_err1]
        exact counters_task_dec_counter _ _ _ _ _ _ _ _ (this.trans h1)
      · rename_i w2 d2 hrl
        have := counters_ranges_loop_eq hrl
        rw [counters_download_finish]
        exact counters_task_dec_counter _ _ _ _ _ _ _ _ (this.trans h1)

theorem counters_download_request (cfg : psync_settings) (env : download_env)
    (w : download_state) (l : download_locals) (localpath tmpname : String) (localsize : Nat)
    (syncid fileid localfolderid : Nat) (filename : String) (dwl : Nat) :
    counters (download_request cfg env w l localpath tmpname localsize syncid fileid
        localfolderid filename dwl).state
      = counters (task_dec_counter w l.current_counter 0 0 l.downloadingcounted) := by
  unfold download_request
  split
  · exact counters_exit_err_sl_ex _ _
  · simp only []
    split
    · rw [counters_exit_err_sl_ex]
      exact counters_task_dec_counter _ _ _ _ _ _ _ _ rfl
    · split
      · split
        · rw [counters_exit_err0]
          exact counters_task_dec_counter _ _ _ _ _ _ _ _ rfl
        · rw [counters_exit_ret0]
          exact counters_task_dec_counter _ _ _ _ _ _ _ _ rfl
      · rw [counters_download_execute]
        exact counters_task_dec_counter _ _ _ _ _ _ _ _ rfl

theorem counters_download_start (cfg : psync_settings) (env : download_env)
    (w : download_state) (l : download_locals) (localpath : String) (localsize : Nat)
    (localhashhex : String) (syncid fileid localfolderid : Nat) (filename : String)
    (dwl : Nat) :
    counters (download_start cfg env w l localpath localsize localhashhex syncid fileid
        localfolderid filename dwl).state
      = counters (task_dec_counter (promotion w env.serversize)
          (some .started_downloads) 0 0 l.downloadingcounted) := by
  unfold download_start
  simp only []
  split
  · split
    · split
      · rename_i w1 hw1
        have hr := counters_rename_if_notex_eq hw1
        rw [counters_exit_err_sl_ex]
        exact counters_task_dec_counter _ _ _ _ _ _ _ _ hr
      · rename_i w1 hw1
        have hr := counters_rename_if_notex_eq hw1
        split
        · rw [counters_exit_err_sl_ex]
          exact counters_task_dec_counter _ _ _ _ _ _ _ _ hr
        · rename_i w2 hw2
          have hs := counters_stat_and_create_local hw2
          rw [counters_exit_ret0]
          exact counters_task_dec_counter _ _ _ _ _ _ _ _ (hs.trans hr)
    · rw [counters_exit_err_sl_ex]
      exact counters_task_dec_counter _ _ _ _ _ _ _ _ rfl
    · rw [counters_download_request]
      exact counters_task_dec_counter _ _ _ _ _ _ _ _ rfl
  · rw [counters_download_request]
    exact counters_task_dec_counter _ _ _ _ _ _ _ _ rfl

theorem counters_download_local (cfg : psync_settings) (env : download_env)
    (w : download_state) (l : download_locals) (localpath : String) (uninit : String)
    (syncid fileid localfolderid : Nat) (filename : String) (dwl : Nat) :
    counters (download_local cfg env w l localpath uninit syncid fileid localfolderid filename
        dwl).state
      = counters (task_dec_counter w l.current_counter 0 0 l.downloadingcounted)
    ∨ counters (download_local cfg env w l localpath uninit syncid fileid localfolderid filename
        dwl).state
      = counters (task_dec_counter (promotion w env.serversize)
          (some .started_downloads) 0 0 l.downloadingcounted) := by
  unfold download_local
  simp only []
  have hW : ∀ (c : Prop) [Decidable c],
      counters (if c then ({ w with local_full := false } : download_state) else w)
        = counters w := by
    intro c _
    split <;> rfl
  split
  · left
    exact counters_task_dec_counter _ _ _ _ _ _ _ _ rfl
  · split
    · left
      split
      · rw [counters_exit_ret0]
        exact counters_task_dec_counter _ _ _ _ _ _ _ _ (hW _)
      · rw [counters_exit_ret0]
        exact counters_task_dec_counter _ _ _ _ _ _ _ _ (hW _)
    · split
      · left
        split
        · rw [counters_exit_err_sl_ex]
          exact counters_task_dec_counter _ _ _ _ _ _ _ _ (hW _)
        · rename_i w1 hw1
          have hs := counters_stat_and_create_local hw1
          rw [counters_exit_ret0]
          exact counters_task_dec_counter _ _ _ _ _ _ _ _ (hs.trans (hW _))
      · split
        · rename_i w1 hw1
          have hl := counters_local_copy_loop_eq hw1
          left
          rw [counters_exit_ret0]
          exact counters_task_dec_counter _ _ _ _ _ _ _ _ (hl.trans (hW _))
        · rename_i w1 hw1
          have hl := counters_local_copy_loop_eq hw1
          have hw : counters w1 = counters w := hl.trans (hW _)
          split
          · left
            rw [counters_exit_ret0]
            exact counters_task_dec_counter _ _ _ _ _ _ _ _ hw
          · right
            rw [counters_download_start]
            refine counters_task_dec_counter _ _ _ _ _ _ _ _ ?_
            simp only [counters, promotion, Prod.mk.injEq] at hw ⊢
            simp only [read_stop, hw.1, hw.2.1, hw.2.2, and_self]

theorem U64_succ_pred (n : Nat) (h : n < 18446744073709551616) :
    U64 ((U64 ((n : Int) + 1) : Int) - 1) = n := by
  unfold U64
  omega

/-- The admission counters at the end of a run: those on entry when the run
ends before the admission loop, and otherwise those `task_dec_counter` leaves
when it is given the counter the download holds. -/
theorem counters_task_download_file (cfg : psync_settings) (env : download_env)
    (w : download_state) (uninit : String) (syncid fileid localfolderid : Nat)
    (filename : String) (dwl : Nat) (r : download_result)
    (h : task_download_file cfg env w uninit syncid fileid localfolderid filename dwl = some r) :
    counters r.state = counters w
    ∨ (∃ w1, admission cfg w = some w1
        ∧ counters r.state
          = counters (task_dec_counter w1 (some .starting_downloads) 0 0 true))
    ∨ (∃ w1, admission cfg w = some w1
        ∧ counters r.state
          = counters (task_dec_counter (promotion w1 env.serversize)
              (some .started_downloads) 0 0 true)) := by
  unfold task_download_file at h
  split at h
  · cases h
    exact Or.inl rfl
  · split at h
    · cases h
      exact Or.inl rfl
    · simp only [] at h
      split at h
      · cases h
        left
        rw [counters_exit_err_sl_ex]
        simp only [counters, task_dec_counter_starting, task_dec_counter_started,
          task_dec_counter_filesdownloading]
        simp
      · cases h
        left
        rw [counters_exit_ret0]
        simp only [counters, task_dec_counter_starting, task_dec_counter_started,
          task_dec_counter_filesdownloading]
        simp
      · split at h
        · cases h
        · rename_i w1 hw1
          cases h
          unfold admission at hw1
          split at hw1
          · cases hw1
          · rename_i hnw
            cases hw1
            have hadm : admission cfg w = some { w with
                starting_downloads := U64 ((w.starting_downloads : Int) + 1),
                filesdownloading := U64 ((w.filesdownloading : Int) + 1) } := by
              unfold admission
              exact if_neg hnw
            right
            rcases counters_download_local cfg env _
              { name := _, current_counter := some .starting_downloads, addedsize := 0,
                downloadedsize := 0, downloadingcounted := true, tmpold := none }
              _ uninit syncid fileid localfolderid filename dwl with hc | hc
            · left
              refine ⟨_, hadm, ?_⟩
              rw [hc]
              exact counters_task_dec_counter _ _ _ _ _ _ _ _ rfl
            · right
              refine ⟨_, hadm, ?_⟩
              rw [hc]
              exact counters_task_dec_counter _ _ _ _ _ _ _ _ rfl

/-- C28 (counters released on every exit).  Whatever exit a run of
`task_download_file` takes, when `started_downloads` and `filesdownloading` are
64-bit values at entry, the three admission counters have at return the values
they had at entry; the values at return are those `task_dec_counter` leaves
when given the counter `held` the run holds at its exit: none with the counters
of the entry, `starting_downloads` with the counters after the admission,
`started_downloads` with the counters after the promotion. -/
theorem download_counters_released (cfg : psync_settings) (env : download_env)
    (w : download_state) (uninit : String) (syncid fileid localfolderid : Nat)
    (filename : String) (dwl : Nat) (r : download_result)
    (h : task_download_file cfg env w uninit syncid fileid localfolderid filename dwl = some r)
    (hs : w.started_downloads < 18446744073709551616)
    (hf : w.filesdownloading < 18446744073709551616) :
    (r.state.starting_downloads = w.starting_downloads
      ∧ r.state.started_downloads = w.started_downloads
      ∧ r.state.filesdownloading = w.filesdownloading)
    ∧ ∃ (held : Option download_counter) (pre : download_state),
        counters r.state = counters (task_dec_counter pre held 0 0 held.isSome)
        ∧ (held = none → counters pre = counters w)
        ∧ (held = some .starting_downloads →
            ∃ w1, admission cfg w = some w1 ∧ counters pre = counters w1)
        ∧ (held = some .started_downloads →
            ∃ w1, admission cfg w = some w1
              ∧ counters pre = counters (promotion w1 env.serversize)) := by
  have hadm : ∀ w1, admission cfg w = some w1 →
      w.starting_downloads = 0 ∧ w1.starting_downloads = 1
      ∧ w1.started_downloads = w.started_downloads
      ∧ w1.filesdownloading = U64 ((w.filesdownloading : Int) + 1) := by
    intro w1 h1
    unfold admission at h1
    split at h1
    · cases h1
    · rename_i hnw
      cases h1
      simp only [admission_waits, not_or, not_not] at hnw
      refine ⟨hnw.1, ?_, rfl, rfl⟩
      show U64 ((w.starting_downloads : Int) + 1) = 1
      rw [hnw.1]; rfl
  rcases counters_task_download_file cfg env w uninit syncid fileid localfolderid filename dwl r h
    with hc | ⟨w1, h1, hc⟩ | ⟨w1, h1, hc⟩
  · refine ⟨?_, none, w, ?_, (by intro _; rfl), (by intro hh; cases hh), (by intro hh; cases hh)⟩
    · simp only [counters, Prod.mk.injEq] at hc
      exact hc
    · rw [hc]
      simp only [counters, task_dec_counter_starting, task_dec_counter_started,
        task_dec_counter_filesdownloading]
      simp
  · obtain ⟨a1, a2, a3, a4⟩ := hadm w1 h1
    refine ⟨?_, some .starting_downloads, w1, hc, (by intro hh; cases hh),
      (by intro _; exact ⟨w1, h1, rfl⟩), (by intro hh; cases hh)⟩
    simp only [counters, task_dec_counter_starting, task_dec_counter_started,
      task_dec_counter_filesdownloading, Prod.mk.injEq] at hc
    simp only [Option.some.injEq, reduceCtorEq, if_true, if_false] at hc
    obtain ⟨c1, c2, c3⟩ := hc
    refine ⟨?_, by rw [c2, a3], ?_⟩
    · rw [c1, a2, a1]; rfl
    · rw [c3, a4]; exact U64_succ_pred _ hf
  · obtain ⟨a1, a2, a3, a4⟩ := hadm w1 h1
    refine ⟨?_, some .started_downloads, promotion w1 env.serversize, hc, (by intro hh; cases hh),
      (by intro hh; cases hh), (by intro _; exact ⟨w1, h1, rfl⟩)⟩
    simp only [counters, task_dec_counter_starting, task_dec_counter_started,
      task_dec_counter_filesdownloading, Prod.mk.injEq] at hc
    simp only [Option.some.injEq, reduceCtorEq, if_true, if_false, promotion] at hc
    obtain ⟨c1, c2, c3⟩ := hc
    refine ⟨?_, ?_, ?_⟩
    · rw [c1, a2, a1]; rfl
    · rw [c2, a3]; exact U64_succ_pred _ hs
    · rw [c3, a4]; exact U64_succ_pred _ hf

/-! ## C19, C29: a run that has opened the temp file -/

theorem local_copy_loop_fs (env : download_env) (name : String)
    (syncid fileid localfolderid : Nat) (filename : String) (ids : List Nat) :
    ∀ w : download_state,
      ∃ ops, (local_copy_loop env name syncid fileid localfolderid filename ids w).2.fs
          = w.fs ++ ops
        ∧ ∀ o ∈ ops, ∃ src dst ok, o = fs_op.copy_local_file src dst ok := by
  induction ids with
  | nil => intro w; exact ⟨[], by simp [local_copy_loop], by intro o ho; cases ho⟩
  | cons id ids ih =>
    intro w
    unfold local_copy_loop
    split
    · exact ih w
    · rename_i tmpname htmp
      simp only []
      have hstep : ∀ w2 : download_state,
          w2.fs = w.fs ++ [fs_op.copy_local_file tmpname name
            (decide (env.copy_local_file id = .PSYNC_NET_OK))] →
          ∀ w3 : download_state, (∃ ops, w3.fs = w2.fs ++ ops
            ∧ ∀ o ∈ ops, ∃ src dst ok, o = fs_op.copy_local_file src dst ok) →
          ∃ ops, w3.fs = w.fs ++ ops
            ∧ ∀ o ∈ ops, ∃ src dst ok, o = fs_op.copy_local_file src dst ok := by
        intro w2 h2 w3 ⟨ops, h3, h4⟩
        refine ⟨fs_op.copy_local_file tmpname name
          (decide (env.copy_local_file id = .PSYNC_NET_OK)) :: ops, by rw [h3, h2]; simp, ?_⟩
        intro o ho
        rcases List.mem_cons.1 ho with rfl | ho
        · exact ⟨_, _, _, rfl⟩
        · exact h4 o ho
      split
      · split
        · rename_i w1 hs
          obtain ⟨_, h2, _, _⟩ := stat_and_create_local_frame hs
          exact hstep w1 h2 w1 ⟨[], by simp, by intro o ho; cases ho⟩
        · exact hstep _ rfl _ (ih _)
      · exact hstep _ rfl _ (ih _)

theorem local_copy_loop_fs_eq {env : download_env} {name : String}
    {syncid fileid localfolderid : Nat} {filename : String} {ids : List Nat}
    {w w1 : download_state} {b : Bool}
    (h : local_copy_loop env name syncid fileid localfolderid filename ids w = (b, w1)) :
    ∃ ops, w1.fs = w.fs ++ ops
      ∧ ∀ o ∈ ops, ∃ src dst ok, o = fs_op.copy_local_file src dst ok := by
  have := local_copy_loop_fs env name syncid fileid localfolderid filename ids w
  rw [h] at this
  exact this

theorem mem_tmpold_deletes {t : Option String} {p : String}
    (h : fs_op.file_delete p ∈ t.toList.map fs_op.file_delete) : t = some p := by
  cases t with
  | none => simp at h
  | some q => simp at h; rw [h]

theorem rescue_tmpold_tmpold (cfg : psync_settings) (env : download_env) (w : download_state)
    (l : download_locals) (localpath tmpname filename : String) (hl : l.tmpold = none) :
    ∃ ops, (rescue_tmpold cfg env w l localpath tmpname filename).1.fs = w.fs ++ ops
      ∧ (∀ o ∈ ops, o = fs_op.file_rename_overwrite tmpname
          (localpath ++ cfg.PSYNC_DIRECTORY_SEPARATOR ++ filename ++ "-old"
            ++ cfg.PSYNC_APPEND_PARTIAL_FILES) env.rename_tmpold)
      ∧ (∀ o ∈ ops, env.rename_tmpold = true →
          (rescue_tmpold cfg env w l localpath tmpname filename).2.tmpold
            = some (localpath ++ cfg.PSYNC_DIRECTORY_SEPARATOR ++ filename ++ "-old"
              ++ cfg.PSYNC_APPEND_PARTIAL_FILES))
      ∧ ((rescue_tmpold cfg env w l localpath tmpname filename).2.tmpold = none
        ∨ (rescue_tmpold cfg env w l localpath tmpname filename).2.tmpold
            = some (localpath ++ cfg.PSYNC_DIRECTORY_SEPARATOR ++ filename ++ "-old"
              ++ cfg.PSYNC_APPEND_PARTIAL_FILES)) := by
  unfold rescue_tmpold
  split
  · split
    · split
      · refine ⟨[_], rfl, (by intro o ho; exact List.mem_singleton.1 ho), ?_, ?_⟩
        · intro o _ hr
          simp only [hr, if_true]
        · simp only []
          split
          · exact Or.inr rfl
          · exact Or.inl hl
      · exact ⟨[], by simp, (by intro o ho; cases ho), (by intro o ho; cases ho), Or.inl hl⟩
    · exact ⟨[], by simp, (by intro o ho; cases ho), (by intro o ho; cases ho), Or.inl hl⟩
  · exact ⟨[], by simp, (by intro o ho; cases ho), (by intro o ho; cases ho), Or.inl hl⟩

theorem tmpold_ne_tmpname (a b : String) : a ++ "-old" ++ b ≠ a ++ b := by
  intro h
  have := congrArg String.length h
  simp only [String.length_append] at this
  have h4 : "-old".length = 4 := by decide
  omega

theorem neverStopped_of_downloads {env : download_env} {w w1 : download_state} {dwl : Nat}
    (hd : w1.downloads = w.downloads) (h : NeverStopped env w dwl) :
    NeverStopped env w1 dwl := by
  intro n
  rw [stop_value_congr env dwl hd]
  exact h n

theorem read_stop_never {env : download_env} {w : download_state} {dwl : Nat}
    (h : NeverStopped env w dwl) : (read_stop env w dwl).1 = false := by
  rw [read_stop_value]
  exact h _

theorem neverStopped_canonical (env : download_env) :
    NeverStopped { env with stop_set := fun _ => false } (download_state.init [] []) 0 := by
  intro n
  simp [stop_value, download_state.init]

/-- Every call of the read loop of a transfer reads the flag. -/
theorem transfer_loop_reads (env : download_env) (dwl : Nat) (reads : List chunk_io)
    (w : download_state) (d : Nat) :
    w.stop_reads + 1 ≤ (transfer_loop env dwl reads w d).2.1.stop_reads := by
  cases reads with
  | nil => simp [transfer_loop]
  | cons c reads =>
    unfold transfer_loop
    split
    · simp
    · simp only []
      split
      · simp
      · split
        · simp
        · split
          · simp
          · exact (transfer_loop_stop env dwl reads
              { (read_stop env w dwl).2 with
                bytesdownloaded := U64 (((read_stop env w dwl).2.bytesdownloaded : Int) + c.rd) }
              (U64 ((d : Int) + c.rd))).1

theorem copy_loop_reads (env : download_env) (dwl : Nat) (reads : List chunk_io)
    (w : download_state) (d result : Nat) :
    w.stop_reads + 1 ≤ (copy_loop env dwl reads w d result).2.1.stop_reads := by
  cases reads with
  | nil =>
    unfold copy_loop
    split
    · simp
    · split <;> simp
  | cons c reads =>
    unfold copy_loop
    split
    · simp
    · simp only []
      split
      · simp
      · split
        · simp
        · exact (copy_loop_stop env dwl reads
            { (read_stop env w dwl).2 with
              bytesdownloaded := U64 (((read_stop env w dwl).2.bytesdownloaded : Int) + c.rd) }
            (U64 ((d : Int) + c.rd)) (U64 ((result : Int) - c.rd))).1

/-- The execution of the plan does not lower the number of reads. -/
theorem ranges_loop_reads (env : download_env) (dwl : Nat) (ranges : List psync_range_list_t) :
    ∀ (w : download_state) (d : Nat),
      w.stop_reads ≤ (ranges_loop env dwl ranges w d).2.1.stop_reads := by
  induction ranges with
  | nil => intro w d; simp [ranges_loop]
  | cons r ranges ih =>
    intro w d
    cases r with
    | transfer off len connected reads =>
      unfold ranges_loop
      simp only []
      split
      · exact le_refl _
      · have ht := transfer_loop_reads env dwl reads
          { w with net := w.net ++ [net_op.http_connect off len] } d
        rcases e1 : transfer_loop env dwl reads
          { w with net := w.net ++ [net_op.http_connect off len] } d with ⟨b1, v1, x1⟩
        rw [e1] at ht
        simp only [] at ht
        cases b1
        · simp only []
          omega
        · simp only []
          split
          · simp only [read_stop_stop_reads]
            omega
          · have := ih (read_stop env v1 dwl).2 x1
            simp only [read_stop_stop_reads] at this
            omega
    | copy off len filename opened seeked reads =>
      unfold ranges_loop
      split
      · exact le_refl _
      · have ht := copy_loop_reads env dwl reads w d len
        rcases e1 : copy_loop env dwl reads w d len with ⟨b1, v1, x1⟩
        rw [e1] at ht
        simp only [] at ht
        cases b1
        · simp only []
          omega
        · simp only []
          split
          · simp only [read_stop_stop_reads]
            omega
          · have := ih (read_stop env v1 dwl).2 x1
            simp only [read_stop_stop_reads] at this
            omega

/-- While no read gives `true` the outcome of the read loop of a transfer
depends on the passes only. -/
theorem transfer_loop_quiet (env1 env2 : download_env) (dwl1 dwl2 : Nat)
    (reads : List chunk_io) :
    ∀ (w1 w2 : download_state) (d1 d2 : Nat),
      (∀ n, w1.stop_reads ≤ n → n < (transfer_loop env1 dwl1 reads w1 d1).2.1.stop_reads →
        stop_value env1 w1 dwl1 n = false) →
      NeverStopped env2 w2 dwl2 →
      (transfer_loop env1 dwl1 reads w1 d1).1 = (transfer_loop env2 dwl2 reads w2 d2).1 := by
  induction reads with
  | nil => intro w1 w2 d1 d2 _ _; simp [transfer_loop]
  | cons c reads ih =>
    intro w1 w2 d1 d2 hq h2
    have hr1 : (read_stop env1 w1 dwl1).1 = false := by
      rw [read_stop_value]
      exact hq _ (le_refl _) (by
        have := transfer_loop_reads env1 dwl1 (c :: reads) w1 d1
        omega)
    unfold transfer_loop at hq ⊢
    rw [hr1] at hq ⊢
    rw [read_stop_never h2]
    simp only [Bool.false_eq_true, if_false] at hq ⊢
    by_cases c0 : c.rd = 0
    · simp [c0]
    · rw [if_neg c0] at hq
      rw [if_neg c0, if_neg c0]
      by_cases c1 : c.rd < 0 ∨ c.write_ok = false
      · rw [if_pos c1, if_pos c1]
      · rw [if_neg c1] at hq
        rw [if_neg c1, if_neg c1]
        by_cases c2 : c.statuses_ok = false
        · rw [if_pos c2, if_pos c2]
        · rw [if_neg c2] at hq
          rw [if_neg c2, if_neg c2]
          refine ih _ _ _ _ ?_ (neverStopped_of_downloads rfl h2)
          intro n hn1 hn2
          simp only [read_stop_stop_reads] at hn1
          exact hq n (by omega) hn2

theorem copy_loop_quiet (env1 env2 : download_env) (dwl1 dwl2 : Nat)
    (reads : List chunk_io) :
    ∀ (w1 w2 : download_state) (d1 d2 result : Nat),
      (∀ n, w1.stop_reads ≤ n →
        n < (copy_loop env1 dwl1 reads w1 d1 result).2.1.stop_reads →
        stop_value env1 w1 dwl1 n = false) →
      NeverStopped env2 w2 dwl2 →
      (copy_loop env1 dwl1 reads w1 d1 result).1 = (copy_loop env2 dwl2 reads w2 d2 result).1 := by
  induction reads with
  | nil =>
    intro w1 w2 d1 d2 result hq h2
    have hr1 : (read_stop env1 w1 dwl1).1 = false := by
      rw [read_stop_value]
      exact hq _ (le_refl _) (by
        have := copy_loop_reads env1 dwl1 [] w1 d1 result
        omega)
    unfold copy_loop
    rw [hr1, read_stop_never h2]
    simp only [Bool.false_eq_true, if_false]
    split <;> rfl
  | cons c reads ih =>
    intro w1 w2 d1 d2 result hq h2
    have hr1 : (read_stop env1 w1 dwl1).1 = false := by
      rw [read_stop_value]
      exact hq _ (le_refl _) (by
        have := copy_loop_reads env1 dwl1 (c :: reads) w1 d1 result
        omega)
    unfold copy_loop at hq ⊢
    rw [hr1] at hq ⊢
    rw [read_stop_never h2]
    simp only [Bool.false_eq_true, if_false] at hq ⊢
    by_cases c0 : result = 0
    · rw [if_pos c0, if_pos c0]
    · rw [if_neg c0] at hq
      rw [if_neg c0, if_neg c0]
      by_cases c1 : c.rd ≤ 0 ∨ c.write_ok = false ∨ c.statuses_ok = false
      · rw [if_pos c1, if_pos c1]
      · rw [if_neg c1] at hq
        rw [if_neg c1, if_neg c1]
        refine ih _ _ _ _ _ ?_ (neverStopped_of_downloads rfl h2)
        intro n hn1 hn2
        simp only [read_stop_stop_reads] at hn1
        exact hq n (by omega) hn2

/-- What follows a range of the plan, while no read gives `true`. -/
theorem ranges_loop_quiet_step (env1 env2 : download_env) (dwl1 dwl2 : Nat)
    (ranges : List psync_range_list_t) (w1 v1 v2 : download_state) (x1 x2 : Nat)
    (ih : ∀ (w1 w2 : download_state) (d1 d2 : Nat),
      (∀ n, w1.stop_reads ≤ n → n < (ranges_loop env1 dwl1 ranges w1 d1).2.1.stop_reads →
        stop_value env1 w1 dwl1 n = false) →
      NeverStopped env2 w2 dwl2 →
      (ranges_loop env1 dwl1 ranges w1 d1).1 = (ranges_loop env2 dwl2 ranges w2 d2).1)
    (hd : v1.downloads = w1.downloads) (hle : w1.stop_reads ≤ v1.stop_reads)
    (hq : ∀ n, w1.stop_reads ≤ n →
      n < (if (read_stop env1 v1 dwl1).1 then (true, (read_stop env1 v1 dwl1).2, x1)
        else ranges_loop env1 dwl1 ranges (read_stop env1 v1 dwl1).2 x1).2.1.stop_reads →
      stop_value env1 w1 dwl1 n = false)
    (h2 : NeverStopped env2 v2 dwl2) :
    (if (read_stop env1 v1 dwl1).1 then (true, (read_stop env1 v1 dwl1).2, x1)
      else ranges_loop env1 dwl1 ranges (read_stop env1 v1 dwl1).2 x1).1
    = (if (read_stop env2 v2 dwl2).1 then (true, (read_stop env2 v2 dwl2).2, x2)
      else ranges_loop env2 dwl2 ranges (read_stop env2 v2 dwl2).2 x2).1 := by
  have hr1 : (read_stop env1 v1 dwl1).1 = false := by
    rw [read_stop_value, stop_value_congr env1 dwl1 hd]
    refine hq _ hle ?_
    split
    · simp
    · have := ranges_loop_reads env1 dwl1 ranges (read_stop env1 v1 dwl1).2 x1
      simp only [read_stop_stop_reads] at this
      omega
  rw [hr1] at hq ⊢
  rw [read_stop_never h2]
  simp only [Bool.false_eq_true, if_false] at hq ⊢
  refine ih _ _ _ _ ?_ (neverStopped_of_downloads rfl h2)
  intro n hn1 hn2
  simp only [read_stop_stop_reads] at hn1
  rw [stop_value_congr env1 dwl1 (show (read_stop env1 v1 dwl1).2.downloads = w1.downloads from hd)]
  exact hq n (by omega) hn2

/-- While no read gives `true` the outcome of the execution of the plan
depends on the plan only. -/
theorem ranges_loop_quiet (env1 env2 : download_env) (dwl1 dwl2 : Nat)
    (ranges : List psync_range_list_t) :
    ∀ (w1 w2 : download_state) (d1 d2 : Nat),
      (∀ n, w1.stop_reads ≤ n → n < (ranges_loop env1 dwl1 ranges w1 d1).2.1.stop_reads →
        stop_value env1 w1 dwl1 n = false) →
      NeverStopped env2 w2 dwl2 →
      (ranges_loop env1 dwl1 ranges w1 d1).1 = (ranges_loop env2 dwl2 ranges w2 d2).1 := by
  induction ranges with
  | nil => intro w1 w2 d1 d2 _ _; simp [ranges_loop]
  | cons r ranges ih =>
    intro w1 w2 d1 d2 hq h2
    cases r with
    | transfer off len connected reads =>
      unfold ranges_loop at hq ⊢
      simp only [] at hq ⊢
      by_cases hc : connected = false
      · rw [if_pos hc, if_pos hc]
      · rw [if_neg hc] at hq
        rw [if_neg hc, if_neg hc]
        have f1 := (transfer_loop_frame env1 dwl1 reads
          { w1 with net := w1.net ++ [net_op.http_connect off len] } d1).2.2.2
        have f2 := (transfer_loop_frame env2 dwl2 reads
          { w2 with net := w2.net ++ [net_op.http_connect off len] } d2).2.2.2
        have g1 := transfer_loop_reads env1 dwl1 reads
          { w1 with net := w1.net ++ [net_op.http_connect off len] } d1
        have ht := transfer_loop_quiet env1 env2 dwl1 dwl2 reads
          { w1 with net := w1.net ++ [net_op.http_connect off len] }
          { w2 with net := w2.net ++ [net_op.http_connect off len] } d1 d2
        rcases e1 : transfer_loop env1 dwl1 reads
          { w1 with net := w1.net ++ [net_op.http_connect off len] } d1 with ⟨b1, v1, x1⟩
        rcases e2 : transfer_loop env2 dwl2 reads
          { w2 with net := w2.net ++ [net_op.http_connect off len] } d2 with ⟨b2, v2, x2⟩
        rw [e1] at hq f1 g1 ht
        rw [e2] at f2 ht
        simp only [] at hq f1 f2 g1 ht ⊢
        have hin : ∀ n, w1.stop_reads ≤ n → n < v1.stop_reads →
            stop_value env1 w1 dwl1 n = false := by
          intro n hn1 hn2
          refine hq n hn1 ?_
          cases b1
          · exact hn2
          · simp only []
            split
            · simp only [read_stop_stop_reads]
              omega
            · have := ranges_loop_reads env1 dwl1 ranges (read_stop env1 v1 dwl1).2 x1
              simp only [read_stop_stop_reads] at this
              omega
        have hb := ht hin (neverStopped_of_downloads rfl h2)
        subst hb
        cases b1
        · rfl
        · exact ranges_loop_quiet_step env1 env2 dwl1 dwl2 ranges w1 v1 v2 x1 x2 ih f1
            (by omega) hq (neverStopped_of_downloads f2 h2)
    | copy off len filename opened seeked reads =>
      unfold ranges_loop at hq ⊢
      by_cases hc : opened = false ∨ seeked = false
      · rw [if_pos hc, if_pos hc]
      · rw [if_neg hc] at hq
        rw [if_neg hc, if_neg hc]
        have f1 := (copy_loop_frame env1 dwl1 reads w1 d1 len).2.2.2
        have f2 := (copy_loop_frame env2 dwl2 reads w2 d2 len).2.2.2
        have g1 := copy_loop_reads env1 dwl1 reads w1 d1 len
        have ht := copy_loop_quiet env1 env2 dwl1 dwl2 reads w1 w2 d1 d2 len
        rcases e1 : copy_loop env1 dwl1 reads w1 d1 len with ⟨b1, v1, x1⟩
        rcases e2 : copy_loop env2 dwl2 reads w2 d2 len with ⟨b2, v2, x2⟩
        rw [e1] at hq f1 g1 ht
        rw [e2] at f2 ht
        simp only [] at hq f1 f2 g1 ht ⊢
        have hin : ∀ n, w1.stop_reads ≤ n → n < v1.stop_reads →
            stop_value env1 w1 dwl1 n = false := by
          intro n hn1 hn2
          refine hq n hn1 ?_
          cases b1
          · exact hn2
          · simp only []
            split
            · simp only [read_stop_stop_reads]
              omega
            · have := ranges_loop_reads env1 dwl1 ranges (read_stop env1 v1 dwl1).2 x1
              simp only [read_stop_stop_reads] at this
              omega
        have hb := ht hin h2
        subst hb
        cases b1
        · rfl
        · exact ranges_loop_quiet_step env1 env2 dwl1 dwl2 ranges w1 v1 v2 x1 x2 ih f1
            (by omega) hq (neverStopped_of_downloads f2 h2)

/-- While no read gives `true` the plan is executed without error exactly when
it does not fail. -/
theorem ranges_loop_plan_fails {env : download_env} {w : download_state} {dwl : Nat}
    (ranges : List psync_range_list_t) (d : Nat)
    (h : ∀ n, w.stop_reads ≤ n → n < (ranges_loop env dwl ranges w d).2.1.stop_reads →
      stop_value env w dwl n = false) :
    (ranges_loop env dwl ranges w d).1 = false ↔ plan_fails env ranges := by
  unfold plan_fails
  rw [ranges_loop_quiet env { env with stop_set := fun _ => false } dwl 0 ranges w
    (download_state.init [] []) d 0 h (neverStopped_canonical env)]

/-- A plan that starts with a transfer no host answers (`psync_http_connect`
returns `NULL` for every host, line 678) fails. -/
theorem plan_fails_connect (env : download_env) (off len : Nat) (reads : List chunk_io)
    (ranges : List psync_range_list_t) :
    plan_fails env (.transfer off len false reads :: ranges) := by
  simp [plan_fails, ranges_loop]

/-- A plan that starts with a copy whose source cannot be opened or positioned
(lines 703-709) fails. -/
theorem plan_fails_open_seek (env : download_env) (off len : Nat) (filename : String)
    (opened seeked : Bool) (reads : List chunk_io) (ranges : List psync_range_list_t)
    (h : opened = false ∨ seeked = false) :
    plan_fails env (.copy off len filename opened seeked reads :: ranges) := by
  simp [plan_fails, ranges_loop, h]

/-- A plan that starts with a transfer whose first pass meets a read error or,
having read something, a failed write (lines 686-691) fails. -/
theorem plan_fails_read_write (env : download_env) (off len : Nat) (c : chunk_io)
    (reads : List chunk_io) (ranges : List psync_range_list_t)
    (h : c.rd < 0 ∨ (c.rd ≠ 0 ∧ c.write_ok = false)) :
    plan_fails env (.transfer off len true (c :: reads) :: ranges) := by
  have h0 : c.rd ≠ 0 := by rcases h with h | h <;> omega
  have h1 : c.rd < 0 ∨ c.write_ok = false := by
    rcases h with h | h
    · exact Or.inl h
    · exact Or.inr h.2
  simp [plan_fails, ranges_loop, transfer_loop, read_stop, download_state.init, h0, h1]

/-- A plan that starts with a transfer whose first pass reads and writes a
chunk and then fails the status check (lines 694-695) fails. -/
theorem plan_fails_statuses (env : download_env) (off len : Nat) (c : chunk_io)
    (reads : List chunk_io) (ranges : List psync_range_list_t)
    (h1 : 0 < c.rd) (h2 : c.write_ok = true) (h3 : c.statuses_ok = false) :
    plan_fails env (.transfer off len true (c :: reads) :: ranges) := by
  have h0 : c.rd ≠ 0 := by omega
  have h4 : ¬ (c.rd < 0 ∨ c.write_ok = false) := by
    rw [h2]
    simp
    omega
  simp [plan_fails, ranges_loop, transfer_loop, read_stop, download_state.init, h0, h4, h3]

/-- A part of the run that neither deletes nor opens a file. -/
theorem afterOpen_leaf {env : download_env} {w : download_state} {dwl : Nat}
    {tmpname name tmpold : String} {r : download_result} (ops : List fs_op)
    (hfs : r.state.fs = w.fs ++ ops)
    (hnd : ∀ o ∈ ops, (∀ p, o ≠ fs_op.file_delete p) ∧ ∀ p ok, o ≠ fs_op.file_open_trunc p ok) :
    AfterOpen env w dwl tmpname name tmpold r :=
  ⟨ops, hfs, fun hm => ((hnd _ hm).1 _ rfl).elim, fun hm => ((hnd _ hm).2 _ _ rfl).elim⟩

/-- Calls that neither delete, nor rename, nor open a file, made before a part
of the run that leaves `localfile` and the stop flag as they are, do not change
what the part does once it has opened the temp file. -/
theorem afterOpen_of_stage {env : download_env} {w w1 : download_state} {dwl : Nat}
    {tmpname name tmpold : String} {r : download_result} (pre : List fs_op)
    (hfs : w1.fs = w.fs ++ pre)
    (hpre : ∀ o ∈ pre, (∀ p, o ≠ fs_op.file_delete p)
      ∧ (∀ a b ok, o ≠ fs_op.file_rename_overwrite a b ok)
      ∧ ∀ p ok, o ≠ fs_op.file_open_trunc p ok)
    (hlf : w1.localfile = w.localfile)
    (hsv : stop_value env w1 dwl = stop_value env w dwl)
    (hle : w.stop_reads ≤ w1.stop_reads)
    (h : AfterOpen env w1 dwl tmpname name tmpold r) :
    AfterOpen env w dwl tmpname name tmpold r := by
  obtain ⟨ops, h1, h2, h3⟩ := h
  refine ⟨pre ++ ops, by rw [h1, hfs, List.append_assoc], ?_, ?_⟩
  · intro hm
    rcases List.mem_append.1 hm with hm | hm
    · exact ((hpre _ hm).1 _ rfl).elim
    · obtain ⟨n, n1, n2, n3⟩ := h2 hm
      exact ⟨n, le_trans hle n1, n2, by rw [← hsv]; exact n3⟩
  · intro hm
    have hm1 : fs_op.file_open_trunc tmpname true ∈ ops := by
      rcases List.mem_append.1 hm with hm | hm
      · exact ((hpre _ hm).2.2 _ _ rfl).elim
      · exact hm
    obtain ⟨a1, a2, a3, a4, a5⟩ := h3 hm1
    refine ⟨a1, a2, a3, ?_, ?_⟩
    · intro hns
      exact a4 (by intro n hn1 hn2; rw [hsv]; exact hns n (le_trans hle hn1) hn2)
    · intro hh
      obtain ⟨b1, b2, b3, b4⟩ := a5 hh
      refine ⟨b1, by rw [b2, hlf], ?_, ?_⟩
      · intro oldname ok hmem
        rcases List.mem_append.1 hmem with hmem | hmem
        · exact (hpre _ hmem).2.1 _ _ _ rfl
        · exact b3 oldname ok hmem
      · intro hmem
        rcases List.mem_append.1 hmem with hmem | hmem
        · exact ((hpre _ hmem).2.1 _ _ _ rfl).elim
        · exact List.mem_append_right _ (b4 hmem)

/-- The calls `rename_if_notex` makes to the file system. -/
theorem rename_if_notex_ops {env : download_env} {site : publish_site}
    {w w1 : download_state} {oldname newname : String} {localfolderid syncid : Nat}
    {filename : String} {b : Bool}
    (h : rename_if_notex env site w oldname newname localfolderid syncid filename = (b, w1)) :
    ∃ ops, w1.fs = w.fs ++ ops
      ∧ ∀ o ∈ ops, o = fs_op.rename_conflicted_file newname
          ∨ o = fs_op.file_rename_overwrite oldname newname (env.rename_overwrite site) := by
  unfold rename_if_notex at h
  split at h
  · split at h
    · cases h
      exact ⟨[], by simp, by intro o ho; cases ho⟩
    · cases h
      refine ⟨[fs_op.rename_conflicted_file newname,
        fs_op.file_rename_overwrite oldname newname (env.rename_overwrite site)],
        by simp [create_conflicted], ?_⟩
      intro o ho
      simpa using ho
    · cases h
      exact ⟨[fs_op.file_rename_overwrite oldname newname (env.rename_overwrite site)],
        rfl, by intro o ho; exact Or.inr (List.mem_singleton.1 ho)⟩
  · cases h
    exact ⟨[fs_op.file_rename_overwrite oldname newname (env.rename_overwrite site)],
      rfl, by intro o ho; exact Or.inr (List.mem_singleton.1 ho)⟩

/-- Lines 737-775 seen from outside: which calls are made, and which exit is
taken. -/
theorem download_finish_after (env : download_env) (w : download_state)
    (l : download_locals) (tmpname : String) (syncid fileid localfolderid : Nat)
    (filename : String) (dwl : Nat) :
    ∃ ops, (download_finish env w l tmpname syncid fileid localfolderid filename dwl).state.fs
        = w.fs ++ ops
      ∧ (∀ o ∈ ops, ∀ p ok, o ≠ fs_op.file_open_trunc p ok)
      ∧ (∀ p, fs_op.file_delete p ∈ ops →
          l.tmpold = some p ∨ (p = tmpname ∧ stop_value env w dwl w.stop_reads = true))
      ∧ (download_finish env w l tmpname syncid fileid localfolderid filename dwl).exit
          ≠ .return_481
      ∧ (download_finish env w l tmpname syncid fileid localfolderid filename dwl).exit ≠ .ret0
      ∧ (stop_value env w dwl w.stop_reads = false → env.file_sync = false →
          (download_finish env w l tmpname syncid fileid localfolderid filename dwl).exit
            = .err2)
      ∧ (env.localhashhex ≠ env.serverhashhex →
          (download_finish env w l tmpname syncid fileid localfolderid filename dwl).exit
            ≠ .finished
          ∧ (download_finish env w l tmpname syncid fileid localfolderid filename
              dwl).state.localfile = w.localfile
          ∧ (∀ o ∈ ops, ∃ p, o = fs_op.file_delete p)
          ∧ (∀ p, l.tmpold = some p → fs_op.file_delete p ∈ ops)) := by
  have hdel : ∀ p, fs_op.file_delete p ∈ l.tmpold.toList.map fs_op.file_delete →
      l.tmpold = some p := fun p hm => mem_tmpold_deletes hm
  have hopen : ∀ o ∈ l.tmpold.toList.map fs_op.file_delete, ∀ p ok,
      o ≠ fs_op.file_open_trunc p ok := by
    intro o ho p ok hh
    rw [List.mem_map] at ho
    obtain ⟨_, _, ho⟩ := ho
    rw [hh] at ho
    cases ho
  have hall : ∀ o ∈ l.tmpold.toList.map fs_op.file_delete, ∃ p, o = fs_op.file_delete p := by
    intro o ho
    rw [List.mem_map] at ho
    obtain ⟨p, _, ho⟩ := ho
    exact ⟨p, ho.symm⟩
  have hsome : ∀ p, l.tmpold = some p →
      fs_op.file_delete p ∈ l.tmpold.toList.map fs_op.file_delete := by
    intro p hp
    rw [hp]
    simp
  unfold download_finish
  split
  · rename_i hread
    rw [read_stop_value] at hread
    refine ⟨fs_op.file_delete tmpname :: l.tmpold.toList.map fs_op.file_delete, by simp,
      ?_, ?_, by simp, by simp, ?_, ?_⟩
    · intro o ho p ok
      rcases List.mem_cons.1 ho with rfl | ho
      · intro hh; cases hh
      · exact hopen o ho p ok
    · intro p hp
      rcases List.mem_cons.1 hp with hp | hp
      · injection hp with hp
        exact Or.inr ⟨hp, hread⟩
      · exact Or.inl (hdel p hp)
    · intro hf
      rw [hf] at hread
      cases hread
    · intro _
      refine ⟨by simp, by simp, ?_, ?_⟩
      · intro o ho
        rcases List.mem_cons.1 ho with rfl | ho
        · exact ⟨_, rfl⟩
        · exact hall o ho
      · intro p hp
        exact List.mem_cons_of_mem _ (hsome p hp)
  · simp only []
    split
    · refine ⟨l.tmpold.toList.map fs_op.file_delete, by simp [exit_err1], hopen,
        (fun p hp => Or.inl (hdel p hp)), by simp, by simp, (fun _ _ => by simp), ?_⟩
      intro _
      exact ⟨by simp, by simp [exit_err1], hall, hsome⟩
    · rename_i hsync
      split
      · refine ⟨l.tmpold.toList.map fs_op.file_delete, by simp, hopen,
          (fun p hp => Or.inl (hdel p hp)), by simp, by simp,
          (fun _ hs => (hsync hs).elim), ?_⟩
        intro _
        exact ⟨by simp, by simp, hall, hsome⟩
      · split
        · refine ⟨l.tmpold.toList.map fs_op.file_delete, by simp, hopen,
            (fun p hp => Or.inl (hdel p hp)), by simp, by simp,
            (fun _ hs => (hsync hs).elim), ?_⟩
          intro _
          exact ⟨by simp, by simp, hall, hsome⟩
        · rename_i hmis
          have hren : ∀ (w1 : download_state) (ops : List fs_op),
              (∀ o ∈ ops, o = fs_op.rename_conflicted_file l.name
                ∨ o = fs_op.file_rename_overwrite tmpname l.name
                  (env.rename_overwrite .downloaded)) →
              (∀ o ∈ ops ++ l.tmpold.toList.map fs_op.file_delete, ∀ p ok,
                  o ≠ fs_op.file_open_trunc p ok)
              ∧ (∀ p, fs_op.file_delete p ∈ ops ++ l.tmpold.toList.map fs_op.file_delete →
                  l.tmpold = some p
                  ∨ (p = tmpname ∧ stop_value env w dwl w.stop_reads = true)) := by
            intro w1 ops o2
            constructor
            · intro o ho p ok
              rcases List.mem_append.1 ho with ho | ho
              · rcases o2 o ho with rfl | rfl <;> intro hh <;> cases hh
              · exact hopen o ho p ok
            · intro p hp
              rcases List.mem_append.1 hp with hp | hp
              · rcases o2 _ hp with hh | hh <;> cases hh
              · exact Or.inl (hdel p hp)
          split
          · rename_i w1 hw1
            obtain ⟨ops, o1, o2⟩ := rename_if_notex_ops hw1
            exact ⟨ops ++ l.tmpold.toList.map fs_op.file_delete, by simp [o1],
              (hren w1 ops o2).1, (hren w1 ops o2).2, by simp, by simp,
              (fun _ hs => (hsync hs).elim), (fun hh => (hmis hh).elim)⟩
          · rename_i w1 hw1
            obtain ⟨ops, o1, o2⟩ := rename_if_notex_ops hw1
            split
            · exact ⟨ops ++ l.tmpold.toList.map fs_op.file_delete, by simp [o1],
                (hren w1 ops o2).1, (hren w1 ops o2).2, by simp, by simp,
                (fun _ hs => (hsync hs).elim), (fun hh => (hmis hh).elim)⟩
            · rename_i w2 hw2
              obtain ⟨_, s2, _, _⟩ := stat_and_create_local_frame hw2
              refine ⟨ops ++ l.tmpold.toList.map fs_op.file_delete, ?_,
                (hren w1 ops o2).1, (hren w1 ops o2).2, by simp, by simp,
                (fun _ hs => (hsync hs).elim), (fun hh => (hmis hh).elim)⟩
              cases l.tmpold <;> simp [unlock_file, s2, o1]

theorem download_execute_after (cfg : psync_settings) (env : download_env)
    (w : download_state) (l : download_locals) (localpath : String) (localsize : Nat)
    (syncid fileid localfolderid : Nat) (filename : String) (dwl : Nat)
    (hname : l.name = localpath ++ cfg.PSYNC_DIRECTORY_SEPARATOR ++ filename)
    (hl : l.tmpold = none) :
    AfterOpen env w dwl
      (localpath ++ cfg.PSYNC_DIRECTORY_SEPARATOR ++ filename ++ cfg.PSYNC_APPEND_PARTIAL_FILES)
      l.name
      (localpath ++ cfg.PSYNC_DIRECTORY_SEPARATOR ++ filename ++ "-old"
        ++ cfg.PSYNC_APPEND_PARTIAL_FILES)
      (download_execute cfg env w l localpath
        (localpath ++ cfg.PSYNC_DIRECTORY_SEPARATOR ++ filename
          ++ cfg.PSYNC_APPEND_PARTIAL_FILES)
        localsize syncid fileid localfolderid filename dwl) := by
  generalize htn : localpath ++ cfg.PSYNC_DIRECTORY_SEPARATOR ++ filename
    ++ cfg.PSYNC_APPEND_PARTIAL_FILES = tmpname
  generalize hto : localpath ++ cfg.PSYNC_DIRECTORY_SEPARATOR ++ filename ++ "-old"
    ++ cfg.PSYNC_APPEND_PARTIAL_FILES = tmpold
  have hne1 : tmpold ≠ tmpname := by
    rw [← htn, ← hto]
    exact tmpold_ne_tmpname _ _
  have hne2 : tmpold ≠ l.name := by
    rw [← hto, hname]
    exact tmpold_ne_name _ _
  unfold download_execute
  have hres := rescue_tmpold_frame cfg env w l localpath tmpname filename
  obtain ⟨opsr, hfs, hops, hresc, htmp⟩ := rescue_tmpold_tmpold cfg env w l localpath
    tmpname filename hl
  rw [hto] at hops hresc htmp
  rcases hr : rescue_tmpold cfg env w l localpath tmpname filename with ⟨w1, l1⟩
  rw [hr] at hres hfs hresc htmp
  simp only [] at hres hfs hresc htmp ⊢
  obtain ⟨_, hlf, hsr, hd, hn⟩ := hres
  -- facts on the calls of the rescue and of the exits
  have hdels : ∀ p, fs_op.file_delete p ∈ l1.tmpold.toList.map fs_op.file_delete →
      p = tmpold := by
    intro p hp
    have := mem_tmpold_deletes hp
    rcases htmp with ht | ht
    · rw [ht] at this; cases this
    · rw [ht] at this; exact (Option.some.inj this).symm
  have hrdel : ∀ p, fs_op.file_delete p ∉ opsr := by
    intro p hp
    have := hops _ hp
    cases this
  have hropen : ∀ p ok, fs_op.file_open_trunc p ok ∉ opsr := by
    intro p ok hp
    have := hops _ hp
    cases this
  have hrname : ∀ oldname ok, fs_op.file_rename_overwrite oldname l.name ok ∉ opsr := by
    intro oldname ok hp
    have := hops _ hp
    injection this with _ e2 _
    exact hne2 e2.symm
  have hrescued : fs_op.file_rename_overwrite tmpname tmpold true ∈ opsr →
      fs_op.file_delete tmpold ∈ l1.tmpold.toList.map fs_op.file_delete := by
    intro hp
    have hrt : env.rename_tmpold = true := by
      have := hops _ hp
      injection this with _ _ e3
      exact e3.symm
    have := hresc _ hp hrt
    rw [this]
    simp
  have hleaf : ∀ r : download_result,
      r.state.fs = w1.fs ++ [fs_op.file_open_trunc tmpname env.file_open]
        ++ l1.tmpold.toList.map fs_op.file_delete →
      r.state.localfile = w1.localfile →
      r.exit ≠ .return_481 → r.exit ≠ .ret0 → r.exit ≠ .finished →
      (env.file_open = true →
        (env.download_ranges = .PSYNC_NET_TEMPFAIL → r.exit = .err1)
        ∧ (env.download_ranges ≠ .PSYNC_NET_TEMPFAIL → r.exit = .err2)) →
      AfterOpen env w dwl tmpname l.name tmpold r := by
    intro r hrfs hrlf e1 e2 e3 e4
    refine ⟨opsr ++ [fs_op.file_open_trunc tmpname env.file_open]
      ++ l1.tmpold.toList.map fs_op.file_delete, by rw [hrfs, hfs]; simp, ?_, ?_⟩
    · intro hm
      rcases List.mem_append.1 hm with hm | hm
      · rcases List.mem_append.1 hm with hm | hm
        · exact (hrdel _ hm).elim
        · rw [List.mem_singleton] at hm; cases hm
      · exact (hne1 (hdels _ hm).symm).elim
    · intro hm
      have hopen : env.file_open = true := by
        rcases List.mem_append.1 hm with hm | hm
        · rcases List.mem_append.1 hm with hm | hm
          · exact (hropen _ _ hm).elim
          · rw [List.mem_singleton] at hm
            injection hm with _ e
            exact e.symm
        · rw [List.mem_map] at hm
          obtain ⟨_, _, hm⟩ := hm
          cases hm
      obtain ⟨f1, f2⟩ := e4 hopen
      refine ⟨e1, e2, f1, (fun _ hnt _ => f2 hnt), ?_⟩
      intro _
      refine ⟨e3, by rw [hrlf, hlf], ?_, ?_⟩
      · intro oldname ok hmem
        rcases List.mem_append.1 hmem with hmem | hmem
        · rcases List.mem_append.1 hmem with hmem | hmem
          · exact hrname oldname ok hmem
          · rw [List.mem_singleton] at hmem; cases hmem
        · rw [List.mem_map] at hmem
          obtain ⟨_, _, hmem⟩ := hmem
          cases hmem
      · intro hmem
        apply List.mem_append_right
        rcases List.mem_append.1 hmem with hmem | hmem
        · rcases List.mem_append.1 hmem with hmem | hmem
          · exact hrescued hmem
          · rw [List.mem_singleton] at hmem; cases hmem
        · rw [List.mem_map] at hmem
          obtain ⟨_, _, hmem⟩ := hmem
          cases hmem
  split
  · rename_i hopen
    exact hleaf _ (by simp) (by simp) (by simp) (by simp) (by simp)
      (fun ho => by rw [ho] at hopen; cases hopen)
  · split
    · rename_i hopen htemp
      exact hleaf _ (by simp [exit_err1]) (by simp [exit_err1]) (by simp) (by simp) (by simp)
        (fun _ => ⟨fun _ => by simp, fun hnt => (hnt htemp).elim⟩)
    · rename_i hopen htemp
      split
      · rename_i w2 d2 hrl
        have hf := ranges_loop_frame_eq hrl
        exact hleaf _ (by simp [exit_err1, hf.2.1]) (by simp [exit_err1, hf.2.2.1])
          (by simp) (by simp) (by simp)
          (fun _ => ⟨fun ht => (htemp ht).elim, fun _ => by simp⟩)
      · rename_i w2 d2 hrl
        have hf := ranges_loop_frame_eq hrl
        have hd2 : w2.downloads = w.downloads := by rw [hf.2.2.2]; exact hd
        have hle2 : w.stop_reads ≤ w2.stop_reads := by
          have := ranges_loop_reads env dwl env.ranges
            { w1 with
              fs := w1.fs ++ [fs_op.file_open_trunc tmpname env.file_open],
              net := w1.net ++ [net_op.net_download_ranges fileid
                (if env.serversize ≥ cfg.PSYNC_MIN_SIZE_FOR_CHECKSUMS then
                  l1.tmpold.toList
                    ++ (if localsize ≥ cfg.PSYNC_MIN_SIZE_FOR_CHECKSUMS then [l1.name]
                        else [])
                else [])] } l1.downloadedsize
          rw [hrl] at this
          simp only [] at this
          omega
        obtain ⟨opsf, g1, g2, g3, g4, g5, g6, g7⟩ := download_finish_after env w2
          { l1 with downloadedsize := d2 } tmpname syncid fileid localfolderid filename dwl
        refine ⟨opsr ++ [fs_op.file_open_trunc tmpname env.file_open] ++ opsf, ?_, ?_, ?_⟩
        · rw [g1, hf.2.1]
          simp [hfs]
        · intro hm
          rcases List.mem_append.1 hm with hm | hm
          · rcases List.mem_append.1 hm with hm | hm
            · exact (hrdel _ hm).elim
            · rw [List.mem_singleton] at hm; cases hm
          · rcases g3 _ hm with hh | hh
            · simp only [] at hh
              rcases htmp with ht | ht
              · rw [ht] at hh; cases hh
              · rw [ht] at hh
                exact (hne1 (Option.some.inj hh)).elim
            · refine ⟨w2.stop_reads, hle2, ?_, ?_⟩
              · rw [download_finish_stop_reads]
                omega
              · rw [← stop_value_congr env dwl hd2]
                exact hh.2
        · intro hm
          refine ⟨g4, g5, (fun ht => (htemp ht).elim), ?_, ?_⟩
          · intro hns _ hor
            rw [Unobserved, download_finish_stop_reads] at hns
            have hnf : ¬ plan_fails env env.ranges := by
              intro hpf
              have := (@ranges_loop_plan_fails env
                ({ w1 with
                    fs := w1.fs ++ [fs_op.file_open_trunc tmpname env.file_open],
                    net := w1.net ++ [net_op.net_download_ranges fileid
                      (if env.serversize ≥ cfg.PSYNC_MIN_SIZE_FOR_CHECKSUMS then
                        l1.tmpold.toList
                          ++ (if localsize ≥ cfg.PSYNC_MIN_SIZE_FOR_CHECKSUMS then [l1.name]
                              else [])
                      else [])] } : download_state) dwl
                env.ranges l1.downloadedsize (by
                  rw [hrl]
                  intro n hn1 hn2
                  simp only [] at hn1 hn2
                  refine Eq.trans (congrFun (stop_value_congr env dwl ?_) n)
                    (hns n (by omega) (by omega))
                  exact hd)).2 hpf
              rw [hrl] at this
              cases this
            rcases hor with hor | hor
            · exact (hnf hor).elim
            · refine g6 ?_ hor
              rw [stop_value_congr env dwl hd2]
              exact hns _ hle2 (by omega)
          · intro hh
            obtain ⟨k1, k2, k3, k4⟩ := g7 hh
            refine ⟨k1, by rw [k2, hf.2.2.1]; exact hlf, ?_, ?_⟩
            · intro oldname ok hmem
              rcases List.mem_append.1 hmem with hmem | hmem
              · rcases List.mem_append.1 hmem with hmem | hmem
                · exact hrname oldname ok hmem
                · rw [List.mem_singleton] at hmem; cases hmem
              · obtain ⟨p, hp⟩ := k3 _ hmem
                cases hp
            · intro hmem
              apply List.mem_append_right
              apply k4
              simp only []
              rcases List.mem_append.1 hmem with hmem | hmem
              · rcases List.mem_append.1 hmem with hmem | hmem
                · have hrt : env.rename_tmpold = true := by
                    have := hops _ hmem
                    injection this with _ _ e3
                    exact e3.symm
                  exact hresc _ hmem hrt
                · rw [List.mem_singleton] at hmem; cases hmem
              · obtain ⟨p, hp⟩ := k3 _ hmem
                cases hp

theorem download_request_after (cfg : psync_settings) (env : download_env)
    (w : download_state) (l : download_locals) (localpath : String) (localsize : Nat)
    (syncid fileid localfolderid : Nat) (filename : String) (dwl : Nat)
    (hname : l.name = localpath ++ cfg.PSYNC_DIRECTORY_SEPARATOR ++ filename)
    (hl : l.tmpold = none) :
    AfterOpen env w dwl
      (localpath ++ cfg.PSYNC_DIRECTORY_SEPARATOR ++ filename ++ cfg.PSYNC_APPEND_PARTIAL_FILES)
      l.name
      (localpath ++ cfg.PSYNC_DIRECTORY_SEPARATOR ++ filename ++ "-old"
        ++ cfg.PSYNC_APPEND_PARTIAL_FILES)
      (download_request cfg env w l localpath
        (localpath ++ cfg.PSYNC_DIRECTORY_SEPARATOR ++ filename
          ++ cfg.PSYNC_APPEND_PARTIAL_FILES)
        localsize syncid fileid localfolderid filename dwl) := by
  unfold download_request
  split
  · exact afterOpen_leaf [] (by simp [exit_err_sl_ex, unlock_file]) (by intro o ho; cases ho)
  · simp only []
    split
    · exact afterOpen_leaf [] (by simp [exit_err_sl_ex, unlock_file]) (by intro o ho; cases ho)
    · split
      · split
        · exact afterOpen_leaf [] (by simp [hl]) (by intro o ho; cases ho)
        · exact afterOpen_leaf [] (by simp) (by intro o ho; cases ho)
      · exact afterOpen_of_stage [] (by simp) (by intro o ho; cases ho) rfl
          (stop_value_congr env dwl rfl) (le_refl _)
          (download_execute_after cfg env _ l localpath localsize syncid fileid localfolderid
            filename dwl hname hl)

theorem download_start_after (cfg : psync_settings) (env : download_env)
    (w : download_state) (l : download_locals) (localpath : String) (localsize : Nat)
    (localhashhex : String) (syncid fileid localfolderid : Nat) (filename : String)
    (dwl : Nat) (hname : l.name = localpath ++ cfg.PSYNC_DIRECTORY_SEPARATOR ++ filename)
    (hl : l.tmpold = none) :
    AfterOpen env w dwl
      (localpath ++ cfg.PSYNC_DIRECTORY_SEPARATOR ++ filename ++ cfg.PSYNC_APPEND_PARTIAL_FILES)
      l.name
      (localpath ++ cfg.PSYNC_DIRECTORY_SEPARATOR ++ filename ++ "-old"
        ++ cfg.PSYNC_APPEND_PARTIAL_FILES)
      (download_start cfg env w l localpath localsize localhashhex syncid fileid localfolderid
        filename dwl) := by
  unfold download_start
  simp only []
  split
  · split
    · have hp2p : ∀ (w1 : download_state) (ops : List fs_op),
          w1.fs = w.fs ++ [fs_op.p2p_download (localpath ++ cfg.PSYNC_DIRECTORY_SEPARATOR
            ++ filename ++ cfg.PSYNC_APPEND_PARTIAL_FILES)] ++ ops →
          (∀ o ∈ ops, o = fs_op.rename_conflicted_file l.name
            ∨ o = fs_op.file_rename_overwrite (localpath ++ cfg.PSYNC_DIRECTORY_SEPARATOR
                ++ filename ++ cfg.PSYNC_APPEND_PARTIAL_FILES) l.name
              (env.rename_overwrite .p2p)) →
          ∀ r : download_result, r.state.fs = w1.fs →
          AfterOpen env w dwl (localpath ++ cfg.PSYNC_DIRECTORY_SEPARATOR ++ filename
              ++ cfg.PSYNC_APPEND_PARTIAL_FILES) l.name
            (localpath ++ cfg.PSYNC_DIRECTORY_SEPARATOR ++ filename ++ "-old"
              ++ cfg.PSYNC_APPEND_PARTIAL_FILES) r := by
        intro w1 ops h1 h2 r h3
        refine afterOpen_leaf ([fs_op.p2p_download (localpath ++ cfg.PSYNC_DIRECTORY_SEPARATOR
          ++ filename ++ cfg.PSYNC_APPEND_PARTIAL_FILES)] ++ ops)
          (by rw [h3, h1, List.append_assoc]) ?_
        intro o ho
        rcases List.mem_append.1 ho with ho | ho
        · rw [List.mem_singleton.1 ho]
          exact ⟨(by intro p hh; cases hh), (by intro p ok hh; cases hh)⟩
        · rcases h2 o ho with rfl | rfl
          · exact ⟨(by intro p hh; cases hh), (by intro p ok hh; cases hh)⟩
          · exact ⟨(by intro p hh; cases hh), (by intro p ok hh; cases hh)⟩
      split
      · rename_i w1 hw1
        obtain ⟨ops, o1, o2⟩ := rename_if_notex_ops hw1
        exact hp2p w1 ops (by rw [o1]; simp [promotion]) o2 _
          (by simp [exit_err_sl_ex, unlock_file])
      · rename_i w1 hw1
        obtain ⟨ops, o1, o2⟩ := rename_if_notex_ops hw1
        split
        · exact hp2p w1 ops (by rw [o1]; simp [promotion]) o2 _
            (by simp [exit_err_sl_ex, unlock_file])
        · rename_i w2 hw2
          obtain ⟨_, s2, _, _⟩ := stat_and_create_local_frame hw2
          exact hp2p w1 ops (by rw [o1]; simp [promotion]) o2 _ (by simp [s2])
    · exact afterOpen_leaf [] (by simp [exit_err_sl_ex, unlock_file, promotion])
        (by intro o ho; cases ho)
    · exact afterOpen_of_stage [] (by simp [promotion]) (by intro o ho; cases ho) rfl
        (stop_value_congr env dwl rfl) (le_refl _)
        (download_request_after cfg env _
          { l with addedsize := env.serversize, current_counter := some .started_downloads }
          localpath localsize syncid fileid localfolderid filename dwl hname hl)
  · exact afterOpen_of_stage [] (by simp [promotion]) (by intro o ho; cases ho) rfl
      (stop_value_congr env dwl rfl) (le_refl _)
      (download_request_after cfg env _
        { l with addedsize := env.serversize, current_counter := some .started_downloads }
        localpath localsize syncid fileid localfolderid filename dwl hname hl)

theorem download_local_after (cfg : psync_settings) (env : download_env)
    (w : download_state) (l : download_locals) (localpath : String) (uninit : String)
    (syncid fileid localfolderid : Nat) (filename : String) (dwl : Nat)
    (hname : l.name = localpath ++ cfg.PSYNC_DIRECTORY_SEPARATOR ++ filename)
    (hl : l.tmpold = none) :
    AfterOpen env w dwl
      (localpath ++ cfg.PSYNC_DIRECTORY_SEPARATOR ++ filename ++ cfg.PSYNC_APPEND_PARTIAL_FILES)
      l.name
      (localpath ++ cfg.PSYNC_DIRECTORY_SEPARATOR ++ filename ++ "-old"
        ++ cfg.PSYNC_APPEND_PARTIAL_FILES)
      (download_local cfg env w l localpath uninit syncid fileid localfolderid filename dwl) := by
  unfold download_local
  simp only []
  have hW : ∀ (c : Prop) [Decidable c],
      (if c then ({ w with local_full := false } : download_state) else w).fs = w.fs
      ∧ (if c then ({ w with local_full := false } : download_state) else w).localfile
        = w.localfile
      ∧ (if c then ({ w with local_full := false } : download_state) else w).downloads
        = w.downloads
      ∧ (if c then ({ w with local_full := false } : download_state) else w).stop_reads
        = w.stop_reads := by
    intro c _
    split <;> exact ⟨rfl, rfl, rfl, rfl⟩
  have hcopy : ∀ ops : List fs_op,
      (∀ o ∈ ops, ∃ src dst ok, o = fs_op.copy_local_file src dst ok) →
      ∀ o ∈ ops, (∀ p, o ≠ fs_op.file_delete p)
        ∧ (∀ a b ok, o ≠ fs_op.file_rename_overwrite a b ok)
        ∧ ∀ p ok, o ≠ fs_op.file_open_trunc p ok := by
    intro ops h o ho
    obtain ⟨_, _, _, rfl⟩ := h o ho
    exact ⟨(by intro p hh; cases hh), (by intro a b ok hh; cases hh),
      (by intro p ok hh; cases hh)⟩
  split
  · exact afterOpen_leaf [] (by simp [unlock_file]) (by intro o ho; cases ho)
  · split
    · split
      · exact afterOpen_leaf [] (by simp [(hW _).1]) (by intro o ho; cases ho)
      · exact afterOpen_leaf [] (by simp [(hW _).1]) (by intro o ho; cases ho)
    · split
      · split
        · exact afterOpen_leaf [] (by simp [exit_err_sl_ex, unlock_file, (hW _).1])
            (by intro o ho; cases ho)
        · rename_i w1 hw1
          obtain ⟨_, s2, _, _⟩ := stat_and_create_local_frame hw1
          exact afterOpen_leaf [] (by simp [s2, (hW _).1]) (by intro o ho; cases ho)
      · split
        · rename_i w1 hw1
          obtain ⟨ops, o1, o2⟩ := local_copy_loop_fs_eq hw1
          exact afterOpen_leaf ops (by simp [o1, (hW _).1])
            (fun o ho => ⟨(hcopy ops o2 o ho).1, (hcopy ops o2 o ho).2.2⟩)
        · rename_i w1 hw1
          obtain ⟨ops, o1, o2⟩ := local_copy_loop_fs_eq hw1
          obtain ⟨_, l2, l3, l4⟩ := local_copy_loop_eq hw1
          obtain ⟨l5, _⟩ := l4 rfl
          split
          · exact afterOpen_leaf ops (by simp [o1, (hW _).1])
              (fun o ho => ⟨(hcopy ops o2 o ho).1, (hcopy ops o2 o ho).2.2⟩)
          · exact afterOpen_of_stage ops (by simp [o1, (hW _).1]) (hcopy ops o2)
              (by simp [l5, (hW _).2.1])
              (stop_value_congr env dwl (by simp [l3, (hW _).2.2.1]))
              (by simp [l2, (hW _).2.2.2])
              (download_start_after cfg env _ l localpath _ _ syncid fileid localfolderid
                filename dwl hname hl)

/-- What a run does once it has opened the temp file. -/
theorem task_download_file_after (cfg : psync_settings) (env : download_env)
    (w : download_state) (uninit : String) (syncid fileid localfolderid : Nat)
    (filename : String) (dwl : Nat) (r : download_result) (localpath : String)
    (hpath : env.localpath = some localpath)
    (h : task_download_file cfg env w uninit syncid fileid localfolderid filename dwl = some r) :
    AfterOpen env w dwl
      (localpath ++ cfg.PSYNC_DIRECTORY_SEPARATOR ++ filename ++ cfg.PSYNC_APPEND_PARTIAL_FILES)
      (localpath ++ cfg.PSYNC_DIRECTORY_SEPARATOR ++ filename)
      (localpath ++ cfg.PSYNC_DIRECTORY_SEPARATOR ++ filename ++ "-old"
        ++ cfg.PSYNC_APPEND_PARTIAL_FILES) r := by
  unfold task_download_file at h
  rw [hpath] at h
  simp only [] at h
  split at h
  · cases h
    exact afterOpen_leaf [] (by simp) (by intro o ho; cases ho)
  · split at h
    · cases h
      exact afterOpen_leaf [] (by simp [exit_err_sl_ex, unlock_file]) (by intro o ho; cases ho)
    · cases h
      exact afterOpen_leaf [] (by simp) (by intro o ho; cases ho)
    · split at h
      · cases h
      · rename_i w1 hw1
        cases h
        unfold admission at hw1
        split at hw1
        · cases hw1
        · cases hw1
          refine afterOpen_of_stage [] ?_ (by intro o ho; cases ho) ?_ ?_ ?_
            (download_local_after cfg env _
              { name := localpath ++ cfg.PSYNC_DIRECTORY_SEPARATOR ++ filename,
                current_counter := some .starting_downloads, addedsize := 0,
                downloadedsize := 0, downloadingcounted := true, tmpold := none }
              localpath uninit syncid fileid localfolderid filename dwl rfl rfl)
          · simp
          · rfl
          · exact stop_value_modify_hash env w _ dwl env.serverhashhex rfl
          · exact le_refl _

/-- C19 (amended). Among the events `evs` a run of `task_download_file` sends
there is at most one `PEVENT_FILE_DOWNLOAD_FAILED` and at most one
`PEVENT_FILE_DOWNLOAD_FINISHED`; a run that sends `PEVENT_FILE_DOWNLOAD_FAILED`
returns `-1` and a run that sends `PEVENT_FILE_DOWNLOAD_FINISHED` returns `0`.
A run that has opened the temp file (the call is among the calls `ops` it made)
returns `-1` and sends `PEVENT_FILE_DOWNLOAD_FAILED` exactly once when the range
planner fails temporarily and, no read of the stop flag having given `true`,
when the execution of the plan fails (a failed connection, open, seek, read,
write or status check) or `psync_file_sync` fails; and a run that has opened
the temp file and returns `0` sends `PEVENT_FILE_DOWNLOAD_FINISHED` exactly
once. -/
theorem download_end_reported (cfg : psync_settings) (env : download_env)
    (w : download_state) (uninit : String) (syncid fileid localfolderid : Nat)
    (filename : String) (dwl : Nat) (r : download_result)
    (h : task_download_file cfg env w uninit syncid fileid localfolderid filename dwl = some r) :
    ∃ evs ops, r.state.events = w.events ++ evs ∧ r.state.fs = w.fs ++ ops
      ∧ count_events .PEVENT_FILE_DOWNLOAD_FAILED evs ≤ 1
      ∧ count_events .PEVENT_FILE_DOWNLOAD_FINISHED evs ≤ 1
      ∧ (count_events .PEVENT_FILE_DOWNLOAD_FAILED evs = 1 → r.ret = -1)
      ∧ (count_events .PEVENT_FILE_DOWNLOAD_FINISHED evs = 1 → r.ret = 0)
      ∧ ∀ localpath, env.localpath = some localpath →
          fs_op.file_open_trunc (localpath ++ cfg.PSYNC_DIRECTORY_SEPARATOR ++ filename
            ++ cfg.PSYNC_APPEND_PARTIAL_FILES) true ∈ ops →
          (env.download_ranges = .PSYNC_NET_TEMPFAIL →
            r.ret = -1 ∧ count_events .PEVENT_FILE_DOWNLOAD_FAILED evs = 1)
          ∧ (Unobserved env w dwl r → env.download_ranges ≠ .PSYNC_NET_TEMPFAIL →
              plan_fails env env.ranges ∨ env.file_sync = false →
              r.ret = -1 ∧ count_events .PEVENT_FILE_DOWNLOAD_FAILED evs = 1)
          ∧ (r.ret = 0 → count_events .PEVENT_FILE_DOWNLOAD_FINISHED evs = 1) := by
  obtain ⟨evs, h1, h2, h3, h4⟩ :=
    task_download_file_events cfg env w uninit syncid fileid localfolderid filename dwl r h
  have hb1 : count_events .PEVENT_FILE_DOWNLOAD_FAILED evs ≤ 1 := by rw [h2]; split <;> omega
  have hb2 : count_events .PEVENT_FILE_DOWNLOAD_FINISHED evs ≤ 1 := by
    rw [h3]; split <;> omega
  have hb3 : count_events .PEVENT_FILE_DOWNLOAD_FAILED evs = 1 → r.ret = -1 := by
    intro hc
    rw [h2] at hc
    split at hc
    · rename_i he
      rw [h4]
      rcases he with he | he <;> rw [he] <;> rfl
    · omega
  have hb4 : count_events .PEVENT_FILE_DOWNLOAD_FINISHED evs = 1 → r.ret = 0 := by
    intro hc
    rw [h3] at hc
    split at hc
    · rename_i he
      rw [h4, he]; rfl
    · omega
  have herr : r.exit = .err1 ∨ r.exit = .err2 →
      r.ret = -1 ∧ count_events .PEVENT_FILE_DOWNLOAD_FAILED evs = 1 := by
    intro he
    refine ⟨?_, by rw [h2, if_pos he]⟩
    rw [h4]
    rcases he with he | he <;> rw [he] <;> rfl
  rcases hp : env.localpath with _ | lp
  · have hr : r.state = w := by
      unfold task_download_file at h
      rw [hp] at h
      cases h
      rfl
    exact ⟨evs, [], h1, by rw [hr]; simp, hb1, hb2, hb3, hb4,
      by intro localpath hl; cases hl⟩
  · obtain ⟨ops, a1, _, a3⟩ := task_download_file_after cfg env w uninit syncid fileid
      localfolderid filename dwl r lp hp h
    refine ⟨evs, ops, h1, a1, hb1, hb2, hb3, hb4, ?_⟩
    intro localpath hl hopen
    cases hl
    obtain ⟨e1, e2, e3, e4, _⟩ := a3 hopen
    refine ⟨fun ht => herr (Or.inl (e3 ht)), fun hns hnt hor => herr (Or.inr (e4 hns hnt hor)),
      ?_⟩
    intro hret
    rw [h3]
    rw [h4] at hret
    split at hret
    · rename_i he
      rcases he with he | he | he
      · exact (e1 he).elim
      · exact (e2 he).elim
      · rw [if_pos he]
    · cases hret

/-- C19 (witness). No host answers `psync_http_connect` and no read of the stop
flag gives `true`: the run opens "/s/f.part", the plan fails, and the run
returns `-1` with `PEVENT_FILE_DOWNLOAD_FAILED` sent exactly once. -/
theorem download_end_reported_witness :
    ∃ r evs, task_download_file example_settings example_env_no_connect
        (download_state.init [] [example_dwl]) "" 1 7 3 "f" 0 = some r
      ∧ r.state.events = (download_state.init [] [example_dwl]).events ++ evs
      ∧ fs_op.file_open_trunc "/s/f.part" true ∈ r.state.fs
      ∧ Unobserved example_env_no_connect (download_state.init [] [example_dwl]) 0 r
      ∧ plan_fails example_env_no_connect example_env_no_connect.ranges
      ∧ r.ret = -1
      ∧ count_events .PEVENT_FILE_DOWNLOAD_FAILED evs = 1 := by
  obtain ⟨evs, ops, h1, h2, -, -, -, -, h7⟩ := download_end_reported example_settings
    example_env_no_connect (download_state.init [] [example_dwl]) "" 1 7 3 "f" 0 _ rfl
  have hops : ops = _ := h2.symm
  obtain ⟨-, g2, -⟩ := h7 "/s" rfl (by rw [hops]; decide)
  exact ⟨_, evs, rfl, h1, by decide, fun _ _ _ => rfl, by decide,
    g2 (fun _ _ _ => rfl) (by decide) (Or.inl (by decide))⟩

/-- C29 (checksum mismatch).  A run that has opened the temp file (the call is
among the calls `ops` it made) and whose accumulated checksum differs from the
server's returns `-1`, renames nothing onto `name`, leaves `localfile` as it
was, and deletes the `-old` partial whenever the rescue renamed the temp file
to it; and in every run a call `psync_file_delete(tmpname)` is made only after
a read of `dwl->stop` by the run gave `true`, so a run that has not observed
the flag does not delete the temp file. -/
theorem mismatch_keeps_temp (cfg : psync_settings) (env : download_env)
    (w : download_state) (uninit : String) (syncid fileid localfolderid : Nat)
    (filename : String) (dwl : Nat) (r : download_result) (localpath : String)
    (hpath : env.localpath = some localpath)
    (h : task_download_file cfg env w uninit syncid fileid localfolderid filename dwl = some r) :
    ∃ ops, r.state.fs = w.fs ++ ops
      ∧ (fs_op.file_open_trunc (localpath ++ cfg.PSYNC_DIRECTORY_SEPARATOR ++ filename
            ++ cfg.PSYNC_APPEND_PARTIAL_FILES) true ∈ ops →
          env.localhashhex ≠ env.serverhashhex →
          r.ret = -1
          ∧ (∀ oldname ok, fs_op.file_rename_overwrite oldname
              (localpath ++ cfg.PSYNC_DIRECTORY_SEPARATOR ++ filename) ok ∉ ops)
          ∧ r.state.localfile = w.localfile
          ∧ (fs_op.file_rename_overwrite
                (localpath ++ cfg.PSYNC_DIRECTORY_SEPARATOR ++ filename
                  ++ cfg.PSYNC_APPEND_PARTIAL_FILES)
                (localpath ++ cfg.PSYNC_DIRECTORY_SEPARATOR ++ filename ++ "-old"
                  ++ cfg.PSYNC_APPEND_PARTIAL_FILES) true ∈ ops →
              fs_op.file_delete (localpath ++ cfg.PSYNC_DIRECTORY_SEPARATOR ++ filename
                ++ "-old" ++ cfg.PSYNC_APPEND_PARTIAL_FILES) ∈ ops))
      ∧ (fs_op.file_delete (localpath ++ cfg.PSYNC_DIRECTORY_SEPARATOR ++ filename
            ++ cfg.PSYNC_APPEND_PARTIAL_FILES) ∈ ops →
          ∃ n, w.stop_reads ≤ n ∧ n < r.state.stop_reads ∧ stop_value env w dwl n = true)
      ∧ (Unobserved env w dwl r →
          fs_op.file_delete (localpath ++ cfg.PSYNC_DIRECTORY_SEPARATOR ++ filename
            ++ cfg.PSYNC_APPEND_PARTIAL_FILES) ∉ ops) := by
  obtain ⟨evs, _, _, _, h4⟩ :=
    task_download_file_events cfg env w uninit syncid fileid localfolderid filename dwl r h
  obtain ⟨ops, a1, a2, a3⟩ := task_download_file_after cfg env w uninit syncid fileid
    localfolderid filename dwl r localpath hpath h
  refine ⟨ops, a1, ?_, a2, ?_⟩
  · intro hopen hmis
    obtain ⟨e1, e2, _, _, e5⟩ := a3 hopen
    obtain ⟨b1, b2, b3, b4⟩ := e5 hmis
    refine ⟨?_, b3, b2, b4⟩
    rw [h4, if_neg]
    rintro (he | he | he)
    · exact e1 he
    · exact e2 he
    · exact b1 he
  · intro hns hdel
    obtain ⟨n, n1, n2, hn⟩ := a2 hdel
    rw [hns n n1 n2] at hn
    cases hn

/-! ## C30: the counting invariant -/

theorem allCountOk_update {fs : List psync_fstask_folder_t} {k : Int}
    {g : psync_fstask_folder_t → psync_fstask_folder_t} (h : AllCountOk fs)
    (hg : ∀ f, folder_lookup fs k = some f → CountOk f → CountOk (g f)) :
    AllCountOk (folder_update k g fs) := by
  induction fs with
  | nil => intro f hf; simp [folder_update] at hf
  | cons a rest ih =>
    intro f hf
    unfold folder_update at hf
    by_cases ha : a.folderid = k
    · rw [if_pos ha] at hf
      rcases List.mem_cons.mp hf with hf | hf
      · subst hf
        exact hg a (by simp [folder_lookup, List.find?, ha]) (h a (List.mem_cons_self _ _))
      · exact h f (List.mem_cons_of_mem _ hf)
    · rw [if_neg ha] at hf
      rcases List.mem_cons.mp hf with hf | hf
      · subst hf
        exact h _ (List.mem_cons_self _ _)
      · refine ih (fun x hx => h x (List.mem_cons_of_mem _ hx)) ?_ f hf
        intro x hx
        exact hg x (by simpa [folder_lookup, List.find?, ha] using hx)

theorem allCountOk_del {fs : List psync_fstask_folder_t} {k : Int} (h : AllCountOk fs) :
    AllCountOk (folder_del k fs) :=
  fun f hf => h f (mem_folder_del hf)

theorem allCountOk_add {fs : List psync_fstask_folder_t} {nf : psync_fstask_folder_t}
    (h : AllCountOk fs) (hn : CountOk nf) : AllCountOk (folder_add nf fs) := by
  intro f hf
  rcases mem_folder_add hf with hf | hf
  · subst hf; exact hn
  · exact h f hf

theorem allCountOk_get_or_create {fs : List psync_fstask_folder_t} (k : Int)
    (h : AllCountOk fs) :
    AllCountOk (psync_fstask_get_or_create_folder_tasks_locked fs k) := by
  unfold psync_fstask_get_or_create_folder_tasks_locked
  split
  · exact allCountOk_update h (fun f _ hf => hf)
  · exact allCountOk_add h (by simp [CountOk, folder_zero])

theorem allCountOk_get {fs fs1 : List psync_fstask_folder_t} {k : Int}
    (h : AllCountOk fs) (hg : psync_fstask_get_folder_tasks_locked fs k = some fs1) :
    AllCountOk fs1 := by
  unfold psync_fstask_get_folder_tasks_locked at hg
  split at hg
  · simp only [Option.some.injEq] at hg
    subst hg
    exact allCountOk_update h (fun f _ hf => hf)
  · simp at hg

theorem allCountOk_release {fs : List psync_fstask_folder_t} (k : Int) (h : AllCountOk fs) :
    AllCountOk (psync_fstask_release_folder_tasks_locked fs k) := by
  unfold psync_fstask_release_folder_tasks_locked
  split
  · exact h
  · split
    · exact allCountOk_del h
    · exact allCountOk_update h (fun f _ hf => hf)

theorem length_insert_into_tree {α : Type} (cmp : String → String → Int) (nameof : α → String)
    (x : α) (l : List α) :
    (psync_fstask_insert_into_tree cmp nameof x l).length = l.length + 1 := by
  simpa using (insert_into_tree_perm cmp nameof x l).length_eq

theorem length_eraseIdx_of_find {α : Type} {cmp : String → String → Int} {nameof : α → String}
    {taskidof : α → Nat} {tree : List α} {name : String} {taskid i : Nat} {e : α}
    (h : tree_find cmp nameof taskidof tree name taskid = some (i, e)) :
    ((tree.eraseIdx i).length : Int) = (tree.length : Int) - 1 := by
  have h1 := tree_find_some cmp nameof taskidof tree name taskid i e h
  have h2 : i < tree.length := by
    rcases Nat.lt_or_ge i tree.length with h3 | h3
    · exact h3
    · rw [List.getElem?_eq_none h3] at h1
      simp at h1
  rw [List.length_eraseIdx, if_pos h2]
  omega

theorem allCountOk_with_mkdir {fs : List psync_fstask_folder_t} (cmp : String → String → Int)
    (k : Int) (task : psync_fstask_mkdir_t) (h : AllCountOk fs) :
    AllCountOk (folder_update k (fun f =>
      { f with mkdirs := psync_fstask_insert_into_tree cmp (fun e => e.name) task f.mkdirs,
               taskscnt := f.taskscnt + 1 }) fs) := by
  refine allCountOk_update h ?_
  intro f _ hf
  unfold CountOk at *
  simp only [length_insert_into_tree]
  push_cast at hf ⊢
  omega

theorem allCountOk_with_rmdir {fs : List psync_fstask_folder_t} (cmp : String → String → Int)
    (k : Int) (task : psync_fstask_rmdir_t) (h : AllCountOk fs) :
    AllCountOk (folder_update k (fun f =>
      { f with rmdirs := psync_fstask_insert_into_tree cmp (fun e => e.name) task f.rmdirs,
               taskscnt := f.taskscnt + 1 }) fs) := by
  refine allCountOk_update h ?_
  intro f _ hf
  unfold CountOk at *
  simp only [length_insert_into_tree]
  push_cast at hf ⊢
  omega

theorem allCountOk_with_creat {fs : List psync_fstask_folder_t} (cmp : String → String → Int)
    (k : Int) (task : psync_fstask_creat_t) (h : AllCountOk fs) :
    AllCountOk (folder_update k (fun f =>
      { f with creats := psync_fstask_insert_into_tree cmp (fun e => e.name) task f.creats,
               taskscnt := f.taskscnt + 1 }) fs) := by
  refine allCountOk_update h ?_
  intro f _ hf
  unfold CountOk at *
  simp only [length_insert_into_tree]
  push_cast at hf ⊢
  omega

theorem allCountOk_with_unlink {fs : List psync_fstask_folder_t} (cmp : String → String → Int)
    (k : Int) (task : psync_fstask_unlink_t) (h : AllCountOk fs) :
    AllCountOk (folder_update k (fun f =>
      { f with unlinks := psync_fstask_insert_into_tree cmp (fun e => e.name) task f.unlinks,
               taskscnt := f.taskscnt + 1 }) fs) := by
  refine allCountOk_update h ?_
  intro f _ hf
  unfold CountOk at *
  simp only [length_insert_into_tree]
  push_cast at hf ⊢
  omega

theorem allCountOk_erase_mkdir {fs : List psync_fstask_folder_t} {cmp : String → String → Int}
    {k : Int} {name : String} {taskid i : Nat} {e : psync_fstask_mkdir_t} (h : AllCountOk fs)
    (hf : psync_fstask_find_mkdir cmp (folder_deref fs k) name taskid = some (i, e)) :
    AllCountOk (folder_update k (fun f =>
      { f with mkdirs := f.mkdirs.eraseIdx i, taskscnt := f.taskscnt - 1 }) fs) := by
  refine allCountOk_update h ?_
  intro f hl hc
  rw [folder_deref_of_lookup hl] at hf
  have hlen := length_eraseIdx_of_find hf
  unfold CountOk at *
  push_cast at hc hlen ⊢
  simp only [hlen]
  omega

theorem allCountOk_erase_rmdir {fs : List psync_fstask_folder_t} {cmp : String → String → Int}
    {k : Int} {name : String} {taskid i : Nat} {e : psync_fstask_rmdir_t} (h : AllCountOk fs)
    (hf : psync_fstask_find_rmdir cmp (folder_deref fs k) name taskid = some (i, e)) :
    AllCountOk (folder_update k (fun f =>
      { f with rmdirs := f.rmdirs.eraseIdx i, taskscnt := f.taskscnt - 1 }) fs) := by
  refine allCountOk_update h ?_
  intro f hl hc
  rw [folder_deref_of_lookup hl] at hf
  have hlen := length_eraseIdx_of_find hf
  unfold CountOk at *
  push_cast at hc hlen ⊢
  simp only [hlen]
  omega

theorem allCountOk_erase_creat {fs : List psync_fstask_folder_t} {cmp : String → String → Int}
    {k : Int} {name : String} {taskid i : Nat} {e : psync_fstask_creat_t} (h : AllCountOk fs)
    (hf : psync_fstask_find_creat cmp (folder_deref fs k) name taskid = some (i, e)) :
    AllCountOk (folder_update k (fun f =>
      { f with creats := f.creats.eraseIdx i, taskscnt := f.taskscnt - 1 }) fs) := by
  refine allCountOk_update h ?_
  intro f hl hc
  rw [folder_deref_of_lookup hl] at hf
  have hlen := length_eraseIdx_of_find hf
  unfold CountOk at *
  push_cast at hc hlen ⊢
  simp only [hlen]
  omega

theorem allCountOk_erase_unlink {fs : List psync_fstask_folder_t} {cmp : String → String → Int}
    {k : Int} {name : String} {taskid i : Nat} {e : psync_fstask_unlink_t} (h : AllCountOk fs)
    (hf : psync_fstask_find_unlink cmp (folder_deref fs k) name taskid = some (i, e)) :
    AllCountOk (folder_update k (fun f =>
      { f with unlinks := f.unlinks.eraseIdx i, taskscnt := f.taskscnt - 1 }) fs) := by
  refine allCountOk_update h ?_
  intro f hl hc
  rw [folder_deref_of_lookup hl] at hf
  have hlen := length_eraseIdx_of_find hf
  unfold CountOk at *
  push_cast at hc hlen ⊢
  simp only [hlen]
  omega

theorem allCountOk_ack_block {β : Type} {find : psync_fstask_folder_t → Option (Nat × β)}
    {g : Nat → psync_fstask_folder_t → psync_fstask_folder_t}
    {fs : List psync_fstask_folder_t} {k : Int} (h : AllCountOk fs)
    (hg : ∀ (fs1 : List psync_fstask_folder_t) (i : Nat) (b : β), AllCountOk fs1 →
      find (folder_deref fs1 k) = some (i, b) → AllCountOk (folder_update k (g i) fs1)) :
    AllCountOk (ack_block find g fs k) := by
  unfold ack_block
  rcases hget : psync_fstask_get_folder_tasks_locked fs k with _ | fs1
  · exact h
  · have h1 := allCountOk_get h hget
    simp only []
    apply allCountOk_release
    rcases hfind : find (folder_deref fs1 k) with _ | ⟨i, b⟩
    · exact h1
    · exact hg fs1 i b h1 hfind

theorem allCountOk_mkdir (cmp : String → String → Int) (s : State) (folderid : Int)
    (name : String) (ctime : Int) (commit : Bool) (h : AllCountOk s.folders) :
    AllCountOk (psync_fstask_mkdir cmp s folderid name ctime commit).2.folders := by
  have h1 := allCountOk_get_or_create folderid h
  unfold psync_fstask_mkdir
  simp only []
  split
  · exact allCountOk_release _ h1
  · split
    · exact allCountOk_release _ h1
    · split
      · exact allCountOk_release _ h1
      · exact allCountOk_release _ (allCountOk_with_mkdir cmp _ _ h1)

theorem allCountOk_rmdir_tail (cmp : String → String → Int) (s : State)
    (folders : List psync_fstask_folder_t) (folderid : Int) (name : String) (commit : Bool)
    (cfolderid : Int) (depend : Nat) (h : AllCountOk folders) :
    AllCountOk
      (psync_fstask_rmdir_tail cmp s folders folderid name commit cfolderid depend).2.folders := by
  unfold psync_fstask_rmdir_tail
  simp only []
  split
  · exact allCountOk_release _ h
  · exact allCountOk_release _ (allCountOk_with_rmdir cmp _ _ h)

theorem allCountOk_rmdir (cmp : String → String → Int) (s : State) (folderid : Int)
    (name : String) (commit : Bool) (h : AllCountOk s.folders) :
    AllCountOk (psync_fstask_rmdir cmp s folderid name commit).2.folders := by
  have h1 := allCountOk_get_or_create folderid h
  unfold psync_fstask_rmdir
  simp only []
  rcases hf : psync_fstask_find_mkdir cmp
      (folder_deref (psync_fstask_get_or_create_folder_tasks_locked s.folders folderid) folderid)
      name 0 with _ | ⟨i, mk⟩
  · simp only []
    split
    · exact allCountOk_release _ h1
    · split
      · exact allCountOk_release _ h1
      · exact allCountOk_rmdir_tail _ _ _ _ _ _ _ _ h1
  · exact allCountOk_rmdir_tail _ _ _ _ _ _ _ _ (allCountOk_erase_mkdir h1 hf)

theorem allCountOk_add_creat (cmp : String → String → Int) (s : State) (folder : Int)
    (name : String) (commit : Bool) (h : AllCountOk s.folders) :
    AllCountOk (psync_fstask_add_creat cmp s folder name commit).2.folders := by
  unfold psync_fstask_add_creat
  simp only []
  split
  · exact h
  · exact allCountOk_with_creat cmp _ _ h

theorem allCountOk_AddCreat (cmp : String → String → Int) (s : State) (folderid : Int)
    (name : String) (commit : Bool) (h : AllCountOk s.folders) :
    AllCountOk (AddCreat cmp s folderid name commit).2.folders := by
  unfold AddCreat
  exact allCountOk_release _
    (allCountOk_add_creat cmp _ _ _ _ (allCountOk_get_or_create folderid h))

theorem allCountOk_unlink_tail (cmp : String → String → Int) (s : State)
    (folders : List psync_fstask_folder_t) (folderid : Int) (name : String) (commit : Bool)
    (fileid : Int) (depend : Nat) (h : AllCountOk folders) :
    AllCountOk
      (psync_fstask_unlink_tail cmp s folders folderid name commit fileid depend).2.folders := by
  unfold psync_fstask_unlink_tail
  simp only []
  split
  · exact allCountOk_release _ h
  · exact allCountOk_release _ (allCountOk_with_unlink cmp _ _ h)

theorem allCountOk_unlink (cmp : String → String → Int) (s : State) (folderid : Int)
    (name : String) (commit : Bool) (h : AllCountOk s.folders) :
    AllCountOk (psync_fstask_unlink cmp s folderid name commit).2.folders := by
  have h1 := allCountOk_get_or_create folderid h
  unfold psync_fstask_unlink
  simp only []
  rcases hf : psync_fstask_find_creat cmp
      (folder_deref (psync_fstask_get_or_create_folder_tasks_locked s.folders folderid) folderid)
      name 0 with _ | ⟨i, cr⟩
  · simp only []
    split
    · exact allCountOk_release _ h1
    · split
      · exact allCountOk_release _ h1
      · exact allCountOk_unlink_tail _ _ _ _ _ _ _ _ h1
  · exact allCountOk_unlink_tail _ _ _ _ _ _ _ _ (allCountOk_erase_creat h1 hf)

theorem allCountOk_cancel_creat {fs : List psync_fstask_folder_t} (cmp : String → String → Int)
    (k : Int) (name : String) (h : AllCountOk fs) :
    AllCountOk
      (match psync_fstask_find_creat cmp (folder_deref fs k) name 0 with
       | some (i, _) => folder_update k (fun f =>
           { f with creats := f.creats.eraseIdx i, taskscnt := f.taskscnt - 1 }) fs
       | none => fs) := by
  rcases hf : psync_fstask_find_creat cmp (folder_deref fs k) name 0 with _ | ⟨i, cr⟩
  · exact h
  · exact allCountOk_erase_creat h hf

theorem allCountOk_cancel_mkdir {fs : List psync_fstask_folder_t} (cmp : String → String → Int)
    (k : Int) (name : String) (h : AllCountOk fs) :
    AllCountOk
      (match psync_fstask_find_mkdir cmp (folder_deref fs k) name 0 with
       | some (i, _) => folder_update k (fun f =>
           { f with mkdirs := f.mkdirs.eraseIdx i, taskscnt := f.taskscnt - 1 }) fs
       | none => fs) := by
  rcases hf : psync_fstask_find_mkdir cmp (folder_deref fs k) name 0 with _ | ⟨i, mk⟩
  · exact h
  · exact allCountOk_erase_mkdir h hf

theorem allCountOk_rename_file (cmp : String → String → Int) (s : State) (fileid : Int)
    (parentfolderid : Int) (name : String) (to_folderid : Int) (new_name : Option String)
    (commit : Bool) (h : AllCountOk s.folders) :
    AllCountOk (psync_fstask_rename_file cmp s fileid parentfolderid name to_folderid new_name
      commit).2.folders := by
  unfold psync_fstask_rename_file
  simp only []
  split
  · exact h
  · exact allCountOk_release _ (allCountOk_with_creat cmp _ _ (allCountOk_get_or_create _
      (allCountOk_release _ (allCountOk_with_unlink cmp _ _
        (allCountOk_cancel_creat cmp _ _ (allCountOk_get_or_create _ h))))))

theorem allCountOk_ack_mkdir (cmp : String → String → Int) (fs : List psync_fstask_folder_t)
    (k : Int) (name : String) (taskid : Nat) (h : AllCountOk fs) :
    AllCountOk (ack_block (fun folder => psync_fstask_find_mkdir cmp folder name taskid)
      (fun i f => { f with mkdirs := f.mkdirs.eraseIdx i, taskscnt := f.taskscnt - 1 }) fs k) :=
  allCountOk_ack_block h (fun _ _ _ h1 hf => allCountOk_erase_mkdir h1 hf)

theorem allCountOk_ack_rmdir (cmp : String → String → Int) (fs : List psync_fstask_folder_t)
    (k : Int) (name : String) (taskid : Nat) (h : AllCountOk fs) :
    AllCountOk (ack_block (fun folder => psync_fstask_find_rmdir cmp folder name taskid)
      (fun i f => { f with rmdirs := f.rmdirs.eraseIdx i, taskscnt := f.taskscnt - 1 }) fs k) :=
  allCountOk_ack_block h (fun _ _ _ h1 hf => allCountOk_erase_rmdir h1 hf)

theorem allCountOk_ack_creat (cmp : String → String → Int) (fs : List psync_fstask_folder_t)
    (k : Int) (name : String) (taskid : Nat) (h : AllCountOk fs) :
    AllCountOk (ack_block (fun folder => psync_fstask_find_creat cmp folder name taskid)
      (fun i f => { f with creats := f.creats.eraseIdx i, taskscnt := f.taskscnt - 1 }) fs k) :=
  allCountOk_ack_block h (fun _ _ _ h1 hf => allCountOk_erase_creat h1 hf)

theorem allCountOk_ack_unlink (cmp : String → String → Int) (fs : List psync_fstask_folder_t)
    (k : Int) (name : String) (taskid : Nat) (h : AllCountOk fs) :
    AllCountOk (ack_block (fun folder => psync_fstask_find_unlink cmp folder name taskid)
      (fun i f => { f with unlinks := f.unlinks.eraseIdx i, taskscnt := f.taskscnt - 1 }) fs k) :=
  allCountOk_ack_block h (fun _ _ _ h1 hf => allCountOk_erase_unlink h1 hf)

theorem allCountOk_folder_created (cmp : String → String → Int) (s : State)
    (parentfolderid : Int) (taskid : Nat) (folderid : Int) (name : String)
    (h : AllCountOk s.folders) :
    AllCountOk (psync_fstask_folder_created cmp s parentfolderid taskid folderid name).folders := by
  have h1 := allCountOk_ack_mkdir cmp s.folders parentfolderid name taskid h
  unfold psync_fstask_folder_created
  simp only []
  rcases hget : psync_fstask_get_folder_tasks_locked
      (ack_block (fun folder => psync_fstask_find_mkdir cmp folder name taskid)
        (fun i f => { f with mkdirs := f.mkdirs.eraseIdx i, taskscnt := f.taskscnt - 1 })
        s.folders parentfolderid) (-(taskid : Int)) with _ | fs1
  · exact h1
  · have h2 := allCountOk_get h1 hget
    simp only []
    split
    · exact allCountOk_del h2
    · refine allCountOk_add (allCountOk_del h2) ?_
      have h3 := countOk_deref h2 (-(taskid : Int))
      unfold CountOk at *
      exact h3

theorem allCountOk_file_renamed (cmp : String → String → Int) (s : State) (folderid : Int)
    (taskid : Nat) (name : String) (frtaskid : Nat) (h : AllCountOk s.folders) :
    AllCountOk (psync_fstask_file_renamed cmp s folderid taskid name frtaskid).folders := by
  have h1 := allCountOk_ack_creat cmp s.folders folderid name taskid h
  unfold psync_fstask_file_renamed sql_delete_fstask
  simp only []
  split
  · exact allCountOk_ack_unlink cmp _ _ _ _ h1
  · exact h1

theorem allCountOk_call (cmp : String → String → Int) (s : State) (c : Call)
    (h : AllCountOk s.folders) : AllCountOk (c.run cmp s).folders := by
  cases c with
  | mkdir folderid name ctime commit => exact allCountOk_mkdir cmp s folderid name ctime commit h
  | rmdir folderid name commit => exact allCountOk_rmdir cmp s folderid name commit h
  | add_creat folderid name commit => exact allCountOk_AddCreat cmp s folderid name commit h
  | unlink folderid name commit => exact allCountOk_unlink cmp s folderid name commit h
  | rename_file fileid parentfolderid name to_folderid new_name commit =>
    exact allCountOk_rename_file cmp s fileid parentfolderid name to_folderid new_name commit h
  | folder_created parentfolderid taskid folderid name =>
    exact allCountOk_folder_created cmp s parentfolderid taskid folderid name h
  | folder_deleted parentfolderid taskid name =>
    exact allCountOk_ack_rmdir cmp s.folders parentfolderid name taskid h
  | file_created parentfolderid taskid name =>
    exact allCountOk_ack_creat cmp s.folders parentfolderid name taskid h
  | file_deleted parentfolderid taskid name =>
    exact allCountOk_ack_unlink cmp s.folders parentfolderid name taskid h
  | file_renamed folderid taskid name frtaskid =>
    exact allCountOk_file_renamed cmp s folderid taskid name frtaskid h
  | server_tables folder file => exact h

theorem allCountOk_init_task (cmp : String → String → Int) (fs : List psync_fstask_folder_t)
    (row : fstask_row) (h : AllCountOk fs) : AllCountOk (psync_init_task cmp fs row) := by
  unfold psync_init_task
  split
  · exact allCountOk_release _ (allCountOk_with_mkdir cmp _ _ (allCountOk_get_or_create _ h))
  · exact allCountOk_release _ (allCountOk_with_rmdir cmp _ _
      (allCountOk_cancel_mkdir cmp _ _ (allCountOk_get_or_create _ h)))
  · exact allCountOk_release _ (allCountOk_with_creat cmp _ _ (allCountOk_get_or_create _ h))
  · exact allCountOk_release _ (allCountOk_with_unlink cmp _ _
      (allCountOk_cancel_creat cmp _ _ (allCountOk_get_or_create _ h)))
  · exact allCountOk_release _ (allCountOk_with_unlink cmp _ _
      (allCountOk_cancel_creat cmp _ _ (allCountOk_get_or_create _ h)))
  · exact allCountOk_release _ (allCountOk_with_creat cmp _ _ (allCountOk_get_or_create _ h))
  · exact h

theorem allCountOk_fstask_init (cmp : String → String → Int) (s : State)
    (h : AllCountOk s.folders) : AllCountOk (psync_fstask_init cmp s).folders := by
  unfold psync_fstask_init
  simp only []
  generalize s.fstask = rows
  generalize s.folders = fs at h
  induction rows generalizing fs with
  | nil => exact h
  | cons r rest ih => exact ih _ (allCountOk_init_task cmp fs r h)

theorem allCountOk_step (cmp : String → String → Int) (s : State) (st : StoreStep)
    (h : AllCountOk s.folders) : AllCountOk (st.run cmp s).folders := by
  cases st with
  | call c => exact allCountOk_call cmp s c h
  | init_task row => exact allCountOk_init_task cmp s.folders row h

theorem allCountOk_run_steps (cmp : String → String → Int) (steps : List StoreStep) (s : State)
    (h : AllCountOk s.folders) : AllCountOk (run_steps cmp s steps).folders := by
  unfold run_steps
  induction steps generalizing s with
  | nil => exact h
  | cons st rest ih => exact ih _ (allCountOk_step cmp s st h)

theorem release_keeps_counted (fs : List psync_fstask_folder_t) (k : Int)
    (f : psync_fstask_folder_t) (hf : folder_lookup fs k = some f) (hc : CountOk f)
    (he : 0 < folder_entries f) :
    folder_lookup (psync_fstask_release_folder_tasks_locked fs k) k =
      some { f with refcnt := f.refcnt - 1 } := by
  have ht : f.taskscnt ≠ 0 := by
    unfold CountOk at hc
    unfold folder_entries at he
    omega
  unfold psync_fstask_release_folder_tasks_locked
  rw [hf]
  simp only []
  rw [if_neg (by tauto)]
  rw [folder_lookup_update_self k _ (by intro _; rfl), hf]
  rfl

/-- C30 (counting invariant).  From a store whose folders count their entries
(the empty store is one), every sequence of calls (`Mkdir`, `Rmdir`,
`AddCreat`, `Unlink`, `RenameFile`, the five acknowledgement callbacks) and of
replay initialisers leads to a store in which each folder's `taskscnt` is the
number of entries of its four sets; so `taskscnt` is not negative, and the
release of a folder that has an entry keeps the folder in the tree. -/
theorem counting_invariant (cmp : String → String → Int) (s : State) (steps : List StoreStep)
    (h : ∀ f ∈ s.folders, CountOk f) :
    ∀ f ∈ (run_steps cmp s steps).folders,
      f.taskscnt = ((f.mkdirs.length + f.rmdirs.length + f.creats.length
          + f.unlinks.length : Nat) : Int)
      ∧ 0 ≤ f.taskscnt
      ∧ ∀ k, folder_lookup (run_steps cmp s steps).folders k = some f → 0 < folder_entries f →
          folder_lookup
            (psync_fstask_release_folder_tasks_locked (run_steps cmp s steps).folders k) k
            = some { f with refcnt := f.refcnt - 1 } := by
  intro f hf
  have hc : CountOk f := allCountOk_run_steps cmp steps s h f hf
  refine ⟨hc, ?_, ?_⟩
  · unfold CountOk at hc
    omega
  · intro k hk he
    exact release_keeps_counted _ k f hk hc he

/-! ## Runs on concrete inputs for C22, C23, C24, C28, C29, C30 -/

/-- C22 (witness).  In the example environment `localfile` holds the row of
"f" with the size and checksum of the server but file id 6 and hash 4: the
hypotheses hold, so the run returns 0, the row gets file id 7 and hash 5, and
nothing but the checksum request is logged. -/
theorem identity_short_circuit_witness :
    ∃ r row0, task_download_file example_settings example_env
        (download_state.init [example_localfile_row] [example_dwl]) "" 1 7 3 "f" 0 = some r
      ∧ row0 ∈ (download_state.init [example_localfile_row] [example_dwl]).localfile
      ∧ (row0.syncid = 1 ∧ row0.localparentfolderid = 3
          ∧ row0.name = "f" ∧ row0.size = example_env.serversize
          ∧ row0.checksum = example_env.serverhashhex)
      ∧ r.ret = 0
      ∧ r.state.localfile =
          (if row0.fileid ≠ 7 ∨ row0.hash ≠ example_env.hash then
            (download_state.init [example_localfile_row] [example_dwl]).localfile.map (fun x =>
              if x = row0 then { x with fileid := 7, hash := example_env.hash } else x)
          else (download_state.init [example_localfile_row] [example_dwl]).localfile)
      ∧ r.state.fs = (download_state.init [example_localfile_row] [example_dwl]).fs
      ∧ r.state.net = (download_state.init [example_localfile_row] [example_dwl]).net
          ++ [net_op.get_remote_file_checksum 7]
      ∧ r.state.events = (download_state.init [example_localfile_row] [example_dwl]).events :=
  identity_short_circuit example_settings example_env
    (download_state.init [example_localfile_row] [example_dwl]) "" 1 7 3 "f" 0 "/s"
    example_localfile_row rfl rfl rfl (by decide) (Or.inl rfl) (by decide) (by decide)
    ⟨rfl, rfl, rfl, rfl, rfl⟩

/-- C24 (witness).  Two rows of file 6, in sync 1 and sync 2, and `syncid = 0`:
the deletion of "/s/f" fails with `P_BUSY`, "/t/f" is deleted; the call returns
`-1`, the row of sync 1 stays and the row of sync 2 is deleted. -/
theorem task_delete_file_rows_witness :
    task_delete_file example_errs example_delete_env
        (download_state.init
          [example_localfile_row, { example_localfile_row with id := 2, syncid := 2 }] []) 0 6
      = some (-1,
          { download_state.init [example_localfile_row] [] with
            fs := [fs_op.file_delete "/s/f", fs_op.file_delete "/t/f"],
            events := [{ event := .PEVENT_LOCAL_FILE_DELETED, syncid := 2, localpath := "/t/f",
                         remoteid := 6 }],
            localscan := [.restart_localscan] })
    ∧ ((-1 : Int) = -1 ↔ ∃ r ∈ (download_state.init
          [example_localfile_row, { example_localfile_row with id := 2, syncid := 2 }]
          []).localfile,
        (r.fileid = 6 ∧ ((0 : Nat) = 0 ∨ r.syncid = 0))
        ∧ delete_busy example_errs example_delete_env r) :=
  have h : task_delete_file example_errs example_delete_env
        (download_state.init
          [example_localfile_row, { example_localfile_row with id := 2, syncid := 2 }] []) 0 6
      = some (-1,
          { download_state.init [example_localfile_row] [] with
            fs := [fs_op.file_delete "/s/f", fs_op.file_delete "/t/f"],
            events := [{ event := .PEVENT_LOCAL_FILE_DELETED, syncid := 2, localpath := "/t/f",
                         remoteid := 6 }],
            localscan := [.restart_localscan] }) := by decide
  ⟨h, (task_delete_file_rows example_errs example_delete_env _ 0 6 (-1) _ (by decide) h).1⟩

/-- C28 (witness).  The run of the example environment, which downloads and
publishes the file: the three counters are 0 at entry and at return. -/
theorem download_counters_released_witness :
    ∃ r, task_download_file example_settings example_env
        (download_state.init [] [example_dwl]) "" 1 7 3 "f" 0 = some r
      ∧ r.exit = .finished
      ∧ (r.state.starting_downloads = (download_state.init [] [example_dwl]).starting_downloads
        ∧ r.state.started_downloads = (download_state.init [] [example_dwl]).started_downloads
        ∧ r.state.filesdownloading = (download_state.init [] [example_dwl]).filesdownloading)
      ∧ ∃ (held : Option download_counter) (pre : download_state),
          counters r.state = counters (task_dec_counter pre held 0 0 held.isSome)
          ∧ (held = none → counters pre = counters (download_state.init [] [example_dwl]))
          ∧ (held = some .starting_downloads →
              ∃ w1, admission example_settings (download_state.init [] [example_dwl]) = some w1
                ∧ counters pre = counters w1)
          ∧ (held = some .started_downloads →
              ∃ w1, admission example_settings (download_state.init [] [example_dwl]) = some w1
                ∧ counters pre = counters (promotion w1 example_env.serversize)) :=
  ⟨_, rfl, by decide,
    download_counters_released example_settings example_env
      (download_state.init [] [example_dwl]) "" 1 7 3 "f" 0 _ rfl (by decide) (by decide)⟩

/-- C29 (witness).  A file of 2000 bytes whose accumulated checksum differs from
the server's, with a temp file of an earlier run and the stop flag not set:
the run renames "/s/f.part" to "/s/f-old.part", writes "/s/f.part" anew,
returns `-1`, writes no row, and deletes "/s/f-old.part" only. -/
theorem mismatch_keeps_temp_witness :
    ∃ r, task_download_file example_settings example_env_mismatch
        (download_state.init [] [example_dwl]) "" 1 7 3 "f" 0 = some r
      ∧ r.state.fs = [fs_op.file_rename_overwrite "/s/f.part" "/s/f-old.part" true,
          fs_op.file_open_trunc "/s/f.part" true, fs_op.file_delete "/s/f-old.part"]
      ∧ example_env_mismatch.localhashhex ≠ example_env_mismatch.serverhashhex
      ∧ r.ret = -1
      ∧ r.state.localfile = (download_state.init [] [example_dwl]).localfile
      ∧ ∃ ops, r.state.fs = (download_state.init [] [example_dwl]).fs ++ ops
        ∧ (∀ oldname ok, fs_op.file_rename_overwrite oldname
            ("/s" ++ example_settings.PSYNC_DIRECTORY_SEPARATOR ++ "f") ok ∉ ops)
        ∧ fs_op.file_delete ("/s" ++ example_settings.PSYNC_DIRECTORY_SEPARATOR ++ "f"
            ++ "-old" ++ example_settings.PSYNC_APPEND_PARTIAL_FILES) ∈ ops
        ∧ fs_op.file_delete ("/s" ++ example_settings.PSYNC_DIRECTORY_SEPARATOR ++ "f"
            ++ example_settings.PSYNC_APPEND_PARTIAL_FILES) ∉ ops := by
  obtain ⟨ops, h1, h2, -, h4⟩ := mismatch_keeps_temp example_settings example_env_mismatch
    (download_state.init [] [example_dwl]) "" 1 7 3 "f" 0 _ "/s" rfl rfl
  have hops : ops = _ := h1.symm
  obtain ⟨g1, g2, g3, g4⟩ := h2 (by rw [hops]; decide) (by decide)
  exact ⟨_, rfl, by decide, by decide, g1, g3, ops, h1, g2, g4 (by rw [hops]; decide),
    h4 (fun _ _ _ => rfl)⟩

/-- C30 (witness).  From the empty store: a mkdir of "a", a creat of "b" and
its unlink, the replay of an rmdir row for "a", and the acknowledgement of that
rmdir leave folder 0 with one entry and `taskscnt = 1`. -/
theorem counting_invariant_witness :
    (∀ f ∈ (State.empty [] []).folders, CountOk f)
    ∧ (run_steps strcmp (State.empty [] [])
        [.call (.mkdir 0 "a" 1 true), .call (.add_creat 0 "b" true),
         .call (.unlink 0 "b" true),
         .init_task { id := 9, type := 2, status := 0, folderid := 0, fileid := none,
                      text1 := "a", text2 := none, int1 := some (-1), int2 := none },
         .call (.folder_deleted 0 9 "a")]).folders
      = [{ folderid := 0, mkdirs := [], rmdirs := [], creats := [],
           unlinks := [{ taskid := 3, fileid := -2, name := "b" }], taskscnt := 1,
           refcnt := 0 }]
    ∧ ∀ f ∈ (run_steps strcmp (State.empty [] [])
        [.call (.mkdir 0 "a" 1 true), .call (.add_creat 0 "b" true),
         .call (.unlink 0 "b" true),
         .init_task { id := 9, type := 2, status := 0, folderid := 0, fileid := none,
                      text1 := "a", text2 := none, int1 := some (-1), int2 := none },
         .call (.folder_deleted 0 9 "a")]).folders,
      f.taskscnt = ((f.mkdirs.length + f.rmdirs.length + f.creats.length
          + f.unlinks.length : Nat) : Int)
      ∧ 0 ≤ f.taskscnt
      ∧ ∀ k, folder_lookup (run_steps strcmp (State.empty [] [])
            [.call (.mkdir 0 "a" 1 true), .call (.add_creat 0 "b" true),
             .call (.unlink 0 "b" true),
             .init_task { id := 9, type := 2, status := 0, folderid := 0, fileid := none,
                          text1 := "a", text2 := none, int1 := some (-1), int2 := none },
             .call (.folder_deleted 0 9 "a")]).folders k = some f →
          0 < folder_entries f →
          folder_lookup
            (psync_fstask_release_folder_tasks_locked (run_steps strcmp (State.empty [] [])
              [.call (.mkdir 0 "a" 1 true), .call (.add_creat 0 "b" true),
               .call (.unlink 0 "b" true),
               .init_task { id := 9, type := 2, status := 0, folderid := 0, fileid := none,
                            text1 := "a", text2 := none, int1 := some (-1), int2 := none },
               .call (.folder_deleted 0 9 "a")]).folders k) k
            = some { f with refcnt := f.refcnt - 1 } :=
  ⟨(by intro f hf; cases hf), (by decide),
    counting_invariant strcmp (State.empty [] []) _ (by intro f hf; cases hf)⟩

end Pclsync
